import Mathlib

/-!
# pumex render workflow: graph model, verification, scheduling and compilation

A shallow embedding of `src/pumex/RenderWorkflow.cpp` and `include/pumex/RenderWorkflow.h`.
The bodies of the functions are those of `RenderWorkflow.cpp`; where the header declares a
member differently (it is of another revision), the use in `RenderWorkflow.cpp` decides.

Conventions of the embedding:

* A `std::shared_ptr<T>` to an object created by the caller (`RenderWorkflowResourceType`,
  `RenderOperation`) is the pointee together with its address `addr`; comparing two such
  pointers compares the addresses, and a `std::set` of such pointers is a list kept in
  increasing address order.
* A `WorkflowResource` is only ever created by the workflow itself, once per name, and is never
  replaced, so a pointer to a resource is identified with the resource name.
* A `std::unordered_map<std::string, V>` is an association list; the order of the list is the
  (unspecified) iteration order of the map. A key that is new goes to the end of the list.
* A member function that may throw returns the exception (or the value) together with the
  object as the call left it, so that a mutation made before a throw stays visible.
* `glm::vec3` / `glm::vec4` components are exact numbers (no NaN).
* Sizes and indices of type `uint32_t` are natural numbers; the one place where the source
  subtracts from such a size wraps around as the source does.
-/

namespace pumex

deriving instance DecidableEq for Except

/-- Address of an object held through a `std::shared_ptr`. -/
abbrev Addr := Nat

/-- Three component vector `glm::vec3`. -/
structure vec3 where
  x : Int
  y : Int
  z : Int
deriving DecidableEq, Repr

/-- Four component vector `glm::vec4`. -/
structure vec4 where
  x : Int
  y : Int
  z : Int
  w : Int
deriving DecidableEq, Repr

/-- The `LoadOp::Type` enumeration. -/
inductive LoadOp.Type
  | Load
  | Clear
  | DontCare
deriving DecidableEq, Repr

/-- The `LoadOp` structure. -/
structure LoadOp where
  loadType : LoadOp.Type
  clearColor : vec4
deriving DecidableEq, Repr

/-- Body of `loadOpLoad()`. -/
def loadOpLoad : LoadOp := ⟨LoadOp.Type.Load, ⟨0, 0, 0, 0⟩⟩

/-- The `AttachmentType` enumeration. -/
inductive AttachmentType
  | atUndefined
  | atSurface
  | atColor
  | atDepth
  | atDepthStencil
  | atStencil
deriving DecidableEq, Repr

/-- The `AttachmentSize::Type` enumeration. -/
inductive AttachmentSize.Type
  | Undefined
  | Absolute
  | SurfaceDependent
deriving DecidableEq, Repr

/-- The `AttachmentSize` structure. -/
structure AttachmentSize where
  attachmentSize : AttachmentSize.Type
  imageSize : vec3
deriving DecidableEq, Repr

/-- The default constructor `AttachmentSize()`. -/
def AttachmentSize.default : AttachmentSize := ⟨AttachmentSize.Type.Undefined, ⟨0, 0, 0⟩⟩

/-- The `operator==` on `AttachmentSize`. -/
def AttachmentSize.eq (lhs rhs : AttachmentSize) : Bool :=
  lhs.attachmentSize == rhs.attachmentSize && lhs.imageSize == rhs.imageSize

/-- The `operator!=` on `AttachmentSize`. -/
def AttachmentSize.ne (lhs rhs : AttachmentSize) : Bool :=
  lhs.attachmentSize != rhs.attachmentSize || lhs.imageSize != rhs.imageSize

/-- The `RenderWorkflowResourceType::MetaType` enumeration. -/
inductive MetaType
  | Undefined
  | Attachment
  | Image
  | Buffer
deriving DecidableEq, Repr

/-- Vulkan image layouts used by the workflow (`VkImageLayout`). -/
inductive VkImageLayout
  | UNDEFINED
  | GENERAL
  | COLOR_ATTACHMENT_OPTIMAL
  | DEPTH_STENCIL_ATTACHMENT_OPTIMAL
  | DEPTH_STENCIL_READ_ONLY_OPTIMAL
  | SHADER_READ_ONLY_OPTIMAL
  | TRANSFER_SRC_OPTIMAL
  | TRANSFER_DST_OPTIMAL
  | PREINITIALIZED
  | PRESENT_SRC_KHR
  | SHARED_PRESENT_KHR
deriving DecidableEq, Repr

/-- The member `RenderWorkflowResourceType::AttachmentData` (swizzles left out). -/
structure AttachmentData where
  format : Nat
  samples : Nat
  attachmentType : AttachmentType
  attachmentSize : AttachmentSize
deriving DecidableEq, Repr

/-- The class `RenderWorkflowResourceType`, behind a `shared_ptr` with address `addr`.
The field `attachment` is the storage of the anonymous union read as `AttachmentData`, which
is what the workflow code does whatever `metaType` says. -/
structure RenderWorkflowResourceType where
  addr : Addr
  metaType : MetaType
  typeName : String
  persistent : Bool
  attachment : AttachmentData
deriving DecidableEq, Repr

/-- The class `WorkflowResource`. -/
structure WorkflowResource where
  name : String
  resourceType : RenderWorkflowResourceType
deriving DecidableEq, Repr

/-- The `RenderOperation::Type` enumeration. -/
inductive RenderOperation.Type
  | Graphics
  | Compute
deriving DecidableEq, Repr

/-- The class `RenderOperation`, behind a `shared_ptr` with address `addr`. The scene node is
the address of the `Node` it points to, if any. The weak back reference to the workflow is not
kept: the workflow is an explicit argument wherever the operation needs it. -/
structure RenderOperation where
  addr : Addr
  name : String
  operationType : RenderOperation.Type
  attachmentSize : AttachmentSize
  subpassContents : Nat
  sceneNode : Option Addr
deriving DecidableEq, Repr

/-- The enumeration `ResourceTransitionType`. -/
inductive ResourceTransitionType
  | rttAttachmentInput
  | rttAttachmentOutput
  | rttAttachmentResolveOutput
  | rttAttachmentDepthOutput
  | rttBufferInput
  | rttBufferOutput
deriving DecidableEq, Repr

open ResourceTransitionType

/-- Numeric value of a `ResourceTransitionType` enumerator. -/
def ResourceTransitionType.value : ResourceTransitionType → Nat
  | rttAttachmentInput => 1
  | rttAttachmentOutput => 2
  | rttAttachmentResolveOutput => 4
  | rttAttachmentDepthOutput => 8
  | rttBufferInput => 16
  | rttBufferOutput => 32

/-- The typedef `ResourceTransitionTypeFlags` (a `VkFlags` bit mask). -/
abbrev ResourceTransitionTypeFlags := Nat

/-- The constant `rttAllAttachments`. -/
def rttAllAttachments : ResourceTransitionTypeFlags :=
  rttAttachmentInput.value ||| rttAttachmentOutput.value ||| rttAttachmentResolveOutput.value
    ||| rttAttachmentDepthOutput.value

/-- The constant `rttAllInputs`. -/
def rttAllInputs : ResourceTransitionTypeFlags :=
  rttAttachmentInput.value ||| rttBufferInput.value

/-- The constant `rttAllOutputs`. -/
def rttAllOutputs : ResourceTransitionTypeFlags :=
  rttAttachmentOutput.value ||| rttAttachmentResolveOutput.value
    ||| rttAttachmentDepthOutput.value ||| rttBufferOutput.value

/-- The test `transitionType & transitionTypes` used as a condition. -/
def ResourceTransitionType.inFlags (t : ResourceTransitionType)
    (transitionTypes : ResourceTransitionTypeFlags) : Bool :=
  (t.value &&& transitionTypes) != 0

/-- The class `ResourceTransition`. The two members of its anonymous union are kept side by
side: `resolveResource`, `layout`, `load` for attachments, `pipelineStage`, `accessFlags` for
buffers. A constructor fills one member; what a read of the other member gives is not
specified by the source, here it is zeroes. -/
structure ResourceTransition where
  operation : RenderOperation
  resource : WorkflowResource
  transitionType : ResourceTransitionType
  resolveResource : Option WorkflowResource
  layout : VkImageLayout
  load : LoadOp
  pipelineStage : Nat
  accessFlags : Nat
deriving DecidableEq, Repr

/-- The attachment constructor of `ResourceTransition`. -/
def ResourceTransition.mkAttachment (op : RenderOperation) (res : WorkflowResource)
    (tt : ResourceTransitionType) (l : VkImageLayout) (ld : LoadOp) : ResourceTransition :=
  ⟨op, res, tt, none, l, ld, 0, 0⟩

/-- The buffer constructor of `ResourceTransition`. -/
def ResourceTransition.mkBuffer (op : RenderOperation) (res : WorkflowResource)
    (tt : ResourceTransitionType) (ps af : Nat) : ResourceTransition :=
  ⟨op, res, tt, none, VkImageLayout.UNDEFINED, ⟨LoadOp.Type.DontCare, ⟨0, 0, 0, 0⟩⟩, ps, af⟩

/-- A `std::shared_ptr<Resource>` to a concrete resource supplied by the caller; `none` is the
null pointer. -/
abbrev ResourcePtr := Option Addr

/-- The struct `QueueTraits` (declared outside the inspected sources): queue flags and
priority. -/
structure QueueTraits where
  mustHave : Nat
  mustNotHave : Nat
  priority : Nat
deriving DecidableEq, Repr

/-- The struct `AttachmentReference`: index of the attachment and its layout. -/
structure AttachmentReference where
  attachment : Nat
  layout : VkImageLayout
deriving DecidableEq, Repr

/-- The constant `VK_ATTACHMENT_UNUSED`. -/
def VK_ATTACHMENT_UNUSED : Nat := 4294967295

/-- The constant `VK_SUBPASS_EXTERNAL`. -/
def VK_SUBPASS_EXTERNAL : Nat := 4294967295

/-- The struct `SubpassDefinition` as `buildSubPassDefinition` fills it. -/
structure SubpassDefinition where
  pipelineBindPoint : Nat
  inputAttachments : List AttachmentReference
  colorAttachments : List AttachmentReference
  resolveAttachments : List AttachmentReference
  depthStencilAttachment : AttachmentReference
  preserveAttachments : List Nat
deriving DecidableEq, Repr

/-- The struct `SubpassDependencyDefinition`. -/
structure SubpassDependencyDefinition where
  srcSubpass : Nat
  dstSubpass : Nat
  srcStageMask : Nat
  dstStageMask : Nat
  srcAccessMask : Nat
  dstAccessMask : Nat
  dependencyFlags : Nat
deriving DecidableEq, Repr

/-- Values of `VkAttachmentLoadOp`. -/
inductive VkAttachmentLoadOp
  | LOAD
  | CLEAR
  | DONT_CARE
deriving DecidableEq, Repr

/-- Values of `VkAttachmentStoreOp`. -/
inductive VkAttachmentStoreOp
  | STORE
  | DONT_CARE
deriving DecidableEq, Repr

/-- The struct `AttachmentDefinition` in the argument order of its constructor. -/
structure AttachmentDefinition where
  imageDefinitionIndex : Nat
  format : Nat
  samples : Nat
  loadOp : VkAttachmentLoadOp
  storeOp : VkAttachmentStoreOp
  stencilLoadOp : VkAttachmentLoadOp
  stencilStoreOp : VkAttachmentStoreOp
  initialLayout : VkImageLayout
  finalLayout : VkImageLayout
  flags : Nat
deriving DecidableEq, Repr

/-- A `VkClearValue`: a colour, or a depth and stencil pair. -/
inductive VkClearValue
  | color (c : vec4)
  | depthStencil (depth stencil : Int)
deriving DecidableEq, Repr

/-- The class `RenderPass` (the fields the workflow compiler writes). -/
structure RenderPass where
  renderOperations : List RenderOperation
  subpasses : List SubpassDefinition
  dependencies : List SubpassDependencyDefinition
  attachments : List AttachmentDefinition
  clearValues : List VkClearValue
deriving DecidableEq, Repr

/-- The class `ComputePass`. -/
structure ComputePass where
  computeOperation : RenderOperation
deriving DecidableEq, Repr

/-- A `std::shared_ptr<RenderCommand>`: a render pass or a compute pass, told apart by
`commandType`. -/
inductive RenderCommand
  | renderPass (p : RenderPass)
  | computePass (p : ComputePass)
deriving DecidableEq, Repr

/-- The struct `FrameBufferImageDefinition` (swizzles left out). -/
structure FrameBufferImageDefinition where
  attachmentType : AttachmentType
  format : Nat
  usage : Nat
  aspectMask : Nat
  samples : Nat
  name : String
  attachmentSize : AttachmentSize
deriving DecidableEq, Repr

/-- The class `FrameBufferImages` as its constructor leaves it. -/
structure FrameBufferImages where
  imageDefinitions : List FrameBufferImageDefinition
  allocator : Addr
deriving DecidableEq, Repr

/-- The class `FrameBuffer` as its constructor leaves it; `renderPass` is `none` for a null
pointer. -/
structure FrameBuffer where
  renderPass : Option RenderPass
  frameBufferImages : FrameBufferImages
deriving DecidableEq, Repr

/-- One line that `verifyOperations` writes to its report stream. -/
inductive VerifyEntry
  | notAllAttachmentsSameSize (operation : String)
  | moreThanOneOutput (resource : String)
deriving DecidableEq, Repr

/-- Text of a report line, as streamed by `verifyOperations`. -/
def VerifyEntry.text : VerifyEntry → String
  | notAllAttachmentsSameSize n =>
    "Error: Operation <" ++ n ++ "> : not all attachments have the same size\n"
  | moreThanOneOutput n =>
    "Error: Resource <" ++ n ++ "> : resource must have at most one output that generates it\n"

/-- Exceptions thrown by the workflow code. `CHECK_LOG_THROW(c, msg)` throws when `c` holds;
each constructor stands for one message. The report of `verifyOperations` is kept as the list
of its lines. -/
inductive WorkflowError
  | noResourceType (typeName : String)
  | noOperation (opName : String)
  | noResource (resourceName : String)
  | ambiguousType
  | nonexistingResolveResource
  | cannotAssociate
  | errorsInOperations (report : List VerifyEntry)
  | outOfRange
  | undefinedBehaviour
  | notFinished
deriving DecidableEq, Repr

/-- Message carried by the exception. `outOfRange` is the `std::out_of_range` of a failed
`at`. The last two are not exceptions: `undefinedBehaviour` stands for a run that reads
through a null pointer, indexes a vector out of its bounds or reads a local that was never
written, and `notFinished` for a run that is still inside a loop when the bound given to the
embedding is used up. Neither returns a value. -/
def WorkflowError.message : WorkflowError → String
  | noResourceType n => "RenderWorkflow : there is no resource type with name " ++ n
  | noOperation n => "RenderWorkflow : there is no operation with name " ++ n
  | noResource n => "RenderWorkflow : there is no resource with name " ++ n
  | ambiguousType => "RenderWorkflow : ambiguous type of the input"
  | nonexistingResolveResource =>
    "RenderWorkflow : added pointer no to nonexisting resolve resource"
  | cannotAssociate => "RenderWorkflow : cannot associate nonexisting resource"
  | errorsInOperations report =>
    "Errors in workflow operations :\n" ++ String.join (report.map VerifyEntry.text)
  | outOfRange => "out_of_range"
  | undefinedBehaviour => ""
  | notFinished => ""

/-- Assignment `m[k] = v` on a `std::unordered_map`. -/
def mapAssign {V : Type} (k : String) (v : V) : List (String × V) → List (String × V)
  | [] => [(k, v)]
  | (k1, v1) :: rest => if k1 = k then (k, v) :: rest else (k1, v1) :: mapAssign k v rest

/-- Call `m.insert({k, v})` on a `std::unordered_map`: nothing happens when the key exists. -/
def mapInsert {V : Type} (k : String) (v : V) (m : List (String × V)) : List (String × V) :=
  match m.lookup k with
  | some _ => m
  | none => m ++ [(k, v)]

/-- The class `RenderWorkflow`: the data given by the user, the `valid` flag and the data
written by `setOutputData`. -/
structure RenderWorkflow where
  name : String
  frameBufferAllocator : Addr
  resourceTypes : List (String × RenderWorkflowResourceType)
  renderOperations : List (String × RenderOperation)
  resources : List (String × WorkflowResource)
  associatedResources : List (String × ResourcePtr)
  transitions : List ResourceTransition
  queueTraits : List QueueTraits
  valid : Bool
  commandSequences : List (List RenderCommand)
  frameBufferImages : Option FrameBufferImages
  frameBuffer : Option FrameBuffer
  resourceIndex : List (String × Nat)
  presentationQueueIndex : Nat
deriving DecidableEq, Repr

/-- The constructor of `RenderWorkflow`. -/
def RenderWorkflow.new (n : String) (fba : Addr) : RenderWorkflow :=
  ⟨n, fba, [], [], [], [], [], [], false, [], none, none, [], 0⟩

/-- What a call that may throw leaves behind: the exception, if any, and the workflow. -/
abbrev Outcome := Except WorkflowError Unit × RenderWorkflow

namespace RenderWorkflow

/-- Method `RenderWorkflow::addResourceType`. -/
def addResourceType (self : RenderWorkflow) (tp : RenderWorkflowResourceType) : Outcome :=
  (.ok (), { self with resourceTypes := mapAssign tp.typeName tp self.resourceTypes,
                       valid := false })

/-- Method `RenderWorkflow::getResourceType`. -/
def getResourceType (self : RenderWorkflow) (typeName : String) :
    Except WorkflowError RenderWorkflowResourceType :=
  match self.resourceTypes.lookup typeName with
  | none => .error (.noResourceType typeName)
  | some tp => .ok tp

/-- Method `RenderWorkflow::addRenderOperation`. -/
def addRenderOperation (self : RenderWorkflow) (op : RenderOperation) : Outcome :=
  (.ok (), { self with renderOperations := mapAssign op.name op self.renderOperations,
                       valid := false })

/-- Method `RenderWorkflow::getRenderOperation`. -/
def getRenderOperation (self : RenderWorkflow) (opName : String) :
    Except WorkflowError RenderOperation :=
  match self.renderOperations.lookup opName with
  | none => .error (.noOperation opName)
  | some op => .ok op

/-- Method `RenderWorkflow::getResource`. -/
def getResource (self : RenderWorkflow) (resourceName : String) :
    Except WorkflowError WorkflowResource :=
  match self.resources.lookup resourceName with
  | none => .error (.noResource resourceName)
  | some r => .ok r

/-- Method `RenderWorkflow::getResourceIndex`. -/
def getResourceIndex (self : RenderWorkflow) (resourceName : String) :
    Except WorkflowError Nat :=
  match self.resourceIndex.lookup resourceName with
  | none => .error (.noResource resourceName)
  | some i => .ok i

/-- Write through the shared pointer `op`: every stored pointer to the object at the address
of `op` sees the new scene node. -/
def writeSceneNode (op : RenderOperation) (node : Option Addr) (x : RenderOperation) :
    RenderOperation :=
  if x.addr = op.addr then { x with sceneNode := node } else x

/-- Method `RenderWorkflow::setSceneNode`. -/
def setSceneNode (self : RenderWorkflow) (opName : String) (node : Option Addr) : Outcome :=
  match self.getRenderOperation opName with
  | .error e => (.error e, self)
  | .ok op =>
    (.ok (), { self with
      renderOperations := self.renderOperations.map
        (fun e => (e.1, writeSceneNode op node e.2)),
      transitions := self.transitions.map
        (fun t => { t with operation := writeSceneNode op node t.operation }),
      valid := false })

/-- Method `RenderWorkflow::getSceneNode`. -/
def getSceneNode (self : RenderWorkflow) (opName : String) :
    Except WorkflowError (Option Addr) :=
  match self.getRenderOperation opName with
  | .error e => .error e
  | .ok op => .ok op.sceneNode

/-- The statement shared by all declaration calls:
`resIt = resources.find(resourceName); if (resIt == end) insert else CHECK_LOG_THROW(type differs)`.
Gives the exception or the resource `resIt->second`, and the workflow after the insertion. -/
def findOrInsertResource (self : RenderWorkflow) (resType : RenderWorkflowResourceType)
    (resourceName : String) : Except WorkflowError WorkflowResource × RenderWorkflow :=
  match self.resources.lookup resourceName with
  | none =>
    let res : WorkflowResource := ⟨resourceName, resType⟩
    (.ok res, { self with resources := self.resources ++ [(resourceName, res)] })
  | some res =>
    if resType.addr != res.resourceType.addr then (.error .ambiguousType, self)
    else (.ok res, self)

/-- Shape common to `addAttachmentInput`, `addAttachmentOutput`, `addAttachmentDepthOutput`,
`addBufferInput` and `addBufferOutput`, which differ only in the transition they build. -/
def addTransition (self : RenderWorkflow) (opName resourceType resourceName : String)
    (build : RenderOperation → WorkflowResource → ResourceTransition) : Outcome :=
  match self.getRenderOperation opName with
  | .error e => (.error e, self)
  | .ok operation =>
    match self.getResourceType resourceType with
    | .error e => (.error e, self)
    | .ok resType =>
      match self.findOrInsertResource resType resourceName with
      | (.error e, w) => (.error e, w)
      | (.ok res, w) =>
        (.ok (), { w with transitions := w.transitions ++ [build operation res],
                          valid := false })

/-- Method `RenderWorkflow::addAttachmentInput`. -/
def addAttachmentInput (self : RenderWorkflow) (opName resourceType resourceName : String)
    (layout : VkImageLayout) : Outcome :=
  self.addTransition opName resourceType resourceName
    (fun operation res =>
      ResourceTransition.mkAttachment operation res rttAttachmentInput layout loadOpLoad)

/-- Method `RenderWorkflow::addAttachmentOutput`. -/
def addAttachmentOutput (self : RenderWorkflow) (opName resourceType resourceName : String)
    (layout : VkImageLayout) (loadOp : LoadOp) : Outcome :=
  self.addTransition opName resourceType resourceName
    (fun operation res =>
      ResourceTransition.mkAttachment operation res rttAttachmentOutput layout loadOp)

/-- Method `RenderWorkflow::addAttachmentResolveOutput`. -/
def addAttachmentResolveOutput (self : RenderWorkflow)
    (opName resourceType resourceName resourceSource : String)
    (layout : VkImageLayout) (loadOp : LoadOp) : Outcome :=
  match self.getRenderOperation opName with
  | .error e => (.error e, self)
  | .ok operation =>
    match self.getResourceType resourceType with
    | .error e => (.error e, self)
    | .ok resType =>
      match self.findOrInsertResource resType resourceName with
      | (.error e, w) => (.error e, w)
      | (.ok res, w) =>
        match w.resources.lookup resourceSource with
        | none => (.error .nonexistingResolveResource, w)
        | some resolve =>
          let resourceTransition : ResourceTransition :=
            { ResourceTransition.mkAttachment operation res rttAttachmentResolveOutput
                layout loadOp with resolveResource := some resolve }
          (.ok (), { w with transitions := w.transitions ++ [resourceTransition],
                            valid := false })

/-- Method `RenderWorkflow::addAttachmentDepthOutput`. -/
def addAttachmentDepthOutput (self : RenderWorkflow)
    (opName resourceType resourceName : String)
    (layout : VkImageLayout) (loadOp : LoadOp) : Outcome :=
  self.addTransition opName resourceType resourceName
    (fun operation res =>
      ResourceTransition.mkAttachment operation res rttAttachmentDepthOutput layout loadOp)

/-- Method `RenderWorkflow::addBufferInput`. -/
def addBufferInput (self : RenderWorkflow) (opName resourceType resourceName : String)
    (pipelineStage accessFlags : Nat) : Outcome :=
  self.addTransition opName resourceType resourceName
    (fun operation res =>
      ResourceTransition.mkBuffer operation res rttBufferInput pipelineStage accessFlags)

/-- Method `RenderWorkflow::addBufferOutput`. -/
def addBufferOutput (self : RenderWorkflow) (opName resourceType resourceName : String)
    (pipelineStage accessFlags : Nat) : Outcome :=
  self.addTransition opName resourceType resourceName
    (fun operation res =>
      ResourceTransition.mkBuffer operation res rttBufferOutput pipelineStage accessFlags)

/-- Method `RenderWorkflow::associateResource`. -/
def associateResource (self : RenderWorkflow) (resourceName : String)
    (resource : ResourcePtr) : Outcome :=
  match self.resources.lookup resourceName with
  | none => (.error .cannotAssociate, self)
  | some _ =>
    (.ok (), { self with
      associatedResources := mapInsert resourceName resource self.associatedResources,
      valid := false })

/-- Method `RenderWorkflow::getAssociatedResource`. -/
def getAssociatedResource (self : RenderWorkflow) (resourceName : String) : ResourcePtr :=
  match self.associatedResources.lookup resourceName with
  | none => none
  | some r => r

/-- Method `RenderWorkflow::getOperationIO`. -/
def getOperationIO (self : RenderWorkflow) (opName : String)
    (transitionTypes : ResourceTransitionTypeFlags) :
    Except WorkflowError (List ResourceTransition) :=
  match self.getRenderOperation opName with
  | .error e => .error e
  | .ok operation =>
    .ok (self.transitions.filter
      (fun c => c.operation.addr == operation.addr && c.transitionType.inFlags transitionTypes))

/-- Method `RenderWorkflow::getResourceIO`. -/
def getResourceIO (self : RenderWorkflow) (resourceName : String)
    (transitionTypes : ResourceTransitionTypeFlags) :
    Except WorkflowError (List ResourceTransition) :=
  match self.getResource resourceName with
  | .error e => .error e
  | .ok resource =>
    .ok (self.transitions.filter
      (fun c => c.resource.name == resource.name && c.transitionType.inFlags transitionTypes))

/-- The loop of `getPreviousOperations` and `getNextOperations`: for every transition of the
operation, the operations of all transitions of the wanted kinds on the same resource. -/
def collectOperations (self : RenderWorkflow) (transitionTypes : ResourceTransitionTypeFlags) :
    List ResourceTransition → Except WorkflowError (List RenderOperation)
  | [] => .ok []
  | opTransition :: rest =>
    match self.getResourceIO opTransition.resource.name transitionTypes with
    | .error e => .error e
    | .ok resTransitions =>
      match collectOperations self transitionTypes rest with
      | .error e => .error e
      | .ok more => .ok (resTransitions.map (fun t => t.operation) ++ more)

/-- Method `RenderWorkflow::getPreviousOperations`. -/
def getPreviousOperations (self : RenderWorkflow) (opName : String) :
    Except WorkflowError (List RenderOperation) :=
  match self.getOperationIO opName rttAllInputs with
  | .error e => .error e
  | .ok opTransitions => self.collectOperations rttAllOutputs opTransitions

/-- Method `RenderWorkflow::getNextOperations`. -/
def getNextOperations (self : RenderWorkflow) (opName : String) :
    Except WorkflowError (List RenderOperation) :=
  match self.getOperationIO opName rttAllOutputs with
  | .error e => .error e
  | .ok opTransitions => self.collectOperations rttAllInputs opTransitions

/-- Method `RenderWorkflow::addQueue`. -/
def addQueue (self : RenderWorkflow) (qt : QueueTraits) : Outcome :=
  (.ok (), { self with queueTraits := self.queueTraits ++ [qt], valid := false })

/-- Method `RenderWorkflow::setOutputData`. -/
def setOutputData (self : RenderWorkflow) (newCommandSequences : List (List RenderCommand))
    (newFrameBufferImages : FrameBufferImages) (newFrameBuffer : FrameBuffer)
    (newResourceIndex : List (String × Nat)) (newPresentationQueueIndex : Nat) :
    RenderWorkflow :=
  { self with
    commandSequences := newCommandSequences,
    frameBufferImages := some newFrameBufferImages,
    frameBuffer := some newFrameBuffer,
    resourceIndex := newResourceIndex,
    presentationQueueIndex := newPresentationQueueIndex }

end RenderWorkflow

/-- Call `s.find(x) != s.end()` on a `std::set` of operation pointers. -/
def ptrSetContains (s : List RenderOperation) (x : RenderOperation) : Bool :=
  s.any (fun y => y.addr == x.addr)

/-- Call `s.insert(x)` on a `std::set` of operation pointers, kept in increasing address
order; a pointer that is already in the set is not inserted again. -/
def ptrSetInsert (x : RenderOperation) : List RenderOperation → List RenderOperation
  | [] => [x]
  | y :: ys =>
    if x.addr < y.addr then x :: y :: ys
    else if x.addr = y.addr then y :: ys
    else y :: ptrSetInsert x ys

/-- Call `m.at(k)` on a `std::unordered_map`, which throws `std::out_of_range` for a key that
is not there. -/
def mapAt {V : Type} (m : List (String × V)) (k : String) : Except WorkflowError V :=
  match m.lookup k with
  | none => .error .outOfRange
  | some v => .ok v

/-- The struct `StandardRenderWorkflowCostCalculator`. -/
structure StandardRenderWorkflowCostCalculator where
  attachmentTag : List (String × Int)
deriving DecidableEq, Repr

/-- The search `for (auto tit : tags) if (tit.second == attachmentSize) ...` of
`tagOperationByAttachmentType`; `-1` when nothing is found. -/
def findTag (attachmentSize : AttachmentSize) : List (Int × AttachmentSize) → Int
  | [] => -1
  | tit :: rest =>
    if AttachmentSize.eq tit.2 attachmentSize then tit.1 else findTag attachmentSize rest

/-- The loop of `tagOperationByAttachmentType` over the operations, carrying the local map
`tags`, the member `attachmentTag` and the counter `currentTag`; it gives the exception, if
any, and `attachmentTag` as the loop left it. The local `atSize` is computed by the source
and never used: the size searched for is the default constructed local `attachmentSize`. -/
def tagLoop (workflow : RenderWorkflow) :
    List (String × RenderOperation) → List (Int × AttachmentSize) → List (String × Int) → Int →
    Except WorkflowError Unit × List (String × Int)
  | [], _, attachmentTag, _ => (.ok (), attachmentTag)
  | operation :: rest, tags, attachmentTag, currentTag =>
    if operation.2.operationType ≠ RenderOperation.Type.Graphics then
      tagLoop workflow rest tags (mapInsert operation.1 currentTag attachmentTag)
        (currentTag + 1)
    else
      match workflow.getOperationIO operation.1 rttAllAttachments with
      | .error e => (.error e, attachmentTag)
      | .ok _ =>
        let attachmentSize := AttachmentSize.default
        let tagFound := findTag attachmentSize tags
        if tagFound < 0 then
          tagLoop workflow rest (tags ++ [(currentTag, attachmentSize)])
            (mapInsert operation.1 currentTag attachmentTag) (currentTag + 1)
        else
          tagLoop workflow rest tags (mapInsert operation.1 tagFound attachmentTag) currentTag

namespace StandardRenderWorkflowCostCalculator

/-- Method `StandardRenderWorkflowCostCalculator::tagOperationByAttachmentType`: the member
`attachmentTag` is cleared and filled again. -/
def tagOperationByAttachmentType (_self : StandardRenderWorkflowCostCalculator)
    (workflow : RenderWorkflow) :
    Except WorkflowError Unit × StandardRenderWorkflowCostCalculator :=
  ((tagLoop workflow workflow.renderOperations [] [] 0).1,
   ⟨(tagLoop workflow workflow.renderOperations [] [] 0).2⟩)

/-- The `for` loop of `calculateWorkflowCost` from index 1 on, carrying `tag` and `result`. -/
def costLoop (self : StandardRenderWorkflowCostCalculator) :
    List RenderOperation → Int → Nat → Except WorkflowError Nat
  | [], _, result => .ok result
  | op :: rest, tag, result =>
    match mapAt self.attachmentTag op.name with
    | .error e => .error e
    | .ok newTag => costLoop self rest newTag (if newTag ≠ tag then result + 10 else result)

/-- Method `StandardRenderWorkflowCostCalculator::calculateWorkflowCost`. The `float` result
is a sum of terms `10.0f`, which is exact; it is kept as a natural number. -/
def calculateWorkflowCost (self : StandardRenderWorkflowCostCalculator)
    (_workflow : RenderWorkflow) (operationSchedule : List RenderOperation) :
    Except WorkflowError Nat :=
  match operationSchedule with
  | [] => .ok 0
  | first :: rest =>
    match mapAt self.attachmentTag first.name with
    | .error e => .error e
    | .ok tag => costLoop self rest tag 0

end StandardRenderWorkflowCostCalculator

/-- First loop of `recursiveScheduleOperations` (empty `doneOperations`): the operations
without next operations go to `newDoneOperations`. -/
def initialDoneLoop (workflow : RenderWorkflow) :
    List (String × RenderOperation) → List RenderOperation →
    Except WorkflowError (List RenderOperation)
  | [], newDoneOperations => .ok newDoneOperations
  | operation :: rest, newDoneOperations =>
    match workflow.getNextOperations operation.1 with
    | .error e => .error e
    | .ok nextOperations =>
      initialDoneLoop workflow rest
        (if nextOperations.isEmpty then ptrSetInsert operation.2 newDoneOperations
         else newDoneOperations)

/-- Second loop of `recursiveScheduleOperations`: the operations not yet done whose next
operations are all done go to `newDoneOperations`. -/
def nextDoneLoop (workflow : RenderWorkflow) (doneOperations : List RenderOperation) :
    List (String × RenderOperation) → List RenderOperation →
    Except WorkflowError (List RenderOperation)
  | [], newDoneOperations => .ok newDoneOperations
  | operation :: rest, newDoneOperations =>
    if ptrSetContains doneOperations operation.2 then
      nextDoneLoop workflow doneOperations rest newDoneOperations
    else
      match workflow.getNextOperations operation.1 with
      | .error e => .error e
      | .ok nextOperations =>
        let final := nextOperations.all (fun nextOp => ptrSetContains doneOperations nextOp)
        nextDoneLoop workflow doneOperations rest
          (if final then ptrSetInsert operation.2 newDoneOperations else newDoneOperations)

/-- The loop `for (const auto& x : newDoneOperations)` of `recursiveScheduleOperations`, with
the recursive call as `schedule`: the vectors `cost` and `results`, zipped. -/
def candidateLoop (schedule : List RenderOperation → Except WorkflowError (List RenderOperation))
    (workflow : RenderWorkflow) (doneOperations : List RenderOperation)
    (costCalculator : StandardRenderWorkflowCostCalculator) :
    List RenderOperation → Except WorkflowError (List (Nat × List RenderOperation))
  | [] => .ok []
  | x :: rest =>
    match schedule (ptrSetInsert x doneOperations) with
    | .error e => .error e
    | .ok xx0 =>
      let xx := xx0 ++ [x]
      match costCalculator.calculateWorkflowCost workflow xx with
      | .error e => .error e
      | .ok c =>
        match candidateLoop schedule workflow doneOperations costCalculator rest with
        | .error e => .error e
        | .ok more => .ok ((c, xx) :: more)

/-- The pair `std::min_element(cost.begin(), cost.end())`, `results[i]`: the first entry of
lowest cost, `best` being the lowest seen so far. -/
def minElement {α : Type} (best : Nat × α) : List (Nat × α) → Nat × α
  | [] => best
  | c :: rest => if c.1 < best.1 then minElement c rest else minElement best rest

/-- Function `recursiveScheduleOperations`. The first argument bounds the depth of the
recursion; every call adds one operation to `doneOperations`, so the depth never exceeds the
number of operations plus one, and `notFinished` only shows that the bound given was too
small. The vector `results` has one entry per candidate, so it is not empty where
`std::min_element` is applied; the case of an empty `results` only makes the definition
total. -/
def recursiveScheduleOperations : Nat → RenderWorkflow → List RenderOperation →
    StandardRenderWorkflowCostCalculator → Except WorkflowError (List RenderOperation)
  | 0, _, _, _ => .error .notFinished
  | depth + 1, workflow, doneOperations, costCalculator =>
    match (if doneOperations.isEmpty then initialDoneLoop workflow workflow.renderOperations []
           else nextDoneLoop workflow doneOperations workflow.renderOperations []) with
    | .error e => .error e
    | .ok newDoneOperations =>
      match newDoneOperations with
      | [] => .ok []
      | _ :: _ =>
        match candidateLoop
            (fun a => recursiveScheduleOperations depth workflow a costCalculator)
            workflow doneOperations costCalculator newDoneOperations with
        | .error e => .error e
        | .ok [] => .ok []
        | .ok (first :: rest) => .ok (minElement first rest).2

/-- The call `recursiveScheduleOperations(workflow, doneOperations, &costCalculator)` made by
`SingleQueueWorkflowCompiler::compile` with an empty `doneOperations`. -/
def scheduleOperations (workflow : RenderWorkflow)
    (costCalculator : StandardRenderWorkflowCostCalculator) :
    Except WorkflowError (List RenderOperation) :=
  recursiveScheduleOperations (workflow.renderOperations.length + 1) workflow [] costCalculator

/-- The inner loop of the first check of `verifyOperations`: `sameSize` stays `true` when no
two neighbours of `attachmentSizes` differ. -/
def sameSize : List AttachmentSize → Bool
  | a :: b :: rest => if AttachmentSize.ne a b then false else sameSize (b :: rest)
  | _ => true

/-- First loop of `verifyOperations`: the report lines for operations whose attachments do
not all have the same size. -/
def verifyOperationSizes (workflow : RenderWorkflow) :
    List (String × RenderOperation) → Except WorkflowError (List VerifyEntry)
  | [] => .ok []
  | operation :: rest =>
    match workflow.getOperationIO operation.1 rttAllAttachments with
    | .error e => .error e
    | .ok opTransitions =>
      let attachmentSizes :=
        opTransitions.map (fun t => t.resource.resourceType.attachment.attachmentSize)
      match verifyOperationSizes workflow rest with
      | .error e => .error e
      | .ok os =>
        if attachmentSizes.isEmpty then .ok os
        else if !sameSize attachmentSizes then
          .ok (VerifyEntry.notAllAttachmentsSameSize operation.1 :: os)
        else .ok os

/-- Second loop of `verifyOperations`: the report lines for resources with more than one
output transition. -/
def verifyResourceOutputs (workflow : RenderWorkflow) :
    List (String × WorkflowResource) → Except WorkflowError (List VerifyEntry)
  | [] => .ok []
  | resource :: rest =>
    match workflow.getResourceIO resource.1 rttAllOutputs with
    | .error e => .error e
    | .ok opTransitions =>
      match verifyResourceOutputs workflow rest with
      | .error e => .error e
      | .ok os =>
        if opTransitions.length > 1 then .ok (VerifyEntry.moreThanOneOutput resource.1 :: os)
        else .ok os

/-- Method `SingleQueueWorkflowCompiler::verifyOperations`. -/
def verifyOperations (workflow : RenderWorkflow) : Except WorkflowError Unit :=
  match verifyOperationSizes workflow workflow.renderOperations with
  | .error e => .error e
  | .ok sizeLines =>
    match verifyResourceOutputs workflow workflow.resources with
    | .error e => .error e
    | .ok outputLines =>
      let results := sizeLines ++ outputLines
      if !results.isEmpty then .error (.errorsInOperations results) else .ok ()

/-- Read `m[k]` of a `std::map` to `bool`: a key that is missing reads as `false`. (The read
also creates the entry; as every later read of it gives `false` either way, the entry is not
created here.) -/
def mapGet (m : List (String × Bool)) (k : String) : Bool :=
  match m.lookup k with
  | none => false
  | some b => b

/-- Call `std::find(ops.begin(), ops.end(), op) != ops.end()` on a sequence of operation
pointers. -/
def ptrListContains (ops : List RenderOperation) (op : RenderOperation) : Bool :=
  ops.any (fun y => y.addr == op.addr)

/-- The locals of `collectResources` together with its two out parameters. The two `std::map`s
keyed by resource pointer are keyed by resource name here. -/
structure CollectState where
  nextOperations : List RenderOperation
  resourcesGenerated : List (String × Bool)
  resourcesDone : List (String × Bool)
  sortedOperations : List RenderOperation
  resourceVector : List WorkflowResource
  resourceIndex : List (String × Nat)
deriving DecidableEq, Repr

/-- Repeated `m.insert({transition->resource, b})` over a list of transitions. -/
def insertResources (b : Bool) (ts : List ResourceTransition) (m : List (String × Bool)) :
    List (String × Bool) :=
  ts.foldl (fun acc t => mapInsert t.resource.name b acc) m

/-- First loop of `collectResources`: operations without previous operations go to
`nextOperations`, their inputs are marked generated, every output is entered as not
generated. -/
def collectInitial (workflow : RenderWorkflow) :
    List (String × RenderOperation) → CollectState → Except WorkflowError CollectState
  | [], s => .ok s
  | operation :: rest, s =>
    match workflow.getPreviousOperations operation.1 with
    | .error e => .error e
    | .ok ops =>
      match (if ops.isEmpty then
               match workflow.getOperationIO operation.1 rttAllInputs with
               | .error e => .error e
               | .ok opTransitions =>
                 .ok { s with
                   resourcesGenerated := insertResources true opTransitions s.resourcesGenerated,
                   resourcesDone := insertResources false opTransitions s.resourcesDone,
                   nextOperations := s.nextOperations ++ [operation.2] }
             else .ok s : Except WorkflowError CollectState) with
      | .error e => .error e
      | .ok s1 =>
        match workflow.getOperationIO operation.1 rttAllOutputs with
        | .error e => .error e
        | .ok opTransitions =>
          collectInitial workflow rest { s1 with
            resourcesGenerated := insertResources false opTransitions s1.resourcesGenerated,
            resourcesDone := insertResources false opTransitions s1.resourcesDone }

/-- Second loop of `collectResources`: a resource that is generated from the start is done
when all operations reading it are on `nextOperations`. -/
def markInitialDone (workflow : RenderWorkflow) (nextOperations : List RenderOperation) :
    List (String × Bool) → List (String × Bool) → Except WorkflowError (List (String × Bool))
  | [], resourcesDone => .ok resourcesDone
  | resource :: rest, resourcesDone =>
    if resource.2 then
      match workflow.getResourceIO resource.1 rttAllInputs with
      | .error e => .error e
      | .ok resTransitions =>
        let done := resTransitions.all (fun t => ptrListContains nextOperations t.operation)
        markInitialDone workflow nextOperations rest (mapAssign resource.1 done resourcesDone)
    else markInitialDone workflow nextOperations rest resourcesDone

/-- The loop over `res2` in `collectResources`: whether every resource already placed on the
slot `slot` is done. -/
def allAliasedDone (workflow : RenderWorkflow) (resourcesDone : List (String × Bool))
    (slot : Nat) : List (String × Nat) → Except WorkflowError Bool
  | [] => .ok true
  | res2 :: rest =>
    if res2.2 ≠ slot then allAliasedDone workflow resourcesDone slot rest
    else
      match workflow.getResource res2.1 with
      | .error e => .error e
      | .ok examinedResource2 =>
        if !mapGet resourcesDone examinedResource2.name then .ok false
        else allAliasedDone workflow resourcesDone slot rest

/-- The loop over `res` in `collectResources` that looks for a slot to use again;
`foundResourceIndex` starts at `-1` and the loop has no `break`, so the last slot that fits
is the one kept. The order in which a `std::unordered_map` is gone through is not fixed by
the language; the entries are taken in the order of their insertion here, which decides
which one of several slots that fit is kept and nothing else. -/
def findAlias (workflow : RenderWorkflow) (resourcesDone : List (String × Bool))
    (resourceIndex : List (String × Nat)) (resource : WorkflowResource) :
    List (String × Nat) → Int → Except WorkflowError Int
  | [], foundResourceIndex => .ok foundResourceIndex
  | res :: rest, foundResourceIndex =>
    match workflow.getResource res.1 with
    | .error e => .error e
    | .ok examinedResource =>
      if !mapGet resourcesDone examinedResource.name then
        findAlias workflow resourcesDone resourceIndex resource rest foundResourceIndex
      else if resource.resourceType.typeName ≠ examinedResource.resourceType.typeName then
        findAlias workflow resourcesDone resourceIndex resource rest foundResourceIndex
      else
        match allAliasedDone workflow resourcesDone res.2 resourceIndex with
        | .error e => .error e
        | .ok allResourcesDone =>
          if !allResourcesDone then
            findAlias workflow resourcesDone resourceIndex resource rest foundResourceIndex
          else findAlias workflow resourcesDone resourceIndex resource rest (Int.ofNat res.2)

/-- The loop over `prevRes` in `collectResources`; `resourcesGenerated.at` throws for a
resource that was never entered. -/
def allGenerated (resourcesGenerated : List (String × Bool)) :
    List ResourceTransition → Except WorkflowError Bool
  | [] => .ok true
  | prevRes :: rest =>
    match mapAt resourcesGenerated prevRes.resource.name with
    | .error e => .error e
    | .ok generated =>
      if !generated then .ok false else allGenerated resourcesGenerated rest

/-- The loop of `collectResources` over the input transitions of a resource just written:
the reading operation is pushed on `nextOperations`. -/
def pushConsumers (workflow : RenderWorkflow) (resourcesGenerated : List (String × Bool)) :
    List ResourceTransition → List RenderOperation →
    Except WorkflowError (List RenderOperation)
  | [], nextOperations => .ok nextOperations
  | transition :: rest, nextOperations =>
    match workflow.getResourceIO transition.resource.name rttAllInputs with
    | .error e => .error e
    | .ok prevResources =>
      match allGenerated resourcesGenerated prevResources with
      | .error e => .error e
      | .ok allResourcesGenerated =>
        pushConsumers workflow resourcesGenerated rest
          (if allResourcesGenerated then nextOperations ++ [transition.operation]
           else nextOperations)

/-- The slot given to a resource that has none yet, in `collectResources`. -/
def assignSlot (workflow : RenderWorkflow) (resource : WorkflowResource) (s : CollectState) :
    Except WorkflowError CollectState :=
  match (if resource.resourceType.metaType = MetaType.Attachment then
           findAlias workflow s.resourcesDone s.resourceIndex resource s.resourceIndex (-1)
         else .ok (-1) : Except WorkflowError Int) with
  | .error e => .error e
  | .ok foundResourceIndex =>
    if foundResourceIndex ≥ 0 then
      .ok { s with
        resourceIndex := mapInsert resource.name foundResourceIndex.toNat s.resourceIndex }
    else
      .ok { s with
        resourceIndex := mapInsert resource.name s.resourceVector.length s.resourceIndex,
        resourceVector := s.resourceVector ++ [resource] }

/-- The loop of `collectResources` over the output transitions of the operation taken from
`nextOperations`. -/
def collectOutputs (workflow : RenderWorkflow) :
    List ResourceTransition → CollectState → Except WorkflowError CollectState
  | [], s => .ok s
  | transition :: rest, s =>
    let s1 := { s with
      resourcesGenerated := mapAssign transition.resource.name true s.resourcesGenerated }
    match (if (s1.resourceIndex.lookup transition.resource.name).isNone then
             assignSlot workflow transition.resource s1
           else .ok s1 : Except WorkflowError CollectState) with
    | .error e => .error e
    | .ok s2 =>
      match workflow.getResourceIO transition.resource.name rttAllInputs with
      | .error e => .error e
      | .ok resTransitions =>
        match pushConsumers workflow s2.resourcesGenerated resTransitions s2.nextOperations with
        | .error e => .error e
        | .ok nextOperations =>
          collectOutputs workflow rest { s2 with nextOperations := nextOperations }

/-- The last loop of the body of the `while` of `collectResources`: inputs of the operation
are marked done; the loop stops at a transition whose operation is not yet sorted. -/
def markDone (sortedOperations : List RenderOperation) :
    List ResourceTransition → List (String × Bool) → List (String × Bool)
  | [], resourcesDone => resourcesDone
  | transition :: rest, resourcesDone =>
    if !ptrListContains sortedOperations transition.operation then resourcesDone
    else markDone sortedOperations rest (mapAssign transition.resource.name true resourcesDone)

/-- The `while (!nextOperations.empty())` loop of `collectResources`, followed for at most
the given number of rounds. -/
def collectLoop (workflow : RenderWorkflow) : Nat → CollectState →
    Except WorkflowError CollectState
  | 0, s =>
    match s.nextOperations with
    | [] => .ok s
    | _ :: _ => .error .notFinished
  | rounds + 1, s =>
    match s.nextOperations with
    | [] => .ok s
    | operation :: more =>
      let s1 := { s with nextOperations := more,
                         sortedOperations := s.sortedOperations ++ [operation] }
      match workflow.getOperationIO operation.name rttAllOutputs with
      | .error e => .error e
      | .ok outTransitions =>
        match collectOutputs workflow outTransitions s1 with
        | .error e => .error e
        | .ok s2 =>
          match workflow.getOperationIO operation.name rttAllInputs with
          | .error e => .error e
          | .ok inTransitions =>
            collectLoop workflow rounds { s2 with
              resourcesDone := markDone s2.sortedOperations inTransitions s2.resourcesDone }

/-- The body of `SingleQueueWorkflowCompiler::collectResources`; the result holds the locals
and the two out parameters as they are when the method returns. The first argument bounds
the rounds of the `while` loop. -/
def collectRun (rounds : Nat) (workflow : RenderWorkflow) :
    Except WorkflowError CollectState :=
  match collectInitial workflow workflow.renderOperations ⟨[], [], [], [], [], []⟩ with
  | .error e => .error e
  | .ok s0 =>
    match markInitialDone workflow s0.nextOperations s0.resourcesGenerated s0.resourcesDone with
    | .error e => .error e
    | .ok resourcesDone =>
      collectLoop workflow rounds { s0 with resourcesDone := resourcesDone }

/-- Method `SingleQueueWorkflowCompiler::collectResources`; the result is the pair of out
parameters `resourceVector`, `resourceIndex`. The first argument bounds the rounds of the
`while` loop. -/
def collectResources (rounds : Nat) (workflow : RenderWorkflow) :
    Except WorkflowError (List WorkflowResource × List (String × Nat)) :=
  match collectRun rounds workflow with
  | .error e => .error e
  | .ok s => .ok (s.resourceVector, s.resourceIndex)

/-- The inner loop of `createCommandSequence`: the iterator moves on while the tag stays the
same. Gives the operations passed over and the operations left. -/
def takeSameTag (attachmentTag : List (String × Int)) (tag : Int) :
    List RenderOperation → Except WorkflowError (List RenderOperation × List RenderOperation)
  | [] => .ok ([], [])
  | op :: rest =>
    match mapAt attachmentTag op.name with
    | .error e => .error e
    | .ok t =>
      if t = tag then
        match takeSameTag attachmentTag tag rest with
        | .error e => .error e
        | .ok (run, left) => .ok (op :: run, left)
      else .ok ([], op :: rest)

/-- The commands made from the operations `bit` to `it`: one render pass for a run that starts
with a graphics operation, one compute pass per operation otherwise. -/
def commandsOfRun (run : List RenderOperation) : RenderOperation.Type → List RenderCommand
  | .Graphics => [RenderCommand.renderPass ⟨run, [], [], [], []⟩]
  | .Compute => run.map (fun op => RenderCommand.computePass ⟨op⟩)

/-- The outer loop of `createCommandSequence`; the first argument is at least the number of
operations left, every round consumes one or more of them. -/
def commandLoop (attachmentTag : List (String × Int)) :
    Nat → List RenderOperation → Except WorkflowError (List RenderCommand)
  | _, [] => .ok []
  | 0, _ :: _ => .error .notFinished
  | rounds + 1, first :: rest =>
    match mapAt attachmentTag first.name with
    | .error e => .error e
    | .ok tag =>
      match takeSameTag attachmentTag tag rest with
      | .error e => .error e
      | .ok (run, left) =>
        match commandLoop attachmentTag rounds left with
        | .error e => .error e
        | .ok results => .ok (commandsOfRun (first :: run) first.operationType ++ results)

/-- Method `SingleQueueWorkflowCompiler::createCommandSequence`. -/
def createCommandSequence (costCalculator : StandardRenderWorkflowCostCalculator)
    (operationSequence : List RenderOperation) : Except WorkflowError (List RenderCommand) :=
  commandLoop costCalculator.attachmentTag operationSequence.length operationSequence

/-- Function `getAspectMask`. -/
def getAspectMask : AttachmentType → Nat
  | .atColor => 1
  | .atSurface => 1
  | .atDepth => 2
  | .atDepthStencil => 2 ||| 4
  | .atStencil => 4
  | .atUndefined => 0

/-- Function `getAttachmentUsage`, with the values of the `VK_IMAGE_USAGE_*` bits. -/
def getAttachmentUsage : VkImageLayout → Nat
  | .COLOR_ATTACHMENT_OPTIMAL => 16
  | .DEPTH_STENCIL_ATTACHMENT_OPTIMAL => 32
  | .DEPTH_STENCIL_READ_ONLY_OPTIMAL => 128
  | .SHADER_READ_ONLY_OPTIMAL => 128
  | .TRANSFER_SRC_OPTIMAL => 1
  | .TRANSFER_DST_OPTIMAL => 2
  | .PRESENT_SRC_KHR => 16
  | .SHARED_PRESENT_KHR => 16
  | .UNDEFINED => 0
  | .GENERAL => 0
  | .PREINITIALIZED => 0

/-- Bit `VK_PIPELINE_STAGE_VERTEX_SHADER_BIT`. -/
def VK_PIPELINE_STAGE_VERTEX_SHADER_BIT : Nat := 8
/-- Bit `VK_PIPELINE_STAGE_TESSELLATION_CONTROL_SHADER_BIT`. -/
def VK_PIPELINE_STAGE_TESSELLATION_CONTROL_SHADER_BIT : Nat := 16
/-- Bit `VK_PIPELINE_STAGE_TESSELLATION_EVALUATION_SHADER_BIT`. -/
def VK_PIPELINE_STAGE_TESSELLATION_EVALUATION_SHADER_BIT : Nat := 32
/-- Bit `VK_PIPELINE_STAGE_GEOMETRY_SHADER_BIT`. -/
def VK_PIPELINE_STAGE_GEOMETRY_SHADER_BIT : Nat := 64
/-- Bit `VK_PIPELINE_STAGE_FRAGMENT_SHADER_BIT`. -/
def VK_PIPELINE_STAGE_FRAGMENT_SHADER_BIT : Nat := 128
/-- Bit `VK_PIPELINE_STAGE_EARLY_FRAGMENT_TESTS_BIT`. -/
def VK_PIPELINE_STAGE_EARLY_FRAGMENT_TESTS_BIT : Nat := 256
/-- Bit `VK_PIPELINE_STAGE_LATE_FRAGMENT_TESTS_BIT`. -/
def VK_PIPELINE_STAGE_LATE_FRAGMENT_TESTS_BIT : Nat := 512
/-- Bit `VK_PIPELINE_STAGE_COLOR_ATTACHMENT_OUTPUT_BIT`. -/
def VK_PIPELINE_STAGE_COLOR_ATTACHMENT_OUTPUT_BIT : Nat := 1024
/-- Bit `VK_PIPELINE_STAGE_COMPUTE_SHADER_BIT`. -/
def VK_PIPELINE_STAGE_COMPUTE_SHADER_BIT : Nat := 2048
/-- Bit `VK_PIPELINE_STAGE_BOTTOM_OF_PIPE_BIT`. -/
def VK_PIPELINE_STAGE_BOTTOM_OF_PIPE_BIT : Nat := 8192
/-- Bit `VK_PIPELINE_STAGE_ALL_COMMANDS_BIT`. -/
def VK_PIPELINE_STAGE_ALL_COMMANDS_BIT : Nat := 65536
/-- Bit `VK_ACCESS_INPUT_ATTACHMENT_READ_BIT`. -/
def VK_ACCESS_INPUT_ATTACHMENT_READ_BIT : Nat := 16
/-- Bit `VK_ACCESS_SHADER_READ_BIT`. -/
def VK_ACCESS_SHADER_READ_BIT : Nat := 32
/-- Bit `VK_ACCESS_COLOR_ATTACHMENT_READ_BIT`. -/
def VK_ACCESS_COLOR_ATTACHMENT_READ_BIT : Nat := 128
/-- Bit `VK_ACCESS_COLOR_ATTACHMENT_WRITE_BIT`. -/
def VK_ACCESS_COLOR_ATTACHMENT_WRITE_BIT : Nat := 256
/-- Bit `VK_ACCESS_DEPTH_STENCIL_ATTACHMENT_READ_BIT`. -/
def VK_ACCESS_DEPTH_STENCIL_ATTACHMENT_READ_BIT : Nat := 512
/-- Bit `VK_ACCESS_DEPTH_STENCIL_ATTACHMENT_WRITE_BIT`. -/
def VK_ACCESS_DEPTH_STENCIL_ATTACHMENT_WRITE_BIT : Nat := 1024
/-- Bit `VK_DEPENDENCY_BY_REGION_BIT`. -/
def VK_DEPENDENCY_BY_REGION_BIT : Nat := 1
/-- Value `VK_PIPELINE_BIND_POINT_GRAPHICS`. -/
def VK_PIPELINE_BIND_POINT_GRAPHICS : Nat := 0
/-- Value `VK_PIPELINE_BIND_POINT_COMPUTE`. -/
def VK_PIPELINE_BIND_POINT_COMPUTE : Nat := 1

/-- The six shader stages that the stage mask functions give for
`VK_IMAGE_LAYOUT_SHADER_READ_ONLY_OPTIMAL`. -/
def shaderStages : Nat :=
  VK_PIPELINE_STAGE_VERTEX_SHADER_BIT ||| VK_PIPELINE_STAGE_TESSELLATION_CONTROL_SHADER_BIT
    ||| VK_PIPELINE_STAGE_TESSELLATION_EVALUATION_SHADER_BIT
    ||| VK_PIPELINE_STAGE_GEOMETRY_SHADER_BIT ||| VK_PIPELINE_STAGE_FRAGMENT_SHADER_BIT
    ||| VK_PIPELINE_STAGE_COMPUTE_SHADER_BIT

/-- The two fragment test stages. -/
def fragmentTests : Nat :=
  VK_PIPELINE_STAGE_EARLY_FRAGMENT_TESTS_BIT ||| VK_PIPELINE_STAGE_LATE_FRAGMENT_TESTS_BIT

/-- Function `getPipelineStageMasks`: the pair `(srcStageMask, dstStageMask)` after the call,
from the pair before it. Both arguments are pointers that the function reads without a
check. -/
def getPipelineStageMasks (generatingTransition consumingTransition : ResourceTransition)
    (masks : Nat × Nat) : Nat × Nat :=
  let masks1 : Nat × Nat :=
    match generatingTransition.transitionType with
    | rttAttachmentOutput | rttAttachmentResolveOutput | rttAttachmentDepthOutput =>
      match generatingTransition.layout with
      | .COLOR_ATTACHMENT_OPTIMAL => (VK_PIPELINE_STAGE_COLOR_ATTACHMENT_OUTPUT_BIT, masks.2)
      | .DEPTH_STENCIL_ATTACHMENT_OPTIMAL => (fragmentTests, masks.2)
      | .SHADER_READ_ONLY_OPTIMAL => (shaderStages, masks.2)
      | .DEPTH_STENCIL_READ_ONLY_OPTIMAL => (masks.1, fragmentTests)
      | _ => masks
    | rttBufferOutput => (generatingTransition.pipelineStage, masks.2)
    | _ => masks
  match consumingTransition.transitionType with
  | rttAttachmentInput =>
    match consumingTransition.layout with
    | .COLOR_ATTACHMENT_OPTIMAL => (masks1.1, VK_PIPELINE_STAGE_COLOR_ATTACHMENT_OUTPUT_BIT)
    | .DEPTH_STENCIL_ATTACHMENT_OPTIMAL => (masks1.1, fragmentTests)
    | .SHADER_READ_ONLY_OPTIMAL => (masks1.1, shaderStages)
    | .DEPTH_STENCIL_READ_ONLY_OPTIMAL => (masks1.1, fragmentTests)
    | _ => masks1
  | rttBufferInput => (masks1.1, consumingTransition.pipelineStage)
  | _ => masks1

/-- Function `getAccessMasks`: the pair `(srcAccessMask, dstAccessMask)` after the call, from
the pair before it. -/
def getAccessMasks (generatingTransition consumingTransition : ResourceTransition)
    (masks : Nat × Nat) : Nat × Nat :=
  let masks1 : Nat × Nat :=
    match generatingTransition.transitionType with
    | rttAttachmentOutput | rttAttachmentResolveOutput | rttAttachmentDepthOutput =>
      match generatingTransition.layout with
      | .COLOR_ATTACHMENT_OPTIMAL => (VK_ACCESS_COLOR_ATTACHMENT_WRITE_BIT, masks.2)
      | .DEPTH_STENCIL_ATTACHMENT_OPTIMAL =>
        (VK_ACCESS_DEPTH_STENCIL_ATTACHMENT_WRITE_BIT, masks.2)
      | .SHADER_READ_ONLY_OPTIMAL => (VK_ACCESS_SHADER_READ_BIT, masks.2)
      | .DEPTH_STENCIL_READ_ONLY_OPTIMAL =>
        (VK_ACCESS_DEPTH_STENCIL_ATTACHMENT_READ_BIT, masks.2)
      | _ => masks
    | rttBufferOutput => (generatingTransition.accessFlags, masks.2)
    | _ => masks
  match consumingTransition.transitionType with
  | rttAttachmentInput =>
    match consumingTransition.layout with
    | .COLOR_ATTACHMENT_OPTIMAL => (masks1.1, VK_ACCESS_COLOR_ATTACHMENT_WRITE_BIT)
    | .DEPTH_STENCIL_ATTACHMENT_OPTIMAL =>
      (masks1.1, VK_ACCESS_DEPTH_STENCIL_ATTACHMENT_WRITE_BIT)
    | .SHADER_READ_ONLY_OPTIMAL => (masks1.1, VK_ACCESS_COLOR_ATTACHMENT_READ_BIT)
    | .DEPTH_STENCIL_READ_ONLY_OPTIMAL =>
      (masks1.1, VK_ACCESS_DEPTH_STENCIL_ATTACHMENT_READ_BIT)
    | _ => masks1
  | rttBufferInput => (masks1.1, consumingTransition.accessFlags)
  | _ => masks1

/-- Repeated `attachmentIndex.at(t->resource->name)` paired with the layout, for the input
and the output attachments in `buildSubPassDefinition`. -/
def attachmentReferences (attachmentIndex : List (String × Nat)) :
    List ResourceTransition → Except WorkflowError (List AttachmentReference)
  | [] => .ok []
  | t :: rest =>
    match mapAt attachmentIndex t.resource.name with
    | .error e => .error e
    | .ok index =>
      match attachmentReferences attachmentIndex rest with
      | .error e => .error e
      | .ok refs => .ok (⟨index, t.layout⟩ :: refs)

/-- The resolve attachment that `buildSubPassDefinition` pairs with one output attachment. -/
def resolveReference (attachmentIndex : List (String × Nat))
    (resolveAttachments : List ResourceTransition) (outputAttachment : ResourceTransition) :
    Except WorkflowError AttachmentReference :=
  match resolveAttachments.find?
      (fun rt => rt.resolveResource.map (fun r => r.name) == some outputAttachment.resource.name)
    with
  | some it =>
    match mapAt attachmentIndex it.resource.name with
    | .error e => .error e
    | .ok index => .ok ⟨index, it.layout⟩
  | none => .ok ⟨VK_ATTACHMENT_UNUSED, VkImageLayout.UNDEFINED⟩

/-- The loop of `buildSubPassDefinition` over the output attachments: the vectors `oa` and
`ra`. -/
def outputReferences (attachmentIndex : List (String × Nat))
    (resolveAttachments : List ResourceTransition) :
    List ResourceTransition →
    Except WorkflowError (List AttachmentReference × List AttachmentReference)
  | [] => .ok ([], [])
  | outputAttachment :: rest =>
    match mapAt attachmentIndex outputAttachment.resource.name with
    | .error e => .error e
    | .ok index =>
      match resolveReference attachmentIndex resolveAttachments outputAttachment with
      | .error e => .error e
      | .ok r =>
        match outputReferences attachmentIndex resolveAttachments rest with
        | .error e => .error e
        | .ok (oa, ra) => .ok (⟨index, outputAttachment.layout⟩ :: oa, r :: ra)

/-- Method `RenderOperation::buildSubPassDefinition`, with the workflow the operation belongs
to as an argument. -/
def RenderOperation.buildSubPassDefinition (self : RenderOperation) (rw : RenderWorkflow)
    (attachmentIndex : List (String × Nat)) : Except WorkflowError SubpassDefinition :=
  let bindPoint :=
    if self.operationType = RenderOperation.Type.Graphics then VK_PIPELINE_BIND_POINT_GRAPHICS
    else VK_PIPELINE_BIND_POINT_COMPUTE
  match rw.getOperationIO self.name rttAttachmentInput.value with
  | .error e => .error e
  | .ok inputAttachments =>
    match rw.getOperationIO self.name rttAttachmentOutput.value with
    | .error e => .error e
    | .ok outputAttachments =>
      match rw.getOperationIO self.name rttAttachmentResolveOutput.value with
      | .error e => .error e
      | .ok resolveAttachments =>
        match rw.getOperationIO self.name rttAttachmentDepthOutput.value with
        | .error e => .error e
        | .ok depthAttachments =>
          match attachmentReferences attachmentIndex inputAttachments with
          | .error e => .error e
          | .ok ia =>
            match outputReferences attachmentIndex resolveAttachments outputAttachments with
            | .error e => .error e
            | .ok (oa, ra) =>
              match depthAttachments with
              | [] =>
                .ok ⟨bindPoint, ia, oa, ra, ⟨VK_ATTACHMENT_UNUSED, VkImageLayout.UNDEFINED⟩, []⟩
              | depth :: _ =>
                match mapAt attachmentIndex depth.resource.name with
                | .error e => .error e
                | .ok index => .ok ⟨bindPoint, ia, oa, ra, ⟨index, depth.layout⟩, []⟩

/-- Read `v[i]` of a `std::vector`; an index out of the bounds is undefined behaviour. -/
def vecGet {α : Type} (v : List α) (i : Nat) : Except WorkflowError α :=
  match v.get? i with
  | some a => .ok a
  | none => .error .undefinedBehaviour

/-- Write `v[i] = f(v[i])` on a `std::vector`; an index out of the bounds is undefined
behaviour. -/
def vecModify {α : Type} (v : List α) (i : Nat) (f : α → α) : Except WorkflowError (List α) :=
  match v.get? i with
  | some a => .ok (v.set i (f a))
  | none => .error .undefinedBehaviour

/-- Read `m[k]` of a `std::unordered_map` to `uint32_t`: a key that is missing is entered
with the value `0`. Gives the value read and the map after the read. -/
def mapIndex (m : List (String × Nat)) (k : String) : Nat × List (String × Nat) :=
  match m.lookup k with
  | some i => (i, m)
  | none => (0, m ++ [(k, 0)])

/-- Call `s.insert(x)` on a `std::set<std::string>`, of which only membership is used. -/
def nameSetInsert (x : String) (s : List String) : List String :=
  if s.contains x then s else s ++ [x]

/-- The loop over `nextOperations` inside the `while` that fills
`resourcesUsedAfterRenderPass`: the names collected so far and the set `laterOperations`. -/
def laterLevel (workflow : RenderWorkflow) (passOperations : List RenderOperation) :
    List RenderOperation → List String → List RenderOperation →
    Except WorkflowError (List String × List RenderOperation)
  | [], used, laterOperations => .ok (used, laterOperations)
  | nextOperation :: rest, used, laterOperations =>
    if !ptrListContains passOperations nextOperation then
      match workflow.getOperationIO nextOperation.name rttAllInputs with
      | .error e => .error e
      | .ok inputTransitions =>
        match workflow.getNextOperations nextOperation.name with
        | .error e => .error e
        | .ok laterOps =>
          laterLevel workflow passOperations rest
            (inputTransitions.foldl (fun u t => nameSetInsert t.resource.name u) used)
            (laterOps.foldl (fun l lop => ptrSetInsert lop l) laterOperations)
    else laterLevel workflow passOperations rest used laterOperations

/-- The `while (!nextOperations.empty())` loop that fills `resourcesUsedAfterRenderPass`,
followed for at most the given number of rounds. -/
def usedAfterLoop (workflow : RenderWorkflow) (passOperations : List RenderOperation) :
    Nat → List RenderOperation → List String → Except WorkflowError (List String)
  | _, [], used => .ok used
  | 0, _ :: _, _ => .error .notFinished
  | rounds + 1, nextOperation :: more, used =>
    match laterLevel workflow passOperations (nextOperation :: more) used [] with
    | .error e => .error e
    | .ok (used1, laterOperations) =>
      usedAfterLoop workflow passOperations rounds laterOperations used1

/-- The first loop of `constructRenderPassDetails`: the set `resourcesUsedAfterRenderPass`. -/
def resourcesUsedAfterRenderPass (rounds : Nat) (workflow : RenderWorkflow)
    (passOperations : List RenderOperation) :
    List RenderOperation → List String → Except WorkflowError (List String)
  | [], used => .ok used
  | operation :: rest, used =>
    match workflow.getNextOperations operation.name with
    | .error e => .error e
    | .ok nextOperations =>
      match usedAfterLoop workflow passOperations rounds nextOperations used with
      | .error e => .error e
      | .ok used1 => resourcesUsedAfterRenderPass rounds workflow passOperations rest used1

/-- The locals of `constructRenderPassDetails` that its main loop writes, together with the
in-out parameters `lastLayout`, `frameBufferDefinitions` and `attachmentIndex`. -/
structure PassState where
  subpasses : List SubpassDefinition
  subpassDependencies : List SubpassDependencyDefinition
  modifiedOutputs : List (String × Nat)
  lastLayout : List VkImageLayout
  frameBufferDefinitions : List FrameBufferImageDefinition
  firstLoadOp : List LoadOp
  attachmentIndex : List (String × Nat)
  renderPassOutputsSurface : Bool
deriving DecidableEq, Repr

/-- Write through the iterator `dep` of `constructRenderPassDetails`: the first dependency
with the given source and destination is changed. -/
def modifyDependency (srcSubpass dstSubpass : Nat)
    (f : SubpassDependencyDefinition → SubpassDependencyDefinition) :
    List SubpassDependencyDefinition → List SubpassDependencyDefinition
  | [] => []
  | sd :: rest =>
    if sd.srcSubpass = srcSubpass ∧ sd.dstSubpass = dstSubpass then f sd :: rest
    else sd :: modifyDependency srcSubpass dstSubpass f rest

/-- The three statements both transition loops of `constructRenderPassDetails` make for an
attachment: `lastLayout` and the usage flags are written, and `firstLoadOp` when it still is
`DontCare`. -/
def touchAttachment (resourceName : String) (layout : VkImageLayout) (load : LoadOp)
    (s : PassState) : Except WorkflowError PassState :=
  let attIndex := (mapIndex s.attachmentIndex resourceName).1
  match vecModify s.lastLayout attIndex (fun _ => layout) with
  | .error e => .error e
  | .ok lastLayout =>
    match vecModify s.frameBufferDefinitions attIndex
        (fun d => { d with usage := d.usage ||| getAttachmentUsage layout }) with
    | .error e => .error e
    | .ok frameBufferDefinitions =>
      match vecModify s.firstLoadOp attIndex
          (fun l => if l.loadType = LoadOp.Type.DontCare then load else l) with
      | .error e => .error e
      | .ok firstLoadOp =>
        .ok { s with
          attachmentIndex := (mapIndex s.attachmentIndex resourceName).2,
          lastLayout := lastLayout,
          frameBufferDefinitions := frameBufferDefinitions,
          firstLoadOp := firstLoadOp }

/-- The loop of `constructRenderPassDetails` over the input transitions of one operation.
The pointer `generatingTransition` stays null when the resource has no output transition, and
the mask functions read through it. -/
def consumeInputs (workflow : RenderWorkflow) (passOperationIndex : Nat) :
    List ResourceTransition → PassState → Except WorkflowError PassState
  | [], s => .ok s
  | consumingTransition :: rest, s =>
    match workflow.getResourceIO consumingTransition.resource.name rttAllOutputs with
    | .error e => .error e
    | .ok generateTransitions =>
      let generatingTransition :=
        (generateTransitions.filter
          (fun gen => gen.resource.name == consumingTransition.resource.name)).getLast?
      let srcSubpass :=
        match s.modifiedOutputs.lookup consumingTransition.resource.name with
        | some index => index
        | none => VK_SUBPASS_EXTERNAL
      let subpassDependencies :=
        if s.subpassDependencies.any
            (fun sd => sd.srcSubpass == srcSubpass && sd.dstSubpass == passOperationIndex)
        then s.subpassDependencies
        else s.subpassDependencies ++ [⟨srcSubpass, passOperationIndex, 0, 0, 0, 0, 0⟩]
      match generatingTransition with
      | none => .error .undefinedBehaviour
      | some generating =>
        let stage := getPipelineStageMasks generating consumingTransition (0, 0)
        let access := getAccessMasks generating consumingTransition (0, 0)
        let isAttachment :=
          consumingTransition.resource.resourceType.metaType = MetaType.Attachment
        let s1 := { s with
          subpassDependencies :=
            modifyDependency srcSubpass passOperationIndex
              (fun dep => { dep with
                srcStageMask := dep.srcStageMask ||| stage.1,
                dstStageMask := dep.dstStageMask ||| stage.2,
                srcAccessMask := dep.srcAccessMask ||| access.1,
                dstAccessMask := dep.dstAccessMask ||| access.2,
                dependencyFlags :=
                  if isAttachment then dep.dependencyFlags ||| VK_DEPENDENCY_BY_REGION_BIT
                  else dep.dependencyFlags })
              subpassDependencies }
        match (if isAttachment then
                 touchAttachment consumingTransition.resource.name consumingTransition.layout
                   loadOpLoad s1
               else .ok s1 : Except WorkflowError PassState) with
        | .error e => .error e
        | .ok s2 => consumeInputs workflow passOperationIndex rest s2

/-- The loop of `constructRenderPassDetails` over the output transitions of one operation. -/
def produceOutputs (passOperationIndex : Nat) :
    List ResourceTransition → PassState → Except WorkflowError PassState
  | [], s => .ok s
  | outputTransition :: rest, s =>
    let s1 := { s with
      modifiedOutputs :=
        mapAssign outputTransition.resource.name passOperationIndex s.modifiedOutputs }
    if outputTransition.resource.resourceType.metaType = MetaType.Attachment then
      match touchAttachment outputTransition.resource.name outputTransition.layout
          outputTransition.load s1 with
      | .error e => .error e
      | .ok s2 =>
        produceOutputs passOperationIndex rest
          (if outputTransition.resource.resourceType.attachment.attachmentType
                = AttachmentType.atSurface
           then { s2 with renderPassOutputsSurface := true } else s2)
    else produceOutputs passOperationIndex rest s1

/-- The main loop of `constructRenderPassDetails` over the operations of the render pass. -/
def passLoop (workflow : RenderWorkflow) :
    List RenderOperation → Nat → PassState → Except WorkflowError PassState
  | [], _, s => .ok s
  | operation :: rest, passOperationIndex, s =>
    match operation.buildSubPassDefinition workflow s.attachmentIndex with
    | .error e => .error e
    | .ok subPassDefinition =>
      match workflow.getOperationIO operation.name rttAllInputs with
      | .error e => .error e
      | .ok consumingTransitions =>
        match consumeInputs workflow passOperationIndex consumingTransitions
            { s with subpasses := s.subpasses ++ [subPassDefinition] } with
        | .error e => .error e
        | .ok s1 =>
          match workflow.getOperationIO operation.name rttAllOutputs with
          | .error e => .error e
          | .ok outputTransitions =>
            match produceOutputs passOperationIndex outputTransitions s1 with
            | .error e => .error e
            | .ok s2 => passLoop workflow rest (passOperationIndex + 1) s2

/-- The first `switch` on the attachment type in the last loop of
`constructRenderPassDetails`: the locals `colorDepthAttachment` and `stencilAttachment`, which
no case writes for `atUndefined`. -/
def attachmentKinds : AttachmentType → Option (Bool × Bool)
  | .atSurface => some (true, false)
  | .atColor => some (true, false)
  | .atDepth => some (true, false)
  | .atDepthStencil => some (true, true)
  | .atStencil => some (false, true)
  | .atUndefined => none

/-- The cast `(VkAttachmentLoadOp)loadType`. -/
def LoadOp.Type.toVk : LoadOp.Type → VkAttachmentLoadOp
  | .Load => .LOAD
  | .Clear => .CLEAR
  | .DontCare => .DONT_CARE

/-- The last loop of `constructRenderPassDetails`: attachment definitions and clear values of
the render pass, and `attachmentIndex` after the reads `attachmentIndex[res->name]`. -/
def passAttachments (used : List String) (firstLoadOp : List LoadOp)
    (beginLayout lastLayout : List VkImageLayout) :
    List WorkflowResource → List (String × Nat) →
    Except WorkflowError (List AttachmentDefinition × List VkClearValue × List (String × Nat))
  | [], attachmentIndex => .ok ([], [], attachmentIndex)
  | res :: rest, attachmentIndex =>
    let resType := res.resourceType
    if resType.metaType ≠ MetaType.Attachment then
      passAttachments used firstLoadOp beginLayout lastLayout rest attachmentIndex
    else
      match attachmentKinds resType.attachment.attachmentType with
      | none => .error .undefinedBehaviour
      | some (colorDepthAttachment, stencilAttachment) =>
        let mustSaveResource := resType.persistent
          || resType.attachment.attachmentType == AttachmentType.atSurface
          || used.contains res.name
        let attIndex := (mapIndex attachmentIndex res.name).1
        match vecGet firstLoadOp attIndex with
        | .error e => .error e
        | .ok load =>
          match vecGet beginLayout attIndex with
          | .error e => .error e
          | .ok initialLayout =>
            match vecGet lastLayout attIndex with
            | .error e => .error e
            | .ok finalLayout =>
              let definition : AttachmentDefinition :=
                ⟨attIndex, resType.attachment.format, resType.attachment.samples,
                 if colorDepthAttachment then load.loadType.toVk else .DONT_CARE,
                 if colorDepthAttachment && mustSaveResource then .STORE else .DONT_CARE,
                 if stencilAttachment then load.loadType.toVk else .DONT_CARE,
                 if stencilAttachment && mustSaveResource then .STORE else .DONT_CARE,
                 initialLayout, finalLayout, 0⟩
              let clearValue : VkClearValue :=
                match resType.attachment.attachmentType with
                | .atSurface | .atColor => VkClearValue.color load.clearColor
                | _ => VkClearValue.depthStencil load.clearColor.x load.clearColor.y
              match passAttachments used firstLoadOp beginLayout lastLayout rest
                  (mapIndex attachmentIndex res.name).2 with
              | .error e => .error e
              | .ok (definitions, clearValues, attachmentIndex1) =>
                .ok (definition :: definitions, clearValue :: clearValues, attachmentIndex1)

/-- What `constructRenderPassDetails` leaves behind: the render pass it filled, its three
in-out parameters and the value it returns. -/
structure PassDetails where
  renderPass : RenderPass
  lastLayout : List VkImageLayout
  frameBufferDefinitions : List FrameBufferImageDefinition
  attachmentIndex : List (String × Nat)
  outputsSurface : Bool
deriving DecidableEq, Repr

/-- Method `SingleQueueWorkflowCompiler::constructRenderPassDetails`. The first argument
bounds the rounds of the `while` loop that fills `resourcesUsedAfterRenderPass`. -/
def constructRenderPassDetails (rounds : Nat) (workflow : RenderWorkflow)
    (renderPass : RenderPass) (lastLayout : List VkImageLayout)
    (frameBufferDefinitions : List FrameBufferImageDefinition)
    (resourceVector : List WorkflowResource) (attachmentIndex : List (String × Nat)) :
    Except WorkflowError PassDetails :=
  let beginLayout := lastLayout
  match resourcesUsedAfterRenderPass rounds workflow renderPass.renderOperations
      renderPass.renderOperations [] with
  | .error e => .error e
  | .ok used =>
    match passLoop workflow renderPass.renderOperations 0
        ⟨renderPass.subpasses, [], [], lastLayout, frameBufferDefinitions,
         List.replicate frameBufferDefinitions.length ⟨LoadOp.Type.DontCare, ⟨0, 0, 0, 0⟩⟩,
         attachmentIndex, false⟩ with
    | .error e => .error e
    | .ok s =>
      let withIntro :=
        if s.subpassDependencies.any
            (fun sd => sd.srcSubpass == VK_SUBPASS_EXTERNAL && sd.dstSubpass == 0)
        then s.subpassDependencies
        else s.subpassDependencies ++
          [⟨VK_SUBPASS_EXTERNAL, 0, VK_PIPELINE_STAGE_BOTTOM_OF_PIPE_BIT,
            VK_PIPELINE_STAGE_ALL_COMMANDS_BIT, 0, 0, 0⟩]
      let outroDependency : SubpassDependencyDefinition :=
        ⟨(renderPass.renderOperations.length + 4294967295) % 4294967296, VK_SUBPASS_EXTERNAL,
         VK_PIPELINE_STAGE_ALL_COMMANDS_BIT, VK_PIPELINE_STAGE_BOTTOM_OF_PIPE_BIT,
         VK_ACCESS_INPUT_ATTACHMENT_READ_BIT ||| VK_ACCESS_COLOR_ATTACHMENT_READ_BIT
           ||| VK_ACCESS_COLOR_ATTACHMENT_WRITE_BIT
           ||| VK_ACCESS_DEPTH_STENCIL_ATTACHMENT_READ_BIT
           ||| VK_ACCESS_DEPTH_STENCIL_ATTACHMENT_WRITE_BIT,
         0, 0⟩
      match passAttachments used s.firstLoadOp beginLayout s.lastLayout resourceVector
          s.attachmentIndex with
      | .error e => .error e
      | .ok (attachmentDefinitions, clearValues, attachmentIndex1) =>
        .ok ⟨{ renderPass with
                subpasses := s.subpasses,
                dependencies := withIntro ++ [outroDependency],
                attachments := attachmentDefinitions,
                clearValues := clearValues },
             s.lastLayout, s.frameBufferDefinitions, attachmentIndex1,
             s.renderPassOutputsSurface⟩

/-- The virtual method `RenderWorkflowCompiler::compile` of a compiler object with state `σ`:
it may change the compiler and the workflow and may throw. -/
abbrev CompileMethod (σ : Type) :=
  σ → RenderWorkflow → Except WorkflowError Unit × σ × RenderWorkflow

/-- The loop of `SingleQueueWorkflowCompiler::compile` that builds `attachmentIndex` and
`frameBufferDefinitions` from the resources that are attachments. -/
def frameBufferDefinitionLoop :
    List WorkflowResource → List (String × Nat) → List FrameBufferImageDefinition →
    List (String × Nat) × List FrameBufferImageDefinition
  | [], attachmentIndex, frameBufferDefinitions => (attachmentIndex, frameBufferDefinitions)
  | res :: rest, attachmentIndex, frameBufferDefinitions =>
    let resourceType := res.resourceType
    if resourceType.metaType ≠ MetaType.Attachment then
      frameBufferDefinitionLoop rest attachmentIndex frameBufferDefinitions
    else
      frameBufferDefinitionLoop rest
        (mapInsert res.name frameBufferDefinitions.length attachmentIndex)
        (frameBufferDefinitions ++
          [⟨resourceType.attachment.attachmentType, resourceType.attachment.format, 0,
            getAspectMask resourceType.attachment.attachmentType,
            resourceType.attachment.samples, res.name,
            resourceType.attachment.attachmentSize⟩])

/-- The locals of `SingleQueueWorkflowCompiler::compile` that the loop over the commands of
one sequence writes. -/
structure SequenceState where
  commands : List RenderCommand
  lastLayout : List VkImageLayout
  frameBufferDefinitions : List FrameBufferImageDefinition
  attachmentIndex : List (String × Nat)
  outputRenderPass : Option RenderPass
  presentationQueueIndex : Nat
deriving DecidableEq, Repr

/-- The loop of `SingleQueueWorkflowCompiler::compile` over the commands of one sequence:
every render pass gets its details, the commands done are collected in `commands`. -/
def commandDetailsLoop (rounds : Nat) (workflow : RenderWorkflow)
    (resourceVector : List WorkflowResource) (sequenceIndex : Nat) :
    List RenderCommand → SequenceState → Except WorkflowError SequenceState
  | [], s => .ok s
  | RenderCommand.computePass p :: rest, s =>
    commandDetailsLoop rounds workflow resourceVector sequenceIndex rest
      { s with commands := s.commands ++ [RenderCommand.computePass p] }
  | RenderCommand.renderPass renderPass :: rest, s =>
    match constructRenderPassDetails rounds workflow renderPass s.lastLayout
        s.frameBufferDefinitions resourceVector s.attachmentIndex with
    | .error e => .error e
    | .ok details =>
      commandDetailsLoop rounds workflow resourceVector sequenceIndex rest
        { commands := s.commands ++ [RenderCommand.renderPass details.renderPass],
          lastLayout := details.lastLayout,
          frameBufferDefinitions := details.frameBufferDefinitions,
          attachmentIndex := details.attachmentIndex,
          outputRenderPass :=
            if details.outputsSurface then some details.renderPass else s.outputRenderPass,
          presentationQueueIndex :=
            if details.outputsSurface then sequenceIndex else s.presentationQueueIndex }

/-- The arguments that `SingleQueueWorkflowCompiler::compile` hands to `setOutputData`. -/
structure OutputData where
  commandSequences : List (List RenderCommand)
  frameBufferImages : FrameBufferImages
  frameBuffer : FrameBuffer
  resourceIndex : List (String × Nat)
  presentationQueueIndex : Nat
deriving DecidableEq, Repr

/-- The part of `SingleQueueWorkflowCompiler::compile` between the tagging and the call of
`setOutputData`. It reads the workflow and the tags and writes neither: every function it
calls takes the workflow by `const` reference or by value. There is one operation sequence,
so the loop over the command sequences runs once, with `sequenceIndex` zero. -/
def buildOutputData (rounds : Nat) (costCalculator : StandardRenderWorkflowCostCalculator)
    (workflow : RenderWorkflow) : Except WorkflowError OutputData :=
  match collectResources rounds workflow with
  | .error e => .error e
  | .ok (resourceVector, resourceIndex) =>
    let (attachmentIndex, frameBufferDefinitions) :=
      frameBufferDefinitionLoop resourceVector [] []
    match scheduleOperations workflow costCalculator with
    | .error e => .error e
    | .ok operationSequence =>
      match createCommandSequence costCalculator operationSequence with
      | .error e => .error e
      | .ok commandSequence =>
        match commandDetailsLoop rounds workflow resourceVector 0 commandSequence
            ⟨[], List.replicate frameBufferDefinitions.length VkImageLayout.UNDEFINED,
             frameBufferDefinitions, attachmentIndex, none, 0⟩ with
        | .error e => .error e
        | .ok s =>
          let fbi : FrameBufferImages := ⟨s.frameBufferDefinitions, workflow.frameBufferAllocator⟩
          .ok ⟨[s.commands], fbi, ⟨s.outputRenderPass, fbi⟩, resourceIndex,
               s.presentationQueueIndex⟩

/-- The class `SingleQueueWorkflowCompiler`. -/
structure SingleQueueWorkflowCompiler where
  costCalculator : StandardRenderWorkflowCostCalculator
deriving DecidableEq, Repr

/-- Method `SingleQueueWorkflowCompiler::compile`. The first argument bounds the rounds of
the two `while` loops that have no bound of their own in the source (in `collectResources`
and in `constructRenderPassDetails`); a run that needs more rounds ends in `notFinished`. -/
def SingleQueueWorkflowCompiler.compile (rounds : Nat) :
    CompileMethod SingleQueueWorkflowCompiler :=
  fun self workflow =>
    match verifyOperations workflow with
    | .error e => (.error e, self, workflow)
    | .ok () =>
      match self.costCalculator.tagOperationByAttachmentType workflow with
      | (.error e, costCalculator) => (.error e, ⟨costCalculator⟩, workflow)
      | (.ok (), costCalculator) =>
        match buildOutputData rounds costCalculator workflow with
        | .error e => (.error e, ⟨costCalculator⟩, workflow)
        | .ok out =>
          (.ok (), ⟨costCalculator⟩,
            workflow.setOutputData out.commandSequences out.frameBufferImages out.frameBuffer
              out.resourceIndex out.presentationQueueIndex)

/-- A declaration call on a workflow with its arguments: one of `addAttachmentInput`,
`addAttachmentOutput`, `addAttachmentResolveOutput`, `addAttachmentDepthOutput`,
`addBufferInput`, `addBufferOutput`. -/
inductive Declaration
  | attachmentInput (opName resourceType resourceName : String) (layout : VkImageLayout)
  | attachmentOutput (opName resourceType resourceName : String) (layout : VkImageLayout)
      (loadOp : LoadOp)
  | attachmentResolveOutput (opName resourceType resourceName resourceSource : String)
      (layout : VkImageLayout) (loadOp : LoadOp)
  | attachmentDepthOutput (opName resourceType resourceName : String) (layout : VkImageLayout)
      (loadOp : LoadOp)
  | bufferInput (opName resourceType resourceName : String) (pipelineStage accessFlags : Nat)
  | bufferOutput (opName resourceType resourceName : String) (pipelineStage accessFlags : Nat)
deriving DecidableEq, Repr

namespace Declaration

/-- The argument `opName` of a declaration call. -/
def opName : Declaration → String
  | attachmentInput o _ _ _ => o
  | attachmentOutput o _ _ _ _ => o
  | attachmentResolveOutput o _ _ _ _ _ => o
  | attachmentDepthOutput o _ _ _ _ => o
  | bufferInput o _ _ _ _ => o
  | bufferOutput o _ _ _ _ => o

/-- The argument `resourceType` of a declaration call. -/
def resourceType : Declaration → String
  | attachmentInput _ t _ _ => t
  | attachmentOutput _ t _ _ _ => t
  | attachmentResolveOutput _ t _ _ _ _ => t
  | attachmentDepthOutput _ t _ _ _ => t
  | bufferInput _ t _ _ _ => t
  | bufferOutput _ t _ _ _ => t

/-- The argument `resourceName` of a declaration call. -/
def resourceName : Declaration → String
  | attachmentInput _ _ r _ => r
  | attachmentOutput _ _ r _ _ => r
  | attachmentResolveOutput _ _ r _ _ _ => r
  | attachmentDepthOutput _ _ r _ _ => r
  | bufferInput _ _ r _ _ => r
  | bufferOutput _ _ r _ _ => r

/-- The argument `resourceSource`, which only `addAttachmentResolveOutput` has. -/
def resourceSource : Declaration → Option String
  | attachmentResolveOutput _ _ _ s _ _ => some s
  | _ => none

/-- The transition kind a declaration call gives to the transition it builds. -/
def kind : Declaration → ResourceTransitionType
  | attachmentInput _ _ _ _ => rttAttachmentInput
  | attachmentOutput _ _ _ _ _ => rttAttachmentOutput
  | attachmentResolveOutput _ _ _ _ _ _ => rttAttachmentResolveOutput
  | attachmentDepthOutput _ _ _ _ _ => rttAttachmentDepthOutput
  | bufferInput _ _ _ _ _ => rttBufferInput
  | bufferOutput _ _ _ _ _ => rttBufferOutput

/-- The declaration call made on a workflow. -/
def apply (d : Declaration) (self : RenderWorkflow) : Outcome :=
  match d with
  | attachmentInput o t r l => self.addAttachmentInput o t r l
  | attachmentOutput o t r l ld => self.addAttachmentOutput o t r l ld
  | attachmentResolveOutput o t r s l ld => self.addAttachmentResolveOutput o t r s l ld
  | attachmentDepthOutput o t r l ld => self.addAttachmentDepthOutput o t r l ld
  | bufferInput o t r ps af => self.addBufferInput o t r ps af
  | bufferOutput o t r ps af => self.addBufferOutput o t r ps af

end Declaration

/-- Method `RenderWorkflow::compile`, with the compiler object the workflow holds. -/
def RenderWorkflow.compile {σ : Type} (compile : CompileMethod σ) (compiler : σ)
    (self : RenderWorkflow) : Except WorkflowError Unit × σ × RenderWorkflow :=
  if !self.valid then
    match compile compiler self with
    | (.error e, c, w) => (.error e, c, w)
    | (.ok (), c, w) => (.ok (), c, { w with valid := true })
  else (.ok (), compiler, { self with valid := true })

/-- A call of the public interface of `RenderWorkflow` that writes to the workflow. -/
inductive Call
  | addResourceType (tp : RenderWorkflowResourceType)
  | addRenderOperation (op : RenderOperation)
  | setSceneNode (opName : String) (node : Option Addr)
  | declare (d : Declaration)
  | associateResource (resourceName : String) (resource : ResourcePtr)
  | addQueue (qt : QueueTraits)
  | compile
deriving DecidableEq, Repr

/-- Whether the call is `compile()`; every other call is a mutating call. -/
def Call.isCompile : Call → Bool
  | .compile => true
  | _ => false

/-- One call made on a workflow and its compiler. -/
def Call.apply {σ : Type} (compile : CompileMethod σ) (call : Call) (state : σ × RenderWorkflow) :
    Except WorkflowError Unit × σ × RenderWorkflow :=
  match call with
  | .addResourceType tp => ((state.2.addResourceType tp).1, state.1, (state.2.addResourceType tp).2)
  | .addRenderOperation op =>
    ((state.2.addRenderOperation op).1, state.1, (state.2.addRenderOperation op).2)
  | .setSceneNode o n => ((state.2.setSceneNode o n).1, state.1, (state.2.setSceneNode o n).2)
  | .declare d => ((d.apply state.2).1, state.1, (d.apply state.2).2)
  | .associateResource n r =>
    ((state.2.associateResource n r).1, state.1, (state.2.associateResource n r).2)
  | .addQueue qt => ((state.2.addQueue qt).1, state.1, (state.2.addQueue qt).2)
  | .compile => state.2.compile compile state.1

/-- A sequence of calls made one after the other; a call that throws leaves the objects as
they are at the throw and the next call goes on from there. -/
def runCalls {σ : Type} (compile : CompileMethod σ) :
    List Call → σ × RenderWorkflow → σ × RenderWorkflow
  | [], state => state
  | call :: rest, state => runCalls compile rest (call.apply compile state).2

/-- Bookkeeping over a sequence of calls: `true` exactly when some `compile()` of the sequence
returned without throwing and no mutating call after the last such `compile()` returned
without throwing; `clean` is the value before the first call. -/
def compiledSinceLastMutation {σ : Type} (compile : CompileMethod σ) :
    List Call → σ × RenderWorkflow → Bool → Bool
  | [], _, clean => clean
  | call :: rest, state, clean =>
    compiledSinceLastMutation compile rest (call.apply compile state).2
      (match (call.apply compile state).1 with
       | .ok () => call.isCompile
       | .error _ => clean)

/-- The attachment kinds of transition: input, output, resolve output and depth output. -/
def ResourceTransitionType.isAttachment : ResourceTransitionType → Bool
  | rttAttachmentInput => true
  | rttAttachmentOutput => true
  | rttAttachmentResolveOutput => true
  | rttAttachmentDepthOutput => true
  | _ => false

/-- The output kinds of transition: attachment output, resolve output, depth output and
buffer output. -/
def ResourceTransitionType.isOutput : ResourceTransitionType → Bool
  | rttAttachmentOutput => true
  | rttAttachmentResolveOutput => true
  | rttAttachmentDepthOutput => true
  | rttBufferOutput => true
  | _ => false

/-- The input kinds of transition: attachment input and buffer input. -/
def ResourceTransitionType.isInput : ResourceTransitionType → Bool
  | rttAttachmentInput => true
  | rttBufferInput => true
  | _ => false

/-- An operation some two of whose attachment transitions refer to resource types with
different attachment sizes. -/
def mixedAttachmentSizes (workflow : RenderWorkflow) (op : RenderOperation) : Prop :=
  ∃ t1 ∈ workflow.transitions, ∃ t2 ∈ workflow.transitions,
    t1.operation.addr = op.addr ∧ t2.operation.addr = op.addr ∧
    t1.transitionType.isAttachment = true ∧ t2.transitionType.isAttachment = true ∧
    t1.resource.resourceType.attachment.attachmentSize
      ≠ t2.resource.resourceType.attachment.attachmentSize

/-- Number of transitions of output kind on a resource. -/
def outputCount (workflow : RenderWorkflow) (resource : WorkflowResource) : Nat :=
  workflow.transitions.countP
    (fun t => t.resource.name == resource.name && t.transitionType.isOutput)

/-- The operation dependency graph on the addresses of operations: there is an edge from `a`
to `b` when the operation at `a` has a transition of output kind, and the operation at `b` a
transition of input kind, on the same resource. -/
def dependsOn (workflow : RenderWorkflow) (a b : Addr) : Prop :=
  ∃ t1 ∈ workflow.transitions, ∃ t2 ∈ workflow.transitions,
    t1.operation.addr = a ∧ t2.operation.addr = b ∧
    t1.transitionType.isOutput = true ∧ t2.transitionType.isInput = true ∧
    t1.resource.name = t2.resource.name

/-- The operation dependency graph has no cycle. -/
def Acyclic (workflow : RenderWorkflow) : Prop :=
  ∀ a, ¬ Relation.TransGen (dependsOn workflow) a a

/-- What the containers of a workflow guarantee by construction: the keys of the operation
map are distinct, distinct registered operations are distinct objects, a resource is stored
under its own name, and the resource of every transition is in the resource map. A new
workflow has these properties and every call of the interface keeps them, as long as no
operation object is registered under two names. -/
structure WellFormed (workflow : RenderWorkflow) : Prop where
  operationKeys : (workflow.renderOperations.map (fun e => e.1)).Nodup
  operationAddrs : (workflow.renderOperations.map (fun e => e.2.addr)).Nodup
  resourceNames : ∀ e ∈ workflow.resources, e.2.name = e.1
  transitionResources :
    ∀ t ∈ workflow.transitions, (workflow.resources.lookup t.resource.name).isSome = true

/-- Every transition belongs to an operation that is registered in the workflow now. -/
def TransitionsRegistered (workflow : RenderWorkflow) : Prop :=
  ∀ t ∈ workflow.transitions, ∃ e ∈ workflow.renderOperations, e.2.addr = t.operation.addr

/-- The sequence `s` schedules the operations that are not in `done`: it holds registered
operations only, each once, it holds every registered operation that is not in `done`, and
every operation consuming what an operation of `s` produces is in `done` or comes later
in `s`. -/
structure Scheduled (workflow : RenderWorkflow) (done s : List RenderOperation) : Prop where
  registered : ∀ y ∈ s, ∃ e ∈ workflow.renderOperations,
    e.2 = y ∧ y.addr ∉ done.map (fun z => z.addr)
  nodup : (s.map (fun z => z.addr)).Nodup
  complete : ∀ e ∈ workflow.renderOperations,
    e.2.addr ∉ done.map (fun z => z.addr) → e.2.addr ∈ s.map (fun z => z.addr)
  ordered : ∀ pre x post, s = pre ++ x :: post → ∀ b, dependsOn workflow x.addr b →
    b ∈ done.map (fun z => z.addr) ∨ b ∈ post.map (fun z => z.addr)

/-! ## Notions used to state the properties of tags and slots -/

/-- The position of the one bit that is set in the value of a kind of transition. -/
def ResourceTransitionType.bit : ResourceTransitionType → Nat
  | rttAttachmentInput => 0
  | rttAttachmentOutput => 1
  | rttAttachmentResolveOutput => 2
  | rttAttachmentDepthOutput => 3
  | rttBufferInput => 4
  | rttBufferOutput => 5

/-- The number of positions `i ≥ 1` of a sequence at which element `i` differs from element
`i - 1`. -/
def tagChanges {α : Type} [DecidableEq α] (tags : List α) : Nat :=
  ((List.range tags.length).filter
    (fun i => decide (1 ≤ i) && decide (tags[i]? ≠ tags[i - 1]?))).length

/-- A well formed slot table: no resource is in the slot vector twice, every index stored in
the name to slot map is smaller than the length of the slot vector, every slot index is the
image of at least one name, and the resource stored at a slot is itself mapped to that
slot. -/
structure SlotTable (resourceVector : List WorkflowResource)
    (resourceIndex : List (String × Nat)) : Prop where
  once : (resourceVector.map (fun r => r.name)).Nodup
  inRange : ∀ e ∈ resourceIndex, e.2 < resourceVector.length
  onto : ∀ i, i < resourceVector.length → ∃ n, resourceIndex.lookup n = some i
  own : ∀ i r, resourceVector[i]? = some r → resourceIndex.lookup r.name = some i

/-- The resource that a transition points to is the object that the resource map holds under
its name. The declaration calls build every transition in this way. -/
def ResourcesStored (workflow : RenderWorkflow) : Prop :=
  ∀ t ∈ workflow.transitions, workflow.resources.lookup t.resource.name = some t.resource

/-- Resources whose resource types have the same name have the same meta type. -/
def MetaTypeByName (workflow : RenderWorkflow) : Prop :=
  ∀ e1 ∈ workflow.resources, ∀ e2 ∈ workflow.resources,
    e1.2.resourceType.typeName = e2.2.resourceType.typeName →
    e1.2.resourceType.metaType = e2.2.resourceType.metaType

/-- What holds of the types in a slot table while `collectResources` runs: the resources of
the slot vector are resources of the workflow, and every name of the slot map is the name of
a resource whose type has the name of the type of the resource stored at its slot, and is an
attachment when it is not that resource itself. -/
structure SlotTyped (workflow : RenderWorkflow) (resourceVector : List WorkflowResource)
    (resourceIndex : List (String × Nat)) : Prop where
  stored : ∀ v ∈ resourceVector, workflow.resources.lookup v.name = some v
  typed : ∀ e ∈ resourceIndex, ∃ r v, workflow.resources.lookup e.1 = some r ∧
    resourceVector[e.2]? = some v ∧
    r.resourceType.typeName = v.resourceType.typeName ∧
    (e.1 ≠ v.name → r.resourceType.metaType = MetaType.Attachment)

/-- Every registered operation is stored under its own name, and the operation that a
transition points to is the object that the operation map holds under its name now. -/
structure OperationsStored (workflow : RenderWorkflow) : Prop where
  byName : ∀ e ∈ workflow.renderOperations, e.2.name = e.1
  transitions : ∀ t ∈ workflow.transitions,
    workflow.renderOperations.lookup t.operation.name = some t.operation

/-- Whether the operation has a transition of output kind on the resource of that name. -/
def generates (workflow : RenderWorkflow) (op : RenderOperation) (resourceName : String) :
    Bool :=
  workflow.transitions.any (fun t => t.operation.addr == op.addr
    && t.resource.name == resourceName && t.transitionType.isOutput)

/-- Whether the operation has a transition of input kind on the resource of that name. -/
def consumes (workflow : RenderWorkflow) (op : RenderOperation) (resourceName : String) :
    Bool :=
  workflow.transitions.any (fun t => t.operation.addr == op.addr
    && t.resource.name == resourceName && t.transitionType.isInput)

/-- The live range of a resource in a sequence of operations: the position of the first
operation that generates it, and the position of the last operation that generates or
consumes it. -/
def liveRange (workflow : RenderWorkflow) (order : List RenderOperation)
    (resourceName : String) : Nat × Nat :=
  (order.findIdx (fun op => generates workflow op resourceName),
   order.length - 1 - order.reverse.findIdx (fun op =>
     generates workflow op resourceName || consumes workflow op resourceName))

/-- Two ranges of positions overlap when neither ends before the other starts. -/
def overlap (r1 r2 : Nat × Nat) : Bool :=
  decide (r1.1 ≤ r2.2) && decide (r2.1 ≤ r1.2)

/-- An entry of the slot map passes the tests of the search for a slot to use again: the
resource it names is marked done and has a type of the given name, and every resource mapped
to the same slot is marked done. -/
def entryFits (workflow : RenderWorkflow) (resourcesDone : List (String × Bool))
    (resourceIndex : List (String × Nat)) (typeName : String) (e : String × Nat) : Prop :=
  (∃ r, workflow.resources.lookup e.1 = some r ∧ mapGet resourcesDone r.name = true ∧
    r.resourceType.typeName = typeName) ∧
  ∀ e2 ∈ resourceIndex, e2.2 = e.2 → ∃ r, workflow.resources.lookup e2.1 = some r ∧
    mapGet resourcesDone r.name = true

/-- A slot is free for a resource type name, in a state of `collectResources`: some resource
mapped to the slot is marked done and has a type of that name, and every resource mapped to
the slot is marked done. -/
def slotFree (workflow : RenderWorkflow) (resourcesDone : List (String × Bool))
    (resourceIndex : List (String × Nat)) (typeName : String) (slot : Nat) : Prop :=
  ∃ e ∈ resourceIndex, e.2 = slot ∧
    entryFits workflow resourcesDone resourceIndex typeName e

/-! ## Notions used to state the properties of commands and render passes -/

/-- The operations of a command, in the order of the command: the operations of a render
pass, the one operation of a compute pass. -/
def RenderCommand.operations : RenderCommand → List RenderOperation
  | .renderPass p => p.renderOperations
  | .computePass p => [p.computeOperation]

/-- The commands that stand for one run of operations: one new render pass that holds the
run when its first operation is a graphics operation, one compute pass for each operation of
the run otherwise. -/
def commandsOfGroup (run : List RenderOperation) : List RenderCommand :=
  if run.head?.map (fun op => op.operationType) = some RenderOperation.Type.Graphics then
    [RenderCommand.renderPass ⟨run, [], [], [], []⟩]
  else run.map (fun op => RenderCommand.computePass ⟨op⟩)

/-- The dependency joins the two subpasses, and its masks and flags hold every bit of the
given stage masks, access masks and flags. -/
def SubpassDependencyDefinition.includes (dep : SubpassDependencyDefinition)
    (srcSubpass dstSubpass : Nat) (stage access : Nat × Nat) (flags : Nat) : Prop :=
  dep.srcSubpass = srcSubpass ∧ dep.dstSubpass = dstSubpass ∧
  dep.srcStageMask &&& stage.1 = stage.1 ∧ dep.dstStageMask &&& stage.2 = stage.2 ∧
  dep.srcAccessMask &&& access.1 = access.1 ∧ dep.dstAccessMask &&& access.2 = access.2 ∧
  dep.dependencyFlags &&& flags = flags

instance (dep : SubpassDependencyDefinition) (srcSubpass dstSubpass : Nat)
    (stage access : Nat × Nat) (flags : Nat) :
    Decidable (dep.includes srcSubpass dstSubpass stage access flags) := by
  unfold SubpassDependencyDefinition.includes
  infer_instance

/-- The operation has an output transition on the resource of the given name. -/
def RenderWorkflow.outputsOn (workflow : RenderWorkflow) (resourceName : String)
    (operation : RenderOperation) : Bool :=
  match workflow.getOperationIO operation.name rttAllOutputs with
  | .ok outputTransitions => outputTransitions.any (fun t => t.resource.name == resourceName)
  | .error _ => false

/-- The index of the latest operation of the list that has an output transition on the
resource of the given name. -/
def RenderWorkflow.latestOutput (workflow : RenderWorkflow) (resourceName : String)
    (operations : List RenderOperation) : Option Nat :=
  ((List.range operations.length).filter (fun index =>
    match operations[index]? with
    | some operation => workflow.outputsOn resourceName operation
    | none => false)).getLast?

/-- An edge of the operation dependency graph that ends outside the render pass: the
operation at `b` reads what the operation at `a` writes and is not an operation of the
pass. -/
def leavesPass (workflow : RenderWorkflow) (passOperations : List RenderOperation)
    (a b : Addr) : Prop :=
  dependsOn workflow a b ∧ b ∉ passOperations.map (fun op => op.addr)

/-- The resource of that name is read downstream of the render pass: an operation that is
reached from an operation of the pass along edges of the dependency graph that end outside
the pass has a transition of input kind on it. -/
def usedAfterPass (workflow : RenderWorkflow) (passOperations : List RenderOperation)
    (resourceName : String) : Prop :=
  ∃ operation ∈ passOperations, ∃ b,
    Relation.TransGen (leavesPass workflow passOperations) operation.addr b ∧
    ∃ t ∈ workflow.transitions, t.operation.addr = b ∧ t.transitionType.isInput = true ∧
      t.resource.name = resourceName

/-! ## Glyphs on the font texture -/

/-- The constant `PUMEX_GLYPH_MARGIN` of `Text.cpp`. -/
def PUMEX_GLYPH_MARGIN : Nat := 4

/-- Conversion of an integer to `uint32_t` (the usual arithmetic conversion of an `int`
operand that meets an `unsigned int` operand). -/
def toUInt32 (z : Int) : Nat := (z % 4294967296).toNat

/-- Conversion of an unsigned 32 bit value to `int`. -/
def toInt32 (n : Nat) : Int :=
  if n % 4294967296 < 2147483648 then (n % 4294967296 : Nat)
  else ((n % 4294967296 : Nat) : Int) - 4294967296

/-- The fields of `fontFace->glyph` that `Font::getGlyphIndex` reads after `FT_Load_Char`:
the width and the rows of the bitmap, `bitmap_left`, `bitmap_top` and `advance.x`. -/
structure GlyphSlot where
  width : Nat
  rows : Nat
  bitmap_left : Int
  bitmap_top : Int
  advance : Int
deriving DecidableEq, Repr

/-- The struct `GlyphData`. The texture coordinates are quotients of `float`s: they are kept
as their four numerators, the denominators being the sizes of the texture; the bearing is
kept in whole numbers, its third component being a sum of an `int` and an unsigned value and
so a 32 bit unsigned number, and the advance in units of 1/64. -/
structure GlyphData where
  texCoords : Int × Int × Nat × Nat
  bearing : Int × Int × Nat × Int
  advance : Int
deriving DecidableEq, Repr

/-- The exceptions that `Font::getGlyphIndex` throws. -/
inductive FontError
  | cannotLoadGlyph
  | outOfMemoryForNewGlyph
deriving DecidableEq, Repr

/-- The members of `Font` that `Font::getGlyphIndex` uses. The texels of `fontTexture2d` are
not kept: `copies` holds, for every call of `std::memcpy` made so far, the offset of the
destination from the first texel and the number of texels copied. The constructor takes the
texture size as `glm::ivec2` and the pixel height as `uint32_t`, and sets the last registered
position from a `glm::ivec2`. -/
structure Font where
  textureSize : Int × Int
  fontPixelHeight : Nat
  lastRegisteredPosition : Int × Int
  registeredGlyphs : List (Nat × Nat)
  glyphData : List GlyphData
  copies : List (Int × Nat)
deriving DecidableEq, Repr

namespace Font

/-- The members as the constructor `Font::Font` sets them before it registers the first 128
char codes. -/
def create (ts : Int × Int) (fph : Nat) : Font :=
  ⟨ts, fph, (PUMEX_GLYPH_MARGIN, PUMEX_GLYPH_MARGIN), [], [], []⟩

/-- The loop of `Font::getGlyphIndex` that copies the bitmap row by row: the destination of
row `i` starts at texel `firstTexel.x + textureSize.x * firstTexel.y` with `firstTexel` the
last registered position moved down by `i`. -/
def copyRows (textureSize position : Int × Int) (glyph : GlyphSlot) : List (Int × Nat) :=
  (List.range glyph.rows).map (fun i =>
    let firstTexel : Int × Int := (position.1, toInt32 (toUInt32 (position.2 + i)))
    (firstTexel.1 + textureSize.1 * firstTexel.2, glyph.width))

/-- Method `Font::getGlyphIndex`. The second argument is what `FT_Load_Char` leaves in
`fontFace->glyph`, `none` when it fails. The sums of an `int` and an unsigned value are made
in 32 bit unsigned arithmetic. -/
def getGlyphIndex (self : Font) (charCode : Nat) (loaded : Option GlyphSlot) :
    Except FontError Nat × Font :=
  match self.registeredGlyphs.lookup charCode with
  | some index => (.ok index, self)
  | none =>
    match loaded with
    | none => (.error .cannotLoadGlyph, self)
    | some glyph =>
      let wrap : Bool :=
        decide (toUInt32 (self.lastRegisteredPosition.1 + glyph.width) ≥
          toUInt32 (self.textureSize.1 - PUMEX_GLYPH_MARGIN))
      let position : Int × Int :=
        if wrap then
          ((PUMEX_GLYPH_MARGIN : Int),
           toInt32 ((toUInt32 self.lastRegisteredPosition.2 +
             (self.fontPixelHeight + PUMEX_GLYPH_MARGIN) % 4294967296) % 4294967296))
        else self.lastRegisteredPosition
      if wrap && decide (position.2 ≥ self.textureSize.2) then
        (.error .outOfMemoryForNewGlyph, { self with lastRegisteredPosition := position })
      else
        let data : GlyphData :=
          ⟨(position.1, position.2, toUInt32 (position.1 + glyph.width),
              toUInt32 (position.2 + glyph.rows)),
           (glyph.bitmap_left, -glyph.bitmap_top, toUInt32 (glyph.bitmap_left + glyph.width),
              -glyph.bitmap_top + glyph.rows),
           glyph.advance⟩
        let glyphData := self.glyphData ++ [data]
        (.ok (glyphData.length - 1),
         { self with
           lastRegisteredPosition :=
             (toInt32 ((toUInt32 position.1 +
               (glyph.width + PUMEX_GLYPH_MARGIN) % 4294967296) % 4294967296), position.2),
           registeredGlyphs := self.registeredGlyphs ++ [(charCode, glyphData.length - 1)],
           glyphData := glyphData,
           copies := self.copies ++ copyRows self.textureSize position glyph })

/-- The loop `for (wchar_t c = 0; c < 128; ++c) getGlyphIndex(c);` of the constructor, from
char code `c` on, with the rasteriser as a function of the char code. -/
def registerFrom (rasteriser : Nat → Option GlyphSlot) :
    List Nat → Font → Except FontError Unit × Font
  | [], self => (.ok (), self)
  | c :: rest, self =>
    match self.getGlyphIndex c (rasteriser c) with
    | (.error e, self1) => (.error e, self1)
    | (.ok _, self1) => registerFrom rasteriser rest self1

/-- The constructor `Font::Font`, the loading of the font file left out. -/
def new (ts : Int × Int) (fph : Nat) (rasteriser : Nat → Option GlyphSlot) :
    Except FontError Unit × Font :=
  registerFrom rasteriser (List.range 128) (create ts fph)

end Font

/-! ## Notions used to state the properties of attachment layouts -/

/-- The render passes among the commands of a sequence, in the order of the sequence. -/
def renderPassesOf (commands : List RenderCommand) : List RenderPass :=
  commands.filterMap (fun c =>
    match c with
    | RenderCommand.renderPass p => some p
    | RenderCommand.computePass _ => none)

/-- The index that the read `attachmentIndex[name]` gives: the index stored for the name, and
0 for a name that the map does not hold. -/
def attachmentIndexOf (attachmentIndex : List (String × Nat)) (name : String) : Nat :=
  (attachmentIndex.lookup name).getD 0

/-- A transition of the operations touches the attachment with index `i`: the workflow gives
it as an input or an output transition for the name of one of the operations, its resource
is of a type of attachments, and the index of its resource is `i`. -/
def RenderWorkflow.touches (workflow : RenderWorkflow) (attachmentIndex : List (String × Nat))
    (operations : List RenderOperation) (i : Nat) : Prop :=
  ∃ op ∈ operations, ∃ ts t,
    (workflow.getOperationIO op.name rttAllInputs = .ok ts ∨
      workflow.getOperationIO op.name rttAllOutputs = .ok ts) ∧
    t ∈ ts ∧ t.resource.resourceType.metaType = MetaType.Attachment ∧
    attachmentIndexOf attachmentIndex t.resource.name = i

/-- The layouts chain through a list of render passes, from the layouts `first` to the
layouts `last`: every attachment of a pass has as initial layout the layout that its index
has before the pass and as final layout the one it has after the pass, an index that no
transition of the pass touches has the same layout before and after, and the layouts after a
pass are the layouts before the next. -/
def LayoutChain (workflow : RenderWorkflow) (attachmentIndex : List (String × Nat)) :
    List VkImageLayout → List RenderPass → List VkImageLayout → Prop
  | first, [], last => last = first
  | first, p :: rest, last =>
    ∃ next : List VkImageLayout,
      (∀ a ∈ p.attachments, first[a.imageDefinitionIndex]? = some a.initialLayout ∧
        next[a.imageDefinitionIndex]? = some a.finalLayout) ∧
      (∀ i, ¬ workflow.touches attachmentIndex p.renderOperations i → next[i]? = first[i]?) ∧
      LayoutChain workflow attachmentIndex next rest last

/-! ## Workflows used as examples -/

namespace Sample

/-- A depth attachment type of absolute size 1024 x 1024. -/
def depthType : RenderWorkflowResourceType :=
  ⟨100, .Attachment, "depth", false, ⟨126, 1, .atDepth, ⟨.Absolute, ⟨1024, 1024, 1⟩⟩⟩⟩

/-- The type of the presentable surface, of the size of the surface. -/
def surfaceType : RenderWorkflowResourceType :=
  ⟨101, .Attachment, "surface", true, ⟨44, 1, .atSurface, ⟨.SurfaceDependent, ⟨1, 1, 1⟩⟩⟩⟩

/-- A graphics operation named Shadow. -/
def shadow : RenderOperation :=
  ⟨1, "Shadow", .Graphics, ⟨.SurfaceDependent, ⟨1, 1, 1⟩⟩, 0, none⟩

/-- A graphics operation named Main. -/
def main : RenderOperation :=
  ⟨2, "Main", .Graphics, ⟨.SurfaceDependent, ⟨1, 1, 1⟩⟩, 0, none⟩

/-- Another operation object that is also named Main. -/
def mainAgain : RenderOperation :=
  ⟨3, "Main", .Graphics, ⟨.SurfaceDependent, ⟨1, 1, 1⟩⟩, 0, none⟩

/-- A new workflow with the two types and the operations Shadow and Main registered. -/
def registered : RenderWorkflow :=
  ((((RenderWorkflow.new "sample" 7).addResourceType depthType).2.addResourceType
    surfaceType).2.addRenderOperation shadow).2.addRenderOperation main |>.2

/-- Shadow writes the depth attachment `shadowmap`. -/
def shadowDeclared : RenderWorkflow :=
  (registered.addAttachmentDepthOutput "Shadow" "depth" "shadowmap"
    .DEPTH_STENCIL_ATTACHMENT_OPTIMAL loadOpLoad).2

/-- Shadow writes `shadowmap`; Main reads it and writes the surface `color`. -/
def shadowMain : RenderWorkflow :=
  ((shadowDeclared.addAttachmentInput "Main" "depth" "shadowmap"
    .SHADER_READ_ONLY_OPTIMAL).2.addAttachmentOutput "Main" "surface" "color"
    .COLOR_ATTACHMENT_OPTIMAL loadOpLoad).2

/-- As `shadowMain`, and then a second operation object is registered under the name Main. -/
def mainReplaced : RenderWorkflow :=
  (shadowMain.addRenderOperation mainAgain).2

/-- As `mainReplaced`, and then the operation now registered as Main reads `shadowmap`
too. -/
def mainReplacedReads : RenderWorkflow :=
  (mainReplaced.addAttachmentInput "Main" "depth" "shadowmap" .SHADER_READ_ONLY_OPTIMAL).2

/-- Shadow and Main both write the surface `color`. -/
def twoProducers : RenderWorkflow :=
  ((registered.addAttachmentOutput "Shadow" "surface" "color"
    .COLOR_ATTACHMENT_OPTIMAL loadOpLoad).2.addAttachmentOutput "Main" "surface" "color"
    .COLOR_ATTACHMENT_OPTIMAL loadOpLoad).2

/-- Main clears and writes the surface `color`; Shadow does nothing. -/
def colorOnly : RenderWorkflow :=
  (registered.addAttachmentOutput "Main" "surface" "color"
    .COLOR_ATTACHMENT_OPTIMAL ⟨.Clear, ⟨0, 0, 0, 1⟩⟩).2

/-- A compiler object before its first use. -/
def compiler : SingleQueueWorkflowCompiler := ⟨⟨[]⟩⟩

/-- A colour attachment type of the size of the surface. -/
def colorType : RenderWorkflowResourceType :=
  ⟨102, .Attachment, "color", false, ⟨37, 1, .atColor, ⟨.SurfaceDependent, ⟨1, 1, 1⟩⟩⟩⟩

/-- A second colour attachment type of the same size, under another name. -/
def maskType : RenderWorkflowResourceType :=
  ⟨103, .Attachment, "mask", false, ⟨9, 1, .atColor, ⟨.SurfaceDependent, ⟨1, 1, 1⟩⟩⟩⟩

/-- A buffer type named data. -/
def dataBufferType : RenderWorkflowResourceType :=
  ⟨104, .Buffer, "data", false, ⟨0, 0, .atUndefined, ⟨.Undefined, ⟨0, 0, 0⟩⟩⟩⟩

/-- An attachment type that is also named data. -/
def dataAttachmentType : RenderWorkflowResourceType :=
  ⟨105, .Attachment, "data", false, ⟨37, 1, .atColor, ⟨.SurfaceDependent, ⟨1, 1, 1⟩⟩⟩⟩

/-- A graphics operation named A. -/
def opA : RenderOperation := ⟨11, "A", .Graphics, ⟨.SurfaceDependent, ⟨1, 1, 1⟩⟩, 0, none⟩

/-- A graphics operation named B. -/
def opB : RenderOperation := ⟨12, "B", .Graphics, ⟨.SurfaceDependent, ⟨1, 1, 1⟩⟩, 0, none⟩

/-- A graphics operation named C. -/
def opC : RenderOperation := ⟨13, "C", .Graphics, ⟨.SurfaceDependent, ⟨1, 1, 1⟩⟩, 0, none⟩

/-- A graphics operation named D. -/
def opD : RenderOperation := ⟨14, "D", .Graphics, ⟨.SurfaceDependent, ⟨1, 1, 1⟩⟩, 0, none⟩

/-- A graphics operation named E. -/
def opE : RenderOperation := ⟨15, "E", .Graphics, ⟨.SurfaceDependent, ⟨1, 1, 1⟩⟩, 0, none⟩

/-- A compute operation named Cull. -/
def cull : RenderOperation := ⟨16, "Cull", .Compute, ⟨.SurfaceDependent, ⟨1, 1, 1⟩⟩, 0, none⟩

/-- The workflow after the declaration calls of a list, made one after the other. -/
def declared (workflow : RenderWorkflow) (declarations : List Declaration) : RenderWorkflow :=
  declarations.foldl (fun w d => (d.apply w).2) workflow

/-- A new workflow with the types color and mask and the operations A to E registered. -/
def fiveOperations : RenderWorkflow :=
  [opA, opB, opC, opD, opE].foldl (fun w op => (w.addRenderOperation op).2)
    (((RenderWorkflow.new "five" 7).addResourceType colorType).2.addResourceType maskType).2

/-- A writes a; B reads a and writes b; C reads b and writes c; D reads c and writes d;
E reads d. -/
def chain : RenderWorkflow :=
  declared fiveOperations
    [.attachmentOutput "A" "color" "a" .COLOR_ATTACHMENT_OPTIMAL loadOpLoad,
     .attachmentInput "B" "color" "a" .SHADER_READ_ONLY_OPTIMAL,
     .attachmentOutput "B" "color" "b" .COLOR_ATTACHMENT_OPTIMAL loadOpLoad,
     .attachmentInput "C" "color" "b" .SHADER_READ_ONLY_OPTIMAL,
     .attachmentOutput "C" "color" "c" .COLOR_ATTACHMENT_OPTIMAL loadOpLoad,
     .attachmentInput "D" "color" "c" .SHADER_READ_ONLY_OPTIMAL,
     .attachmentOutput "D" "color" "d" .COLOR_ATTACHMENT_OPTIMAL loadOpLoad,
     .attachmentInput "E" "color" "d" .SHADER_READ_ONLY_OPTIMAL]

/-- A writes z and a; B reads z and a; D reads z and writes g; C reads a; E reads g. -/
def earlyDone : RenderWorkflow :=
  declared fiveOperations
    [.attachmentOutput "A" "mask" "z" .COLOR_ATTACHMENT_OPTIMAL loadOpLoad,
     .attachmentOutput "A" "color" "a" .COLOR_ATTACHMENT_OPTIMAL loadOpLoad,
     .attachmentInput "B" "mask" "z" .SHADER_READ_ONLY_OPTIMAL,
     .attachmentInput "D" "mask" "z" .SHADER_READ_ONLY_OPTIMAL,
     .attachmentOutput "D" "color" "g" .COLOR_ATTACHMENT_OPTIMAL loadOpLoad,
     .attachmentInput "B" "color" "a" .SHADER_READ_ONLY_OPTIMAL,
     .attachmentInput "C" "color" "a" .SHADER_READ_ONLY_OPTIMAL,
     .attachmentInput "E" "color" "g" .SHADER_READ_ONLY_OPTIMAL]

/-- A writes the buffer buf of type data and B reads it and writes mid. -/
def bufferFirst : RenderWorkflow :=
  declared (fiveOperations.addResourceType dataBufferType).2
    [.bufferOutput "A" "data" "buf" 2048 64,
     .bufferInput "B" "data" "buf" 128 32,
     .attachmentOutput "B" "color" "mid" .COLOR_ATTACHMENT_OPTIMAL loadOpLoad]

/-- As `bufferFirst`; then the name data is given to an attachment type, and C reads mid and
writes the attachment att of type data. -/
def retyped : RenderWorkflow :=
  declared (bufferFirst.addResourceType dataAttachmentType).2
    [.attachmentInput "C" "color" "mid" .SHADER_READ_ONLY_OPTIMAL,
     .attachmentOutput "C" "data" "att" .COLOR_ATTACHMENT_OPTIMAL loadOpLoad]

/-- Shadow writes `shadowmap` of absolute size, Main writes `color` of the size of the
surface. -/
def twoSizes : RenderWorkflow :=
  (shadowDeclared.addAttachmentOutput "Main" "surface" "color"
    .COLOR_ATTACHMENT_OPTIMAL loadOpLoad).2

/-- As `twoSizes`, with the compute operation Cull registered too. -/
def withCompute : RenderWorkflow :=
  (twoSizes.addRenderOperation cull).2

/-- The state of `collectResources` on `chain` when the operation C, taken from
`nextOperations`, is about to give a slot to its output c: a and b have the slots 0 and 1,
and a is marked done. -/
def chainAtC : CollectState :=
  { nextOperations := [],
    resourcesGenerated := [("a", true), ("b", true), ("c", true), ("d", false)],
    resourcesDone := [("a", true), ("b", false), ("c", false), ("d", false)],
    sortedOperations := [opA, opB, opC],
    resourceVector := [⟨"a", colorType⟩, ⟨"b", colorType⟩],
    resourceIndex := [("a", 0), ("b", 1)] }

/-- A new workflow with the types surface and data and the one operation Main registered. -/
def single : RenderWorkflow :=
  (((RenderWorkflow.new "single" 7).addResourceType surfaceType).2.addResourceType
    dataBufferType).2.addRenderOperation main |>.2

/-- Main clears and writes the surface `color`, and has no other transition. -/
def clearOnly : RenderWorkflow :=
  declared single
    [.attachmentOutput "Main" "surface" "color" .COLOR_ATTACHMENT_OPTIMAL
      ⟨.Clear, ⟨0, 0, 0, 1⟩⟩]

/-- Main reads the buffer `params`, which no operation writes, and writes the surface
`color`. -/
def externalInput : RenderWorkflow :=
  declared single
    [.bufferInput "Main" "data" "params" VK_PIPELINE_STAGE_FRAGMENT_SHADER_BIT
      VK_ACCESS_SHADER_READ_BIT,
     .attachmentOutput "Main" "surface" "color" .COLOR_ATTACHMENT_OPTIMAL
      ⟨.Clear, ⟨0, 0, 0, 1⟩⟩]

/-- A new workflow with the types color, mask and data and the operations A, Cull and B
registered. -/
def threeOperations : RenderWorkflow :=
  [opA, cull, opB].foldl (fun w op => (w.addRenderOperation op).2)
    ((((RenderWorkflow.new "three" 7).addResourceType colorType).2.addResourceType
      maskType).2.addResourceType dataBufferType).2

/-- A writes the attachment a; Cull reads a and writes the buffer u; B reads u and writes the
attachment r. -/
def laterOutput : RenderWorkflow :=
  declared threeOperations
    [.attachmentOutput "A" "color" "a" .COLOR_ATTACHMENT_OPTIMAL loadOpLoad,
     .attachmentInput "Cull" "color" "a" .SHADER_READ_ONLY_OPTIMAL,
     .bufferOutput "Cull" "data" "u" VK_PIPELINE_STAGE_COMPUTE_SHADER_BIT 64,
     .bufferInput "B" "data" "u" VK_PIPELINE_STAGE_FRAGMENT_SHADER_BIT
       VK_ACCESS_SHADER_READ_BIT,
     .attachmentOutput "B" "mask" "r" .COLOR_ATTACHMENT_OPTIMAL loadOpLoad]

/-- A new workflow with the types mask and data and the operations Cull and B registered. -/
def twoOperations : RenderWorkflow :=
  [cull, opB].foldl (fun w op => (w.addRenderOperation op).2)
    (((RenderWorkflow.new "two" 7).addResourceType maskType).2.addResourceType
      dataBufferType).2

/-- Cull writes the buffer `u` with the stage flag of the bottom of the pipe, B reads it
with the stage flag of all commands, both with no access flag, and B writes the attachment
`r`. -/
def plainBuffer : RenderWorkflow :=
  declared twoOperations
    [.bufferOutput "Cull" "data" "u" VK_PIPELINE_STAGE_BOTTOM_OF_PIPE_BIT 0,
     .bufferInput "B" "data" "u" VK_PIPELINE_STAGE_ALL_COMMANDS_BIT 0,
     .attachmentOutput "B" "mask" "r" .COLOR_ATTACHMENT_OPTIMAL loadOpLoad]

/-- A compute operation named Sort, whose object lies before those of A and B. -/
def sort : RenderOperation := ⟨10, "Sort", .Compute, ⟨.SurfaceDependent, ⟨1, 1, 1⟩⟩, 0, none⟩

/-- A new workflow with the types color and data and the operations Sort, A and B
registered. -/
def sortOperations : RenderWorkflow :=
  [sort, opA, opB].foldl (fun w op => (w.addRenderOperation op).2)
    (((RenderWorkflow.new "sorted" 7).addResourceType colorType).2.addResourceType
      dataBufferType).2

/-- Sort writes the buffer u, A writes the attachment a, and B reads both and writes the
attachment r. -/
def sortFirst : RenderWorkflow :=
  declared sortOperations
    [.bufferOutput "Sort" "data" "u" VK_PIPELINE_STAGE_COMPUTE_SHADER_BIT 64,
     .attachmentOutput "A" "color" "a" .COLOR_ATTACHMENT_OPTIMAL loadOpLoad,
     .bufferInput "B" "data" "u" VK_PIPELINE_STAGE_FRAGMENT_SHADER_BIT
       VK_ACCESS_SHADER_READ_BIT,
     .attachmentInput "B" "color" "a" .SHADER_READ_ONLY_OPTIMAL,
     .attachmentOutput "B" "color" "r" .COLOR_ATTACHMENT_OPTIMAL loadOpLoad]

/-- The tags that `tagOperationByAttachmentType` gives on `sortFirst`. -/
def sortFirstTags : StandardRenderWorkflowCostCalculator :=
  (compiler.costCalculator.tagOperationByAttachmentType sortFirst).2

/-- A glyph of 8 by 14 texels. -/
def glyph : GlyphSlot := ⟨8, 14, 0, 12, 640⟩

/-- A glyph of 14 by 2 texels. -/
def wideGlyph : GlyphSlot := ⟨14, 2, 0, 2, 1024⟩

end Sample

/-! ## Theorems -/

open RenderWorkflow

theorem lookup_append_new {V : Type} (m : List (String × V)) (k : String) (v : V)
    (h : m.lookup k = none) : (m ++ [(k, v)]).lookup k = some v := by
  induction m with
  | nil => simp [List.lookup]
  | cons e rest ih =>
    obtain ⟨k1, v1⟩ := e
    simp only [List.cons_append]
    by_cases hk : k = k1
    · subst hk; simp [List.lookup] at h
    · have hb : (k == k1) = false := by simpa using hk
      simp only [List.lookup, hb] at h ⊢
      exact ih h

theorem findOrInsertResource_cases (self : RenderWorkflow) (tp : RenderWorkflowResourceType)
    (resourceName : String) :
    (self.resources.lookup resourceName = none ∧
      self.findOrInsertResource tp resourceName =
        (.ok ⟨resourceName, tp⟩,
          { self with resources := self.resources ++ [(resourceName, ⟨resourceName, tp⟩)] }))
    ∨ (∃ res, self.resources.lookup resourceName = some res ∧ tp.addr = res.resourceType.addr ∧
        self.findOrInsertResource tp resourceName = (.ok res, self))
    ∨ (∃ res, self.resources.lookup resourceName = some res ∧ tp.addr ≠ res.resourceType.addr ∧
        self.findOrInsertResource tp resourceName = (.error .ambiguousType, self)) := by
  unfold findOrInsertResource
  cases h : self.resources.lookup resourceName with
  | none => left; simp
  | some res =>
    right
    by_cases ha : tp.addr = res.resourceType.addr
    · left; exact ⟨res, rfl, ha, by simp [ha]⟩
    · right; exact ⟨res, rfl, ha, by simp [ha]⟩

theorem Declaration.apply_noOperation (d : Declaration) (self : RenderWorkflow)
    (hop : self.renderOperations.lookup d.opName = none) :
    d.apply self = (.error (.noOperation d.opName), self) := by
  cases d <;> simp only [Declaration.opName] at hop ⊢ <;>
    simp only [Declaration.apply, addAttachmentInput, addAttachmentOutput,
      addAttachmentResolveOutput, addAttachmentDepthOutput, addBufferInput, addBufferOutput,
      addTransition, getRenderOperation, hop]

theorem Declaration.apply_noResourceType (d : Declaration) (self : RenderWorkflow)
    (op : RenderOperation) (hop : self.renderOperations.lookup d.opName = some op)
    (hty : self.resourceTypes.lookup d.resourceType = none) :
    d.apply self = (.error (.noResourceType d.resourceType), self) := by
  cases d <;> simp only [Declaration.opName, Declaration.resourceType] at hop hty ⊢ <;>
    simp only [Declaration.apply, addAttachmentInput, addAttachmentOutput,
      addAttachmentResolveOutput, addAttachmentDepthOutput, addBufferInput, addBufferOutput,
      addTransition, getRenderOperation, getResourceType, hop, hty]

theorem Declaration.apply_found (d : Declaration) (self : RenderWorkflow)
    (op : RenderOperation) (tp : RenderWorkflowResourceType)
    (hop : self.renderOperations.lookup d.opName = some op)
    (hty : self.resourceTypes.lookup d.resourceType = some tp) :
    (∃ e, (self.findOrInsertResource tp d.resourceName).1 = .error e ∧
        d.apply self = (.error e, (self.findOrInsertResource tp d.resourceName).2))
    ∨ (∃ res, (self.findOrInsertResource tp d.resourceName).1 = .ok res ∧
        ((∃ s, d.resourceSource = some s ∧
            (self.findOrInsertResource tp d.resourceName).2.resources.lookup s = none ∧
            d.apply self = (.error .nonexistingResolveResource,
              (self.findOrInsertResource tp d.resourceName).2))
         ∨ (∃ t : ResourceTransition, t.operation = op ∧ t.resource = res ∧
            t.transitionType = d.kind ∧
            (∀ s, d.resourceSource = some s →
              ((self.findOrInsertResource tp d.resourceName).2.resources.lookup s).isSome) ∧
            d.apply self = (.ok (),
              { (self.findOrInsertResource tp d.resourceName).2 with
                transitions :=
                  (self.findOrInsertResource tp d.resourceName).2.transitions ++ [t],
                valid := false })))) := by
  rcases hf : self.findOrInsertResource tp d.resourceName with ⟨r, w⟩
  cases r with
  | error e =>
    left
    refine ⟨e, rfl, ?_⟩
    cases d <;>
      simp only [Declaration.opName, Declaration.resourceType, Declaration.resourceName]
        at hop hty hf ⊢ <;>
      simp only [Declaration.apply, addAttachmentInput, addAttachmentOutput,
        addAttachmentResolveOutput, addAttachmentDepthOutput, addBufferInput, addBufferOutput,
        addTransition, getRenderOperation, getResourceType, hop, hty, hf]
  | ok res =>
    right
    refine ⟨res, rfl, ?_⟩
    cases d
    case attachmentResolveOutput o ty r s l ld =>
      simp only [Declaration.opName, Declaration.resourceType, Declaration.resourceName] at hop hty hf
      cases hs : w.resources.lookup s with
      | none =>
        left
        exact ⟨s, rfl, hs, by
          simp [Declaration.apply, addAttachmentResolveOutput, getRenderOperation,
            getResourceType, hop, hty, hf, hs]⟩
      | some resolve =>
        right
        refine ⟨{ ResourceTransition.mkAttachment op res rttAttachmentResolveOutput l ld with
                  resolveResource := some resolve }, rfl, rfl, rfl, ?_, ?_⟩
        · intro s1 hs1
          simp only [Declaration.resourceSource, Option.some.injEq] at hs1
          subst hs1
          simp [hs]
        · simp [Declaration.apply, addAttachmentResolveOutput, getRenderOperation,
            getResourceType, hop, hty, hf, hs]
    all_goals
      right
      simp only [Declaration.opName, Declaration.resourceType, Declaration.resourceName] at hop hty hf
      simp only [Declaration.apply, Declaration.resourceSource, Declaration.kind,
        addAttachmentInput, addAttachmentOutput, addAttachmentDepthOutput, addBufferInput,
        addBufferOutput, addTransition, getRenderOperation, getResourceType, hop, hty, hf]
      exact ⟨_, rfl, rfl, rfl, by simp, rfl⟩

theorem inFlags_rttAllAttachments (t : ResourceTransitionType) :
    t.inFlags rttAllAttachments = t.isAttachment := by
  cases t <;> decide

theorem inFlags_rttAllOutputs (t : ResourceTransitionType) :
    t.inFlags rttAllOutputs = t.isOutput := by
  cases t <;> decide

theorem inFlags_rttAllInputs (t : ResourceTransitionType) :
    t.inFlags rttAllInputs = t.isInput := by
  cases t <;> decide

theorem AttachmentSize.ne_iff (a b : AttachmentSize) : AttachmentSize.ne a b = true ↔ a ≠ b := by
  cases a; cases b
  simp only [AttachmentSize.ne, ne_eq, AttachmentSize.mk.injEq, Bool.or_eq_true, bne_iff_ne]
  tauto

theorem AttachmentSize.eq_iff (a b : AttachmentSize) : AttachmentSize.eq a b = true ↔ a = b := by
  cases a; cases b
  simp [AttachmentSize.eq]

theorem sameSize_iff (l : List AttachmentSize) :
    sameSize l = true ↔ ∀ a ∈ l, ∀ b ∈ l, a = b := by
  induction l with
  | nil => simp [sameSize]
  | cons a rest ih =>
    cases rest with
    | nil => simp [sameSize]
    | cons b rest2 =>
      unfold sameSize
      by_cases hab : a = b
      · subst hab
        have hne : AttachmentSize.ne a a = false := by
          cases h : AttachmentSize.ne a a
          · rfl
          · exact absurd rfl ((AttachmentSize.ne_iff a a).mp h)
        simp only [hne, Bool.false_eq_true, if_false, ih]
        constructor
        · intro h x hx y hy
          have hx' : x ∈ a :: rest2 := by
            rcases List.mem_cons.mp hx with rfl | hx
            · exact List.mem_cons_self _ _
            · exact hx
          have hy' : y ∈ a :: rest2 := by
            rcases List.mem_cons.mp hy with rfl | hy
            · exact List.mem_cons_self _ _
            · exact hy
          exact h x hx' y hy'
        · intro h x hx y hy
          exact h x (List.mem_cons_of_mem _ hx) y (List.mem_cons_of_mem _ hy)
      · have hne : AttachmentSize.ne a b = true := (AttachmentSize.ne_iff a b).mpr hab
        simp only [hne, if_true, Bool.false_eq_true, false_iff]
        intro h
        exact hab (h a (List.mem_cons_self _ _) b
          (List.mem_cons_of_mem _ (List.mem_cons_self _ _)))

theorem lookup_isSome_of_mem {V : Type} (m : List (String × V)) (k : String) (v : V)
    (h : (k, v) ∈ m) : ∃ v1, m.lookup k = some v1 := by
  induction m with
  | nil => simp at h
  | cons e rest ih =>
    obtain ⟨k1, v1⟩ := e
    by_cases hk : k = k1
    · subst hk; exact ⟨v1, by simp [List.lookup]⟩
    · have hb : (k == k1) = false := by simpa using hk
      rcases List.mem_cons.mp h with heq | hmem
      · simp only [Prod.mk.injEq] at heq; exact absurd heq.1 hk
      · obtain ⟨v2, hv2⟩ := ih hmem
        exact ⟨v2, by simp [List.lookup, hb, hv2]⟩

theorem mem_of_lookup {V : Type} (m : List (String × V)) (k : String) (v : V)
    (h : m.lookup k = some v) : (k, v) ∈ m := by
  induction m with
  | nil => simp [List.lookup] at h
  | cons e rest ih =>
    obtain ⟨k1, v1⟩ := e
    by_cases hk : k = k1
    · subst hk
      simp [List.lookup] at h
      subst h
      exact List.mem_cons_self _ _
    · have hb : (k == k1) = false := by simpa using hk
      simp only [List.lookup, hb] at h
      exact List.mem_cons_of_mem _ (ih h)

theorem getOperationIO_eq (workflow : RenderWorkflow) (n : String) (op : RenderOperation)
    (flags : ResourceTransitionTypeFlags)
    (h : workflow.renderOperations.lookup n = some op) :
    workflow.getOperationIO n flags = .ok (workflow.transitions.filter
      (fun c => c.operation.addr == op.addr && c.transitionType.inFlags flags)) := by
  simp [ getOperationIO, getRenderOperation, h]

theorem getResourceIO_eq (workflow : RenderWorkflow) (n : String) (r : WorkflowResource)
    (flags : ResourceTransitionTypeFlags)
    (h : workflow.resources.lookup n = some r) :
    workflow.getResourceIO n flags = .ok (workflow.transitions.filter
      (fun c => c.resource.name == r.name && c.transitionType.inFlags flags)) := by
  simp [ getResourceIO, getResource, h]

/-- The test of the first loop of `verifyOperations` fails exactly for an operation with
mixed attachment sizes. -/
theorem sameSize_false_iff_mixed (workflow : RenderWorkflow) (op : RenderOperation) :
    sameSize ((workflow.transitions.filter
        (fun c => c.operation.addr == op.addr && c.transitionType.inFlags rttAllAttachments)).map
        (fun t => t.resource.resourceType.attachment.attachmentSize)) = false
      ↔ mixedAttachmentSizes workflow op := by
  rw [← Bool.not_eq_true, sameSize_iff]
  simp only [List.mem_map, List.mem_filter, Bool.and_eq_true, beq_iff_eq,
    inFlags_rttAllAttachments, mixedAttachmentSizes]
  constructor
  · intro h
    by_contra hcon
    apply h
    rintro a ⟨t1, ⟨h1m, h1a, h1k⟩, rfl⟩ b ⟨t2, ⟨h2m, h2a, h2k⟩, rfl⟩
    by_contra hne
    exact hcon ⟨t1, h1m, t2, h2m, h1a, h2a, h1k, h2k, hne⟩
  · rintro ⟨t1, h1m, t2, h2m, h1a, h2a, h1k, h2k, hne⟩ h
    exact hne (h _ ⟨t1, ⟨h1m, h1a, h1k⟩, rfl⟩ _ ⟨t2, ⟨h2m, h2a, h2k⟩, rfl⟩)

/-- The report lines of the first loop of `verifyOperations`, for the operations visited. -/
theorem verifyOperationSizes_eq (workflow : RenderWorkflow)
    (ops : List (String × RenderOperation))
    (hops : ∀ e ∈ ops, ∃ op, workflow.renderOperations.lookup e.1 = some op) :
    ∃ os, verifyOperationSizes workflow ops = .ok os ∧
      (∀ n, VerifyEntry.notAllAttachmentsSameSize n ∈ os ↔
        ∃ e ∈ ops, e.1 = n ∧ ∃ op, workflow.renderOperations.lookup n = some op ∧
          mixedAttachmentSizes workflow op) ∧
      (∀ n, VerifyEntry.moreThanOneOutput n ∉ os) := by
  induction ops with
  | nil => exact ⟨[], rfl, by simp, by simp⟩
  | cons e rest ih =>
    obtain ⟨os, hos, hmem, hnot⟩ := ih (fun x hx => hops x (List.mem_cons_of_mem _ hx))
    obtain ⟨op, hop⟩ := hops e (List.mem_cons_self _ _)
    have hmix := sameSize_false_iff_mixed workflow op
    simp only [verifyOperationSizes, getOperationIO_eq workflow e.1 op _ hop, hos]
    by_cases hsame : sameSize ((workflow.transitions.filter
        (fun c => c.operation.addr == op.addr && c.transitionType.inFlags rttAllAttachments)).map
        (fun t => t.resource.resourceType.attachment.attachmentSize)) = true
    · have hnm : ¬ mixedAttachmentSizes workflow op := by
        rw [← hmix]; simp [hsame]
      refine ⟨os, by simp [hsame], ?_, hnot⟩
      intro n
      rw [hmem]
      constructor
      · rintro ⟨x, hx, hxn, h⟩
        exact ⟨x, List.mem_cons_of_mem _ hx, hxn, h⟩
      · rintro ⟨x, hx, hxn, op1, hop1, hm⟩
        rcases List.mem_cons.mp hx with rfl | hx
        · subst hxn
          rw [hop] at hop1
          cases hop1
          exact absurd hm hnm
        · exact ⟨x, hx, hxn, op1, hop1, hm⟩
    · have hsf : sameSize ((workflow.transitions.filter
          (fun c => c.operation.addr == op.addr &&
            c.transitionType.inFlags rttAllAttachments)).map
          (fun t => t.resource.resourceType.attachment.attachmentSize)) = false := by
        simpa using hsame
      have hm : mixedAttachmentSizes workflow op := hmix.mp hsf
      have hne : ((workflow.transitions.filter
          (fun c => c.operation.addr == op.addr &&
            c.transitionType.inFlags rttAllAttachments)).map
          (fun t => t.resource.resourceType.attachment.attachmentSize)).isEmpty = false := by
        cases hl : (workflow.transitions.filter
          (fun c => c.operation.addr == op.addr &&
            c.transitionType.inFlags rttAllAttachments)).map
          (fun t => t.resource.resourceType.attachment.attachmentSize) with
        | nil => rw [hl] at hsf; simp [sameSize] at hsf
        | cons a l => rfl
      refine ⟨VerifyEntry.notAllAttachmentsSameSize e.1 :: os, by simp [hsf, hne], ?_, ?_⟩
      · intro n
        simp only [List.mem_cons, VerifyEntry.notAllAttachmentsSameSize.injEq, hmem]
        constructor
        · rintro (rfl | ⟨x, hx, hxn, h⟩)
          · exact ⟨e, Or.inl rfl, rfl, op, hop, hm⟩
          · exact ⟨x, Or.inr hx, hxn, h⟩
        · rintro ⟨x, hx | hx, hxn, h⟩
          · left; rw [← hxn, hx]
          · right; exact ⟨x, hx, hxn, h⟩
      · intro n hn
        rcases List.mem_cons.mp hn with h | h
        · cases h
        · exact hnot n h

/-- The report lines of the second loop of `verifyOperations`, for the resources visited. -/
theorem verifyResourceOutputs_eq (workflow : RenderWorkflow)
    (rs : List (String × WorkflowResource))
    (hrs : ∀ e ∈ rs, ∃ r, workflow.resources.lookup e.1 = some r) :
    ∃ os, verifyResourceOutputs workflow rs = .ok os ∧
      (∀ n, VerifyEntry.moreThanOneOutput n ∈ os ↔
        ∃ e ∈ rs, e.1 = n ∧ ∃ r, workflow.resources.lookup n = some r ∧
          2 ≤ outputCount workflow r) ∧
      (∀ n, VerifyEntry.notAllAttachmentsSameSize n ∉ os) := by
  induction rs with
  | nil => exact ⟨[], rfl, by simp, by simp⟩
  | cons e rest ih =>
    obtain ⟨os, hos, hmem, hnot⟩ := ih (fun x hx => hrs x (List.mem_cons_of_mem _ hx))
    obtain ⟨r, hr⟩ := hrs e (List.mem_cons_self _ _)
    have hlen : (workflow.transitions.filter
        (fun c => c.resource.name == r.name && c.transitionType.inFlags rttAllOutputs)).length
        = outputCount workflow r := by
      simp only [outputCount, List.countP_eq_length_filter, inFlags_rttAllOutputs]
    simp only [verifyResourceOutputs, getResourceIO_eq workflow e.1 r _ hr, hos, hlen]
    by_cases hc : outputCount workflow r > 1
    · refine ⟨VerifyEntry.moreThanOneOutput e.1 :: os, by simp [hc], ?_, ?_⟩
      · intro n
        simp only [List.mem_cons, VerifyEntry.moreThanOneOutput.injEq, hmem]
        constructor
        · rintro (rfl | ⟨x, hx, hxn, h⟩)
          · exact ⟨e, Or.inl rfl, rfl, r, hr, hc⟩
          · exact ⟨x, Or.inr hx, hxn, h⟩
        · rintro ⟨x, hx | hx, hxn, h⟩
          · left; rw [← hxn, hx]
          · right; exact ⟨x, hx, hxn, h⟩
      · intro n hn
        rcases List.mem_cons.mp hn with h | h
        · cases h
        · exact hnot n h
    · refine ⟨os, by simp [hc], ?_, hnot⟩
      intro n
      rw [hmem]
      constructor
      · rintro ⟨x, hx, hxn, h⟩
        exact ⟨x, List.mem_cons_of_mem _ hx, hxn, h⟩
      · rintro ⟨x, hx, hxn, r1, hr1, hm⟩
        rcases List.mem_cons.mp hx with rfl | hx
        · subst hxn
          rw [hr] at hr1
          cases hr1
          exact absurd hm hc
        · exact ⟨x, hx, hxn, r1, hr1, hm⟩

/-- What `verifyOperations` reports: one line per registered operation with mixed attachment
sizes, one line per resource with two or more output transitions, and nothing else; it
throws exactly when there is a line. -/
theorem verifyOperations_report (workflow : RenderWorkflow) :
    ∃ report,
      verifyOperations workflow
        = (if report = [] then .ok () else .error (.errorsInOperations report)) ∧
      (∀ n, VerifyEntry.notAllAttachmentsSameSize n ∈ report ↔
        ∃ op, workflow.renderOperations.lookup n = some op ∧
          mixedAttachmentSizes workflow op) ∧
      (∀ n, VerifyEntry.moreThanOneOutput n ∈ report ↔
        ∃ r, workflow.resources.lookup n = some r ∧ 2 ≤ outputCount workflow r) := by
  obtain ⟨os1, h1, hm1, hn1⟩ := verifyOperationSizes_eq workflow workflow.renderOperations
    (fun e he => lookup_isSome_of_mem _ e.1 e.2 he)
  obtain ⟨os2, h2, hm2, hn2⟩ := verifyResourceOutputs_eq workflow workflow.resources
    (fun e he => lookup_isSome_of_mem _ e.1 e.2 he)
  refine ⟨os1 ++ os2, ?_, ?_, ?_⟩
  · simp only [verifyOperations, h1, h2]
    cases h : os1 ++ os2 <;> simp
  · intro n
    simp only [List.mem_append, hm1, hn2, or_false]
    constructor
    · rintro ⟨e, _, _, h⟩; exact h
    · rintro ⟨op, hop, hm⟩
      exact ⟨(n, op), mem_of_lookup _ _ _ hop, rfl, op, hop, hm⟩
  · intro n
    simp only [List.mem_append, hm2, hn1, false_or]
    constructor
    · rintro ⟨e, _, _, h⟩; exact h
    · rintro ⟨r, hr, hm⟩
      exact ⟨(n, r), mem_of_lookup _ _ _ hr, rfl, r, hr, hm⟩

theorem lookup_of_mem_nodup {V : Type} (m : List (String × V)) (k : String) (v : V)
    (hnd : (m.map (fun e => e.1)).Nodup) (h : (k, v) ∈ m) : m.lookup k = some v := by
  induction m with
  | nil => simp at h
  | cons e rest ih =>
    obtain ⟨k1, v1⟩ := e
    simp only [List.map_cons, List.nodup_cons, List.mem_map, not_exists, not_and] at hnd
    rcases List.mem_cons.mp h with heq | hmem
    · simp only [Prod.mk.injEq] at heq
      obtain ⟨rfl, rfl⟩ := heq
      simp [List.lookup]
    · have hk : k ≠ k1 := by
        intro hk
        exact hnd.1 (k, v) hmem hk
      have hb : (k == k1) = false := by simpa using hk
      simp only [List.lookup, hb]
      exact ih hnd.2 hmem

theorem ptrSetContains_iff (s : List RenderOperation) (x : RenderOperation) :
    ptrSetContains s x = true ↔ x.addr ∈ s.map (fun y => y.addr) := by
  simp only [ptrSetContains, List.any_eq_true, beq_iff_eq, List.mem_map]

theorem mem_ptrSetInsert (x : RenderOperation) (s : List RenderOperation) (y : RenderOperation)
    (h : y ∈ ptrSetInsert x s) : y = x ∨ y ∈ s := by
  induction s with
  | nil => simp [ptrSetInsert] at h; exact Or.inl h
  | cons z rest ih =>
    unfold ptrSetInsert at h
    split at h
    · rcases List.mem_cons.mp h with h | h
      · exact Or.inl h
      · exact Or.inr h
    · split at h
      · exact Or.inr h
      · rcases List.mem_cons.mp h with h | h
        · exact Or.inr (h ▸ List.mem_cons_self _ _)
        · rcases ih h with h | h
          · exact Or.inl h
          · exact Or.inr (List.mem_cons_of_mem _ h)

theorem addr_mem_ptrSetInsert (x : RenderOperation) (s : List RenderOperation) (a : Addr) :
    a ∈ (ptrSetInsert x s).map (fun y => y.addr) ↔ a = x.addr ∨ a ∈ s.map (fun y => y.addr) := by
  induction s with
  | nil => simp [ptrSetInsert]
  | cons z rest ih =>
    unfold ptrSetInsert
    split
    · simp
    · split
      · rename_i h1 h2
        simp only [List.map_cons, List.mem_cons]
        constructor
        · intro h; exact Or.inr h
        · rintro (h | h)
          · exact Or.inl (h.trans h2)
          · exact h
      · simp only [List.map_cons, List.mem_cons, ih]
        tauto

/-- The operations that `collectOperations` gathers from a list of transitions of the
workflow. -/
theorem collectOperations_spec (workflow : RenderWorkflow) (hwf : WellFormed workflow)
    (flags : ResourceTransitionTypeFlags) (ts : List ResourceTransition)
    (hts : ∀ t ∈ ts, t ∈ workflow.transitions) :
    ∃ l, workflow.collectOperations flags ts = .ok l ∧
      ∀ x, x ∈ l ↔ ∃ t1 ∈ ts, ∃ t2 ∈ workflow.transitions,
        t2.resource.name = t1.resource.name ∧ t2.transitionType.inFlags flags = true ∧
        x = t2.operation := by
  induction ts with
  | nil => exact ⟨[], rfl, by simp⟩
  | cons t rest ih =>
    obtain ⟨l, hl, hmem⟩ := ih (fun x hx => hts x (List.mem_cons_of_mem _ hx))
    have ht := hwf.transitionResources t (hts t (List.mem_cons_self _ _))
    obtain ⟨r, hr⟩ := Option.isSome_iff_exists.mp ht
    have hname : r.name = t.resource.name :=
      hwf.resourceNames (t.resource.name, r) (mem_of_lookup _ _ _ hr)
    refine ⟨_, by simp only [collectOperations, getResourceIO_eq workflow _ r _ hr, hl]; rfl, ?_⟩
    intro x
    simp only [List.mem_append, List.mem_map, List.mem_filter, Bool.and_eq_true, beq_iff_eq,
      hmem, hname, List.mem_cons, exists_eq_or_imp]
    constructor
    · rintro (⟨t2, ⟨h2m, h2n, h2k⟩, rfl⟩ | h)
      · exact Or.inl ⟨t2, h2m, h2n, h2k, rfl⟩
      · exact Or.inr h
    · rintro (⟨t2, h2m, h2n, h2k, rfl⟩ | h)
      · exact Or.inl ⟨t2, ⟨h2m, h2n, h2k⟩, rfl⟩
      · exact Or.inr h

/-- The next operations of a registered operation are the targets of its edges in the
dependency graph. -/
theorem getNextOperations_spec (workflow : RenderWorkflow) (hwf : WellFormed workflow)
    (e : String × RenderOperation) (he : e ∈ workflow.renderOperations) :
    ∃ l, workflow.getNextOperations e.1 = .ok l ∧
      ∀ b, b ∈ l.map (fun y => y.addr) ↔ dependsOn workflow e.2.addr b := by
  have hlook := lookup_of_mem_nodup _ e.1 e.2 hwf.operationKeys he
  obtain ⟨l, hl, hmem⟩ := collectOperations_spec workflow hwf rttAllInputs
    (workflow.transitions.filter
      (fun c => c.operation.addr == e.2.addr && c.transitionType.inFlags rttAllOutputs))
    (fun t ht => (List.mem_filter.mp ht).1)
  refine ⟨l, by simp only [getNextOperations, getOperationIO_eq workflow _ e.2 _ hlook, hl], ?_⟩
  intro b
  simp only [List.mem_map, hmem, List.mem_filter, Bool.and_eq_true, beq_iff_eq,
    inFlags_rttAllOutputs, inFlags_rttAllInputs, dependsOn]
  constructor
  · rintro ⟨x, ⟨t1, ⟨h1m, h1a, h1k⟩, t2, h2m, h2n, h2k, rfl⟩, rfl⟩
    exact ⟨t1, h1m, t2, h2m, h1a, rfl, h1k, h2k, h2n.symm⟩
  · rintro ⟨t1, h1m, t2, h2m, h1a, h2a, h1k, h2k, hn⟩
    exact ⟨t2.operation, ⟨t1, ⟨h1m, h1a, h1k⟩, t2, h2m, hn.symm, h2k, rfl⟩, h2a⟩

/-- What the second loop of `recursiveScheduleOperations` adds to `newDoneOperations`. -/
theorem nextDoneLoop_spec (workflow : RenderWorkflow) (hwf : WellFormed workflow)
    (done : List RenderOperation) (ops : List (String × RenderOperation))
    (hops : ∀ e ∈ ops, e ∈ workflow.renderOperations) (acc : List RenderOperation) :
    ∃ N, nextDoneLoop workflow done ops acc = .ok N ∧
      (∀ y ∈ N, y ∈ acc ∨ ∃ e ∈ ops, e.2 = y ∧ y.addr ∉ done.map (fun z => z.addr) ∧
        ∀ b, dependsOn workflow y.addr b → b ∈ done.map (fun z => z.addr)) ∧
      (∀ a, a ∈ N.map (fun z => z.addr) ↔ a ∈ acc.map (fun z => z.addr) ∨
        ∃ e ∈ ops, e.2.addr = a ∧ a ∉ done.map (fun z => z.addr) ∧
          ∀ b, dependsOn workflow a b → b ∈ done.map (fun z => z.addr)) := by
  induction ops generalizing acc with
  | nil => exact ⟨acc, rfl, fun y hy => Or.inl hy, by simp⟩
  | cons e rest ih =>
    have hrest : ∀ x ∈ rest, x ∈ workflow.renderOperations :=
      fun x hx => hops x (List.mem_cons_of_mem _ hx)
    obtain ⟨l, hl, hnext⟩ := getNextOperations_spec workflow hwf e (hops e (List.mem_cons_self _ _))
    unfold nextDoneLoop
    by_cases hdone : ptrSetContains done e.2 = true
    · obtain ⟨N, hN, h1, h2⟩ := ih hrest acc
      have hin := (ptrSetContains_iff done e.2).mp hdone
      refine ⟨N, by simp [hdone, hN], ?_, ?_⟩
      · intro y hy
        rcases h1 y hy with h | ⟨x, hx, h⟩
        · exact Or.inl h
        · exact Or.inr ⟨x, List.mem_cons_of_mem _ hx, h⟩
      · intro a
        rw [h2]
        constructor
        · rintro (h | ⟨x, hx, h⟩)
          · exact Or.inl h
          · exact Or.inr ⟨x, List.mem_cons_of_mem _ hx, h⟩
        · rintro (h | ⟨x, hx, hxa, hnd, hfin⟩)
          · exact Or.inl h
          · rcases List.mem_cons.mp hx with rfl | hx
            · exact absurd (hxa ▸ hin) hnd
            · exact Or.inr ⟨x, hx, hxa, hnd, hfin⟩
    · have hnin : e.2.addr ∉ done.map (fun z => z.addr) :=
        fun h => hdone ((ptrSetContains_iff done e.2).mpr h)
      have hfinal : (l.all (fun nextOp => ptrSetContains done nextOp) = true) ↔
          ∀ b, dependsOn workflow e.2.addr b → b ∈ done.map (fun z => z.addr) := by
        simp only [List.all_eq_true, ptrSetContains_iff]
        constructor
        · intro h b hb
          obtain ⟨y, hy, rfl⟩ := List.mem_map.mp ((hnext b).mpr hb)
          exact h y hy
        · intro h y hy
          exact h y.addr ((hnext y.addr).mp (List.mem_map.mpr ⟨y, hy, rfl⟩))
      simp only [hdone, Bool.false_eq_true, if_false, hl]
      by_cases hf : l.all (fun nextOp => ptrSetContains done nextOp) = true
      · obtain ⟨N, hN, h1, h2⟩ := ih hrest (ptrSetInsert e.2 acc)
        have hfin := hfinal.mp hf
        refine ⟨N, by simp [hf, hN], ?_, ?_⟩
        · intro y hy
          rcases h1 y hy with h | ⟨x, hx, h⟩
          · rcases mem_ptrSetInsert _ _ _ h with h | h
            · exact Or.inr ⟨e, List.mem_cons_self _ _, h.symm, h ▸ hnin, h ▸ hfin⟩
            · exact Or.inl h
          · exact Or.inr ⟨x, List.mem_cons_of_mem _ hx, h⟩
        · intro a
          rw [h2, addr_mem_ptrSetInsert]
          constructor
          · rintro ((h | h) | ⟨x, hx, h⟩)
            · exact Or.inr ⟨e, List.mem_cons_self _ _, h.symm, h ▸ hnin, h ▸ hfin⟩
            · exact Or.inl h
            · exact Or.inr ⟨x, List.mem_cons_of_mem _ hx, h⟩
          · rintro (h | ⟨x, hx, hxa, hnd, hfin'⟩)
            · exact Or.inl (Or.inr h)
            · rcases List.mem_cons.mp hx with rfl | hx
              · exact Or.inl (Or.inl hxa.symm)
              · exact Or.inr ⟨x, hx, hxa, hnd, hfin'⟩
      · obtain ⟨N, hN, h1, h2⟩ := ih hrest acc
        refine ⟨N, by simp [hf, hN], ?_, ?_⟩
        · intro y hy
          rcases h1 y hy with h | ⟨x, hx, h⟩
          · exact Or.inl h
          · exact Or.inr ⟨x, List.mem_cons_of_mem _ hx, h⟩
        · intro a
          rw [h2]
          constructor
          · rintro (h | ⟨x, hx, h⟩)
            · exact Or.inl h
            · exact Or.inr ⟨x, List.mem_cons_of_mem _ hx, h⟩
          · rintro (h | ⟨x, hx, hxa, hnd, hfin'⟩)
            · exact Or.inl h
            · rcases List.mem_cons.mp hx with rfl | hx
              · exact absurd (hfinal.mpr (hxa ▸ hfin')) hf
              · exact Or.inr ⟨x, hx, hxa, hnd, hfin'⟩

/-- What the first loop of `recursiveScheduleOperations` adds to `newDoneOperations`. -/
theorem initialDoneLoop_spec (workflow : RenderWorkflow) (hwf : WellFormed workflow)
    (ops : List (String × RenderOperation))
    (hops : ∀ e ∈ ops, e ∈ workflow.renderOperations) (acc : List RenderOperation) :
    ∃ N, initialDoneLoop workflow ops acc = .ok N ∧
      (∀ y ∈ N, y ∈ acc ∨ ∃ e ∈ ops, e.2 = y ∧ ∀ b, ¬ dependsOn workflow y.addr b) ∧
      (∀ a, a ∈ N.map (fun z => z.addr) ↔ a ∈ acc.map (fun z => z.addr) ∨
        ∃ e ∈ ops, e.2.addr = a ∧ ∀ b, ¬ dependsOn workflow a b) := by
  induction ops generalizing acc with
  | nil => exact ⟨acc, rfl, fun y hy => Or.inl hy, by simp⟩
  | cons e rest ih =>
    have hrest : ∀ x ∈ rest, x ∈ workflow.renderOperations :=
      fun x hx => hops x (List.mem_cons_of_mem _ hx)
    obtain ⟨l, hl, hnext⟩ := getNextOperations_spec workflow hwf e (hops e (List.mem_cons_self _ _))
    have hempty : l.isEmpty = true ↔ ∀ b, ¬ dependsOn workflow e.2.addr b := by
      constructor
      · intro h b hb
        have := (hnext b).mpr hb
        rw [List.isEmpty_iff.mp h] at this
        simp at this
      · intro h
        cases l with
        | nil => rfl
        | cons y l' =>
          exact absurd ((hnext y.addr).mp (by simp)) (h y.addr)
    unfold initialDoneLoop
    simp only [hl]
    by_cases hf : l.isEmpty = true
    · obtain ⟨N, hN, h1, h2⟩ := ih hrest (ptrSetInsert e.2 acc)
      have hfin := hempty.mp hf
      refine ⟨N, by simp [hf, hN], ?_, ?_⟩
      · intro y hy
        rcases h1 y hy with h | ⟨x, hx, h⟩
        · rcases mem_ptrSetInsert _ _ _ h with h | h
          · exact Or.inr ⟨e, List.mem_cons_self _ _, h.symm, h ▸ hfin⟩
          · exact Or.inl h
        · exact Or.inr ⟨x, List.mem_cons_of_mem _ hx, h⟩
      · intro a
        rw [h2, addr_mem_ptrSetInsert]
        constructor
        · rintro ((h | h) | ⟨x, hx, h⟩)
          · exact Or.inr ⟨e, List.mem_cons_self _ _, h.symm, h ▸ hfin⟩
          · exact Or.inl h
          · exact Or.inr ⟨x, List.mem_cons_of_mem _ hx, h⟩
        · rintro (h | ⟨x, hx, hxa, hfin'⟩)
          · exact Or.inl (Or.inr h)
          · rcases List.mem_cons.mp hx with rfl | hx
            · exact Or.inl (Or.inl hxa.symm)
            · exact Or.inr ⟨x, hx, hxa, hfin'⟩
    · obtain ⟨N, hN, h1, h2⟩ := ih hrest acc
      refine ⟨N, by simp [hf, hN], ?_, ?_⟩
      · intro y hy
        rcases h1 y hy with h | ⟨x, hx, h⟩
        · exact Or.inl h
        · exact Or.inr ⟨x, List.mem_cons_of_mem _ hx, h⟩
      · intro a
        rw [h2]
        constructor
        · rintro (h | ⟨x, hx, h⟩)
          · exact Or.inl h
          · exact Or.inr ⟨x, List.mem_cons_of_mem _ hx, h⟩
        · rintro (h | ⟨x, hx, hxa, hfin'⟩)
          · exact Or.inl h
          · rcases List.mem_cons.mp hx with rfl | hx
            · exact absurd (hempty.mpr (hxa ▸ hfin')) hf
            · exact Or.inr ⟨x, hx, hxa, hfin'⟩

/-- The set `newDoneOperations` of `recursiveScheduleOperations`: the registered operations
that are not done and whose consumers are all done. -/
theorem newDoneOperations_spec (workflow : RenderWorkflow) (hwf : WellFormed workflow)
    (done : List RenderOperation) :
    ∃ N, (if done.isEmpty then initialDoneLoop workflow workflow.renderOperations []
          else nextDoneLoop workflow done workflow.renderOperations []) = .ok N ∧
      (∀ y ∈ N, ∃ e ∈ workflow.renderOperations, e.2 = y ∧
        y.addr ∉ done.map (fun z => z.addr) ∧
        ∀ b, dependsOn workflow y.addr b → b ∈ done.map (fun z => z.addr)) ∧
      (∀ e ∈ workflow.renderOperations, e.2.addr ∉ done.map (fun z => z.addr) →
        (∀ b, dependsOn workflow e.2.addr b → b ∈ done.map (fun z => z.addr)) →
        e.2.addr ∈ N.map (fun z => z.addr)) := by
  cases done with
  | nil =>
    obtain ⟨N, hN, h1, h2⟩ := initialDoneLoop_spec workflow hwf workflow.renderOperations
      (fun e he => he) []
    refine ⟨N, by simpa using hN, ?_, ?_⟩
    · intro y hy
      rcases h1 y hy with h | ⟨e, he, hey, hfin⟩
      · simp at h
      · exact ⟨e, he, hey, by simp, fun b hb => absurd hb (hfin b)⟩
    · intro e he _ hfin
      rw [h2]
      exact Or.inr ⟨e, he, rfl, fun b hb => by simpa using hfin b hb⟩
  | cons d rest =>
    obtain ⟨N, hN, h1, h2⟩ := nextDoneLoop_spec workflow hwf (d :: rest)
      workflow.renderOperations (fun e he => he) []
    refine ⟨N, by simpa using hN, ?_, ?_⟩
    · intro y hy
      rcases h1 y hy with h | h
      · simp at h
      · exact h
    · intro e he hnd hfin
      rw [h2]
      exact Or.inr ⟨e, he, rfl, hnd, hfin⟩

/-- A finite non-empty list has an element from which no element of the list can be reached,
when the relation has no cycle. -/
theorem exists_unreaching {α : Type} (r : α → α → Prop)
    (hirr : ∀ a, ¬ Relation.TransGen r a a) (l : List α) (hl : l ≠ []) :
    ∃ m ∈ l, ∀ b ∈ l, ¬ Relation.TransGen r m b := by
  induction l with
  | nil => exact absurd rfl hl
  | cons a rest ih =>
    cases rest with
    | nil =>
      refine ⟨a, List.mem_cons_self _ _, ?_⟩
      intro b hb
      simp only [List.mem_singleton] at hb
      subst hb
      exact hirr b
    | cons c rest2 =>
      obtain ⟨m, hm, hmax⟩ := ih (by simp)
      by_cases hma : Relation.TransGen r m a
      · refine ⟨a, List.mem_cons_self _ _, ?_⟩
        intro b hb hab
        rcases List.mem_cons.mp hb with rfl | hb
        · exact hirr b hab
        · exact hmax b hb (Relation.TransGen.trans hma hab)
      · refine ⟨m, List.mem_cons_of_mem _ hm, ?_⟩
        intro b hb
        rcases List.mem_cons.mp hb with rfl | hb
        · exact hma
        · exact hmax b hb

/-- In an acyclic workflow whose transitions belong to registered operations, as long as some
registered operation is not done there is one that is not done and has all its consumers
done. -/
theorem exists_final (workflow : RenderWorkflow) (hreg : TransitionsRegistered workflow)
    (hacyc : Acyclic workflow) (done : List RenderOperation)
    (e0 : String × RenderOperation) (he0 : e0 ∈ workflow.renderOperations)
    (hnd0 : e0.2.addr ∉ done.map (fun z => z.addr)) :
    ∃ e ∈ workflow.renderOperations, e.2.addr ∉ done.map (fun z => z.addr) ∧
      ∀ b, dependsOn workflow e.2.addr b → b ∈ done.map (fun z => z.addr) := by
  have hne : (workflow.renderOperations.filter
      (fun e => decide (e.2.addr ∉ done.map (fun z => z.addr)))).map (fun e => e.2.addr) ≠ [] := by
    intro h
    have : e0.2.addr ∈ (workflow.renderOperations.filter
      (fun e => decide (e.2.addr ∉ done.map (fun z => z.addr)))).map (fun e => e.2.addr) :=
      List.mem_map.mpr ⟨e0, List.mem_filter.mpr ⟨he0, by simpa using hnd0⟩, rfl⟩
    rw [h] at this
    simp at this
  obtain ⟨m, hm, hmax⟩ := exists_unreaching (dependsOn workflow) hacyc _ hne
  obtain ⟨e, he, rfl⟩ := List.mem_map.mp hm
  obtain ⟨hemem, hend⟩ := List.mem_filter.mp he
  have hend' : e.2.addr ∉ done.map (fun z => z.addr) := by simpa using hend
  refine ⟨e, hemem, hend', ?_⟩
  intro b hb
  by_contra hbd
  have hb' := hb
  obtain ⟨t1, _, t2, h2m, _, h2a, _⟩ := hb'
  obtain ⟨e', he', hea⟩ := hreg t2 h2m
  rw [h2a] at hea
  apply hmax b _ (Relation.TransGen.single hb)
  exact List.mem_map.mpr ⟨e', List.mem_filter.mpr ⟨he', by simpa [hea] using hbd⟩, hea⟩

theorem minElement_mem {α : Type} (best : Nat × α) (rest : List (Nat × α)) :
    minElement best rest ∈ best :: rest := by
  induction rest generalizing best with
  | nil => simp [minElement]
  | cons c rest ih =>
    unfold minElement
    split
    · exact List.mem_cons_of_mem _ (ih c)
    · rcases List.mem_cons.mp (ih best) with h | h
      · rw [h]; exact List.mem_cons_self _ _
      · exact List.mem_cons_of_mem _ (List.mem_cons_of_mem _ h)

/-- The cost of a schedule is found when all its operations have a tag. -/
theorem calculateWorkflowCost_ok (cc : StandardRenderWorkflowCostCalculator)
    (workflow : RenderWorkflow) (xx : List RenderOperation)
    (htags : ∀ x ∈ xx, (cc.attachmentTag.lookup x.name).isSome = true) :
    ∃ c, cc.calculateWorkflowCost workflow xx = .ok c := by
  have hloop : ∀ (l : List RenderOperation) (tag : Int) (result : Nat),
      (∀ x ∈ l, (cc.attachmentTag.lookup x.name).isSome = true) →
      ∃ c, cc.costLoop l tag result = .ok c := by
    intro l
    induction l with
    | nil => intro tag result _; exact ⟨result, rfl⟩
    | cons x rest ih =>
      intro tag result h
      obtain ⟨t, ht⟩ := Option.isSome_iff_exists.mp (h x (List.mem_cons_self _ _))
      obtain ⟨c, hc⟩ := ih t (if t ≠ tag then result + 10 else result)
        (fun y hy => h y (List.mem_cons_of_mem _ hy))
      exact ⟨c, by simp only [StandardRenderWorkflowCostCalculator.costLoop, mapAt, ht, hc]⟩
  cases xx with
  | nil => exact ⟨0, rfl⟩
  | cons x rest =>
    obtain ⟨t, ht⟩ := Option.isSome_iff_exists.mp (htags x (List.mem_cons_self _ _))
    obtain ⟨c, hc⟩ := hloop rest t 0 (fun y hy => htags y (List.mem_cons_of_mem _ hy))
    exact ⟨c, by simp only [StandardRenderWorkflowCostCalculator.calculateWorkflowCost, mapAt, ht, hc]⟩

/-- Every entry that the candidate loop returns is the schedule of the rest with the
candidate appended, and there is one entry per candidate. -/
theorem candidateLoop_ok (schedule : List RenderOperation → Except WorkflowError (List RenderOperation))
    (workflow : RenderWorkflow) (done : List RenderOperation)
    (cc : StandardRenderWorkflowCostCalculator) (N : List RenderOperation)
    (L : List (Nat × List RenderOperation))
    (h : candidateLoop schedule workflow done cc N = .ok L) :
    L.length = N.length ∧
    ∀ p ∈ L, ∃ x ∈ N, ∃ xx, schedule (ptrSetInsert x done) = .ok xx ∧ p.2 = xx ++ [x] := by
  induction N generalizing L with
  | nil =>
    simp only [candidateLoop, Except.ok.injEq] at h
    subst h
    simp
  | cons x rest ih =>
    unfold candidateLoop at h
    cases hs : schedule (ptrSetInsert x done) with
    | error e => simp [hs] at h
    | ok xx =>
      simp only [hs] at h
      cases hc : cc.calculateWorkflowCost workflow (xx ++ [x]) with
      | error e => simp [hc] at h
      | ok c =>
        simp only [hc] at h
        cases hr : candidateLoop schedule workflow done cc rest with
        | error e => simp [hr] at h
        | ok more =>
          simp only [hr, Except.ok.injEq] at h
          subst h
          obtain ⟨hlen, hmem⟩ := ih more hr
          refine ⟨by simp [hlen], ?_⟩
          intro p hp
          rcases List.mem_cons.mp hp with rfl | hp
          · exact ⟨x, List.mem_cons_self _ _, xx, hs, rfl⟩
          · obtain ⟨y, hy, h⟩ := hmem p hp
            exact ⟨y, List.mem_cons_of_mem _ hy, h⟩

/-- The candidate loop returns when the recursive call returns for every candidate and the
operations of every schedule tried have tags. -/
theorem candidateLoop_total (schedule : List RenderOperation → Except WorkflowError (List RenderOperation))
    (workflow : RenderWorkflow) (done : List RenderOperation)
    (cc : StandardRenderWorkflowCostCalculator) (N : List RenderOperation)
    (h : ∀ x ∈ N, ∃ xx, schedule (ptrSetInsert x done) = .ok xx ∧
      ∀ y ∈ xx ++ [x], (cc.attachmentTag.lookup y.name).isSome = true) :
    ∃ L, candidateLoop schedule workflow done cc N = .ok L := by
  induction N with
  | nil => exact ⟨[], rfl⟩
  | cons x rest ih =>
    obtain ⟨xx, hs, htags⟩ := h x (List.mem_cons_self _ _)
    obtain ⟨c, hc⟩ := calculateWorkflowCost_ok cc workflow (xx ++ [x]) htags
    obtain ⟨more, hr⟩ := ih (fun y hy => h y (List.mem_cons_of_mem _ hy))
    exact ⟨(c, xx ++ [x]) :: more, by simp only [candidateLoop, hs, hc, hr]⟩

theorem countP_lt_of_imp {α : Type} (p q : α → Bool) (l : List α)
    (himp : ∀ a ∈ l, p a = true → q a = true)
    (hex : ∃ a ∈ l, q a = true ∧ p a = false) : l.countP p < l.countP q := by
  induction l with
  | nil => obtain ⟨a, ha, _⟩ := hex; simp at ha
  | cons b rest ih =>
    have hle : rest.countP p ≤ rest.countP q :=
      List.countP_mono_left (fun a ha h => himp a (List.mem_cons_of_mem _ ha) h)
    obtain ⟨a, ha, hqa, hpa⟩ := hex
    rcases List.mem_cons.mp ha with rfl | ha
    · simp only [List.countP_cons, hqa, hpa, if_true, Bool.false_eq_true, if_false]
      omega
    · have hlt := ih (fun a ha h => himp a (List.mem_cons_of_mem _ ha) h) ⟨a, ha, hqa, hpa⟩
      simp only [List.countP_cons]
      by_cases hpb : p b = true
      · have hqb := himp b (List.mem_cons_self _ _) hpb
        simp only [hpb, hqb, if_true]
        omega
      · simp only [hpb, Bool.false_eq_true, if_false]
        split <;> omega

theorem scheduled_nil (workflow : RenderWorkflow) (done : List RenderOperation)
    (h : ∀ e ∈ workflow.renderOperations, e.2.addr ∈ done.map (fun z => z.addr)) :
    Scheduled workflow done [] where
  registered := by simp
  nodup := by simp
  complete := fun e he hnd => absurd (h e he) hnd
  ordered := by
    intro pre x post hs
    cases pre <;> simp at hs

theorem scheduled_snoc (workflow : RenderWorkflow) (done s : List RenderOperation)
    (x : RenderOperation) (e : String × RenderOperation)
    (he : e ∈ workflow.renderOperations) (hex : e.2 = x)
    (hnd : x.addr ∉ done.map (fun z => z.addr))
    (hfin : ∀ b, dependsOn workflow x.addr b → b ∈ done.map (fun z => z.addr))
    (hs : Scheduled workflow (ptrSetInsert x done) s) :
    Scheduled workflow done (s ++ [x]) where
  registered := by
    intro y hy
    rcases List.mem_append.mp hy with hy | hy
    · obtain ⟨e', he', hey, hynd⟩ := hs.registered y hy
      refine ⟨e', he', hey, ?_⟩
      intro h
      exact hynd ((addr_mem_ptrSetInsert x done y.addr).mpr (Or.inr h))
    · simp only [List.mem_singleton] at hy
      subst hy
      exact ⟨e, he, hex, hnd⟩
  nodup := by
    rw [List.map_append, List.nodup_append]
    refine ⟨hs.nodup, by simp, ?_⟩
    intro a ha hax
    simp only [List.map_cons, List.map_nil, List.mem_singleton] at hax
    obtain ⟨y, hy, rfl⟩ := List.mem_map.mp ha
    obtain ⟨_, _, _, hynd⟩ := hs.registered y hy
    exact hynd ((addr_mem_ptrSetInsert x done y.addr).mpr (Or.inl hax))
  complete := by
    intro e' he' hnd'
    rw [List.map_append, List.mem_append]
    by_cases hxa : e'.2.addr = x.addr
    · right; simp [hxa]
    · left
      apply hs.complete e' he'
      intro h
      rcases (addr_mem_ptrSetInsert x done e'.2.addr).mp h with h | h
      · exact hxa h
      · exact hnd' h
  ordered := by
    intro pre y post hsplit b hb
    rcases List.eq_nil_or_concat post with hpost | ⟨L, z, hpost⟩
    · subst hpost
      have := List.append_inj' hsplit (by simp)
      simp only [List.cons.injEq, and_true] at this
      obtain ⟨_, hxy⟩ := this
      subst hxy
      exact Or.inl (hfin b hb)
    · subst hpost
      have hsplit' : s ++ [x] = (pre ++ y :: L) ++ [z] := by simpa using hsplit
      have := List.append_inj' hsplit' (by simp)
      simp only [List.cons.injEq, and_true] at this
      obtain ⟨hs', hxz⟩ := this
      subst hxz
      rcases hs.ordered pre y L hs' b hb with h | h
      · rcases (addr_mem_ptrSetInsert x done b).mp h with h | h
        · right; simp [h]
        · exact Or.inl h
      · right
        simp only [List.concat_eq_append, List.map_append, List.mem_append]
        exact Or.inl h

/-- Whatever `recursiveScheduleOperations` returns schedules the operations not yet done. -/
theorem recursiveScheduleOperations_scheduled (workflow : RenderWorkflow)
    (cc : StandardRenderWorkflowCostCalculator) (hwf : WellFormed workflow)
    (hreg : TransitionsRegistered workflow) (hacyc : Acyclic workflow) :
    ∀ (depth : Nat) (done s : List RenderOperation),
      recursiveScheduleOperations depth workflow done cc = .ok s →
      Scheduled workflow done s := by
  intro depth
  induction depth with
  | zero => intro done s h; simp [recursiveScheduleOperations] at h
  | succ depth ih =>
    intro done s h
    obtain ⟨N, hN, hsound, hcomplete⟩ := newDoneOperations_spec workflow hwf done
    unfold recursiveScheduleOperations at h
    rw [hN] at h
    cases N with
    | nil =>
      simp only [Except.ok.injEq] at h
      subst h
      apply scheduled_nil
      intro e he
      by_contra hnd
      obtain ⟨e', he', hnd', hfin⟩ := exists_final workflow hreg hacyc done e he hnd
      have := hcomplete e' he' hnd' hfin
      simp at this
    | cons n rest =>
      simp only at h
      cases hL : candidateLoop
          (fun a => recursiveScheduleOperations depth workflow a cc)
          workflow done cc (n :: rest) with
      | error e => simp [hL] at h
      | ok L =>
        obtain ⟨hlen, hmem⟩ := candidateLoop_ok _ workflow done cc (n :: rest) L hL
        rw [hL] at h
        cases L with
        | nil => simp at hlen
        | cons first more =>
          simp only [Except.ok.injEq] at h
          obtain ⟨x, hx, xx, hxx, hp⟩ := hmem _ (minElement_mem first more)
          obtain ⟨e, he, hex, hnd, hfin⟩ := hsound x hx
          rw [← h, hp]
          exact scheduled_snoc workflow done xx x e he hex hnd hfin (ih _ _ hxx)

/-- With a depth above the number of operations not yet done, and tags for all registered
operations, `recursiveScheduleOperations` returns. -/
theorem recursiveScheduleOperations_total (workflow : RenderWorkflow)
    (cc : StandardRenderWorkflowCostCalculator) (hwf : WellFormed workflow)
    (hreg : TransitionsRegistered workflow) (hacyc : Acyclic workflow)
    (htags : ∀ e ∈ workflow.renderOperations,
      (cc.attachmentTag.lookup e.2.name).isSome = true) :
    ∀ (depth : Nat) (done : List RenderOperation),
      workflow.renderOperations.countP
        (fun e => decide (e.2.addr ∉ done.map (fun z => z.addr))) < depth →
      ∃ s, recursiveScheduleOperations depth workflow done cc = .ok s := by
  intro depth
  induction depth with
  | zero => intro done h; omega
  | succ depth ih =>
    intro done hcount
    obtain ⟨N, hN, hsound, _⟩ := newDoneOperations_spec workflow hwf done
    unfold recursiveScheduleOperations
    rw [hN]
    cases N with
    | nil => exact ⟨[], rfl⟩
    | cons n rest =>
      have hcand : ∀ x ∈ n :: rest, ∃ xx,
          recursiveScheduleOperations depth workflow (ptrSetInsert x done) cc = .ok xx ∧
          ∀ y ∈ xx ++ [x], (cc.attachmentTag.lookup y.name).isSome = true := by
        intro x hx
        obtain ⟨e, he, hex, hnd, _⟩ := hsound x hx
        have hlt : workflow.renderOperations.countP
            (fun e => decide (e.2.addr ∉ (ptrSetInsert x done).map (fun z => z.addr)))
            < workflow.renderOperations.countP
            (fun e => decide (e.2.addr ∉ done.map (fun z => z.addr))) := by
          apply countP_lt_of_imp
          · intro a _ ha
            simp only [decide_eq_true_eq] at ha ⊢
            intro h
            exact ha ((addr_mem_ptrSetInsert x done a.2.addr).mpr (Or.inr h))
          · refine ⟨e, he, ?_, ?_⟩
            · simpa [hex] using hnd
            · simp only [decide_eq_false_iff_not, not_not]
              exact (addr_mem_ptrSetInsert x done e.2.addr).mpr (Or.inl (by rw [hex]))
        obtain ⟨xx, hxx⟩ := ih (ptrSetInsert x done) (by omega)
        refine ⟨xx, hxx, ?_⟩
        have hsch := recursiveScheduleOperations_scheduled workflow cc hwf hreg hacyc _ _ _ hxx
        intro y hy
        rcases List.mem_append.mp hy with hy | hy
        · obtain ⟨e', he', hey, _⟩ := hsch.registered y hy
          rw [← hey]
          exact htags e' he'
        · simp only [List.mem_singleton] at hy
          rw [hy, ← hex]
          exact htags e he
      obtain ⟨L, hL⟩ := candidateLoop_total
        (fun a => recursiveScheduleOperations depth workflow a cc)
        workflow done cc (n :: rest) hcand
      simp only [hL]
      cases L with
      | nil => exact ⟨[], rfl⟩
      | cons first more => exact ⟨_, rfl⟩

/-- A numbering of the operations that increases along every edge shows that the dependency
graph has no cycle. -/
theorem acyclic_of_rank (workflow : RenderWorkflow) (rank : Addr → Nat)
    (h : ∀ t1 ∈ workflow.transitions, ∀ t2 ∈ workflow.transitions,
      t1.transitionType.isOutput = true → t2.transitionType.isInput = true →
      t1.resource.name = t2.resource.name → rank t1.operation.addr < rank t2.operation.addr) :
    Acyclic workflow := by
  have hedge : ∀ a b, dependsOn workflow a b → rank a < rank b := by
    rintro a b ⟨t1, h1m, t2, h2m, rfl, rfl, h1k, h2k, hn⟩
    exact h t1 h1m t2 h2m h1k h2k hn
  have hpath : ∀ a b, Relation.TransGen (dependsOn workflow) a b → rank a < rank b := by
    intro a b hab
    induction hab with
    | single h1 => exact hedge _ _ h1
    | tail _ h2 ih => exact lt_trans ih (hedge _ _ h2)
  intro a ha
  exact lt_irrefl _ (hpath a a ha)

/-- Claim C1 (amended). For every workflow whose operation dependency graph is acyclic and
whose transitions all belong to operations that are registered, `recursiveScheduleOperations`
called with an empty done set returns a sequence as soon as every registered operation has a
tag; and in every sequence it returns no operation occurs twice and, whenever an operation A
has a transition of output kind on a resource and an operation B a transition of input kind
on the same resource, both occur and A stands strictly before B. -/
theorem schedule_topological (workflow : RenderWorkflow)
    (costCalculator : StandardRenderWorkflowCostCalculator)
    (hwf : WellFormed workflow) (hreg : TransitionsRegistered workflow)
    (hacyc : Acyclic workflow) :
    ((∀ e ∈ workflow.renderOperations,
        (costCalculator.attachmentTag.lookup e.2.name).isSome = true) →
      ∃ s, scheduleOperations workflow costCalculator = .ok s)
    ∧ ∀ s, scheduleOperations workflow costCalculator = .ok s →
      (s.map (fun z => z.addr)).Nodup
      ∧ ∀ tA ∈ workflow.transitions, ∀ tB ∈ workflow.transitions,
        tA.transitionType.isOutput = true → tB.transitionType.isInput = true →
        tA.resource.name = tB.resource.name →
        ∃ pre mid post, s.map (fun z => z.addr)
          = pre ++ tA.operation.addr :: (mid ++ tB.operation.addr :: post) := by
  constructor
  · intro htags
    apply recursiveScheduleOperations_total workflow costCalculator hwf hreg hacyc htags
    have := List.countP_le_length
      (fun e : String × RenderOperation => decide (e.2.addr ∉ ([] : List RenderOperation).map
        (fun z => z.addr))) (l := workflow.renderOperations)
    omega
  · intro s hs
    have hsch := recursiveScheduleOperations_scheduled workflow costCalculator hwf hreg hacyc
      _ _ _ hs
    refine ⟨hsch.nodup, ?_⟩
    intro tA hA tB hB hAk hBk hn
    obtain ⟨e, he, hea⟩ := hreg tA hA
    have hin : e.2.addr ∈ s.map (fun z => z.addr) := hsch.complete e he (by simp)
    obtain ⟨x, hx, hxa⟩ := List.mem_map.mp hin
    obtain ⟨pre, post, hsplit⟩ := List.append_of_mem hx
    have hdep : dependsOn workflow x.addr tB.operation.addr :=
      ⟨tA, hA, tB, hB, by rw [hxa, hea], rfl, hAk, hBk, hn⟩
    rcases hsch.ordered pre x post hsplit _ hdep with h | h
    · simp at h
    · obtain ⟨mid, post2, hsplit2⟩ := List.append_of_mem h
      refine ⟨pre.map (fun z => z.addr), mid, post2, ?_⟩
      rw [hsplit, List.map_append, List.map_cons, hsplit2, hxa, hea]

theorem schedule_topological_witness :
    WellFormed Sample.shadowMain ∧ TransitionsRegistered Sample.shadowMain
    ∧ Acyclic Sample.shadowMain
    ∧ ∃ s, scheduleOperations Sample.shadowMain ⟨[("Shadow", 0), ("Main", 0)]⟩ = .ok s :=
  have hwf : WellFormed Sample.shadowMain := ⟨by decide, by decide, by decide, by decide⟩
  have hreg : TransitionsRegistered Sample.shadowMain := by
    unfold TransitionsRegistered; decide
  have hacyc : Acyclic Sample.shadowMain := acyclic_of_rank _ id (by decide)
  ⟨hwf, hreg, hacyc,
   (schedule_topological Sample.shadowMain ⟨[("Shadow", 0), ("Main", 0)]⟩ hwf hreg hacyc).1
     (by decide)⟩

/-- Counterexample to claim C1 as stated. In the workflow `Sample.mainReplacedReads` a second
operation object was registered under the name Main after the first had declared its
transitions, and the second then declared an input on `shadowmap` too. The dependency graph
is acyclic; Shadow, a registered operation, has a depth output on `shadowmap`, and the
operation registered as Main has an attachment input on it; the tags are those that
`tagOperationByAttachmentType` gives. Yet the sequence returned holds Main only: Shadow does
not occur in it. -/
theorem schedule_drops_producer :
    Acyclic Sample.mainReplacedReads
    ∧ Sample.mainReplacedReads.renderOperations.lookup "Shadow" = some Sample.shadow
    ∧ Sample.mainReplacedReads.renderOperations.lookup "Main" = some Sample.mainAgain
    ∧ scheduleOperations Sample.mainReplacedReads
        (Sample.compiler.costCalculator.tagOperationByAttachmentType
          Sample.mainReplacedReads).2
      = .ok [Sample.mainAgain]
    ∧ ∃ tA ∈ Sample.mainReplacedReads.transitions,
      ∃ tB ∈ Sample.mainReplacedReads.transitions,
        tA.transitionType.isOutput = true ∧ tB.transitionType.isInput = true
        ∧ tA.resource.name = tB.resource.name
        ∧ tA.operation = Sample.shadow ∧ tB.operation = Sample.mainAgain
        ∧ tA.operation.addr ∉ [Sample.mainAgain].map (fun z => z.addr) :=
  ⟨acyclic_of_rank _ id (by decide), by decide, by decide, by decide, by decide⟩

/-- A compile of the single queue compiler that throws has not written to the workflow. -/
theorem SingleQueueWorkflowCompiler.compile_error (rounds : Nat)
    (self : SingleQueueWorkflowCompiler) (workflow : RenderWorkflow) (e : WorkflowError)
    (h : (SingleQueueWorkflowCompiler.compile rounds self workflow).1 = .error e) :
    (SingleQueueWorkflowCompiler.compile rounds self workflow).2.2 = workflow := by
  unfold SingleQueueWorkflowCompiler.compile at h ⊢
  cases hv : verifyOperations workflow with
  | error e1 => simp [hv]
  | ok u =>
    simp only [hv] at h ⊢
    rcases ht : self.costCalculator.tagOperationByAttachmentType workflow with ⟨r, cc⟩
    cases r with
    | error e1 => simp [ht]
    | ok u1 =>
      simp only [ht] at h ⊢
      cases hb : buildOutputData rounds cc workflow with
      | error e1 => simp [hb]
      | ok out => simp [hb] at h

/-- Claim C5. If `compile()` of a workflow throws, with the single queue compiler, the
workflow is left exactly as it was before the call: the command sequences, the frame buffer
images, the frame buffer, the resource index, the presentation queue index and the flag
`valid` are unchanged, so `setOutputData` was not reached and `valid` was not set. In
particular, when the flag is not set and `verifyOperations` throws, `compile()` throws the
same exception, the workflow stays as it was and the compiler too. -/
theorem compile_failure_publishes_nothing (rounds : Nat)
    (compiler : SingleQueueWorkflowCompiler) (self : RenderWorkflow) :
    (∀ e, (self.compile (SingleQueueWorkflowCompiler.compile rounds) compiler).1 = .error e →
      (self.compile (SingleQueueWorkflowCompiler.compile rounds) compiler).2.2 = self)
    ∧ (∀ e, self.valid = false → verifyOperations self = .error e →
      self.compile (SingleQueueWorkflowCompiler.compile rounds) compiler
        = (.error e, compiler, self)) := by
  constructor
  · intro e h
    unfold RenderWorkflow.compile at h ⊢
    by_cases hv : self.valid = true
    · simp [hv] at h
    · simp only [hv] at h ⊢
      have hc := SingleQueueWorkflowCompiler.compile_error rounds compiler self
      rcases hcc : SingleQueueWorkflowCompiler.compile rounds compiler self with ⟨r, c, w⟩
      rw [hcc] at hc
      cases r with
      | error e1 => simpa using hc e1
      | ok u => simp [hcc] at h
  · intro e hvalid hverify
    simp [RenderWorkflow.compile, hvalid, SingleQueueWorkflowCompiler.compile, hverify]

theorem compile_failure_publishes_nothing_witness :
    verifyOperations Sample.shadowMain
      = .error (.errorsInOperations [.notAllAttachmentsSameSize "Main"])
    ∧ Sample.shadowMain.compile (SingleQueueWorkflowCompiler.compile 8) Sample.compiler
      = (.error (.errorsInOperations [.notAllAttachmentsSameSize "Main"]), Sample.compiler,
          Sample.shadowMain) :=
  ⟨by decide,
   (compile_failure_publishes_nothing 8 Sample.compiler Sample.shadowMain).2 _
     (by decide) (by decide)⟩

/-- Claim C2. For every workflow and every registered operation whose attachment transitions
(input, output, resolve output, depth output) refer to resource types with two different
attachment sizes, `verifyOperations` throws, and the report it throws has the line naming
that operation. -/
theorem verifyOperations_mixed_sizes (workflow : RenderWorkflow) (n : String)
    (op : RenderOperation) (hop : workflow.renderOperations.lookup n = some op)
    (hmixed : mixedAttachmentSizes workflow op) :
    ∃ report, verifyOperations workflow = .error (.errorsInOperations report)
      ∧ VerifyEntry.notAllAttachmentsSameSize n ∈ report := by
  obtain ⟨report, hv, hops, _⟩ := verifyOperations_report workflow
  have hmem : VerifyEntry.notAllAttachmentsSameSize n ∈ report :=
    (hops n).mpr ⟨op, hop, hmixed⟩
  refine ⟨report, ?_, hmem⟩
  rw [hv, if_neg]
  intro hnil
  rw [hnil] at hmem
  simp at hmem

theorem verifyOperations_mixed_sizes_witness :
    Sample.shadowMain.renderOperations.lookup "Main" = some Sample.main
    ∧ ∃ report, verifyOperations Sample.shadowMain = .error (.errorsInOperations report)
      ∧ VerifyEntry.notAllAttachmentsSameSize "Main" ∈ report :=
  ⟨by decide,
   verifyOperations_mixed_sizes Sample.shadowMain "Main" Sample.main (by decide)
     (by unfold mixedAttachmentSizes; decide)⟩

/-- Claim C3. For every workflow and every resource of it with two or more transitions of
output kind (attachment output, resolve output, depth output or buffer output),
`verifyOperations` throws, and the report it throws has the line naming that resource. -/
theorem verifyOperations_two_outputs (workflow : RenderWorkflow) (n : String)
    (r : WorkflowResource) (hr : workflow.resources.lookup n = some r)
    (hout : 2 ≤ outputCount workflow r) :
    ∃ report, verifyOperations workflow = .error (.errorsInOperations report)
      ∧ VerifyEntry.moreThanOneOutput n ∈ report := by
  obtain ⟨report, hv, _, hres⟩ := verifyOperations_report workflow
  have hmem : VerifyEntry.moreThanOneOutput n ∈ report := (hres n).mpr ⟨r, hr, hout⟩
  refine ⟨report, ?_, hmem⟩
  rw [hv, if_neg]
  intro hnil
  rw [hnil] at hmem
  simp at hmem

theorem verifyOperations_two_outputs_witness :
    2 ≤ outputCount Sample.twoProducers ⟨"color", Sample.surfaceType⟩
    ∧ ∃ report, verifyOperations Sample.twoProducers = .error (.errorsInOperations report)
      ∧ VerifyEntry.moreThanOneOutput "color" ∈ report :=
  ⟨by decide,
   verifyOperations_two_outputs Sample.twoProducers "color" ⟨"color", Sample.surfaceType⟩
     (by decide) (by decide)⟩

/-- Claim C4. `verifyOperations` reports the complete set of violations: there is a report
that has the line of an operation exactly for the registered operations with mixed
attachment sizes and the line of a resource exactly for the resources with two or more
transitions of output kind; `verifyOperations` returns when that report is empty and
otherwise throws that one report, which so carries every violation. -/
theorem verifyOperations_complete (workflow : RenderWorkflow) :
    ∃ report,
      (report = [] → verifyOperations workflow = .ok ())
      ∧ (report ≠ [] → verifyOperations workflow = .error (.errorsInOperations report))
      ∧ (verifyOperations workflow = .ok () ↔
          (∀ n op, workflow.renderOperations.lookup n = some op →
            ¬ mixedAttachmentSizes workflow op)
          ∧ (∀ n r, workflow.resources.lookup n = some r → outputCount workflow r ≤ 1))
      ∧ (∀ n, VerifyEntry.notAllAttachmentsSameSize n ∈ report ↔
          ∃ op, workflow.renderOperations.lookup n = some op ∧
            mixedAttachmentSizes workflow op)
      ∧ (∀ n, VerifyEntry.moreThanOneOutput n ∈ report ↔
          ∃ r, workflow.resources.lookup n = some r ∧ 2 ≤ outputCount workflow r) := by
  obtain ⟨report, hv, hops, hres⟩ := verifyOperations_report workflow
  refine ⟨report, ?_, ?_, ?_, hops, hres⟩
  · intro h; rw [hv, if_pos h]
  · intro h; rw [hv, if_neg h]
  · constructor
    · intro hok
      have hnil : report = [] := by
        by_contra hne
        rw [hv, if_neg hne] at hok
        cases hok
      constructor
      · intro n op hop hm
        have := (hops n).mpr ⟨op, hop, hm⟩
        rw [hnil] at this
        simp at this
      · intro n r hr
        by_contra hc
        have := (hres n).mpr ⟨r, hr, by omega⟩
        rw [hnil] at this
        simp at this
    · rintro ⟨h1, h2⟩
      have hnil : report = [] := by
        cases hrep : report with
        | nil => rfl
        | cons entry rest =>
          exfalso
          have hmem : entry ∈ report := by rw [hrep]; exact List.mem_cons_self _ _
          cases entry with
          | notAllAttachmentsSameSize n =>
            obtain ⟨op, hop, hm⟩ := (hops n).mp hmem
            exact h1 n op hop hm
          | moreThanOneOutput n =>
            obtain ⟨r, hr, hc⟩ := (hres n).mp hmem
            have := h2 n r hr
            omega
      rw [hv, if_pos hnil]

/-- Claim C6. For every workflow on which `compile()` has returned without throwing, the flag
`valid` is set, and a second `compile()` right after it returns without throwing and leaves
the compiler object and the whole workflow as they are; the result is the same whatever the
compile method of the compiler is, so the compiler is not invoked. -/
theorem compile_twice {σ : Type} (compile other : CompileMethod σ) (compiler : σ)
    (self : RenderWorkflow) (h : (self.compile compile compiler).1 = .ok ()) :
    (self.compile compile compiler).2.2.valid = true
    ∧ (self.compile compile compiler).2.2.compile other (self.compile compile compiler).2.1
      = (.ok (), (self.compile compile compiler).2.1, (self.compile compile compiler).2.2) := by
  have hv : (self.compile compile compiler).2.2.valid = true := by
    unfold RenderWorkflow.compile at h ⊢
    by_cases hvalid : self.valid = true
    · simp [hvalid]
    · simp only [hvalid] at h ⊢
      rcases hc : compile compiler self with ⟨r, c, w⟩
      cases r with
      | error e => simp [hc] at h
      | ok u => simp
  refine ⟨hv, ?_⟩
  generalize self.compile compile compiler = out at hv
  obtain ⟨r, c, w⟩ := out
  simp only at hv
  simp only [RenderWorkflow.compile, hv]
  cases w
  simp_all

theorem compile_twice_witness :
    (Sample.colorOnly.compile (SingleQueueWorkflowCompiler.compile 8) Sample.compiler).1
      = .ok ()
    ∧ (Sample.colorOnly.compile (SingleQueueWorkflowCompiler.compile 8)
        Sample.compiler).2.2.compile (fun c w => (.error .undefinedBehaviour, c, w))
        (Sample.colorOnly.compile (SingleQueueWorkflowCompiler.compile 8) Sample.compiler).2.1
      = (.ok (),
         (Sample.colorOnly.compile (SingleQueueWorkflowCompiler.compile 8) Sample.compiler).2.1,
         (Sample.colorOnly.compile (SingleQueueWorkflowCompiler.compile 8)
           Sample.compiler).2.2) :=
  ⟨by decide,
   (compile_twice (SingleQueueWorkflowCompiler.compile 8)
     (fun c w => (.error .undefinedBehaviour, c, w)) Sample.compiler Sample.colorOnly
     (by decide)).2⟩

theorem valid_after_mutation (d : Declaration) (self : RenderWorkflow) :
   (d.apply self).1 = .ok () → (d.apply self).2.valid = false := by
  intro h
  cases hop : self.renderOperations.lookup d.opName with
  | none => rw [Declaration.apply_noOperation d self hop] at h; simp at h
  | some op =>
    cases hty : self.resourceTypes.lookup d.resourceType with
    | none => rw [Declaration.apply_noResourceType d self op hop hty] at h; simp at h
    | some tp =>
      rcases Declaration.apply_found d self op tp hop hty with
        ⟨e, _, he⟩ | ⟨res, hres, ⟨s, _, _, he⟩ | ⟨t, hto, htr, htk, _, he⟩⟩
      · rw [he] at h; simp at h
      · rw [he] at h; simp at h
      · rw [he]

theorem findOrInsertResource_valid (self : RenderWorkflow) (tp : RenderWorkflowResourceType)
    (n : String) : (self.findOrInsertResource tp n).2.valid = self.valid := by
  rcases findOrInsertResource_cases self tp n with ⟨_, hf⟩ | ⟨_, _, _, hf⟩ | ⟨_, _, _, hf⟩ <;>
    rw [hf]

theorem valid_after_failed_declaration (d : Declaration) (self : RenderWorkflow) (e : WorkflowError) :
   (d.apply self).1 = .error e → (d.apply self).2.valid = self.valid := by
  intro h
  cases hop : self.renderOperations.lookup d.opName with
  | none => rw [Declaration.apply_noOperation d self hop]
  | some op =>
    cases hty : self.resourceTypes.lookup d.resourceType with
    | none => rw [Declaration.apply_noResourceType d self op hop hty]
    | some tp =>
      rcases Declaration.apply_found d self op tp hop hty with
        ⟨e, _, he⟩ | ⟨res, hres, ⟨s, _, _, he⟩ | ⟨t, hto, htr, htk, _, he⟩⟩
      · rw [he]; exact findOrInsertResource_valid _ _ _
      · rw [he]; exact findOrInsertResource_valid _ _ _
      · rw [he] at h; simp at h

/-- A mutating call that returns clears the flag; one that throws leaves it alone. -/
theorem Call.apply_mutation_valid {σ : Type} (compile : CompileMethod σ) (call : Call)
    (state : σ × RenderWorkflow) (hcall : call.isCompile = false) :
    ((call.apply compile state).1 = .ok () → (call.apply compile state).2.2.valid = false)
    ∧ (∀ e, (call.apply compile state).1 = .error e →
        (call.apply compile state).2.2.valid = state.2.valid) := by
  cases call with
  | compile => simp [Call.isCompile] at hcall
  | declare d =>
    exact ⟨valid_after_mutation d state.2, valid_after_failed_declaration d state.2⟩
  | addResourceType tp => simp [Call.apply, RenderWorkflow.addResourceType]
  | addRenderOperation op => simp [Call.apply, RenderWorkflow.addRenderOperation]
  | addQueue qt => simp [Call.apply, RenderWorkflow.addQueue]
  | setSceneNode o n =>
    simp only [Call.apply, RenderWorkflow.setSceneNode]
    cases self_op : state.2.getRenderOperation o <;> simp
  | associateResource n r =>
    simp only [Call.apply, RenderWorkflow.associateResource]
    cases hl : state.2.resources.lookup n <;> simp

/-- A `compile()` that returns has set the flag, whatever the compiler. -/
theorem Call.apply_compile_ok {σ : Type} (compile : CompileMethod σ)
    (state : σ × RenderWorkflow)
    (h : (Call.compile.apply compile state).1 = .ok ()) :
    (Call.compile.apply compile state).2.2.valid = true := by
  simp only [Call.apply, RenderWorkflow.compile] at h ⊢
  by_cases hv : state.2.valid = true
  · simp [hv]
  · simp only [hv] at h ⊢
    rcases hcc : compile state.1 state.2 with ⟨r, c, w⟩
    cases r with
    | error e => simp [hcc] at h
    | ok u => simp

/-- A `compile()` that throws leaves the flag as it was, for a compiler that does not set the
flag when it throws. -/
theorem Call.apply_compile_error {σ : Type} (compile : CompileMethod σ)
    (hcompile : ∀ c w e, w.valid = false → (compile c w).1 = .error e →
      (compile c w).2.2.valid = false)
    (state : σ × RenderWorkflow) (e : WorkflowError)
    (h : (Call.compile.apply compile state).1 = .error e) :
    (Call.compile.apply compile state).2.2.valid = state.2.valid := by
  simp only [Call.apply, RenderWorkflow.compile] at h ⊢
  by_cases hv : state.2.valid = true
  · simp [hv] at h
  · simp only [hv] at h ⊢
    have hvf : state.2.valid = false := by simpa using hv
    have hc := hcompile state.1 state.2
    rcases hcc : compile state.1 state.2 with ⟨r, c, w⟩
    rw [hcc] at hc h
    cases r with
    | error e1 => simpa [hvf] using hc e1 hvf
    | ok u => simp at h

/-- The flag after a sequence of calls, for a compiler that does not set the flag when it
throws. -/
theorem runCalls_valid {σ : Type} (compile : CompileMethod σ)
    (hcompile : ∀ c w e, w.valid = false → (compile c w).1 = .error e →
      (compile c w).2.2.valid = false) :
    ∀ (calls : List Call) (state : σ × RenderWorkflow),
      (runCalls compile calls state).2.valid
        = compiledSinceLastMutation compile calls state state.2.valid := by
  intro calls
  induction calls with
  | nil => intro state; rfl
  | cons call rest ih =>
    intro state
    simp only [runCalls, compiledSinceLastMutation]
    rw [ih]
    congr 1
    cases hk : call.isCompile with
    | false =>
      have hm := Call.apply_mutation_valid compile call state hk
      cases hr : (call.apply compile state).1 with
      | error e => simpa using hm.2 e hr
      | ok u => simpa using hm.1 hr
    | true =>
      have hcall : call = Call.compile := by cases call <;> simp_all [Call.isCompile]
      subst hcall
      cases hr : (Call.compile.apply compile state).1 with
      | error e => simpa using Call.apply_compile_error compile hcompile state e hr
      | ok u => simpa using Call.apply_compile_ok compile state hr

/-- Claim C7. After every mutating call that returns without throwing (`addResourceType`,
`addRenderOperation`, `setSceneNode`, the six declaration calls, `associateResource`,
`addQueue`) the flag `valid` is `false`, and after a `compile()` that returns without
throwing it is `true`, whatever the compiler. Hence, for every compiler that does not set
the flag when it throws, and so for the single queue compiler, after any sequence of calls
the flag is `true` exactly when some `compile()` of the sequence returned and no mutating
call returned after the last such `compile()` (for a sequence without such calls the flag is
as it was before). -/
theorem valid_flag {σ : Type} (compile : CompileMethod σ) :
    (∀ (call : Call) (state : σ × RenderWorkflow), call.isCompile = false →
      (call.apply compile state).1 = .ok () → (call.apply compile state).2.2.valid = false)
    ∧ (∀ state : σ × RenderWorkflow, (Call.compile.apply compile state).1 = .ok () →
      (Call.compile.apply compile state).2.2.valid = true)
    ∧ ((∀ c w e, w.valid = false → (compile c w).1 = .error e →
          (compile c w).2.2.valid = false) →
      ∀ (calls : List Call) (state : σ × RenderWorkflow),
        (runCalls compile calls state).2.valid
          = compiledSinceLastMutation compile calls state state.2.valid)
    ∧ (∀ (rounds : Nat) (calls : List Call)
        (state : SingleQueueWorkflowCompiler × RenderWorkflow),
        (runCalls (SingleQueueWorkflowCompiler.compile rounds) calls state).2.valid
          = compiledSinceLastMutation (SingleQueueWorkflowCompiler.compile rounds) calls state
              state.2.valid) :=
  ⟨fun call state hc => (Call.apply_mutation_valid compile call state hc).1,
   fun state => Call.apply_compile_ok compile state,
   fun hcompile => runCalls_valid compile hcompile,
   fun rounds => runCalls_valid (SingleQueueWorkflowCompiler.compile rounds)
     (fun c w e hv h => by
       rw [SingleQueueWorkflowCompiler.compile_error rounds c w e h]; exact hv)⟩

theorem valid_flag_witness :
    (runCalls (SingleQueueWorkflowCompiler.compile 8)
      [Call.declare (.attachmentOutput "Main" "surface" "color" .COLOR_ATTACHMENT_OPTIMAL
          ⟨.Clear, ⟨0, 0, 0, 1⟩⟩),
       Call.compile,
       Call.declare (.attachmentInput "Main" "colour" "shadowmap" .SHADER_READ_ONLY_OPTIMAL)]
      (Sample.compiler, Sample.registered)).2.valid = true
    ∧ (runCalls (SingleQueueWorkflowCompiler.compile 8)
      [Call.declare (.attachmentOutput "Main" "surface" "color" .COLOR_ATTACHMENT_OPTIMAL
          ⟨.Clear, ⟨0, 0, 0, 1⟩⟩),
       Call.compile,
       Call.addQueue ⟨1, 0, 1⟩]
      (Sample.compiler, Sample.registered)).2.valid = false :=
  ⟨((valid_flag (SingleQueueWorkflowCompiler.compile 8)).2.2.2 8 _ _).trans (by decide),
   ((valid_flag (SingleQueueWorkflowCompiler.compile 8)).2.2.2 8 _ _).trans (by decide)⟩

/-- Claim C8. For every registered operation name and every resource type name that is not
registered, each declaration call (`addAttachmentInput`, `addAttachmentOutput`,
`addAttachmentResolveOutput`, `addAttachmentDepthOutput`, `addBufferInput`,
`addBufferOutput`) throws at the call and leaves the workflow as it was: no resource is
created and no transition is appended. -/
theorem declaration_unknown_resourceType (self : RenderWorkflow) (d : Declaration)
    (hop : (self.renderOperations.lookup d.opName).isSome = true)
    (hty : self.resourceTypes.lookup d.resourceType = none) :
    (d.apply self).1 = .error (.noResourceType d.resourceType)
    ∧ (d.apply self).2.resources = self.resources
    ∧ (d.apply self).2.transitions = self.transitions
    ∧ (d.apply self).2 = self := by
  obtain ⟨op, hop⟩ := Option.isSome_iff_exists.mp hop
  rw [Declaration.apply_noResourceType d self op hop hty]
  exact ⟨rfl, rfl, rfl, rfl⟩

theorem declaration_unknown_resourceType_witness :
    (Sample.registered.renderOperations.lookup
      (Declaration.attachmentInput "Main" "colour" "shadowmap"
        .SHADER_READ_ONLY_OPTIMAL).opName).isSome = true
    ∧ ((Declaration.attachmentInput "Main" "colour" "shadowmap"
        .SHADER_READ_ONLY_OPTIMAL).apply Sample.registered).1
      = .error (.noResourceType "colour")
    ∧ ((Declaration.bufferOutput "Main" "colour" "shadowmap" 0 0).apply Sample.registered).2
      = Sample.registered :=
  ⟨by decide,
   (declaration_unknown_resourceType Sample.registered _ (by decide) (by decide)).1,
   (declaration_unknown_resourceType Sample.registered _ (by decide) (by decide)).2.2.2⟩

/-- Claim C9 (amended). For every declaration call naming a resource that already exists:
if the resource type it presents is not the type object the resource was created with (or
its type name is not registered), the call throws and leaves the workflow as it was; if it
presents that same type object, names a registered operation and, for
`addAttachmentResolveOutput`, names a resolve source that exists, the call returns, leaves
the resource map as it was and appends one transition on the existing resource. -/
theorem declaration_existing_resource (self : RenderWorkflow) (d : Declaration)
    (res : WorkflowResource)
    (hres : self.resources.lookup d.resourceName = some res) :
    ((∀ tp, self.resourceTypes.lookup d.resourceType = some tp →
        tp.addr ≠ res.resourceType.addr) →
      ∃ e, d.apply self = (.error e, self))
    ∧ (∀ op tp, self.renderOperations.lookup d.opName = some op →
        self.resourceTypes.lookup d.resourceType = some tp →
        tp.addr = res.resourceType.addr →
        (∀ s, d.resourceSource = some s → (self.resources.lookup s).isSome = true) →
        (d.apply self).1 = .ok ()
        ∧ (d.apply self).2.resources = self.resources
        ∧ ∃ t, (d.apply self).2.transitions = self.transitions ++ [t] ∧ t.resource = res) := by
  have hfind : ∀ tp : RenderWorkflowResourceType,
      (tp.addr = res.resourceType.addr →
        self.findOrInsertResource tp d.resourceName = (.ok res, self))
      ∧ (tp.addr ≠ res.resourceType.addr →
        self.findOrInsertResource tp d.resourceName = (.error .ambiguousType, self)) := by
    intro tp
    unfold findOrInsertResource
    rw [hres]
    constructor <;> intro ha <;> simp [ha]
  constructor
  · intro hdiff
    cases hop : self.renderOperations.lookup d.opName with
    | none => exact ⟨_, Declaration.apply_noOperation d self hop⟩
    | some op =>
      cases hty : self.resourceTypes.lookup d.resourceType with
      | none => exact ⟨_, Declaration.apply_noResourceType d self op hop hty⟩
      | some tp =>
        have hf := (hfind tp).2 (hdiff tp hty)
        rcases Declaration.apply_found d self op tp hop hty with
          ⟨e, _, he⟩ | ⟨r, hr, _⟩
        · rw [hf] at he; exact ⟨e, he⟩
        · rw [hf] at hr; simp at hr
  · intro op tp hop hty hsame hsrc
    have hf := (hfind tp).1 hsame
    rcases Declaration.apply_found d self op tp hop hty with
      ⟨e, he, _⟩ | ⟨r, hr, ⟨s, hs, hnone, _⟩ | ⟨t, _, htr, _, _, he⟩⟩
    · rw [hf] at he; simp at he
    · rw [hf] at hnone
      have := hsrc s hs
      rw [hnone] at this
      simp at this
    · rw [hf] at hr he
      simp only [Except.ok.injEq] at hr
      subst hr
      rw [he]
      exact ⟨rfl, rfl, t, rfl, htr⟩

theorem declaration_existing_resource_witness :
    Sample.shadowDeclared.resources.lookup
        (Declaration.attachmentInput "Main" "depth" "shadowmap" .SHADER_READ_ONLY_OPTIMAL).resourceName
      = some ⟨"shadowmap", Sample.depthType⟩
    ∧ ((Declaration.attachmentInput "Main" "depth" "shadowmap" .SHADER_READ_ONLY_OPTIMAL).apply
        Sample.shadowDeclared).1 = .ok () :=
  ⟨by decide,
   ((declaration_existing_resource Sample.shadowDeclared
      (Declaration.attachmentInput "Main" "depth" "shadowmap" .SHADER_READ_ONLY_OPTIMAL)
      ⟨"shadowmap", Sample.depthType⟩ (by decide)).2 Sample.main Sample.depthType
      (by decide) (by decide) (by decide) (by intro s hs; simp [Declaration.resourceSource] at hs)).1⟩

/-- Counterexample to claim C9 as stated. In `Sample.shadowDeclared` the resource `shadowmap`
exists with the type registered as `depth`, and Main is a registered operation; the call
`addAttachmentResolveOutput` that presents this same type for `shadowmap` throws all the
same, because its resolve source does not exist, and so does `addAttachmentInput` for an
operation name that is not registered. -/
theorem declaration_same_type_fails :
    Sample.shadowDeclared.resources.lookup "shadowmap" = some ⟨"shadowmap", Sample.depthType⟩
    ∧ Sample.shadowDeclared.resourceTypes.lookup "depth" = some Sample.depthType
    ∧ Sample.shadowDeclared.renderOperations.lookup "Main" = some Sample.main
    ∧ Sample.shadowDeclared.addAttachmentResolveOutput "Main" "depth" "shadowmap" "multisampled"
        .COLOR_ATTACHMENT_OPTIMAL loadOpLoad
        = (.error .nonexistingResolveResource, Sample.shadowDeclared)
    ∧ Sample.shadowDeclared.addAttachmentInput "Blur" "depth" "shadowmap"
        .SHADER_READ_ONLY_OPTIMAL
        = (.error (.noOperation "Blur"), Sample.shadowDeclared) := by
  decide

/-- Claim C10. Every declaration call that returns without throwing appends exactly one
transition at the end of the transition list, the earlier transitions staying as they were;
the operation of that transition is the operation registered under the name given, its
resource is the resource stored under the name given, its kind is the kind of the call. The
resource is added to the resource map (at its name, with nothing else changed) when the
name was absent, the resource map is unchanged when the name was present, and resource types
and operations are unchanged. -/
theorem declaration_frame (self : RenderWorkflow) (d : Declaration)
    (h : (d.apply self).1 = .ok ()) :
    ∃ t op, (d.apply self).2.transitions = self.transitions ++ [t]
      ∧ self.renderOperations.lookup d.opName = some op ∧ t.operation = op
      ∧ (d.apply self).2.resources.lookup d.resourceName = some t.resource
      ∧ t.transitionType = d.kind
      ∧ (self.resources.lookup d.resourceName = none →
          t.resource.name = d.resourceName ∧
          (d.apply self).2.resources = self.resources ++ [(d.resourceName, t.resource)])
      ∧ ((self.resources.lookup d.resourceName).isSome = true →
          (d.apply self).2.resources = self.resources)
      ∧ (d.apply self).2.resourceTypes = self.resourceTypes
      ∧ (d.apply self).2.renderOperations = self.renderOperations := by
  cases hop : self.renderOperations.lookup d.opName with
  | none => rw [Declaration.apply_noOperation d self hop] at h; simp at h
  | some op =>
    cases hty : self.resourceTypes.lookup d.resourceType with
    | none => rw [Declaration.apply_noResourceType d self op hop hty] at h; simp at h
    | some tp =>
      rcases Declaration.apply_found d self op tp hop hty with
        ⟨e, _, he⟩ | ⟨res, hres, ⟨s, _, _, he⟩ | ⟨t, hto, htr, htk, _, he⟩⟩
      · rw [he] at h; simp at h
      · rw [he] at h; simp at h
      · refine ⟨t, op, ?_⟩
        rw [he]
        rcases findOrInsertResource_cases self tp d.resourceName with
          ⟨hnone, hf⟩ | ⟨r0, hsome, _, hf⟩ | ⟨r0, hsome, _, hf⟩
        · rw [hf] at hres ⊢
          simp only [Except.ok.injEq] at hres
          subst hres
          refine ⟨rfl, rfl, hto, ?_, htk, ?_, ?_, rfl, rfl⟩
          · simp only [htr]; exact lookup_append_new _ _ _ hnone
          · intro _; simp [htr]
          · intro hs; simp [hnone] at hs
        · rw [hf] at hres ⊢
          simp only [Except.ok.injEq] at hres
          subst hres
          refine ⟨rfl, rfl, hto, ?_, htk, ?_, ?_, rfl, rfl⟩
          · simp only [htr]; exact hsome
          · intro hn; simp [hsome] at hn
          · intro _; rfl
        · rw [hf] at hres; simp at hres

theorem declaration_frame_witness :
    ((Declaration.attachmentInput "Main" "depth" "shadowmap"
        .SHADER_READ_ONLY_OPTIMAL).apply Sample.shadowDeclared).1 = .ok ()
    ∧ ∃ t op,
      ((Declaration.attachmentInput "Main" "depth" "shadowmap"
        .SHADER_READ_ONLY_OPTIMAL).apply Sample.shadowDeclared).2.transitions
        = Sample.shadowDeclared.transitions ++ [t]
      ∧ Sample.shadowDeclared.renderOperations.lookup "Main" = some op
      ∧ t.operation = op :=
  ⟨by decide,
   match declaration_frame Sample.shadowDeclared
      (Declaration.attachmentInput "Main" "depth" "shadowmap" .SHADER_READ_ONLY_OPTIMAL)
      (by decide) with
   | ⟨t, op, h1, h2, h3, _⟩ => ⟨t, op, h1, h2, h3⟩⟩

/-! ### Well formed workflows -/

theorem mapAssign_keys {V : Type} (k : String) (v : V) (m : List (String × V)) :
    (mapAssign k v m).map (fun e => e.1)
      = if k ∈ m.map (fun e => e.1) then m.map (fun e => e.1)
        else m.map (fun e => e.1) ++ [k] := by
  induction m with
  | nil => simp [mapAssign]
  | cons e rest ih =>
    obtain ⟨k1, v1⟩ := e
    unfold mapAssign
    by_cases hk : k1 = k
    · subst hk; simp
    · have hk' : ¬ k = k1 := fun h => hk h.symm
      simp only [hk, if_false, List.map_cons, ih, List.mem_cons, hk', false_or]
      split <;> simp

theorem mem_mapAssign {V : Type} (k : String) (v : V) (m : List (String × V))
    (e : String × V) (h : e ∈ mapAssign k v m) : e = (k, v) ∨ e ∈ m := by
  induction m with
  | nil => simp [mapAssign] at h; exact Or.inl h
  | cons e1 rest ih =>
    obtain ⟨k1, v1⟩ := e1
    unfold mapAssign at h
    by_cases hk : k1 = k
    · simp only [hk, if_true] at h
      rcases List.mem_cons.mp h with h | h
      · exact Or.inl h
      · exact Or.inr (List.mem_cons_of_mem _ h)
    · simp only [hk, if_false] at h
      rcases List.mem_cons.mp h with h | h
      · exact Or.inr (h ▸ List.mem_cons_self _ _)
      · rcases ih h with h | h
        · exact Or.inl h
        · exact Or.inr (List.mem_cons_of_mem _ h)

/-- Registering an operation keeps the registered objects distinct, when the object is not
already registered under another name. -/
theorem mapAssign_addrs_nodup (op : RenderOperation) (m : List (String × RenderOperation))
    (hk : (m.map (fun e => e.1)).Nodup) (ha : (m.map (fun e => e.2.addr)).Nodup)
    (hfresh : ∀ e ∈ m, e.2.addr = op.addr → e.1 = op.name) :
    ((mapAssign op.name op m).map (fun e => e.2.addr)).Nodup := by
  induction m with
  | nil => simp [mapAssign]
  | cons e1 rest ih =>
    obtain ⟨k1, v1⟩ := e1
    simp only [List.map_cons, List.nodup_cons, List.mem_map, not_exists, not_and] at hk ha
    unfold mapAssign
    by_cases hkey : k1 = op.name
    · simp only [hkey, if_true, List.map_cons, List.nodup_cons, List.mem_map, not_exists,
        not_and]
      refine ⟨?_, ha.2⟩
      intro e he hea
      have := hfresh e (List.mem_cons_of_mem _ he) hea
      exact hk.1 e he (this.trans hkey.symm)
    · simp only [hkey, if_false, List.map_cons, List.nodup_cons, List.mem_map, not_exists,
        not_and]
      refine ⟨?_, ih hk.2 ha.2 (fun e he => hfresh e (List.mem_cons_of_mem _ he))⟩
      intro e he hea
      rcases mem_mapAssign _ _ _ _ he with h | h
      · subst h
        exact hkey (hfresh (k1, v1) (List.mem_cons_self _ _) hea.symm)
      · exact ha.1 e h hea

theorem lookup_append_isSome {V : Type} (m extra : List (String × V)) (k : String)
    (h : (m.lookup k).isSome = true) : ((m ++ extra).lookup k).isSome = true := by
  induction m with
  | nil => simp [List.lookup] at h
  | cons e rest ih =>
    obtain ⟨k1, v1⟩ := e
    simp only [List.cons_append]
    by_cases hk : k = k1
    · subst hk; simp [List.lookup]
    · have hb : (k == k1) = false := by simpa using hk
      simp only [List.lookup, hb] at h ⊢
      exact ih h

/-- The resource that `findOrInsertResource` gives is stored under the name asked for, and
the workflow it leaves is well formed. -/
theorem findOrInsertResource_wellFormed (self : RenderWorkflow) (hwf : WellFormed self)
    (tp : RenderWorkflowResourceType) (n : String) :
    WellFormed (self.findOrInsertResource tp n).2
    ∧ (self.findOrInsertResource tp n).2.transitions = self.transitions
    ∧ ∀ res, (self.findOrInsertResource tp n).1 = .ok res →
        ((self.findOrInsertResource tp n).2.resources.lookup res.name).isSome = true := by
  rcases findOrInsertResource_cases self tp n with ⟨hnone, hf⟩ | ⟨r, hsome, _, hf⟩ | ⟨r, _, _, hf⟩
  · rw [hf]
    refine ⟨⟨hwf.operationKeys, hwf.operationAddrs, ?_, ?_⟩, rfl, ?_⟩
    · intro e he
      rcases List.mem_append.mp he with he | he
      · exact hwf.resourceNames e he
      · simp only [List.mem_singleton] at he
        subst he
        rfl
    · intro t ht
      exact lookup_append_isSome _ _ _ (hwf.transitionResources t ht)
    · intro res hres
      simp only [Except.ok.injEq] at hres
      subst hres
      simp [lookup_append_new _ _ _ hnone]
  · rw [hf]
    refine ⟨hwf, rfl, ?_⟩
    intro res hres
    simp only [Except.ok.injEq] at hres
    subst hres
    have := hwf.resourceNames (n, r) (mem_of_lookup _ _ _ hsome)
    simp only at this
    rw [this, hsome]
    rfl
  · rw [hf]
    exact ⟨hwf, rfl, by intro res hres; simp at hres⟩

/-- A declaration call keeps the workflow well formed, whether it returns or throws. -/
theorem declaration_wellFormed (d : Declaration) (self : RenderWorkflow)
    (hwf : WellFormed self) : WellFormed (d.apply self).2 := by
  cases hop : self.renderOperations.lookup d.opName with
  | none => rw [Declaration.apply_noOperation d self hop]; exact hwf
  | some op =>
    cases hty : self.resourceTypes.lookup d.resourceType with
    | none => rw [Declaration.apply_noResourceType d self op hop hty]; exact hwf
    | some tp =>
      obtain ⟨hwf', htr, hres⟩ := findOrInsertResource_wellFormed self hwf tp d.resourceName
      rcases Declaration.apply_found d self op tp hop hty with
        ⟨e, _, he⟩ | ⟨res, hr, ⟨s, _, _, he⟩ | ⟨t, _, htres, _, _, he⟩⟩
      · rw [he]; exact hwf'
      · rw [he]; exact hwf'
      · rw [he]
        refine ⟨hwf'.operationKeys, hwf'.operationAddrs, hwf'.resourceNames, ?_⟩
        intro t' ht'
        rcases List.mem_append.mp ht' with ht' | ht'
        · exact hwf'.transitionResources t' ht'
        · simp only [List.mem_singleton] at ht'
          subst ht'
          rw [htres]
          exact hres res hr

/-- The single queue compiler writes the output data of the workflow only. -/
theorem SingleQueueWorkflowCompiler.compile_graph (rounds : Nat)
    (self : SingleQueueWorkflowCompiler) (workflow : RenderWorkflow) :
    (SingleQueueWorkflowCompiler.compile rounds self workflow).2.2.renderOperations
        = workflow.renderOperations
    ∧ (SingleQueueWorkflowCompiler.compile rounds self workflow).2.2.resources
        = workflow.resources
    ∧ (SingleQueueWorkflowCompiler.compile rounds self workflow).2.2.transitions
        = workflow.transitions := by
  unfold SingleQueueWorkflowCompiler.compile
  cases hv : verifyOperations workflow with
  | error e1 => simp
  | ok u =>
    simp only
    rcases ht : self.costCalculator.tagOperationByAttachmentType workflow with ⟨r, cc⟩
    cases r with
    | error e1 => simp
    | ok u1 =>
      simp only
      cases hb : buildOutputData rounds cc workflow with
      | error e1 => simp
      | ok out => simp [RenderWorkflow.setOutputData]

/-- Every call of the interface keeps the workflow well formed, provided an operation object
is not registered under two names. -/
theorem call_wellFormed (rounds : Nat) (call : Call)
    (state : SingleQueueWorkflowCompiler × RenderWorkflow) (hwf : WellFormed state.2)
    (hfresh : ∀ op, call = Call.addRenderOperation op →
      ∀ e ∈ state.2.renderOperations, e.2.addr = op.addr → e.1 = op.name) :
    WellFormed (call.apply (SingleQueueWorkflowCompiler.compile rounds) state).2.2 := by
  cases call with
  | declare d => exact declaration_wellFormed d state.2 hwf
  | addResourceType tp =>
    exact ⟨hwf.operationKeys, hwf.operationAddrs, hwf.resourceNames, hwf.transitionResources⟩
  | addQueue qt =>
    exact ⟨hwf.operationKeys, hwf.operationAddrs, hwf.resourceNames, hwf.transitionResources⟩
  | addRenderOperation op =>
    refine ⟨?_, ?_, hwf.resourceNames, hwf.transitionResources⟩
    · simp only [Call.apply, RenderWorkflow.addRenderOperation, mapAssign_keys]
      split
      · exact hwf.operationKeys
      · rename_i hnot
        rw [List.nodup_append]
        exact ⟨hwf.operationKeys, by simp, by
          intro a ha hb
          simp only [List.mem_singleton] at hb
          exact hnot (hb ▸ ha)⟩
    · exact mapAssign_addrs_nodup op _ hwf.operationKeys hwf.operationAddrs (hfresh op rfl)
  | associateResource n r =>
    simp only [Call.apply, RenderWorkflow.associateResource]
    cases hl : state.2.resources.lookup n with
    | none => exact hwf
    | some res =>
      exact ⟨hwf.operationKeys, hwf.operationAddrs, hwf.resourceNames,
        hwf.transitionResources⟩
  | setSceneNode o n =>
    simp only [Call.apply, RenderWorkflow.setSceneNode]
    cases hg : state.2.getRenderOperation o with
    | error e => exact hwf
    | ok op =>
      refine ⟨?_, ?_, hwf.resourceNames, ?_⟩
      · simpa [List.map_map, Function.comp_def] using hwf.operationKeys
      · have : ∀ x : RenderOperation, (RenderWorkflow.writeSceneNode op n x).addr = x.addr := by
          intro x; unfold RenderWorkflow.writeSceneNode; split <;> rfl
        simpa [List.map_map, Function.comp_def, this] using hwf.operationAddrs
      · intro t ht
        simp only [List.mem_map] at ht
        obtain ⟨t0, ht0, rfl⟩ := ht
        exact hwf.transitionResources t0 ht0
  | compile =>
    simp only [Call.apply, RenderWorkflow.compile]
    obtain ⟨h1, h2, h3⟩ := SingleQueueWorkflowCompiler.compile_graph rounds state.1 state.2
    by_cases hv : state.2.valid = true
    · simp only [hv, Bool.not_true, Bool.false_eq_true, if_false]
      exact ⟨hwf.operationKeys, hwf.operationAddrs, hwf.resourceNames,
        hwf.transitionResources⟩
    · simp only [hv, Bool.not_false, if_true]
      rcases hc : SingleQueueWorkflowCompiler.compile rounds state.1 state.2 with ⟨r, c, w⟩
      rw [hc] at h1 h2 h3
      simp only at h1 h2 h3
      have hw : WellFormed w := by
        refine ⟨by rw [h1]; exact hwf.operationKeys, by rw [h1]; exact hwf.operationAddrs,
          by rw [h2]; exact hwf.resourceNames, ?_⟩
        rw [h3, h2]; exact hwf.transitionResources
      cases r with
      | error e => exact hw
      | ok u =>
        exact ⟨hw.operationKeys, hw.operationAddrs, hw.resourceNames, hw.transitionResources⟩

/-- A new workflow is well formed. -/
theorem wellFormed_new (n : String) (fba : Addr) : WellFormed (RenderWorkflow.new n fba) :=
  ⟨by simp [RenderWorkflow.new], by simp [RenderWorkflow.new], by simp [RenderWorkflow.new],
   by simp [RenderWorkflow.new]⟩

open StandardRenderWorkflowCostCalculator

/-! ### Resources of transitions -/

/-- What a map gives for a key stays when entries are put after its own. -/
theorem lookup_append_old {V : Type} (m extra : List (String × V)) (k : String) (v : V)
    (h : m.lookup k = some v) : (m ++ extra).lookup k = some v := by
  simp only [List.lookup_append, h, Option.or_some]

/-- The statement shared by the declaration calls keeps the resources of the transitions
stored, and the resource it gives is stored under its name. -/
theorem findOrInsertResource_stored (self : RenderWorkflow) (hwf : WellFormed self)
    (hstored : ResourcesStored self) (tp : RenderWorkflowResourceType) (n : String) :
    ResourcesStored (self.findOrInsertResource tp n).2
    ∧ ∀ res, (self.findOrInsertResource tp n).1 = .ok res →
        (self.findOrInsertResource tp n).2.resources.lookup res.name = some res := by
  rcases findOrInsertResource_cases self tp n with ⟨hnone, hf⟩ | ⟨r, hsome, _, hf⟩ | ⟨r, _, _, hf⟩
  · rw [hf]
    refine ⟨fun t ht => lookup_append_old _ _ _ _ (hstored t ht), ?_⟩
    intro res hres
    simp only [Except.ok.injEq] at hres
    subst hres
    exact lookup_append_new _ _ _ hnone
  · rw [hf]
    refine ⟨hstored, ?_⟩
    intro res hres
    simp only [Except.ok.injEq] at hres
    subst hres
    have hname := hwf.resourceNames (n, r) (mem_of_lookup _ _ _ hsome)
    simp only at hname
    rw [hname]; exact hsome
  · rw [hf]
    exact ⟨hstored, fun res hres => by simp at hres⟩

/-- A declaration call keeps the resources of the transitions stored. -/
theorem declaration_resourcesStored (d : Declaration) (self : RenderWorkflow)
    (hwf : WellFormed self) (hstored : ResourcesStored self) :
    ResourcesStored (d.apply self).2 := by
  cases hop : self.renderOperations.lookup d.opName with
  | none => rw [Declaration.apply_noOperation d self hop]; exact hstored
  | some op =>
    cases hty : self.resourceTypes.lookup d.resourceType with
    | none => rw [Declaration.apply_noResourceType d self op hop hty]; exact hstored
    | some tp =>
      obtain ⟨hst, hres⟩ := findOrInsertResource_stored self hwf hstored tp d.resourceName
      rcases Declaration.apply_found d self op tp hop hty with
        ⟨e, _, he⟩ | ⟨res, hr, ⟨s, _, _, he⟩ | ⟨t, _, htres, _, _, he⟩⟩
      · rw [he]; exact hst
      · rw [he]; exact hst
      · rw [he]
        intro t' ht'
        rcases List.mem_append.mp ht' with ht' | ht'
        · exact hst t' ht'
        · simp only [List.mem_singleton] at ht'
          subst ht'
          rw [htres]
          exact hres res hr

/-- Every call of the interface keeps the resources of the transitions stored. -/
theorem call_resourcesStored (rounds : Nat) (call : Call)
    (state : SingleQueueWorkflowCompiler × RenderWorkflow) (hwf : WellFormed state.2)
    (hstored : ResourcesStored state.2) :
    ResourcesStored (call.apply (SingleQueueWorkflowCompiler.compile rounds) state).2.2 := by
  cases call with
  | declare d => exact declaration_resourcesStored d state.2 hwf hstored
  | addResourceType tp => exact hstored
  | addQueue qt => exact hstored
  | addRenderOperation op => exact hstored
  | associateResource n r =>
    simp only [Call.apply, RenderWorkflow.associateResource]
    cases hl : state.2.resources.lookup n with
    | none => exact hstored
    | some res => exact hstored
  | setSceneNode o n =>
    simp only [Call.apply, RenderWorkflow.setSceneNode]
    cases hg : state.2.getRenderOperation o with
    | error e => exact hstored
    | ok op =>
      intro t ht
      simp only [List.mem_map] at ht
      obtain ⟨t0, ht0, rfl⟩ := ht
      exact hstored t0 ht0
  | compile =>
    simp only [Call.apply, RenderWorkflow.compile]
    obtain ⟨_, h2, h3⟩ := SingleQueueWorkflowCompiler.compile_graph rounds state.1 state.2
    by_cases hv : state.2.valid = true
    · simp only [hv, Bool.not_true, Bool.false_eq_true, if_false]
      exact hstored
    · simp only [hv, Bool.not_false, if_true]
      rcases hc : SingleQueueWorkflowCompiler.compile rounds state.1 state.2 with ⟨r, c, w⟩
      rw [hc] at h2 h3
      simp only at h2 h3
      have hw : ResourcesStored w := by
        intro t ht
        rw [h3] at ht
        rw [h2]
        exact hstored t ht
      cases r with
      | error e => exact hw
      | ok u => exact hw

/-- In a new workflow the resources of the transitions are stored. -/
theorem resourcesStored_new (n : String) (fba : Addr) :
    ResourcesStored (RenderWorkflow.new n fba) := by
  intro t ht
  simp [RenderWorkflow.new] at ht

/-! ### Transitions of an operation and of a resource -/

/-- The test of a kind against a mask is the test of the bit of the kind in the mask. -/
theorem inFlags_eq_testBit (t : ResourceTransitionType) (mask : ResourceTransitionTypeFlags) :
    t.inFlags mask = mask.testBit t.bit := by
  have hv : t.value = 2 ^ t.bit := by cases t <;> rfl
  simp only [ResourceTransitionType.inFlags, hv, Nat.two_pow_and]
  cases h : mask.testBit t.bit <;> simp

/-- Claim C11. For a name under which an operation is registered, and any mask,
`getOperationIO` returns the transitions of the workflow whose operation is the registered
object and whose kind has its bit in the mask, in the order of the transition list, of which
the result is a sublist; for a name with no operation it throws. The same holds of
`getResourceIO` with the resource stored under the name. Both are `const` methods: they are
functions of the workflow that give no workflow back. -/
theorem getOperationIO_getResourceIO_filter (workflow : RenderWorkflow) (name : String)
    (mask : ResourceTransitionTypeFlags) :
    (∀ op, workflow.renderOperations.lookup name = some op →
      ∃ l, workflow.getOperationIO name mask = .ok l ∧ l.Sublist workflow.transitions ∧
        l = workflow.transitions.filter
          (fun t => t.operation.addr == op.addr && mask.testBit t.transitionType.bit)) ∧
    (workflow.renderOperations.lookup name = none →
      workflow.getOperationIO name mask = .error (.noOperation name)) ∧
    (∀ r, workflow.resources.lookup name = some r →
      ∃ l, workflow.getResourceIO name mask = .ok l ∧ l.Sublist workflow.transitions ∧
        l = workflow.transitions.filter
          (fun t => t.resource.name == r.name && mask.testBit t.transitionType.bit)) ∧
    (workflow.resources.lookup name = none →
      workflow.getResourceIO name mask = .error (.noResource name)) := by
  refine ⟨?_, ?_, ?_, ?_⟩
  · intro op h
    refine ⟨_, getOperationIO_eq workflow name op mask h, List.filter_sublist _, ?_⟩
    simp only [inFlags_eq_testBit]
  · intro h
    simp only [ getOperationIO, getRenderOperation, h]
  · intro r h
    refine ⟨_, getResourceIO_eq workflow name r mask h, List.filter_sublist _, ?_⟩
    simp only [inFlags_eq_testBit]
  · intro h
    simp only [ getResourceIO, getResource, h]

theorem getOperationIO_getResourceIO_filter_witness :
    (∃ l, Sample.shadowMain.getOperationIO "Main" rttAllInputs = .ok l ∧
      l.Sublist Sample.shadowMain.transitions ∧
      l = Sample.shadowMain.transitions.filter
        (fun t => t.operation.addr == Sample.main.addr
          && rttAllInputs.testBit t.transitionType.bit)) ∧
    Sample.shadowMain.getOperationIO "Blur" rttAllInputs = .error (.noOperation "Blur") :=
  ⟨(getOperationIO_getResourceIO_filter Sample.shadowMain "Main" rttAllInputs).1 Sample.main
      (by decide),
   (getOperationIO_getResourceIO_filter Sample.shadowMain "Blur" rttAllInputs).2.1 (by decide)⟩

/-- The operations that `getPreviousOperations` and `getNextOperations` return for a
registered operation. -/
theorem neighbours_spec (workflow : RenderWorkflow) (hwf : WellFormed workflow)
    (n : String) (a : RenderOperation) (h : workflow.renderOperations.lookup n = some a) :
    (∃ l, workflow.getPreviousOperations n = .ok l ∧
      ∀ b, b ∈ l.map (fun y => y.addr) ↔ dependsOn workflow b a.addr) ∧
    (∃ l, workflow.getNextOperations n = .ok l ∧
      ∀ b, b ∈ l.map (fun y => y.addr) ↔ dependsOn workflow a.addr b) := by
  constructor
  · obtain ⟨l, hl, hmem⟩ := collectOperations_spec workflow hwf rttAllOutputs
      (workflow.transitions.filter
        (fun c => c.operation.addr == a.addr && c.transitionType.inFlags rttAllInputs))
      (fun t ht => (List.mem_filter.mp ht).1)
    refine ⟨l, by simp only [getPreviousOperations, getOperationIO_eq workflow _ a _ h, hl], ?_⟩
    intro b
    simp only [List.mem_map, hmem, List.mem_filter, Bool.and_eq_true, beq_iff_eq,
      inFlags_rttAllOutputs, inFlags_rttAllInputs, dependsOn]
    constructor
    · rintro ⟨x, ⟨t1, ⟨ht1, ha, hin⟩, t2, ht2, hname, hout, rfl⟩, rfl⟩
      exact ⟨t2, ht2, t1, ht1, rfl, ha, hout, hin, hname⟩
    · rintro ⟨t1, ht1, t2, ht2, rfl, ha, hout, hin, hname⟩
      exact ⟨t1.operation, ⟨t2, ⟨ht2, ha, hin⟩, t1, ht1, hname, hout, rfl⟩, rfl⟩
  · obtain ⟨l, hl, hmem⟩ := collectOperations_spec workflow hwf rttAllInputs
      (workflow.transitions.filter
        (fun c => c.operation.addr == a.addr && c.transitionType.inFlags rttAllOutputs))
      (fun t ht => (List.mem_filter.mp ht).1)
    refine ⟨l, by simp only [getNextOperations, getOperationIO_eq workflow _ a _ h, hl], ?_⟩
    intro b
    simp only [List.mem_map, hmem, List.mem_filter, Bool.and_eq_true, beq_iff_eq,
      inFlags_rttAllOutputs, inFlags_rttAllInputs, dependsOn]
    constructor
    · rintro ⟨x, ⟨t1, ⟨ht1, ha, hout⟩, t2, ht2, hname, hin, rfl⟩, rfl⟩
      exact ⟨t1, ht1, t2, ht2, ha, rfl, hout, hin, hname.symm⟩
    · rintro ⟨t1, ht1, t2, ht2, ha, rfl, hout, hin, hname⟩
      exact ⟨t2.operation, ⟨t1, ⟨ht1, ha, hout⟩, t2, ht2, hname.symm, hin, rfl⟩, rfl⟩

/-- Claim C12. In a workflow with well formed containers, for operations `a` and `b`
registered as `nameA` and `nameB`: `b` occurs in `getPreviousOperations(nameA)` exactly when
some resource has a transition of input kind of `a` and a transition of output kind of `b`;
`b` occurs in `getNextOperations(nameA)` exactly when some resource has a transition of
output kind of `a` and a transition of input kind of `b`; and `b` occurs in
`getNextOperations(nameA)` exactly when `a` occurs in `getPreviousOperations(nameB)`. All
three calls return. -/
theorem previous_next_operations (workflow : RenderWorkflow) (hwf : WellFormed workflow)
    (nameA nameB : String) (a b : RenderOperation)
    (ha : workflow.renderOperations.lookup nameA = some a)
    (hb : workflow.renderOperations.lookup nameB = some b) :
    ∃ previousA nextA previousB,
      workflow.getPreviousOperations nameA = .ok previousA ∧
      workflow.getNextOperations nameA = .ok nextA ∧
      workflow.getPreviousOperations nameB = .ok previousB ∧
      ((∃ x ∈ previousA, x.addr = b.addr) ↔
        ∃ t1 ∈ workflow.transitions, ∃ t2 ∈ workflow.transitions,
          t1.resource.name = t2.resource.name ∧
          t1.operation.addr = a.addr ∧ t1.transitionType.isInput = true ∧
          t2.operation.addr = b.addr ∧ t2.transitionType.isOutput = true) ∧
      ((∃ x ∈ nextA, x.addr = b.addr) ↔
        ∃ t1 ∈ workflow.transitions, ∃ t2 ∈ workflow.transitions,
          t1.resource.name = t2.resource.name ∧
          t1.operation.addr = a.addr ∧ t1.transitionType.isOutput = true ∧
          t2.operation.addr = b.addr ∧ t2.transitionType.isInput = true) ∧
      ((∃ x ∈ nextA, x.addr = b.addr) ↔ ∃ y ∈ previousB, y.addr = a.addr) := by
  obtain ⟨⟨pa, hpa, hpam⟩, ⟨na, hna, hnam⟩⟩ := neighbours_spec workflow hwf nameA a ha
  obtain ⟨⟨pb, hpb, hpbm⟩, _⟩ := neighbours_spec workflow hwf nameB b hb
  have hmem : ∀ (l : List RenderOperation) (c : Addr),
      (∃ x ∈ l, x.addr = c) ↔ c ∈ l.map (fun y => y.addr) := by
    intro l c; simp only [List.mem_map]
  refine ⟨pa, na, pb, hpa, hna, hpb, ?_, ?_, ?_⟩
  · rw [hmem, hpam]
    simp only [dependsOn]
    constructor
    · rintro ⟨t1, ht1, t2, ht2, h1, h2, h3, h4, h5⟩
      exact ⟨t2, ht2, t1, ht1, h5.symm, h2, h4, h1, h3⟩
    · rintro ⟨t1, ht1, t2, ht2, h1, h2, h3, h4, h5⟩
      exact ⟨t2, ht2, t1, ht1, h4, h2, h5, h3, h1.symm⟩
  · rw [hmem, hnam]
    simp only [dependsOn]
    constructor
    · rintro ⟨t1, ht1, t2, ht2, h1, h2, h3, h4, h5⟩
      exact ⟨t1, ht1, t2, ht2, h5, h1, h3, h2, h4⟩
    · rintro ⟨t1, ht1, t2, ht2, h1, h2, h3, h4, h5⟩
      exact ⟨t1, ht1, t2, ht2, h2, h4, h3, h5, h1⟩
  · rw [hmem, hmem, hnam, hpbm]

/-! ### Cost and tags -/

/-- A further element in front of a sequence adds one change when it differs from the
element that follows it. -/
theorem tagChanges_cons_cons {α : Type} [DecidableEq α] (a b : α) (rest : List α) :
    tagChanges (a :: b :: rest) = (if b ≠ a then 1 else 0) + tagChanges (b :: rest) := by
  unfold tagChanges
  simp only [List.length_cons]
  rw [List.range_succ_eq_map (rest.length + 1), List.range_succ_eq_map rest.length]
  simp only [List.filter_cons, List.filter_map, List.length_map]
  simp only [Function.comp_def]
  by_cases h : b = a
  · subst h
    simp
  · simp [h]
    omega

/-- The loop of `calculateWorkflowCost` adds 10 for every change of tag. -/
theorem costLoop_eq (cc : StandardRenderWorkflowCostCalculator) (l : List RenderOperation) :
    ∀ (tag : Int) (result : Nat),
      (∀ x ∈ l, (cc.attachmentTag.lookup x.name).isSome = true) →
      cc.costLoop l tag result = .ok (result + 10 * tagChanges
        (some tag :: l.map (fun x => cc.attachmentTag.lookup x.name))) := by
  induction l with
  | nil => intro tag result _; simp [costLoop, tagChanges]
  | cons x rest ih =>
    intro tag result h
    obtain ⟨t, ht⟩ := Option.isSome_iff_exists.mp (h x (List.mem_cons_self _ _))
    have hrest := ih t (if t ≠ tag then result + 10 else result)
      (fun y hy => h y (List.mem_cons_of_mem _ hy))
    simp only [costLoop, mapAt, ht, hrest, List.map_cons, tagChanges_cons_cons]
    by_cases hne : t = tag
    · subst hne; simp
    · simp [hne]; omega

/-- A sequence whose elements are all the same has no change of tag. -/
theorem tagChanges_const {α : Type} [DecidableEq α] (l : List α)
    (h : ∀ x ∈ l, ∀ y ∈ l, x = y) : tagChanges l = 0 := by
  induction l with
  | nil => rfl
  | cons a rest ih =>
    cases rest with
    | nil => rfl
    | cons b rest =>
      have hba : b = a := h b (by simp) a (by simp)
      rw [tagChanges_cons_cons, ih (fun x hx y hy =>
        h x (List.mem_cons_of_mem _ hx) y (List.mem_cons_of_mem _ hy))]
      simp [hba]

/-- Claim C13. For a sequence of operations that all have a tag, `calculateWorkflowCost`
returns 10 times the number of positions `i ≥ 1` at which the tag of element `i` differs
from the tag of element `i - 1`; it returns 0 for the empty sequence and for a sequence whose
elements all have the same tag. -/
theorem calculateWorkflowCost_changes (cc : StandardRenderWorkflowCostCalculator)
    (workflow : RenderWorkflow) (operationSchedule : List RenderOperation)
    (htags : ∀ x ∈ operationSchedule, (cc.attachmentTag.lookup x.name).isSome = true) :
    cc.calculateWorkflowCost workflow operationSchedule
      = .ok (10 * tagChanges
          (operationSchedule.map (fun x => cc.attachmentTag.lookup x.name))) ∧
    (operationSchedule = [] → cc.calculateWorkflowCost workflow operationSchedule = .ok 0) ∧
    ((∀ x ∈ operationSchedule, ∀ y ∈ operationSchedule,
        cc.attachmentTag.lookup x.name = cc.attachmentTag.lookup y.name) →
      cc.calculateWorkflowCost workflow operationSchedule = .ok 0) := by
  have hcost : cc.calculateWorkflowCost workflow operationSchedule
      = .ok (10 * tagChanges
          (operationSchedule.map (fun x => cc.attachmentTag.lookup x.name))) := by
    cases operationSchedule with
    | nil => rfl
    | cons first rest =>
      obtain ⟨t, ht⟩ := Option.isSome_iff_exists.mp (htags first (List.mem_cons_self _ _))
      simp only [calculateWorkflowCost, mapAt, ht, List.map_cons,
        costLoop_eq cc rest t 0 (fun y hy => htags y (List.mem_cons_of_mem _ hy)), Nat.zero_add]
  refine ⟨hcost, ?_, ?_⟩
  · intro h; subst h; rfl
  · intro hsame
    rw [hcost, tagChanges_const]
    intro x hx y hy
    obtain ⟨x', hx', rfl⟩ := List.mem_map.mp hx
    obtain ⟨y', hy', rfl⟩ := List.mem_map.mp hy
    exact hsame x' hx' y' hy'

theorem calculateWorkflowCost_changes_witness :
    (Sample.compiler.costCalculator.tagOperationByAttachmentType
        Sample.withCompute).2.calculateWorkflowCost Sample.withCompute
      [Sample.shadow, Sample.cull, Sample.main, Sample.main] = .ok 20 :=
  (calculateWorkflowCost_changes
    (Sample.compiler.costCalculator.tagOperationByAttachmentType Sample.withCompute).2
    Sample.withCompute [Sample.shadow, Sample.cull, Sample.main, Sample.main]
    (by decide)).1

/-- What `insert` gives for a key that is new to the map. -/
theorem lookup_mapInsert_new {V : Type} (m : List (String × V)) (k n : String) (v : V)
    (h : m.lookup k = none) :
    (mapInsert k v m).lookup n = if n = k then some v else m.lookup n := by
  simp only [mapInsert, h]
  rw [List.lookup_append]
  by_cases hn : n = k
  · subst hn; simp [h, List.lookup]
  · have hb : (n == k) = false := by simpa using hn
    simp [hn, List.lookup, hb]

/-- An `insert` with a new key leaves what the map gives for its keys. -/
theorem lookup_mapInsert_old {V : Type} (m : List (String × V)) (k n : String) (v w : V)
    (h : m.lookup n = some w) : (mapInsert k v m).lookup n = some w := by
  unfold mapInsert
  cases hk : m.lookup k with
  | some _ => exact h
  | none => simp only [List.lookup_append, h, Option.or_some]

/-- The entries of a map after an `insert`. -/
theorem mem_mapInsert {V : Type} (m : List (String × V)) (k : String) (v : V)
    (e : String × V) (h : e ∈ mapInsert k v m) : e = (k, v) ∨ e ∈ m := by
  unfold mapInsert at h
  cases hk : m.lookup k with
  | some _ => rw [hk] at h; exact Or.inr h
  | none =>
    rw [hk] at h
    rcases List.mem_append.mp h with h | h
    · exact Or.inr h
    · exact Or.inl (by simpa using h)

/-- The tags that the loop of `tagOperationByAttachmentType` gives, from any point of the
loop on: the map `tags` holds at most one entry, for the default size; operations that are
not graphics operations get a tag of their own, graphics operations all get the same one. -/
theorem tagLoop_spec (workflow : RenderWorkflow) (ops : List (String × RenderOperation)) :
    ∀ (tags : List (Int × AttachmentSize)) (attachmentTag : List (String × Int))
      (currentTag : Int),
      0 ≤ currentTag →
      (∀ e ∈ ops, (workflow.renderOperations.lookup e.1).isSome = true) →
      (ops.map (fun e => e.1)).Nodup →
      (∀ e ∈ ops, attachmentTag.lookup e.1 = none) →
      (∀ n t, attachmentTag.lookup n = some t → t < currentTag) →
      (tags = [] ∨ ∃ T, tags = [(T, AttachmentSize.default)] ∧ 0 ≤ T ∧ T < currentTag) →
      ∃ result, tagLoop workflow ops tags attachmentTag currentTag = (.ok (), result) ∧
        (∀ n t, attachmentTag.lookup n = some t → result.lookup n = some t) ∧
        (∀ e ∈ ops, ∃ t, result.lookup e.1 = some t) ∧
        (∀ n t, result.lookup n = some t → attachmentTag.lookup n = some t ∨
          ∃ e ∈ ops, e.1 = n ∧ (currentTag ≤ t ∨ (t, AttachmentSize.default) ∈ tags)) ∧
        (∀ e ∈ ops, e.2.operationType ≠ RenderOperation.Type.Graphics →
          ∀ t, result.lookup e.1 = some t →
            ∀ n t1, n ≠ e.1 → result.lookup n = some t1 → t1 ≠ t) ∧
        (∃ T, (∀ e ∈ ops, e.2.operationType = RenderOperation.Type.Graphics →
            result.lookup e.1 = some T) ∧
          ∀ T0, tags = [(T0, AttachmentSize.default)] → T = T0) := by
  induction ops with
  | nil =>
    intro tags attachmentTag currentTag _ _ _ _ _ htags
    refine ⟨attachmentTag, rfl, fun _ _ h => h, by simp, fun _ _ h => Or.inl h, by simp, ?_⟩
    rcases htags with h | ⟨T, h, _, _⟩
    · exact ⟨0, by simp, by simp [h]⟩
    · exact ⟨T, by simp, by simp [h]⟩
  | cons e rest ih =>
    intro tags attachmentTag currentTag hcur0 hreg hkeys hfresh hat htags
    have hregRest : ∀ x ∈ rest, (workflow.renderOperations.lookup x.1).isSome = true :=
      fun x hx => hreg x (List.mem_cons_of_mem _ hx)
    simp only [List.map_cons, List.nodup_cons, List.mem_map, not_exists, not_and] at hkeys
    obtain ⟨hhead, hkeysRest⟩ := hkeys
    have hne : ∀ x ∈ rest, x.1 ≠ e.1 := fun x hx h => hhead x hx h
    have hnew : attachmentTag.lookup e.1 = none := hfresh e (List.mem_cons_self _ _)
    -- the step shared by the three branches
    have step : ∀ (tags1 : List (Int × AttachmentSize)) (v cur1 : Int),
        cur1 = currentTag ∨ cur1 = currentTag + 1 → v < cur1 →
        (currentTag ≤ v ∨ (v, AttachmentSize.default) ∈ tags) →
        (tags1 = [] ∨ ∃ T, tags1 = [(T, AttachmentSize.default)] ∧ 0 ≤ T ∧ T < cur1) →
        (∀ t, (t, AttachmentSize.default) ∈ tags1 →
          (t, AttachmentSize.default) ∈ tags ∨ t = currentTag) →
        ∃ result, tagLoop workflow rest tags1 (mapInsert e.1 v attachmentTag) cur1
            = (.ok (), result) ∧
          (∀ n t, attachmentTag.lookup n = some t → result.lookup n = some t) ∧
          (∀ x ∈ e :: rest, ∃ t, result.lookup x.1 = some t) ∧
          result.lookup e.1 = some v ∧
          (∀ n t, n ≠ e.1 → result.lookup n = some t → attachmentTag.lookup n = some t ∨
            cur1 ≤ t ∨ (t, AttachmentSize.default) ∈ tags1) ∧
          (∀ n t, result.lookup n = some t → attachmentTag.lookup n = some t ∨
            ∃ x ∈ e :: rest, x.1 = n ∧
              (currentTag ≤ t ∨ (t, AttachmentSize.default) ∈ tags)) ∧
          (∀ x ∈ rest, x.2.operationType ≠ RenderOperation.Type.Graphics →
            ∀ t, result.lookup x.1 = some t →
              ∀ n t1, n ≠ x.1 → result.lookup n = some t1 → t1 ≠ t) ∧
          (∃ T, (∀ x ∈ rest, x.2.operationType = RenderOperation.Type.Graphics →
              result.lookup x.1 = some T) ∧
            ∀ T0, tags1 = [(T0, AttachmentSize.default)] → T = T0) := by
      intro tags1 v cur1 hcur hv hvsrc htags1 hsub
      have hlook : ∀ n, (mapInsert e.1 v attachmentTag).lookup n
          = if n = e.1 then some v else attachmentTag.lookup n :=
        fun n => lookup_mapInsert_new attachmentTag e.1 n v hnew
      obtain ⟨result, hres, ha, hb, hc, hd, hg⟩ := ih tags1 (mapInsert e.1 v attachmentTag) cur1
        (by rcases hcur with rfl | rfl <;> omega) hregRest hkeysRest
        (fun x hx => by rw [hlook, if_neg (hne x hx)]; exact hfresh x (List.mem_cons_of_mem _ hx))
        (fun n t h => by
          rw [hlook] at h
          by_cases hn : n = e.1
          · rw [if_pos hn] at h; cases h; exact hv
          · rw [if_neg hn] at h
            have := hat n t h
            rcases hcur with rfl | rfl <;> omega)
        htags1
      have hev : result.lookup e.1 = some v := ha e.1 v (by rw [hlook, if_pos rfl])
      refine ⟨result, hres, ?_, ?_, hev, ?_, ?_, hd, hg⟩
      · intro n t h
        apply ha
        rw [hlook]
        by_cases hn : n = e.1
        · rw [hn, hnew] at h; cases h
        · rw [if_neg hn]; exact h
      · intro x hx
        rcases List.mem_cons.mp hx with rfl | hx
        · exact ⟨v, hev⟩
        · exact hb x hx
      · intro n t hn h
        rcases hc n t h with h1 | ⟨x, _, _, hxt⟩
        · rw [hlook, if_neg hn] at h1; exact Or.inl h1
        · exact Or.inr hxt
      · intro n t h
        rcases hc n t h with h1 | ⟨x, hx, hxn, hxt⟩
        · rw [hlook] at h1
          by_cases hn : n = e.1
          · rw [if_pos hn] at h1; cases h1
            exact Or.inr ⟨e, List.mem_cons_self _ _, hn.symm, hvsrc⟩
          · rw [if_neg hn] at h1; exact Or.inl h1
        · refine Or.inr ⟨x, List.mem_cons_of_mem _ hx, hxn, ?_⟩
          rcases hxt with hle | hmem
          · left; rcases hcur with rfl | rfl <;> omega
          · rcases hsub t hmem with h2 | h2
            · exact Or.inr h2
            · left; omega
    have hio : ∃ ts, workflow.getOperationIO e.1 rttAllAttachments = .ok ts := by
      obtain ⟨op, hop⟩ := Option.isSome_iff_exists.mp (hreg e (List.mem_cons_self _ _))
      exact ⟨_, getOperationIO_eq workflow e.1 op _ hop⟩
    obtain ⟨ts, hts⟩ := hio
    have hbound : ∀ t, (t, AttachmentSize.default) ∈ tags → t < currentTag := by
      intro t ht
      rcases htags with h | ⟨T, h, _, hT⟩
      · simp [h] at ht
      · simp [h] at ht; omega
    unfold tagLoop
    by_cases hg : e.2.operationType = RenderOperation.Type.Graphics
    · simp only [hg, ne_eq, not_true_eq_false, if_false, hts]
      rcases htags with h | ⟨T0, h, hT0, hT0lt⟩
      · -- no tag for the default size yet: a new tag is made
        subst h
        have hfind : findTag AttachmentSize.default [] < 0 := by simp [findTag]
        simp only [hfind, if_true, List.nil_append]
        obtain ⟨result, hres, ha, hb, hev, _, hc, hd, T, hT, hT1⟩ :=
          step [(currentTag, AttachmentSize.default)] currentTag (currentTag + 1)
            (Or.inr rfl) (by omega) (Or.inl (le_refl _))
            (Or.inr ⟨currentTag, rfl, hcur0, by omega⟩)
            (fun t ht => by simp at ht; exact Or.inr ht)
        refine ⟨result, hres, ha, hb, hc, ?_, currentTag, ?_, by simp⟩
        · intro x hx hxg
          rcases List.mem_cons.mp hx with rfl | hx
          · exact absurd hg hxg
          · exact hd x hx hxg
        · intro x hx hxg
          rcases List.mem_cons.mp hx with rfl | hx
          · exact hev
          · rw [hT x hx hxg, hT1 currentTag rfl]
      · -- the tag of the default size is used again
        subst h
        have hfind : findTag AttachmentSize.default [(T0, AttachmentSize.default)] = T0 := by
          simp [findTag, AttachmentSize.eq_iff]
        have hnot : ¬ T0 < 0 := by omega
        simp only [hfind, hnot, if_false]
        obtain ⟨result, hres, ha, hb, hev, _, hc, hd, T, hT, hT1⟩ :=
          step [(T0, AttachmentSize.default)] T0 currentTag
            (Or.inl rfl) hT0lt (Or.inr (by simp))
            (Or.inr ⟨T0, rfl, hT0, hT0lt⟩)
            (fun t ht => Or.inl ht)
        refine ⟨result, hres, ha, hb, hc, ?_, T0, ?_, by simp⟩
        · intro x hx hxg
          rcases List.mem_cons.mp hx with rfl | hx
          · exact absurd hg hxg
          · exact hd x hx hxg
        · intro x hx hxg
          rcases List.mem_cons.mp hx with rfl | hx
          · exact hev
          · rw [hT x hx hxg, hT1 T0 rfl]
    · simp only [ne_eq, hg, not_false_eq_true, if_true]
      obtain ⟨result, hres, ha, hb, hev, hc1, hc, hd, T, hT, hT1⟩ :=
        step tags currentTag (currentTag + 1)
          (Or.inr rfl) (by omega) (Or.inl (le_refl _))
          (by
            rcases htags with h | ⟨T0, h, h0, h1⟩
            · exact Or.inl h
            · exact Or.inr ⟨T0, h, h0, by omega⟩)
          (fun t ht => Or.inl ht)
      refine ⟨result, hres, ha, hb, hc, ?_, T, ?_, hT1⟩
      · intro x hx hxg t ht n t1 hn ht1
        rcases List.mem_cons.mp hx with rfl | hx
        · rw [hev] at ht
          cases ht
          rcases hc1 n t1 hn ht1 with h1 | h1 | h1
          · have := hat n t1 h1; omega
          · omega
          · have := hbound t1 h1; omega
        · exact hd x hx hxg t ht n t1 hn ht1
      · intro x hx hxg
        rcases List.mem_cons.mp hx with rfl | hx
        · exact absurd hxg hg
        · exact hT x hx hxg

/-- What `tagOperationByAttachmentType` leaves in `attachmentTag` for a workflow whose
operation map has each name once. -/
theorem tagOperationByAttachmentType_spec (cc : StandardRenderWorkflowCostCalculator)
    (workflow : RenderWorkflow)
    (hkeys : (workflow.renderOperations.map (fun e => e.1)).Nodup) :
    (cc.tagOperationByAttachmentType workflow).1 = .ok () ∧
    (∀ e ∈ workflow.renderOperations,
      ∃ t, (cc.tagOperationByAttachmentType workflow).2.attachmentTag.lookup e.1 = some t) ∧
    (∀ e ∈ workflow.renderOperations,
      e.2.operationType ≠ RenderOperation.Type.Graphics →
      ∀ t, (cc.tagOperationByAttachmentType workflow).2.attachmentTag.lookup e.1 = some t →
        ∀ n t1, n ≠ e.1 →
          (cc.tagOperationByAttachmentType workflow).2.attachmentTag.lookup n = some t1 →
          t1 ≠ t) ∧
    (∃ T, ∀ e ∈ workflow.renderOperations,
      e.2.operationType = RenderOperation.Type.Graphics →
      (cc.tagOperationByAttachmentType workflow).2.attachmentTag.lookup e.1 = some T) := by
  obtain ⟨result, hres, _, hb, _, hd, T, hT, _⟩ :=
    tagLoop_spec workflow workflow.renderOperations [] [] 0 (le_refl _)
      (fun e he => by
        obtain ⟨v, hv⟩ := lookup_isSome_of_mem _ e.1 e.2 he
        rw [hv]; rfl)
      hkeys (fun _ _ => rfl) (fun n t h => by simp at h) (Or.inl rfl)
  simp only [tagOperationByAttachmentType, hres]
  exact ⟨trivial, hb, hd, T, hT⟩

/-- Claim C14. When the operation map has each name once, `tagOperationByAttachmentType`
returns, every registered operation has a tag afterwards, and two graphics operations all of
whose attachment transitions have the same attachment size have the same tag. (The proof does
not use the sizes: the code gives one tag to all graphics operations.) -/
theorem tags_total_and_shared (cc : StandardRenderWorkflowCostCalculator)
    (workflow : RenderWorkflow)
    (hkeys : (workflow.renderOperations.map (fun e => e.1)).Nodup) :
    (cc.tagOperationByAttachmentType workflow).1 = .ok () ∧
    (∀ e ∈ workflow.renderOperations,
      ∃ t, (cc.tagOperationByAttachmentType workflow).2.attachmentTag.lookup e.1 = some t) ∧
    (∀ e1 ∈ workflow.renderOperations, ∀ e2 ∈ workflow.renderOperations,
      e1.2.operationType = RenderOperation.Type.Graphics →
      e2.2.operationType = RenderOperation.Type.Graphics →
      (∀ t1 ∈ workflow.transitions, ∀ t2 ∈ workflow.transitions,
        t1.operation.addr = e1.2.addr → t2.operation.addr = e2.2.addr →
        t1.transitionType.isAttachment = true → t2.transitionType.isAttachment = true →
        t1.resource.resourceType.attachment.attachmentSize
          = t2.resource.resourceType.attachment.attachmentSize) →
      (cc.tagOperationByAttachmentType workflow).2.attachmentTag.lookup e1.1
        = (cc.tagOperationByAttachmentType workflow).2.attachmentTag.lookup e2.1) := by
  obtain ⟨hok, htotal, _, T, hT⟩ := tagOperationByAttachmentType_spec cc workflow hkeys
  refine ⟨hok, htotal, ?_⟩
  intro e1 he1 e2 he2 hg1 hg2 _
  rw [hT e1 he1 hg1, hT e2 he2 hg2]

/-- Claim C15. When the operation map has each name once, after
`tagOperationByAttachmentType` a registered compute operation `c` and any other registered
operation `x` have tags, and the two tags differ. -/
theorem compute_tag_unique (cc : StandardRenderWorkflowCostCalculator)
    (workflow : RenderWorkflow)
    (hkeys : (workflow.renderOperations.map (fun e => e.1)).Nodup)
    (c x : String × RenderOperation)
    (hc : c ∈ workflow.renderOperations) (hx : x ∈ workflow.renderOperations)
    (hcompute : c.2.operationType = RenderOperation.Type.Compute) (hne : x ≠ c) :
    ∃ tc tx,
      (cc.tagOperationByAttachmentType workflow).2.attachmentTag.lookup c.1 = some tc ∧
      (cc.tagOperationByAttachmentType workflow).2.attachmentTag.lookup x.1 = some tx ∧
      tc ≠ tx := by
  obtain ⟨_, htotal, hd, _⟩ := tagOperationByAttachmentType_spec cc workflow hkeys
  obtain ⟨tc, htc⟩ := htotal c hc
  obtain ⟨tx, htx⟩ := htotal x hx
  have hname : x.1 ≠ c.1 := by
    intro h
    have h1 := lookup_of_mem_nodup _ x.1 x.2 hkeys hx
    have h2 := lookup_of_mem_nodup _ c.1 c.2 hkeys hc
    rw [h, h2] at h1
    exact hne (Prod.ext h (Option.some.inj h1).symm)
  refine ⟨tc, tx, htc, htx, fun heq => ?_⟩
  exact hd c hc (by rw [hcompute]; decide) tc htc x.1 tx hname htx heq.symm

/-- Claim C16 against the code. The workflow `Sample.twoSizes` passes `verifyOperations`;
its operations Shadow and Main are graphics operations; the one attachment of Shadow has the
absolute size 1024 x 1024, the one attachment of Main has the size of the surface; and
`tagOperationByAttachmentType` gives the tag 0 to both. -/
theorem different_sizes_same_tag :
    verifyOperations Sample.twoSizes = .ok () ∧
    Sample.twoSizes.renderOperations = [("Shadow", Sample.shadow), ("Main", Sample.main)] ∧
    Sample.shadow.operationType = RenderOperation.Type.Graphics ∧
    Sample.main.operationType = RenderOperation.Type.Graphics ∧
    (Sample.twoSizes.getOperationIO "Shadow" rttAllAttachments).map
      (fun ts => ts.map (fun t => t.resource.resourceType.attachment.attachmentSize))
      = .ok [⟨.Absolute, ⟨1024, 1024, 1⟩⟩] ∧
    (Sample.twoSizes.getOperationIO "Main" rttAllAttachments).map
      (fun ts => ts.map (fun t => t.resource.resourceType.attachment.attachmentSize))
      = .ok [⟨.SurfaceDependent, ⟨1, 1, 1⟩⟩] ∧
    Sample.compiler.costCalculator.tagOperationByAttachmentType Sample.twoSizes
      = (.ok (), ⟨[("Shadow", 0), ("Main", 0)]⟩) := by
  decide

/-! ### Slots of resources -/

/-- The transitions that `getOperationIO` returns are transitions of the workflow. -/
theorem getOperationIO_subset (workflow : RenderWorkflow) (n : String)
    (flags : ResourceTransitionTypeFlags) (l : List ResourceTransition)
    (h : workflow.getOperationIO n flags = .ok l) : ∀ t ∈ l, t ∈ workflow.transitions := by
  unfold getOperationIO at h
  cases hop : workflow.getRenderOperation n with
  | error e => simp [hop] at h
  | ok op =>
    simp only [hop, Except.ok.injEq] at h
    subst h
    exact fun t ht => (List.mem_filter.mp ht).1

/-- The first loop of `collectResources` leaves the slot vector and the slot map alone. -/
theorem collectInitial_slots (workflow : RenderWorkflow)
    (ops : List (String × RenderOperation)) :
    ∀ s s1, collectInitial workflow ops s = .ok s1 →
      s1.resourceVector = s.resourceVector ∧ s1.resourceIndex = s.resourceIndex := by
  induction ops with
  | nil => intro s s1 h; simp only [collectInitial, Except.ok.injEq] at h; subst h; exact ⟨rfl, rfl⟩
  | cons e rest ih =>
    intro s s1 h
    unfold collectInitial at h
    cases hp : workflow.getPreviousOperations e.1 with
    | error err => simp [hp] at h
    | ok ops1 =>
      simp only [hp] at h
      cases hout : workflow.getOperationIO e.1 rttAllOutputs with
      | error err =>
        simp only [hout] at h
        split at h <;> simp at h
      | ok outs =>
        simp only [hout] at h
        cases hemp : ops1.isEmpty with
        | true =>
          simp only [hemp, if_true] at h
          cases hin : workflow.getOperationIO e.1 rttAllInputs with
          | error err => simp [hin] at h
          | ok ins =>
            simp only [hin] at h
            have h2 := ih _ _ h
            exact h2
        | false =>
          simp only [hemp, Bool.false_eq_true, if_false] at h
          have h2 := ih _ _ h
          exact h2

/-- A property of the slot vector and the slot map that every new slot assignment keeps is
kept by the loop of `collectResources` over the outputs of an operation. -/
theorem collectOutputs_invariant (workflow : RenderWorkflow)
    (P : List WorkflowResource → List (String × Nat) → Prop)
    (hstep : ∀ t ∈ workflow.transitions, ∀ s s1,
      s.resourceIndex.lookup t.resource.name = none → P s.resourceVector s.resourceIndex →
      assignSlot workflow t.resource s = .ok s1 → P s1.resourceVector s1.resourceIndex)
    (ts : List ResourceTransition) :
    (∀ t ∈ ts, t ∈ workflow.transitions) →
    ∀ s s1, P s.resourceVector s.resourceIndex → collectOutputs workflow ts s = .ok s1 →
      P s1.resourceVector s1.resourceIndex := by
  induction ts with
  | nil =>
    intro _ s s1 hP h
    simp only [collectOutputs, Except.ok.injEq] at h
    subst h; exact hP
  | cons t rest ih =>
    intro hts s s1 hP h
    have hrest : ∀ x ∈ rest, x ∈ workflow.transitions :=
      fun x hx => hts x (List.mem_cons_of_mem _ hx)
    unfold collectOutputs at h
    simp only at h
    have key : ∀ s2 : CollectState, P s2.resourceVector s2.resourceIndex →
        (match workflow.getResourceIO t.resource.name rttAllInputs with
         | .error e => .error e
         | .ok resTransitions =>
           match pushConsumers workflow s2.resourcesGenerated resTransitions
               s2.nextOperations with
           | .error e => .error e
           | .ok nextOperations =>
             collectOutputs workflow rest { s2 with nextOperations := nextOperations })
          = Except.ok s1 →
        P s1.resourceVector s1.resourceIndex := by
      intro s2 hP2 h2
      cases hio : workflow.getResourceIO t.resource.name rttAllInputs with
      | error e => simp [hio] at h2
      | ok resTransitions =>
        simp only [hio] at h2
        cases hpush : pushConsumers workflow s2.resourcesGenerated resTransitions
            s2.nextOperations with
        | error e => simp [hpush] at h2
        | ok nextOperations =>
          simp only [hpush] at h2
          exact ih hrest { s2 with nextOperations := nextOperations } s1 hP2 h2
    cases hlook : s.resourceIndex.lookup t.resource.name with
    | some i =>
      simp only [hlook, Option.isNone_some, Bool.false_eq_true, if_false] at h
      exact key { s with
        resourcesGenerated := mapAssign t.resource.name true s.resourcesGenerated } hP h
    | none =>
      simp only [hlook, Option.isNone_none, if_true] at h
      cases hassign : assignSlot workflow t.resource
          { s with
            resourcesGenerated := mapAssign t.resource.name true s.resourcesGenerated } with
      | error e => simp [hassign] at h
      | ok s2 =>
        simp only [hassign] at h
        exact key s2 (hstep t (hts t (List.mem_cons_self _ _))
          { s with
            resourcesGenerated := mapAssign t.resource.name true s.resourcesGenerated }
          s2 hlook hP hassign) h

/-- The same for the `while` loop of `collectResources`. -/
theorem collectLoop_invariant (workflow : RenderWorkflow)
    (P : List WorkflowResource → List (String × Nat) → Prop)
    (hstep : ∀ t ∈ workflow.transitions, ∀ s s1,
      s.resourceIndex.lookup t.resource.name = none → P s.resourceVector s.resourceIndex →
      assignSlot workflow t.resource s = .ok s1 → P s1.resourceVector s1.resourceIndex)
    (rounds : Nat) :
    ∀ s s1, P s.resourceVector s.resourceIndex → collectLoop workflow rounds s = .ok s1 →
      P s1.resourceVector s1.resourceIndex := by
  induction rounds with
  | zero =>
    intro s s1 hP h
    unfold collectLoop at h
    cases hn : s.nextOperations with
    | nil => simp only [hn, Except.ok.injEq] at h; subst h; exact hP
    | cons op more => simp [hn] at h
  | succ rounds ih =>
    intro s s1 hP h
    unfold collectLoop at h
    cases hn : s.nextOperations with
    | nil => simp only [hn, Except.ok.injEq] at h; subst h; exact hP
    | cons op more =>
      simp only [hn] at h
      cases hout : workflow.getOperationIO op.name rttAllOutputs with
      | error e => simp [hout] at h
      | ok outTransitions =>
        simp only [hout] at h
        cases hco : collectOutputs workflow outTransitions
            { s with nextOperations := more,
                     sortedOperations := s.sortedOperations ++ [op] } with
        | error e => simp [hco] at h
        | ok s2 =>
          simp only [hco] at h
          cases hin : workflow.getOperationIO op.name rttAllInputs with
          | error e => simp [hin] at h
          | ok inTransitions =>
            simp only [hin] at h
            have hP2 := collectOutputs_invariant workflow P hstep outTransitions
              (getOperationIO_subset workflow _ _ _ hout)
              { s with nextOperations := more,
                       sortedOperations := s.sortedOperations ++ [op] } s2 hP hco
            exact ih { s2 with
              resourcesDone := markDone s2.sortedOperations inTransitions s2.resourcesDone }
              s1 hP2 h

/-- The same for the whole of `collectResources`, whose slot vector and slot map are empty at
the start. -/
theorem collectRun_invariant (workflow : RenderWorkflow)
    (P : List WorkflowResource → List (String × Nat) → Prop) (h0 : P [] [])
    (hstep : ∀ t ∈ workflow.transitions, ∀ s s1,
      s.resourceIndex.lookup t.resource.name = none → P s.resourceVector s.resourceIndex →
      assignSlot workflow t.resource s = .ok s1 → P s1.resourceVector s1.resourceIndex)
    (rounds : Nat) (s : CollectState) (h : collectRun rounds workflow = .ok s) :
    P s.resourceVector s.resourceIndex := by
  unfold collectRun at h
  cases hinit : collectInitial workflow workflow.renderOperations ⟨[], [], [], [], [], []⟩ with
  | error e => simp [hinit] at h
  | ok s0 =>
    simp only [hinit] at h
    obtain ⟨hv, hi⟩ := collectInitial_slots workflow _ _ _ hinit
    cases hmark : markInitialDone workflow s0.nextOperations s0.resourcesGenerated
        s0.resourcesDone with
    | error e => simp [hmark] at h
    | ok resourcesDone =>
      simp only [hmark] at h
      refine collectLoop_invariant workflow P hstep rounds
        { s0 with resourcesDone := resourcesDone } s ?_ h
      simp only [hv, hi]
      exact h0

/-- The index that the search for a slot to use again returns is the one it started with or
the slot of an entry of the map that passed the three tests. -/
theorem findAlias_cases (workflow : RenderWorkflow) (resourcesDone : List (String × Bool))
    (resourceIndex : List (String × Nat)) (resource : WorkflowResource)
    (iter : List (String × Nat)) :
    ∀ (start found : Int),
      findAlias workflow resourcesDone resourceIndex resource iter start = .ok found →
      found = start ∨ ∃ res ∈ iter, found = Int.ofNat res.2 ∧
        ∃ examined, workflow.resources.lookup res.1 = some examined ∧
          mapGet resourcesDone examined.name = true ∧
          resource.resourceType.typeName = examined.resourceType.typeName ∧
          allAliasedDone workflow resourcesDone res.2 resourceIndex = .ok true := by
  induction iter with
  | nil => intro start found h; simp only [findAlias, Except.ok.injEq] at h; exact Or.inl h.symm
  | cons res rest ih =>
    intro start found h
    have later : ∀ start1, (start1 = start ∨ (start1 = Int.ofNat res.2 ∧
        ∃ examined, workflow.resources.lookup res.1 = some examined ∧
          mapGet resourcesDone examined.name = true ∧
          resource.resourceType.typeName = examined.resourceType.typeName ∧
          allAliasedDone workflow resourcesDone res.2 resourceIndex = .ok true)) →
        findAlias workflow resourcesDone resourceIndex resource rest start1 = .ok found →
        found = start ∨ ∃ res1 ∈ res :: rest, found = Int.ofNat res1.2 ∧
          ∃ examined, workflow.resources.lookup res1.1 = some examined ∧
            mapGet resourcesDone examined.name = true ∧
            resource.resourceType.typeName = examined.resourceType.typeName ∧
            allAliasedDone workflow resourcesDone res1.2 resourceIndex = .ok true := by
      intro start1 hs h1
      rcases ih start1 found h1 with h2 | ⟨res1, hmem, h2⟩
      · rcases hs with hs | ⟨hs, hex⟩
        · exact Or.inl (h2.trans hs)
        · exact Or.inr ⟨res, List.mem_cons_self _ _, h2.trans hs, hex⟩
      · exact Or.inr ⟨res1, List.mem_cons_of_mem _ hmem, h2⟩
    unfold findAlias at h
    cases hlook : workflow.resources.lookup res.1 with
    | none => simp [getResource, hlook] at h
    | some examined =>
      simp only [getResource, hlook] at h
      cases hdone : mapGet resourcesDone examined.name with
      | false =>
        simp only [hdone, Bool.not_false, if_true] at h
        exact later start (Or.inl rfl) h
      | true =>
        simp only [hdone, Bool.not_true, Bool.false_eq_true, if_false] at h
        by_cases hty : resource.resourceType.typeName = examined.resourceType.typeName
        · simp only [hty, ne_eq, not_true_eq_false, if_false] at h
          cases hall : allAliasedDone workflow resourcesDone res.2 resourceIndex with
          | error e => simp [hall] at h
          | ok b =>
            simp only [hall] at h
            cases b with
            | false =>
              simp only [Bool.not_false, if_true] at h
              exact later start (Or.inl rfl) h
            | true =>
              simp only [Bool.not_true, Bool.false_eq_true, if_false] at h
              exact later (Int.ofNat res.2) (Or.inr ⟨rfl, examined, hlook, hdone, hty, hall⟩) h
        · simp only [ne_eq, hty, not_false_eq_true, if_true] at h
          exact later start (Or.inl rfl) h

/-- The two ways in which a resource without a slot gets one: the slot of an entry that passed
the tests of the search, for an attachment, or a new slot at the end of the vector. -/
theorem assignSlot_cases (workflow : RenderWorkflow) (resource : WorkflowResource)
    (s s1 : CollectState) (h : assignSlot workflow resource s = .ok s1) :
    (resource.resourceType.metaType = MetaType.Attachment ∧
      ∃ res ∈ s.resourceIndex,
        (∃ examined, workflow.resources.lookup res.1 = some examined ∧
          mapGet s.resourcesDone examined.name = true ∧
          resource.resourceType.typeName = examined.resourceType.typeName ∧
          allAliasedDone workflow s.resourcesDone res.2 s.resourceIndex = .ok true) ∧
        s1 = { s with resourceIndex := mapInsert resource.name res.2 s.resourceIndex }) ∨
    s1 = { s with
      resourceIndex := mapInsert resource.name s.resourceVector.length s.resourceIndex,
      resourceVector := s.resourceVector ++ [resource] } := by
  unfold assignSlot at h
  by_cases hmeta : resource.resourceType.metaType = MetaType.Attachment
  · simp only [hmeta, if_true] at h
    cases hfind : findAlias workflow s.resourcesDone s.resourceIndex resource
        s.resourceIndex (-1) with
    | error e => simp [hfind] at h
    | ok found =>
      simp only [hfind] at h
      rcases findAlias_cases workflow _ _ _ _ _ _ hfind with hf | ⟨res, hmem, hf, hex⟩
      · subst hf
        simp only [ge_iff_le, Left.nonneg_neg_iff, Int.reduceLE, if_false,
          Except.ok.injEq] at h
        exact Or.inr h.symm
      · subst hf
        simp only [Int.ofNat_eq_coe, ge_iff_le, Int.natCast_nonneg, if_true, Int.toNat_ofNat,
          Except.ok.injEq] at h
        exact Or.inl ⟨hmeta, res, hmem, hex, h.symm⟩
  · simp only [hmeta, if_false] at h
    simp only [ge_iff_le, Left.nonneg_neg_iff, Int.reduceLE, if_false, Except.ok.injEq] at h
    exact Or.inr h.symm

/-- The loop over `res2` answers whether every resource mapped to the slot is marked done,
when the names of the map are names of resources. -/
theorem allAliasedDone_spec (workflow : RenderWorkflow) (resourcesDone : List (String × Bool))
    (slot : Nat) (l : List (String × Nat))
    (hreg : ∀ e ∈ l, (workflow.resources.lookup e.1).isSome = true) :
    ∃ b, allAliasedDone workflow resourcesDone slot l = .ok b ∧
      (b = true ↔ ∀ e ∈ l, e.2 = slot →
        ∃ r, workflow.resources.lookup e.1 = some r ∧ mapGet resourcesDone r.name = true) := by
  induction l with
  | nil => exact ⟨true, rfl, by simp⟩
  | cons res2 rest ih =>
    obtain ⟨b, hb, hiff⟩ := ih (fun e he => hreg e (List.mem_cons_of_mem _ he))
    obtain ⟨r, hr⟩ := Option.isSome_iff_exists.mp (hreg res2 (List.mem_cons_self _ _))
    unfold allAliasedDone
    by_cases hslot : res2.2 = slot
    · simp only [hslot, ne_eq, not_true_eq_false, if_false, getResource, hr]
      cases hdone : mapGet resourcesDone r.name with
      | false =>
        refine ⟨false, by simp, ?_⟩
        simp only [Bool.false_eq_true, false_iff, not_forall]
        refine ⟨res2, List.mem_cons_self _ _, hslot, ?_⟩
        rintro ⟨r1, hr1, hd1⟩
        rw [hr] at hr1; cases hr1
        rw [hdone] at hd1; cases hd1
      | true =>
        refine ⟨b, by simpa using hb, ?_⟩
        rw [hiff]
        constructor
        · intro h e he hes
          rcases List.mem_cons.mp he with rfl | he
          · exact ⟨r, hr, hdone⟩
          · exact h e he hes
        · intro h e he hes
          exact h e (List.mem_cons_of_mem _ he) hes
    · simp only [ne_eq, hslot, not_false_eq_true, if_true]
      refine ⟨b, hb, ?_⟩
      rw [hiff]
      constructor
      · intro h e he hes
        rcases List.mem_cons.mp he with rfl | he
        · exact absurd hes hslot
        · exact h e he hes
      · intro h e he hes
        exact h e (List.mem_cons_of_mem _ he) hes

/-- The search for a slot to use again returns the index it started with when no entry
passes the three tests, and the slot of an entry that passes them otherwise. -/
theorem findAlias_spec (workflow : RenderWorkflow) (resourcesDone : List (String × Bool))
    (resourceIndex : List (String × Nat)) (resource : WorkflowResource)
    (hreg : ∀ e ∈ resourceIndex, (workflow.resources.lookup e.1).isSome = true)
    (iter : List (String × Nat)) :
    (∀ e ∈ iter, e ∈ resourceIndex) → ∀ start : Int,
      ∃ found, findAlias workflow resourcesDone resourceIndex resource iter start = .ok found ∧
        ((found = start ∧ ∀ e ∈ iter, ¬ entryFits workflow resourcesDone resourceIndex
            resource.resourceType.typeName e) ∨
          ∃ e ∈ iter, found = Int.ofNat e.2 ∧ entryFits workflow resourcesDone resourceIndex
            resource.resourceType.typeName e) := by
  induction iter with
  | nil => intro _ start; exact ⟨start, rfl, Or.inl ⟨rfl, by simp⟩⟩
  | cons res rest ih =>
    intro hsub start
    have hrest : ∀ e ∈ rest, e ∈ resourceIndex := fun e he => hsub e (List.mem_cons_of_mem _ he)
    have hmem : res ∈ resourceIndex := hsub res (List.mem_cons_self _ _)
    obtain ⟨examined, hex⟩ := Option.isSome_iff_exists.mp (hreg res hmem)
    obtain ⟨b, hb, hiff⟩ := allAliasedDone_spec workflow resourcesDone res.2 resourceIndex hreg
    -- the entry does not pass: the loop goes on with the index it has
    have skip : ¬ entryFits workflow resourcesDone resourceIndex
          resource.resourceType.typeName res →
        findAlias workflow resourcesDone resourceIndex resource (res :: rest) start
          = findAlias workflow resourcesDone resourceIndex resource rest start →
        ∃ found, findAlias workflow resourcesDone resourceIndex resource (res :: rest) start
            = .ok found ∧
          ((found = start ∧ ∀ e ∈ res :: rest, ¬ entryFits workflow resourcesDone
              resourceIndex resource.resourceType.typeName e) ∨
            ∃ e ∈ res :: rest, found = Int.ofNat e.2 ∧ entryFits workflow resourcesDone
              resourceIndex resource.resourceType.typeName e) := by
      intro hnot heq
      obtain ⟨found, hf, hcase⟩ := ih hrest start
      refine ⟨found, heq.trans hf, ?_⟩
      rcases hcase with ⟨h1, h2⟩ | ⟨e, he, h1, h2⟩
      · left
        refine ⟨h1, fun e he => ?_⟩
        rcases List.mem_cons.mp he with rfl | he
        · exact hnot
        · exact h2 e he
      · exact Or.inr ⟨e, List.mem_cons_of_mem _ he, h1, h2⟩
    cases hdone : mapGet resourcesDone examined.name with
    | false =>
      apply skip
      · rintro ⟨⟨r, hr, hd, _⟩, _⟩
        rw [hex] at hr; cases hr
        rw [hdone] at hd; cases hd
      · conv => lhs; unfold findAlias
        simp only [getResource, hex, hdone, Bool.not_false, if_true]
    | true =>
      by_cases hty : resource.resourceType.typeName = examined.resourceType.typeName
      · cases b with
        | false =>
          apply skip
          · rintro ⟨_, hall⟩
            have := hiff.mpr hall
            cases this
          · conv => lhs; unfold findAlias
            simp only [getResource, hex, hdone, Bool.not_true, Bool.false_eq_true, if_false,
              hty, ne_eq, not_true_eq_false, hb, Bool.not_false, if_true]
        | true =>
          have hfits : entryFits workflow resourcesDone resourceIndex
              resource.resourceType.typeName res :=
            ⟨⟨examined, hex, hdone, hty.symm⟩, hiff.mp rfl⟩
          obtain ⟨found, hf, hcase⟩ := ih hrest (Int.ofNat res.2)
          refine ⟨found, ?_, ?_⟩
          · conv => lhs; unfold findAlias
            simp only [getResource, hex, hdone, Bool.not_true, Bool.false_eq_true, if_false,
              hty, ne_eq, not_true_eq_false, hb]
            exact hf
          · rcases hcase with ⟨h1, _⟩ | ⟨e, he, h1, h2⟩
            · exact Or.inr ⟨res, List.mem_cons_self _ _, h1, hfits⟩
            · exact Or.inr ⟨e, List.mem_cons_of_mem _ he, h1, h2⟩
      · apply skip
        · rintro ⟨⟨r, hr, _, ht⟩, _⟩
          rw [hex] at hr; cases hr
          exact hty ht.symm
        · conv => lhs; unfold findAlias
          simp only [getResource, hex, hdone, Bool.not_true, Bool.false_eq_true, if_false,
            ne_eq, hty, not_false_eq_true, if_true]

/-- A resource without a slot gets one, in a state whose slot map names resources of the
workflow only. -/
theorem assignSlot_total (workflow : RenderWorkflow) (resource : WorkflowResource)
    (s : CollectState)
    (hreg : ∀ e ∈ s.resourceIndex, (workflow.resources.lookup e.1).isSome = true) :
    ∃ s1, assignSlot workflow resource s = .ok s1 := by
  unfold assignSlot
  by_cases hmeta : resource.resourceType.metaType = MetaType.Attachment
  · obtain ⟨found, hf, _⟩ := findAlias_spec workflow s.resourcesDone s.resourceIndex
      resource hreg s.resourceIndex (fun e he => he) (-1)
    simp only [hmeta, if_true, hf]
    split <;> exact ⟨_, rfl⟩
  · simp only [hmeta, if_false]
    split <;> exact ⟨_, rfl⟩

/-! ### The end of the loop that collects resources -/

/-- In an acyclic workflow the relation of an operation to the operations it depends on is
well founded. -/
theorem consumers_wellFounded (workflow : RenderWorkflow) (hacyc : Acyclic workflow) :
    WellFounded (fun b a => dependsOn workflow a b) := by
  classical
  let reach : Addr → Nat := fun a =>
    (workflow.transitions.map (fun t => t.operation.addr)).countP
      (fun c => decide (Relation.TransGen (dependsOn workflow) a c))
  refine Subrelation.wf ?_ (InvImage.wf reach Nat.lt_wfRel.wf)
  intro b a hab
  show reach b < reach a
  apply countP_lt_of_imp
  · intro c _ hc
    simp only [decide_eq_true_eq] at hc ⊢
    exact Relation.TransGen.head hab hc
  · obtain ⟨t1, _, t2, h2m, _, hb, _, _, _⟩ := hab
    refine ⟨b, List.mem_map.mpr ⟨t2, h2m, hb⟩, ?_, ?_⟩
    · simp only [decide_eq_true_eq]
      exact Relation.TransGen.single ⟨t1, ‹_›, t2, h2m, ‹_›, hb, ‹_›, ‹_›, ‹_›⟩
    · simp only [decide_eq_false_iff_not]
      exact hacyc b

/-- Assignment to a key of a map gives the value at that key. -/
theorem lookup_mapAssign_self {V : Type} (k : String) (v : V) (m : List (String × V)) :
    (mapAssign k v m).lookup k = some v := by
  induction m with
  | nil => simp [mapAssign, List.lookup]
  | cons e rest ih =>
    obtain ⟨k1, v1⟩ := e
    unfold mapAssign
    by_cases hk : k1 = k
    · simp [hk, List.lookup]
    · have hb : (k == k1) = false := by simpa using fun h => hk h.symm
      simp only [hk, if_false, List.lookup, hb]
      exact ih

/-- The loop over `prevRes` answers `true` when all the resources it looks at are marked
generated. -/
theorem allGenerated_true (resourcesGenerated : List (String × Bool))
    (ps : List ResourceTransition)
    (h : ∀ p ∈ ps, resourcesGenerated.lookup p.resource.name = some true) :
    allGenerated resourcesGenerated ps = .ok true := by
  induction ps with
  | nil => rfl
  | cons p rest ih =>
    unfold allGenerated
    simp only [mapAt, h p (List.mem_cons_self _ _), Bool.not_true, Bool.false_eq_true, if_false]
    exact ih (fun q hq => h q (List.mem_cons_of_mem _ hq))

/-- The transitions of input kind on a resource that a transition of the workflow names. -/
theorem getResourceIO_of_transition (workflow : RenderWorkflow) (hwf : WellFormed workflow)
    (t : ResourceTransition) (ht : t ∈ workflow.transitions)
    (flags : ResourceTransitionTypeFlags) :
    workflow.getResourceIO t.resource.name flags = .ok (workflow.transitions.filter
      (fun c => c.resource.name == t.resource.name && c.transitionType.inFlags flags)) := by
  obtain ⟨r, hr⟩ := Option.isSome_iff_exists.mp (hwf.transitionResources t ht)
  have hname := hwf.resourceNames (t.resource.name, r) (mem_of_lookup _ _ _ hr)
  simp only at hname
  rw [getResourceIO_eq workflow _ r flags hr, hname]

/-- The loop over the consumers of a resource that is marked generated pushes the operation
of every transition it is given. -/
theorem pushConsumers_eq (workflow : RenderWorkflow) (hwf : WellFormed workflow)
    (resourcesGenerated : List (String × Bool)) (ts : List ResourceTransition)
    (hts : ∀ t ∈ ts, t ∈ workflow.transitions ∧
      resourcesGenerated.lookup t.resource.name = some true) :
    ∀ nextOperations, pushConsumers workflow resourcesGenerated ts nextOperations
      = .ok (nextOperations ++ ts.map (fun t => t.operation)) := by
  induction ts with
  | nil => intro nextOperations; simp [pushConsumers]
  | cons t rest ih =>
    intro nextOperations
    obtain ⟨htm, hgen⟩ := hts t (List.mem_cons_self _ _)
    have hall : allGenerated resourcesGenerated (workflow.transitions.filter
        (fun c => c.resource.name == t.resource.name && c.transitionType.inFlags rttAllInputs))
        = .ok true := by
      apply allGenerated_true
      intro p hp
      have hpn := (List.mem_filter.mp hp).2
      simp only [Bool.and_eq_true, beq_iff_eq] at hpn
      rw [hpn.1]; exact hgen
    unfold pushConsumers
    simp only [getResourceIO_of_transition workflow hwf t htm, hall, if_true]
    rw [ih (fun q hq => hts q (List.mem_cons_of_mem _ hq))]
    simp

/-- The loop of `collectResources` over the outputs of an operation returns, in a workflow
with well formed containers whose transitions point to registered operations: the names of
the slot map stay names of resources, and what is put on `nextOperations` are registered
operations that depend on the operation. -/
theorem collectOutputs_total (workflow : RenderWorkflow) (hwf : WellFormed workflow)
    (hops : OperationsStored workflow) (a : Addr) (ts : List ResourceTransition) :
    (∀ t ∈ ts, t ∈ workflow.transitions ∧ t.operation.addr = a ∧
      t.transitionType.isOutput = true) →
    ∀ s : CollectState,
      (∀ e ∈ s.resourceIndex, (workflow.resources.lookup e.1).isSome = true) →
      ∃ s1, collectOutputs workflow ts s = .ok s1 ∧
        (∀ e ∈ s1.resourceIndex, (workflow.resources.lookup e.1).isSome = true) ∧
        ∃ pushed, s1.nextOperations = s.nextOperations ++ pushed ∧
          ∀ p ∈ pushed, workflow.renderOperations.lookup p.name = some p ∧
            dependsOn workflow a p.addr := by
  induction ts with
  | nil => intro _ s hX; exact ⟨s, rfl, hX, [], by simp, by simp⟩
  | cons t rest ih =>
    intro hts s hX
    obtain ⟨htm, hta, htout⟩ := hts t (List.mem_cons_self _ _)
    have hrest := fun x hx => hts x (List.mem_cons_of_mem _ hx)
    -- the slot
    have hslot : ∃ s2 : CollectState,
        (if (s.resourceIndex.lookup t.resource.name).isNone then
            assignSlot workflow t.resource { s with
              resourcesGenerated := mapAssign t.resource.name true s.resourcesGenerated }
          else .ok { s with
              resourcesGenerated := mapAssign t.resource.name true s.resourcesGenerated })
          = Except.ok s2 ∧
        (∀ e ∈ s2.resourceIndex, (workflow.resources.lookup e.1).isSome = true) ∧
        s2.nextOperations = s.nextOperations ∧
        s2.resourcesGenerated = mapAssign t.resource.name true s.resourcesGenerated := by
      cases hlook : s.resourceIndex.lookup t.resource.name with
      | some i =>
        exact ⟨{ s with
          resourcesGenerated := mapAssign t.resource.name true s.resourcesGenerated },
          by simp, hX, rfl, rfl⟩
      | none =>
        obtain ⟨s2, hs2⟩ := assignSlot_total workflow t.resource { s with
          resourcesGenerated := mapAssign t.resource.name true s.resourcesGenerated } hX
        refine ⟨s2, by simpa using hs2, ?_⟩
        rcases assignSlot_cases workflow t.resource _ s2 hs2 with ⟨_, res, _, _, rfl⟩ | rfl
        · refine ⟨?_, rfl, rfl⟩
          intro e he
          rcases mem_mapInsert _ _ _ _ he with rfl | he
          · exact hwf.transitionResources t htm
          · exact hX e he
        · refine ⟨?_, rfl, rfl⟩
          intro e he
          rcases mem_mapInsert _ _ _ _ he with rfl | he
          · exact hwf.transitionResources t htm
          · exact hX e he
    obtain ⟨s2, hs2, hX2, hnext2, hgen2⟩ := hslot
    -- the consumers
    have hpush := pushConsumers_eq workflow hwf s2.resourcesGenerated
      (workflow.transitions.filter
        (fun c => c.resource.name == t.resource.name && c.transitionType.inFlags rttAllInputs))
      (fun c hc => by
        have hcn := (List.mem_filter.mp hc).2
        simp only [Bool.and_eq_true, beq_iff_eq] at hcn
        refine ⟨(List.mem_filter.mp hc).1, ?_⟩
        rw [hgen2, hcn.1]
        exact lookup_mapAssign_self _ _ _)
      s2.nextOperations
    obtain ⟨s1, hs1, hX1, pushed, hp1, hp2⟩ := ih hrest
      { s2 with nextOperations := s2.nextOperations ++ (workflow.transitions.filter
          (fun c => c.resource.name == t.resource.name
            && c.transitionType.inFlags rttAllInputs)).map (fun c => c.operation) } hX2
    refine ⟨s1, ?_, hX1, (workflow.transitions.filter
          (fun c => c.resource.name == t.resource.name
            && c.transitionType.inFlags rttAllInputs)).map (fun c => c.operation) ++ pushed,
      ?_, ?_⟩
    · unfold collectOutputs
      simp only [hs2, getResourceIO_of_transition workflow hwf t htm, hpush]
      exact hs1
    · rw [hp1]
      simp only [hnext2, List.append_assoc]
    · intro p hp
      rcases List.mem_append.mp hp with hp | hp
      · obtain ⟨c, hc, rfl⟩ := List.mem_map.mp hp
        have hcm := (List.mem_filter.mp hc).1
        have hcn := (List.mem_filter.mp hc).2
        simp only [Bool.and_eq_true, beq_iff_eq, inFlags_rttAllInputs] at hcn
        exact ⟨hops.transitions c hcm, t, htm, c, hcm, hta, rfl, htout, hcn.2, hcn.1.symm⟩
      · exact hp2 p hp

/-- The `while` loop of `collectResources` ends, in an acyclic workflow with well formed
containers whose transitions point to registered operations: some number of rounds is
enough. -/
theorem collectLoop_total (workflow : RenderWorkflow) (hwf : WellFormed workflow)
    (hops : OperationsStored workflow) (hacyc : Acyclic workflow) (s : CollectState)
    (hQ : ∀ op ∈ s.nextOperations, workflow.renderOperations.lookup op.name = some op)
    (hX : ∀ e ∈ s.resourceIndex, (workflow.resources.lookup e.1).isSome = true) :
    ∃ rounds s1, collectLoop workflow rounds s = .ok s1 := by
  have main : ∀ M : Multiset Addr, ∀ s : CollectState,
      ((s.nextOperations.map (fun op => op.addr) : List Addr) : Multiset Addr) = M →
      (∀ op ∈ s.nextOperations, workflow.renderOperations.lookup op.name = some op) →
      (∀ e ∈ s.resourceIndex, (workflow.resources.lookup e.1).isSome = true) →
      ∃ rounds s1, collectLoop workflow rounds s = .ok s1 := by
    intro M
    induction M using (consumers_wellFounded workflow hacyc).cutExpand.induction with
    | h M ih =>
      intro s hM hQ hX
      cases hn : s.nextOperations with
      | nil => exact ⟨0, s, by simp only [collectLoop, hn]⟩
      | cons op more =>
        rw [hn] at hQ hM
        have hop := hQ op (List.mem_cons_self _ _)
        have hout := getOperationIO_eq workflow op.name op rttAllOutputs hop
        have hin := getOperationIO_eq workflow op.name op rttAllInputs hop
        obtain ⟨s2, hs2, hX2, pushed, hp1, hp2⟩ := collectOutputs_total workflow hwf hops
          op.addr (workflow.transitions.filter (fun c => c.operation.addr == op.addr
            && c.transitionType.inFlags rttAllOutputs))
          (fun t ht => by
            have h1 := (List.mem_filter.mp ht).2
            simp only [Bool.and_eq_true, beq_iff_eq, inFlags_rttAllOutputs] at h1
            exact ⟨(List.mem_filter.mp ht).1, h1.1, h1.2⟩)
          { s with nextOperations := more,
                   sortedOperations := s.sortedOperations ++ [op] } hX
        simp only at hp1
        obtain ⟨rounds, s1, h1⟩ := ih
          (((more ++ pushed).map (fun op => op.addr) : List Addr) : Multiset Addr)
          (by
            subst hM
            refine ⟨((pushed.map (fun op => op.addr) : List Addr) : Multiset Addr), op.addr,
              ?_, ?_⟩
            · intro b hb
              simp only [Multiset.mem_coe, List.mem_map] at hb
              obtain ⟨p, hp, rfl⟩ := hb
              exact (hp2 p hp).2
            · rw [← Multiset.coe_singleton, Multiset.coe_add, Multiset.coe_add,
                Multiset.coe_eq_coe]
              simp only [List.map_append, List.map_cons, List.cons_append]
              exact List.perm_append_singleton _ _)
          { s2 with
            resourcesDone := markDone s2.sortedOperations
              (workflow.transitions.filter (fun c => c.operation.addr == op.addr
                && c.transitionType.inFlags rttAllInputs)) s2.resourcesDone }
          (by simp only [hp1])
          (by
            intro p hp
            simp only [hp1] at hp
            rcases List.mem_append.mp hp with hp | hp
            · exact hQ p (List.mem_cons_of_mem _ hp)
            · exact (hp2 p hp).1)
          hX2
        refine ⟨rounds + 1, s1, ?_⟩
        unfold collectLoop
        simp only [hn, hout, hs2, hin]
        exact h1
  exact main _ s rfl hQ hX

/-- Marking the resources of transitions of the workflow keeps the names of a map names of
resources. -/
theorem insertResources_stored (workflow : RenderWorkflow) (hwf : WellFormed workflow)
    (b : Bool) (ts : List ResourceTransition) (hts : ∀ t ∈ ts, t ∈ workflow.transitions) :
    ∀ m : List (String × Bool),
      (∀ e ∈ m, (workflow.resources.lookup e.1).isSome = true) →
      ∀ e ∈ insertResources b ts m, (workflow.resources.lookup e.1).isSome = true := by
  induction ts with
  | nil => intro m hm; exact hm
  | cons t rest ih =>
    intro m hm
    unfold insertResources
    simp only [List.foldl_cons]
    apply ih (fun x hx => hts x (List.mem_cons_of_mem _ hx))
    intro e he
    rcases mem_mapInsert _ _ _ _ he with rfl | he
    · exact hwf.transitionResources t (hts t (List.mem_cons_self _ _))
    · exact hm e he

/-- The first loop of `collectResources` returns; what it puts on `nextOperations` are
registered operations, and the names it marks are names of resources. -/
theorem collectInitial_total (workflow : RenderWorkflow) (hwf : WellFormed workflow)
    (ops : List (String × RenderOperation)) :
    (∀ e ∈ ops, e ∈ workflow.renderOperations) →
    ∀ s : CollectState,
      (∀ e ∈ s.resourcesGenerated, (workflow.resources.lookup e.1).isSome = true) →
      ∃ s0, collectInitial workflow ops s = .ok s0 ∧
        (∀ op ∈ s0.nextOperations, op ∈ s.nextOperations ∨ ∃ e ∈ ops, e.2 = op) ∧
        ∀ e ∈ s0.resourcesGenerated, (workflow.resources.lookup e.1).isSome = true := by
  induction ops with
  | nil => intro _ s hG; exact ⟨s, rfl, fun op h => Or.inl h, hG⟩
  | cons e rest ih =>
    intro hops s hG
    have hrest := fun x hx => hops x (List.mem_cons_of_mem _ hx)
    have hlook := lookup_of_mem_nodup _ e.1 e.2 hwf.operationKeys (hops e (List.mem_cons_self _ _))
    obtain ⟨⟨prev, hprev, _⟩, _⟩ := neighbours_spec workflow hwf e.1 e.2 hlook
    have hin := getOperationIO_eq workflow e.1 e.2 rttAllInputs hlook
    have hout := getOperationIO_eq workflow e.1 e.2 rttAllOutputs hlook
    have hsub : ∀ flags, ∀ t ∈ workflow.transitions.filter
        (fun c => c.operation.addr == e.2.addr && c.transitionType.inFlags flags),
        t ∈ workflow.transitions := fun flags t ht => (List.mem_filter.mp ht).1
    unfold collectInitial
    simp only [hprev, hin, hout]
    cases hemp : prev.isEmpty with
    | true =>
      simp only [if_true]
      obtain ⟨s0, hs0, hq, hg⟩ := ih hrest
        { s with
          nextOperations := s.nextOperations ++ [e.2],
          resourcesGenerated := insertResources false
            (workflow.transitions.filter
              (fun c => c.operation.addr == e.2.addr && c.transitionType.inFlags rttAllOutputs))
            (insertResources true (workflow.transitions.filter
              (fun c => c.operation.addr == e.2.addr && c.transitionType.inFlags rttAllInputs))
              s.resourcesGenerated),
          resourcesDone := insertResources false
            (workflow.transitions.filter
              (fun c => c.operation.addr == e.2.addr && c.transitionType.inFlags rttAllOutputs))
            (insertResources false (workflow.transitions.filter
              (fun c => c.operation.addr == e.2.addr && c.transitionType.inFlags rttAllInputs))
              s.resourcesDone) }
        (insertResources_stored workflow hwf _ _ (hsub _) _
          (insertResources_stored workflow hwf _ _ (hsub _) _ hG))
      refine ⟨s0, hs0, ?_, hg⟩
      intro op hop
      rcases hq op hop with h | ⟨x, hx, hxe⟩
      · rcases List.mem_append.mp h with h | h
        · exact Or.inl h
        · simp only [List.mem_singleton] at h
          exact Or.inr ⟨e, List.mem_cons_self _ _, h.symm⟩
      · exact Or.inr ⟨x, List.mem_cons_of_mem _ hx, hxe⟩
    | false =>
      simp only [Bool.false_eq_true, if_false]
      obtain ⟨s0, hs0, hq, hg⟩ := ih hrest
        { s with
          resourcesGenerated := insertResources false
            (workflow.transitions.filter
              (fun c => c.operation.addr == e.2.addr && c.transitionType.inFlags rttAllOutputs))
            s.resourcesGenerated,
          resourcesDone := insertResources false
            (workflow.transitions.filter
              (fun c => c.operation.addr == e.2.addr && c.transitionType.inFlags rttAllOutputs))
            s.resourcesDone }
        (insertResources_stored workflow hwf _ _ (hsub _) _ hG)
      refine ⟨s0, hs0, ?_, hg⟩
      intro op hop
      rcases hq op hop with h | ⟨x, hx, hxe⟩
      · exact Or.inl h
      · exact Or.inr ⟨x, List.mem_cons_of_mem _ hx, hxe⟩

/-- The second loop of `collectResources` returns when the names it goes through are names of
resources. -/
theorem markInitialDone_total (workflow : RenderWorkflow)
    (nextOperations : List RenderOperation) (entries : List (String × Bool)) :
    (∀ e ∈ entries, (workflow.resources.lookup e.1).isSome = true) →
    ∀ resourcesDone, ∃ d,
      markInitialDone workflow nextOperations entries resourcesDone = .ok d := by
  induction entries with
  | nil => intro _ resourcesDone; exact ⟨resourcesDone, rfl⟩
  | cons e rest ih =>
    intro h resourcesDone
    have hrest := fun x hx => h x (List.mem_cons_of_mem _ hx)
    obtain ⟨r, hr⟩ := Option.isSome_iff_exists.mp (h e (List.mem_cons_self _ _))
    unfold markInitialDone
    cases he : e.2 with
    | true =>
      simp only [if_true, getResourceIO_eq workflow e.1 r rttAllInputs hr]
      exact ih hrest _
    | false =>
      simp only [Bool.false_eq_true, if_false]
      exact ih hrest _

/-- In an acyclic workflow with well formed containers whose transitions point to registered
operations `collectResources` returns: some number of rounds of its `while` loop is
enough. -/
theorem collectRun_total (workflow : RenderWorkflow) (hwf : WellFormed workflow)
    (hops : OperationsStored workflow) (hacyc : Acyclic workflow) :
    ∃ rounds s, collectRun rounds workflow = .ok s := by
  obtain ⟨s0, hs0, hq, hg⟩ := collectInitial_total workflow hwf workflow.renderOperations
    (fun e he => he) ⟨[], [], [], [], [], []⟩ (by simp)
  obtain ⟨hv, hi⟩ := collectInitial_slots workflow _ _ _ hs0
  obtain ⟨d, hd⟩ := markInitialDone_total workflow s0.nextOperations s0.resourcesGenerated hg
    s0.resourcesDone
  obtain ⟨rounds, s, hs⟩ := collectLoop_total workflow hwf hops hacyc
    { s0 with resourcesDone := d }
    (by
      intro op hop
      rcases hq op hop with h | ⟨e, he, rfl⟩
      · simp at h
      · rw [hops.byName e he]
        exact lookup_of_mem_nodup _ e.1 e.2 hwf.operationKeys he)
    (by simp only [hi]; simp)
  exact ⟨rounds, s, by simp only [collectRun, hs0, hd, hs]⟩

/-- More rounds than the `while` loop of `collectResources` needs change nothing. -/
theorem collectLoop_mono (workflow : RenderWorkflow) (rounds : Nat) :
    ∀ (s s1 : CollectState) (more : Nat), collectLoop workflow rounds s = .ok s1 →
      collectLoop workflow (rounds + more) s = .ok s1 := by
  induction rounds with
  | zero =>
    intro s s1 more h
    unfold collectLoop at h
    cases hn : s.nextOperations with
    | nil =>
      simp only [hn, Except.ok.injEq] at h
      subst h
      cases more with
      | zero => simp only [collectLoop, hn]
      | succ k => simp only [Nat.zero_add, collectLoop, hn]
    | cons op rest => simp [hn] at h
  | succ rounds ih =>
    intro s s1 more h
    have hadd : rounds + 1 + more = (rounds + more) + 1 := by omega
    rw [hadd]
    unfold collectLoop at h ⊢
    cases hn : s.nextOperations with
    | nil => simpa only [hn] using h
    | cons op rest =>
      simp only [hn] at h ⊢
      cases hout : workflow.getOperationIO op.name rttAllOutputs with
      | error e => simp [hout] at h
      | ok outTransitions =>
        simp only [hout] at h ⊢
        cases hco : collectOutputs workflow outTransitions
            { s with nextOperations := rest,
                     sortedOperations := s.sortedOperations ++ [op] } with
        | error e => simp [hco] at h
        | ok s2 =>
          simp only [hco] at h ⊢
          cases hin : workflow.getOperationIO op.name rttAllInputs with
          | error e => simp [hin] at h
          | ok inTransitions =>
            simp only [hin] at h ⊢
            exact ih _ s1 more h

/-- A result of `collectResources` within some number of rounds is its result within any
larger number. -/
theorem collectResources_mono (workflow : RenderWorkflow) (rounds more : Nat)
    (result : List WorkflowResource × List (String × Nat))
    (h : collectResources rounds workflow = .ok result) :
    collectResources (rounds + more) workflow = .ok result := by
  unfold collectResources collectRun at h ⊢
  cases hinit : collectInitial workflow workflow.renderOperations ⟨[], [], [], [], [], []⟩ with
  | error e => simp [hinit] at h
  | ok s0 =>
    simp only [hinit] at h ⊢
    cases hmark : markInitialDone workflow s0.nextOperations s0.resourcesGenerated
        s0.resourcesDone with
    | error e => simp [hmark] at h
    | ok resourcesDone =>
      simp only [hmark] at h ⊢
      cases hloop : collectLoop workflow rounds { s0 with resourcesDone := resourcesDone } with
      | error e => simp [hloop] at h
      | ok s =>
        simp only [hloop] at h
        rw [collectLoop_mono workflow rounds _ s more hloop]
        exact h

/-! ### The slot table -/

/-- A new slot assignment keeps the slot table well formed. -/
theorem assignSlot_slotTable (workflow : RenderWorkflow) (resource : WorkflowResource)
    (s s1 : CollectState) (hnew : s.resourceIndex.lookup resource.name = none)
    (htable : SlotTable s.resourceVector s.resourceIndex)
    (h : assignSlot workflow resource s = .ok s1) :
    SlotTable s1.resourceVector s1.resourceIndex := by
  rcases assignSlot_cases workflow resource s s1 h with ⟨_, res, hmem, _, rfl⟩ | rfl
  · refine ⟨htable.once, ?_, ?_, ?_⟩
    · intro e he
      rcases mem_mapInsert _ _ _ _ he with rfl | he
      · exact htable.inRange res hmem
      · exact htable.inRange e he
    · intro i hi
      obtain ⟨n, hn⟩ := htable.onto i hi
      exact ⟨n, lookup_mapInsert_old _ _ _ _ _ hn⟩
    · intro i r hr
      exact lookup_mapInsert_old _ _ _ _ _ (htable.own i r hr)
  · have hfresh : resource.name ∉ s.resourceVector.map (fun r => r.name) := by
      intro hin
      obtain ⟨r, hr, hname⟩ := List.mem_map.mp hin
      obtain ⟨i, hi, hget⟩ := List.getElem_of_mem hr
      have := htable.own i r (by rw [List.getElem?_eq_getElem hi, hget])
      rw [hname, hnew] at this
      cases this
    refine ⟨?_, ?_, ?_, ?_⟩
    · simp only [List.map_append, List.map_cons, List.map_nil]
      exact List.Nodup.append htable.once (List.nodup_singleton _)
        (by simpa [List.Disjoint] using hfresh)
    · intro e he
      simp only [List.length_append, List.length_singleton]
      rcases mem_mapInsert _ _ _ _ he with rfl | he
      · exact Nat.lt_succ_self _
      · exact Nat.lt_succ_of_lt (htable.inRange e he)
    · intro i hi
      simp only [List.length_append, List.length_singleton] at hi
      by_cases hlt : i < s.resourceVector.length
      · obtain ⟨n, hn⟩ := htable.onto i hlt
        exact ⟨n, lookup_mapInsert_old _ _ _ _ _ hn⟩
      · have hi2 : i = s.resourceVector.length := by omega
        subst hi2
        exact ⟨resource.name, by rw [lookup_mapInsert_new _ _ _ _ hnew, if_pos rfl]⟩
    · intro i r hr
      by_cases hlt : i < s.resourceVector.length
      · rw [List.getElem?_append_left hlt] at hr
        exact lookup_mapInsert_old _ _ _ _ _ (htable.own i r hr)
      · have hle : s.resourceVector.length ≤ i := by omega
        rw [List.getElem?_append_right hle] at hr
        have hi2 : i - s.resourceVector.length = 0 := by
          by_contra hne
          rw [List.getElem?_eq_none (by simp; omega)] at hr
          cases hr
        rw [hi2] at hr
        simp only [List.getElem?_cons_zero, Option.some.injEq] at hr
        subst hr
        have hi3 : i = s.resourceVector.length := by omega
        subst hi3
        rw [lookup_mapInsert_new _ _ _ _ hnew, if_pos rfl]

/-- Claim C20. The slot vector and slot map that `collectResources` returns are a well
formed slot table, whatever the workflow and the bound on the rounds of the `while` loop: the
slot vector holds no resource twice, every index stored in the map is smaller than the length
of the slot vector, every slot index is the image of a name, and the resource stored at slot
`i` is itself mapped to `i`. And `collectResources` does return, for some bound and every
larger one, when the workflow is acyclic, has well formed containers and its transitions
point to registered operations. -/
theorem collectResources_slotTable (workflow : RenderWorkflow) :
    (∀ rounds resourceVector resourceIndex,
      collectResources rounds workflow = .ok (resourceVector, resourceIndex) →
      SlotTable resourceVector resourceIndex) ∧
    (WellFormed workflow → OperationsStored workflow → Acyclic workflow →
      ∃ rounds resourceVector resourceIndex, ∀ more,
        collectResources (rounds + more) workflow = .ok (resourceVector, resourceIndex)) := by
  constructor
  · intro rounds resourceVector resourceIndex h
    unfold collectResources at h
    cases hrun : collectRun rounds workflow with
    | error e => simp [hrun] at h
    | ok s =>
      simp only [hrun, Except.ok.injEq, Prod.mk.injEq] at h
      obtain ⟨rfl, rfl⟩ := h
      exact collectRun_invariant workflow SlotTable
        ⟨by simp, by simp, by simp, by simp⟩
        (fun t _ s0 s1 hnew htable hassign =>
          assignSlot_slotTable workflow t.resource s0 s1 hnew htable hassign)
        rounds s hrun
  · intro hwf hops hacyc
    obtain ⟨rounds, s, hs⟩ := collectRun_total workflow hwf hops hacyc
    refine ⟨rounds, s.resourceVector, s.resourceIndex, fun more => ?_⟩
    apply collectResources_mono
    simp only [collectResources, hs]

/-- A new slot assignment keeps the types in the slot table. -/
theorem assignSlot_slotTyped (workflow : RenderWorkflow) (resource : WorkflowResource)
    (hres : workflow.resources.lookup resource.name = some resource)
    (s s1 : CollectState) (hnew : s.resourceIndex.lookup resource.name = none)
    (htyped : SlotTyped workflow s.resourceVector s.resourceIndex)
    (h : assignSlot workflow resource s = .ok s1) :
    SlotTyped workflow s1.resourceVector s1.resourceIndex := by
  rcases assignSlot_cases workflow resource s s1 h with
    ⟨hmeta, res, hmem, ⟨examined, hex, _, hty, _⟩, rfl⟩ | rfl
  · refine ⟨htyped.stored, ?_⟩
    intro e he
    rcases mem_mapInsert _ _ _ _ he with rfl | he
    · obtain ⟨r, v, hr, hv, hrv, _⟩ := htyped.typed res hmem
      rw [hex] at hr
      cases hr
      exact ⟨resource, v, hres, hv, hty.trans hrv, fun _ => hmeta⟩
    · exact htyped.typed e he
  · refine ⟨?_, ?_⟩
    · intro v hv
      rcases List.mem_append.mp hv with hv | hv
      · exact htyped.stored v hv
      · simp only [List.mem_singleton] at hv
        subst hv; exact hres
    · intro e he
      rcases mem_mapInsert _ _ _ _ he with rfl | he
      · exact ⟨resource, resource, hres, by simp, rfl, fun hne => absurd rfl hne⟩
      · obtain ⟨r, v, hr, hv, hrv, hatt⟩ := htyped.typed e he
        refine ⟨r, v, hr, ?_, hrv, hatt⟩
        have hlt : e.2 < s.resourceVector.length := by
          by_contra hge
          rw [List.getElem?_eq_none (by omega)] at hv
          cases hv
        rw [List.getElem?_append_left hlt]
        exact hv

/-- Claim C19 (amended). Let the resource of every transition be the object stored under its
name, and let resources whose types have the same name have the same meta type. Then in the
slot map that `collectResources` returns, two different names mapped to the same slot are
names of resources of meta type Attachment whose types have the same name; and a resource
that is not an attachment shares its slot with no other name. -/
theorem shared_slot_types (rounds : Nat) (workflow : RenderWorkflow)
    (hstored : ResourcesStored workflow) (hmeta : MetaTypeByName workflow)
    (resourceVector : List WorkflowResource) (resourceIndex : List (String × Nat))
    (h : collectResources rounds workflow = .ok (resourceVector, resourceIndex)) :
    (∀ n1 n2 i, n1 ≠ n2 → resourceIndex.lookup n1 = some i →
      resourceIndex.lookup n2 = some i →
      ∃ r1 r2, workflow.resources.lookup n1 = some r1 ∧
        workflow.resources.lookup n2 = some r2 ∧
        r1.resourceType.metaType = MetaType.Attachment ∧
        r2.resourceType.metaType = MetaType.Attachment ∧
        r1.resourceType.typeName = r2.resourceType.typeName) ∧
    (∀ n r i, workflow.resources.lookup n = some r →
      r.resourceType.metaType ≠ MetaType.Attachment → resourceIndex.lookup n = some i →
      ∀ n2, n2 ≠ n → resourceIndex.lookup n2 ≠ some i) := by
  unfold collectResources at h
  cases hrun : collectRun rounds workflow with
  | error e => simp [hrun] at h
  | ok s =>
    simp only [hrun, Except.ok.injEq, Prod.mk.injEq] at h
    obtain ⟨rfl, rfl⟩ := h
    have htyped : SlotTyped workflow s.resourceVector s.resourceIndex :=
      collectRun_invariant workflow (SlotTyped workflow)
        ⟨by simp, by simp⟩
        (fun t ht s0 s1 hnew hty hassign =>
          assignSlot_slotTyped workflow t.resource (hstored t ht) s0 s1 hnew hty hassign)
        rounds s hrun
    have first : ∀ n1 n2 i, n1 ≠ n2 → s.resourceIndex.lookup n1 = some i →
        s.resourceIndex.lookup n2 = some i →
        ∃ r1 r2, workflow.resources.lookup n1 = some r1 ∧
          workflow.resources.lookup n2 = some r2 ∧
          r1.resourceType.metaType = MetaType.Attachment ∧
          r2.resourceType.metaType = MetaType.Attachment ∧
          r1.resourceType.typeName = r2.resourceType.typeName := by
      intro n1 n2 i hne h1 h2
      obtain ⟨r1, v1, hr1, hv1, ht1, ha1⟩ :=
        htyped.typed (n1, i) (mem_of_lookup _ _ _ h1)
      obtain ⟨r2, v2, hr2, hv2, ht2, ha2⟩ :=
        htyped.typed (n2, i) (mem_of_lookup _ _ _ h2)
      simp only at hv1 hv2 ha1 ha2 hr1 hr2
      rw [hv1] at hv2
      cases hv2
      have hv : workflow.resources.lookup v1.name = some v1 :=
        htyped.stored v1 (List.getElem?_mem hv1)
      -- a resource of the slot that is not the stored one makes the stored one an attachment
      have stored_attachment : ∀ n r, workflow.resources.lookup n = some r →
          r.resourceType.typeName = v1.resourceType.typeName →
          r.resourceType.metaType = MetaType.Attachment →
          v1.resourceType.metaType = MetaType.Attachment := by
        intro n r hr ht ha
        rw [← hmeta (n, r) (mem_of_lookup _ _ _ hr) (v1.name, v1) (mem_of_lookup _ _ _ hv) ht]
        exact ha
      have both : ∀ n r, workflow.resources.lookup n = some r →
          (n ≠ v1.name → r.resourceType.metaType = MetaType.Attachment) →
          v1.resourceType.metaType = MetaType.Attachment →
          r.resourceType.metaType = MetaType.Attachment := by
        intro n r hr ha hva
        by_cases hn : n = v1.name
        · rw [hn, hv] at hr; cases hr; exact hva
        · exact ha hn
      have hva : v1.resourceType.metaType = MetaType.Attachment := by
        by_cases hn1 : n1 = v1.name
        · have hn2 : n2 ≠ v1.name := fun hn2 => hne (hn1.trans hn2.symm)
          exact stored_attachment n2 r2 hr2 ht2 (ha2 hn2)
        · exact stored_attachment n1 r1 hr1 ht1 (ha1 hn1)
      exact ⟨r1, r2, hr1, hr2, both n1 r1 hr1 ha1 hva, both n2 r2 hr2 ha2 hva,
        ht1.trans ht2.symm⟩
    refine ⟨first, ?_⟩
    intro n r i hr hnot hi n2 hn2 hi2
    obtain ⟨r1, _, hr1, _, ha1, _, _⟩ := first n n2 i (Ne.symm hn2) hi hi2
    rw [hr] at hr1
    cases hr1
    exact hnot ha1

/-- Claim C17 (amended). In a state of `collectResources` whose slot map names resources of
the workflow only, a resource that has no slot yet is given one, as follows. If it is an
attachment and some slot is free for the name of its type (a resource mapped to the slot is
marked done and has a type of that name, and every resource mapped to the slot is marked
done), it is mapped to such a free slot and the slot vector stays as it is. Otherwise it is
mapped to a new slot, and put at the end of the slot vector. -/
theorem assignSlot_reuse (workflow : RenderWorkflow) (resource : WorkflowResource)
    (s : CollectState)
    (hreg : ∀ e ∈ s.resourceIndex, (workflow.resources.lookup e.1).isSome = true)
    (hnew : s.resourceIndex.lookup resource.name = none) :
    ∃ s1, assignSlot workflow resource s = .ok s1 ∧
      ((resource.resourceType.metaType = MetaType.Attachment ∧
          ∃ slot, slotFree workflow s.resourcesDone s.resourceIndex
            resource.resourceType.typeName slot) →
        ∃ slot, slotFree workflow s.resourcesDone s.resourceIndex
            resource.resourceType.typeName slot ∧
          s1.resourceIndex = s.resourceIndex ++ [(resource.name, slot)] ∧
          s1.resourceVector = s.resourceVector) ∧
      (¬ (resource.resourceType.metaType = MetaType.Attachment ∧
          ∃ slot, slotFree workflow s.resourcesDone s.resourceIndex
            resource.resourceType.typeName slot) →
        s1.resourceIndex = s.resourceIndex ++ [(resource.name, s.resourceVector.length)] ∧
        s1.resourceVector = s.resourceVector ++ [resource]) := by
  by_cases hmeta : resource.resourceType.metaType = MetaType.Attachment
  · obtain ⟨found, hf, hcase⟩ := findAlias_spec workflow s.resourcesDone s.resourceIndex
      resource hreg s.resourceIndex (fun e he => he) (-1)
    rcases hcase with ⟨rfl, hnone⟩ | ⟨e, he, rfl, hfits⟩
    · have hassign : assignSlot workflow resource s = .ok { s with
          resourceIndex := mapInsert resource.name s.resourceVector.length s.resourceIndex,
          resourceVector := s.resourceVector ++ [resource] } := by
        unfold assignSlot
        simp only [hmeta, if_true, hf, ge_iff_le, Left.nonneg_neg_iff, Int.reduceLE, if_false]
      have hno : ¬ ∃ slot, slotFree workflow s.resourcesDone s.resourceIndex
          resource.resourceType.typeName slot := by
        rintro ⟨slot, e, he, _, hfits⟩
        exact hnone e he hfits
      refine ⟨_, hassign, ?_, ?_⟩
      · rintro ⟨_, hex⟩; exact absurd hex hno
      · intro _
        simp only [mapInsert, hnew, and_self]
    · have hassign : assignSlot workflow resource s = .ok { s with
          resourceIndex := mapInsert resource.name e.2 s.resourceIndex } := by
        unfold assignSlot
        simp only [hmeta, if_true, hf, Int.ofNat_eq_coe, ge_iff_le, Int.natCast_nonneg,
          Int.toNat_ofNat]
      refine ⟨_, hassign, ?_, ?_⟩
      · intro _
        exact ⟨e.2, ⟨e, he, rfl, hfits⟩, by simp only [mapInsert, hnew], rfl⟩
      · intro hno
        exact absurd ⟨hmeta, e.2, e, he, rfl, hfits⟩ hno
  · have hassign : assignSlot workflow resource s = .ok { s with
        resourceIndex := mapInsert resource.name s.resourceVector.length s.resourceIndex,
        resourceVector := s.resourceVector ++ [resource] } := by
      unfold assignSlot
      simp only [hmeta, if_false, ge_iff_le, Left.nonneg_neg_iff, Int.reduceLE]
    refine ⟨_, hassign, ?_, ?_⟩
    · rintro ⟨h, _⟩; exact absurd h hmeta
    · intro _
      simp only [mapInsert, hnew, and_self]

set_option maxRecDepth 100000 in
theorem assignSlot_reuse_witness :
    (∀ e ∈ Sample.chainAtC.resourceIndex,
      (Sample.chain.resources.lookup e.1).isSome = true) ∧
    Sample.chainAtC.resourceIndex.lookup "c" = none ∧
    ∃ s1, assignSlot Sample.chain ⟨"c", Sample.colorType⟩ Sample.chainAtC = .ok s1 ∧
      ((Sample.colorType.metaType = MetaType.Attachment ∧
          ∃ slot, slotFree Sample.chain Sample.chainAtC.resourcesDone
            Sample.chainAtC.resourceIndex "color" slot) →
        ∃ slot, slotFree Sample.chain Sample.chainAtC.resourcesDone
            Sample.chainAtC.resourceIndex "color" slot ∧
          s1.resourceIndex = Sample.chainAtC.resourceIndex ++ [("c", slot)] ∧
          s1.resourceVector = Sample.chainAtC.resourceVector) ∧
      (¬ (Sample.colorType.metaType = MetaType.Attachment ∧
          ∃ slot, slotFree Sample.chain Sample.chainAtC.resourcesDone
            Sample.chainAtC.resourceIndex "color" slot) →
        s1.resourceIndex = Sample.chainAtC.resourceIndex
            ++ [("c", Sample.chainAtC.resourceVector.length)] ∧
        s1.resourceVector = Sample.chainAtC.resourceVector ++ [⟨"c", Sample.colorType⟩]) :=
  ⟨by decide, by decide,
    assignSlot_reuse Sample.chain ⟨"c", Sample.colorType⟩ Sample.chainAtC
      (by decide) (by decide)⟩

set_option maxRecDepth 100000 in
/-- Counterexample to claim C17 as stated. The workflow `Sample.chain` passes
`verifyOperations` and is acyclic. `collectResources` handles its operations in the order
A, B, C, D, E. The attachments a and d are generated, both have the type color, a lives from
position 0 to position 1 and d from position 3 to position 4, so that their live ranges do
not overlap; a is mapped to slot 0 and d to slot 1. -/
theorem disjoint_ranges_distinct_slots :
    verifyOperations Sample.chain = .ok () ∧ Acyclic Sample.chain ∧
    ∃ s, collectRun 5 Sample.chain = .ok s ∧
      collectResources 5 Sample.chain = .ok (s.resourceVector, s.resourceIndex) ∧
      s.sortedOperations = [Sample.opA, Sample.opB, Sample.opC, Sample.opD, Sample.opE] ∧
      Sample.chain.resources.lookup "a" = some ⟨"a", Sample.colorType⟩ ∧
      Sample.chain.resources.lookup "d" = some ⟨"d", Sample.colorType⟩ ∧
      liveRange Sample.chain s.sortedOperations "a" = (0, 1) ∧
      liveRange Sample.chain s.sortedOperations "d" = (3, 4) ∧
      overlap (0, 1) (3, 4) = false ∧
      s.resourceIndex.lookup "a" = some 0 ∧ s.resourceIndex.lookup "d" = some 1 :=
  ⟨by decide, acyclic_of_rank _ id (by decide), _,
    rfl, by decide, by decide, by decide, by decide, by decide, by decide, by decide,
    by decide, by decide⟩

set_option maxRecDepth 100000 in
/-- Claim C18 against the code. The workflow `Sample.earlyDone` passes `verifyOperations`
and is acyclic. `collectResources` handles its operations in the order A, B, D, B, C, E. The
resource a lives from position 0, where A generates it, to position 4, where C consumes it;
the resource g lives from position 2, where D generates it, to position 5, where E consumes
it; the two live ranges overlap, C has not been handled when D generates g, and a and g are
both mapped to slot 1. -/
theorem live_resource_aliased :
    verifyOperations Sample.earlyDone = .ok () ∧ Acyclic Sample.earlyDone ∧
    ∃ s, collectRun 6 Sample.earlyDone = .ok s ∧
      collectResources 6 Sample.earlyDone = .ok (s.resourceVector, s.resourceIndex) ∧
      s.sortedOperations
        = [Sample.opA, Sample.opB, Sample.opD, Sample.opB, Sample.opC, Sample.opE] ∧
      liveRange Sample.earlyDone s.sortedOperations "a" = (0, 4) ∧
      liveRange Sample.earlyDone s.sortedOperations "g" = (2, 5) ∧
      overlap (0, 4) (2, 5) = true ∧
      consumes Sample.earlyDone Sample.opC "a" = true ∧
      generates Sample.earlyDone Sample.opD "g" = true ∧
      s.resourceIndex.lookup "a" = some 1 ∧ s.resourceIndex.lookup "g" = some 1 :=
  ⟨by decide, acyclic_of_rank _ id (by decide), _,
    rfl, by decide, by decide, by decide, by decide, by decide, by decide, by decide,
    by decide, by decide⟩

set_option maxRecDepth 100000 in
/-- Counterexample to claim C19 as stated. In the workflow `Sample.retyped` the resource buf
has a type named data of meta type Buffer, the resource att has a type that is also named
data, registered later under the same name, and `collectResources` maps buf and att to the
same slot 0. -/
theorem buffer_shares_slot :
    Sample.retyped.resources.lookup "buf" = some ⟨"buf", Sample.dataBufferType⟩ ∧
    Sample.dataBufferType.metaType = MetaType.Buffer ∧
    Sample.retyped.resources.lookup "att" = some ⟨"att", Sample.dataAttachmentType⟩ ∧
    ∃ resourceVector resourceIndex,
      collectResources 5 Sample.retyped = .ok (resourceVector, resourceIndex) ∧
      resourceIndex.lookup "buf" = some 0 ∧ resourceIndex.lookup "att" = some 0 :=
  ⟨by decide, by decide, by decide, _, _, rfl, by decide, by decide⟩

theorem previous_next_operations_witness :
    WellFormed Sample.shadowMain ∧
    Sample.shadowMain.renderOperations.lookup "Shadow" = some Sample.shadow ∧
    Sample.shadowMain.renderOperations.lookup "Main" = some Sample.main ∧
    ∃ nextA previousB,
      Sample.shadowMain.getNextOperations "Shadow" = .ok nextA ∧
      Sample.shadowMain.getPreviousOperations "Main" = .ok previousB ∧
      ((∃ x ∈ nextA, x.addr = Sample.main.addr) ↔
        ∃ y ∈ previousB, y.addr = Sample.shadow.addr) := by
  have hwf : WellFormed Sample.shadowMain := ⟨by decide, by decide, by decide, by decide⟩
  obtain ⟨_, nextA, previousB, _, h2, h3, _, _, h6⟩ :=
    previous_next_operations Sample.shadowMain hwf "Shadow" "Main" Sample.shadow Sample.main
      (by decide) (by decide)
  exact ⟨hwf, by decide, by decide, nextA, previousB, h2, h3, h6⟩

theorem tags_total_and_shared_witness :
    (Sample.withCompute.renderOperations.map (fun e => e.1)).Nodup ∧
    (Sample.compiler.costCalculator.tagOperationByAttachmentType Sample.withCompute).1
      = .ok () ∧
    ∀ e ∈ Sample.withCompute.renderOperations,
      ∃ t, (Sample.compiler.costCalculator.tagOperationByAttachmentType
        Sample.withCompute).2.attachmentTag.lookup e.1 = some t :=
  ⟨by decide,
   (tags_total_and_shared Sample.compiler.costCalculator Sample.withCompute (by decide)).1,
   (tags_total_and_shared Sample.compiler.costCalculator Sample.withCompute (by decide)).2.1⟩

theorem compute_tag_unique_witness :
    (Sample.withCompute.renderOperations.map (fun e => e.1)).Nodup ∧
    ∃ tc tx,
      (Sample.compiler.costCalculator.tagOperationByAttachmentType
        Sample.withCompute).2.attachmentTag.lookup "Cull" = some tc ∧
      (Sample.compiler.costCalculator.tagOperationByAttachmentType
        Sample.withCompute).2.attachmentTag.lookup "Main" = some tx ∧
      tc ≠ tx :=
  ⟨by decide,
   compute_tag_unique Sample.compiler.costCalculator Sample.withCompute (by decide)
     ("Cull", Sample.cull) ("Main", Sample.main) (by decide) (by decide) rfl (by decide)⟩

set_option maxRecDepth 100000 in
theorem shared_slot_types_witness :
    ResourcesStored Sample.chain ∧ MetaTypeByName Sample.chain ∧
    collectResources 5 Sample.chain
      = .ok ([⟨"a", Sample.colorType⟩, ⟨"b", Sample.colorType⟩],
          [("a", 0), ("b", 1), ("c", 0), ("d", 1)]) ∧
    ∃ r1 r2, Sample.chain.resources.lookup "a" = some r1 ∧
      Sample.chain.resources.lookup "c" = some r2 ∧
      r1.resourceType.metaType = MetaType.Attachment ∧
      r2.resourceType.metaType = MetaType.Attachment ∧
      r1.resourceType.typeName = r2.resourceType.typeName :=
  have hstored : ResourcesStored Sample.chain := by unfold ResourcesStored; decide
  have hmeta : MetaTypeByName Sample.chain := by unfold MetaTypeByName; decide
  ⟨hstored, hmeta, by decide,
   (shared_slot_types 5 Sample.chain hstored hmeta
      [⟨"a", Sample.colorType⟩, ⟨"b", Sample.colorType⟩]
      [("a", 0), ("b", 1), ("c", 0), ("d", 1)] (by decide)).1 "a" "c" 0
      (by decide) (by decide) (by decide)⟩

set_option maxRecDepth 100000 in
theorem collectResources_slotTable_witness :
    collectResources 5 Sample.chain
      = .ok ([⟨"a", Sample.colorType⟩, ⟨"b", Sample.colorType⟩],
          [("a", 0), ("b", 1), ("c", 0), ("d", 1)]) ∧
    SlotTable [⟨"a", Sample.colorType⟩, ⟨"b", Sample.colorType⟩]
      [("a", 0), ("b", 1), ("c", 0), ("d", 1)] ∧
    WellFormed Sample.chain ∧ OperationsStored Sample.chain ∧ Acyclic Sample.chain ∧
    ∃ rounds resourceVector resourceIndex, ∀ more,
      collectResources (rounds + more) Sample.chain = .ok (resourceVector, resourceIndex) :=
  have hwf : WellFormed Sample.chain := ⟨by decide, by decide, by decide, by decide⟩
  have hops : OperationsStored Sample.chain := ⟨by decide, by decide⟩
  have hacyc : Acyclic Sample.chain := acyclic_of_rank _ id (by decide)
  ⟨by decide, (collectResources_slotTable Sample.chain).1 5 _ _ (by decide),
    hwf, hops, hacyc, (collectResources_slotTable Sample.chain).2 hwf hops hacyc⟩

/-! ### Commands of a sequence of operations -/

/-- The inner loop of `createCommandSequence` cuts the operations that have the tag off the
front of the sequence, and stops at the first operation with another tag. -/
theorem takeSameTag_spec (attachmentTag : List (String × Int)) (tag : Int)
    (l : List RenderOperation)
    (htags : ∀ op ∈ l, (attachmentTag.lookup op.name).isSome = true) :
    ∃ run left, takeSameTag attachmentTag tag l = .ok (run, left) ∧ l = run ++ left ∧
      (∀ x ∈ run, attachmentTag.lookup x.name = some tag) ∧
      (∀ y, left.head? = some y → attachmentTag.lookup y.name ≠ some tag) := by
  induction l with
  | nil => exact ⟨[], [], rfl, rfl, by simp, by simp⟩
  | cons op rest ih =>
    obtain ⟨t, ht⟩ := Option.isSome_iff_exists.mp (htags op (List.mem_cons_self _ _))
    obtain ⟨run, left, hrun, hsplit, hsame, hstop⟩ :=
      ih (fun x hx => htags x (List.mem_cons_of_mem _ hx))
    unfold takeSameTag
    by_cases heq : t = tag
    · subst heq
      refine ⟨op :: run, left, by simp only [mapAt, ht, hrun, if_true], by simp [hsplit], ?_,
        hstop⟩
      intro x hx
      rcases List.mem_cons.mp hx with rfl | hx
      · exact ht
      · exact hsame x hx
    · refine ⟨[], op :: rest, by simp only [mapAt, ht, heq, if_false], rfl, by simp, ?_⟩
      intro y hy
      simp only [List.head?_cons, Option.some.injEq] at hy
      subst hy
      rw [ht]
      simpa using heq

/-- The commands of one run as the code makes them are the commands of the group. -/
theorem commandsOfRun_eq (first : RenderOperation) (run : List RenderOperation) :
    commandsOfRun (first :: run) first.operationType = commandsOfGroup (first :: run) := by
  unfold commandsOfRun commandsOfGroup
  cases h : first.operationType <;> simp [h]

/-- The outer loop of `createCommandSequence` returns when every operation has a tag, and
its result is made of the maximal runs of operations with the same tag. -/
theorem commandLoop_spec (attachmentTag : List (String × Int)) (rounds : Nat) :
    ∀ l : List RenderOperation, l.length ≤ rounds →
      (∀ op ∈ l, (attachmentTag.lookup op.name).isSome = true) →
      ∃ runs : List (List RenderOperation),
        commandLoop attachmentTag rounds l = .ok (runs.flatMap commandsOfGroup) ∧
        runs.flatten = l ∧
        (∀ run ∈ runs, run ≠ [] ∧
          ∀ x ∈ run, ∀ y ∈ run, attachmentTag.lookup x.name = attachmentTag.lookup y.name) ∧
        List.Chain' (fun r1 r2 => ∀ x ∈ r1, ∀ y ∈ r2,
          attachmentTag.lookup x.name ≠ attachmentTag.lookup y.name) runs := by
  induction rounds with
  | zero =>
    intro l hlen _
    have : l = [] := List.length_eq_zero.mp (Nat.le_zero.mp hlen)
    subst this
    exact ⟨[], rfl, rfl, by simp, List.chain'_nil⟩
  | succ rounds ih =>
    intro l hlen htags
    cases l with
    | nil => exact ⟨[], rfl, rfl, by simp, List.chain'_nil⟩
    | cons first rest =>
      obtain ⟨tag, htag⟩ := Option.isSome_iff_exists.mp (htags first (List.mem_cons_self _ _))
      obtain ⟨run, left, hrun, hsplit, hsame, hstop⟩ := takeSameTag_spec attachmentTag tag rest
        (fun x hx => htags x (List.mem_cons_of_mem _ hx))
      have hleft : left.length ≤ rounds := by
        have : rest.length = run.length + left.length := by rw [hsplit, List.length_append]
        simp only [List.length_cons] at hlen
        omega
      obtain ⟨runs, hloop, hflat, hruns, hchain⟩ := ih left hleft
        (fun x hx => htags x (List.mem_cons_of_mem _ (by rw [hsplit]; simp [hx])))
      have hgroup : ∀ x ∈ first :: run, attachmentTag.lookup x.name = some tag := by
        intro x hx
        rcases List.mem_cons.mp hx with rfl | hx
        · exact htag
        · exact hsame x hx
      refine ⟨(first :: run) :: runs, ?_, ?_, ?_, ?_⟩
      · unfold commandLoop
        simp only [mapAt, htag, hrun, hloop, commandsOfRun_eq, List.flatMap_cons]
      · simp only [List.flatten_cons, hflat, hsplit, List.cons_append]
      · intro r hr
        rcases List.mem_cons.mp hr with rfl | hr
        · exact ⟨by simp, fun x hx y hy => by rw [hgroup x hx, hgroup y hy]⟩
        · exact hruns r hr
      · rw [List.chain'_cons']
        refine ⟨?_, hchain⟩
        intro r2 hr2 x hx y hy
        have hr2mem : r2 ∈ runs := List.mem_of_mem_head? hr2
        obtain ⟨hne, hr2same⟩ := hruns r2 hr2mem
        obtain ⟨z, zs, rfl⟩ := List.exists_cons_of_ne_nil hne
        have hz : left.head? = some z := by
          cases runs with
          | nil => simp at hr2
          | cons r rs =>
            simp only [List.head?_cons, Option.mem_def, Option.some.injEq] at hr2
            subst hr2
            rw [← hflat]
            simp
        rw [hgroup x hx, hr2same y hy z (List.mem_cons_self _ _)]
        exact fun h => hstop z hz h.symm

/-- The operations of the commands of a group are the operations of the group, in order. -/
theorem commandsOfGroup_operations (run : List RenderOperation) :
    (commandsOfGroup run).flatMap RenderCommand.operations = run := by
  have hcompute : ∀ l : List RenderOperation,
      (l.map (fun op => RenderCommand.computePass ⟨op⟩)).flatMap RenderCommand.operations =
        l := by
    intro l
    induction l with
    | nil => rfl
    | cons op rest ih =>
      simp only [List.map_cons, List.flatMap_cons, ih, RenderCommand.operations,
        List.singleton_append]
  unfold commandsOfGroup
  split
  · simp [RenderCommand.operations]
  · exact hcompute run

/-- The operations of the commands of a list of groups are the operations of the groups. -/
theorem flatMap_commandsOfGroup_operations (runs : List (List RenderOperation)) :
    (runs.flatMap commandsOfGroup).flatMap RenderCommand.operations = runs.flatten := by
  induction runs with
  | nil => rfl
  | cons run runs ih =>
    simp only [List.flatMap_cons, List.flatMap_append, commandsOfGroup_operations, ih,
      List.flatten_cons]

/-- Claim C21. On a sequence of operations that all have a tag, `createCommandSequence`
returns, and it cuts the sequence into runs without reordering it: the runs concatenated are
the sequence, each run is not empty and its operations share one tag, the operations of two
neighbouring runs have different tags (so each run is a maximal run of equal tags), a run
that starts with a graphics operation becomes one render pass holding the run, every
operation of any other run becomes a compute pass of its own, and the operations of the
commands, concatenated in the order of the commands, are the sequence. -/
theorem createCommandSequence_runs (costCalculator : StandardRenderWorkflowCostCalculator)
    (operationSequence : List RenderOperation)
    (htags : ∀ op ∈ operationSequence,
      (costCalculator.attachmentTag.lookup op.name).isSome = true) :
    ∃ runs : List (List RenderOperation),
      createCommandSequence costCalculator operationSequence =
        .ok (runs.flatMap (fun run =>
          if run.head?.map (fun op => op.operationType) = some RenderOperation.Type.Graphics
          then [RenderCommand.renderPass ⟨run, [], [], [], []⟩]
          else run.map (fun op => RenderCommand.computePass ⟨op⟩))) ∧
      runs.flatten = operationSequence ∧
      (∀ run ∈ runs, run ≠ [] ∧ ∀ x ∈ run, ∀ y ∈ run,
        costCalculator.attachmentTag.lookup x.name =
          costCalculator.attachmentTag.lookup y.name) ∧
      List.Chain' (fun r1 r2 => ∀ x ∈ r1, ∀ y ∈ r2,
        costCalculator.attachmentTag.lookup x.name ≠
          costCalculator.attachmentTag.lookup y.name) runs ∧
      ∀ commands, createCommandSequence costCalculator operationSequence = .ok commands →
        commands.flatMap RenderCommand.operations = operationSequence := by
  obtain ⟨runs, hloop, hflat, hruns, hchain⟩ :=
    commandLoop_spec costCalculator.attachmentTag operationSequence.length operationSequence
      (Nat.le_refl _) htags
  refine ⟨runs, hloop, hflat, hruns, hchain, ?_⟩
  intro commands hcommands
  have hok : createCommandSequence costCalculator operationSequence =
      .ok (runs.flatMap commandsOfGroup) := hloop
  rw [hok] at hcommands
  cases hcommands
  rw [flatMap_commandsOfGroup_operations, hflat]

/-- Claim C21 on the sequence Shadow, Main, Cull, Main again, where the two graphics
operations in front share a tag. -/
theorem createCommandSequence_runs_witness :
    (∀ op ∈ [Sample.shadow, Sample.main, Sample.cull, Sample.mainAgain],
      ((⟨[("Shadow", 0), ("Main", 0), ("Cull", 1)]⟩ :
        StandardRenderWorkflowCostCalculator).attachmentTag.lookup op.name).isSome = true) ∧
    ∃ runs : List (List RenderOperation),
      createCommandSequence ⟨[("Shadow", 0), ("Main", 0), ("Cull", 1)]⟩
          [Sample.shadow, Sample.main, Sample.cull, Sample.mainAgain] =
        .ok (runs.flatMap (fun run =>
          if run.head?.map (fun op => op.operationType) = some RenderOperation.Type.Graphics
          then [RenderCommand.renderPass ⟨run, [], [], [], []⟩]
          else run.map (fun op => RenderCommand.computePass ⟨op⟩))) ∧
      runs.flatten = [Sample.shadow, Sample.main, Sample.cull, Sample.mainAgain] ∧
      (∀ run ∈ runs, run ≠ [] ∧ ∀ x ∈ run, ∀ y ∈ run,
        (⟨[("Shadow", 0), ("Main", 0), ("Cull", 1)]⟩ :
            StandardRenderWorkflowCostCalculator).attachmentTag.lookup x.name =
          (⟨[("Shadow", 0), ("Main", 0), ("Cull", 1)]⟩ :
            StandardRenderWorkflowCostCalculator).attachmentTag.lookup y.name) ∧
      List.Chain' (fun r1 r2 => ∀ x ∈ r1, ∀ y ∈ r2,
        (⟨[("Shadow", 0), ("Main", 0), ("Cull", 1)]⟩ :
            StandardRenderWorkflowCostCalculator).attachmentTag.lookup x.name ≠
          (⟨[("Shadow", 0), ("Main", 0), ("Cull", 1)]⟩ :
            StandardRenderWorkflowCostCalculator).attachmentTag.lookup y.name) runs ∧
      ∀ commands, createCommandSequence ⟨[("Shadow", 0), ("Main", 0), ("Cull", 1)]⟩
          [Sample.shadow, Sample.main, Sample.cull, Sample.mainAgain] = .ok commands →
        commands.flatMap RenderCommand.operations =
          [Sample.shadow, Sample.main, Sample.cull, Sample.mainAgain] :=
  ⟨by decide, createCommandSequence_runs ⟨[("Shadow", 0), ("Main", 0), ("Cull", 1)]⟩
    [Sample.shadow, Sample.main, Sample.cull, Sample.mainAgain] (by decide)⟩

/-! ### Dependencies of a render pass -/

/-- A mask that holds the bits of another one still holds them after more bits are set. -/
theorem and_or_of_and (x y m : Nat) (h : x &&& m = m) : (x ||| y) &&& m = m := by
  apply Nat.eq_of_testBit_eq
  intro i
  have hi := congrArg (fun n => n.testBit i) h
  simp only [Nat.testBit_and, Nat.testBit_or] at hi ⊢
  cases hx : x.testBit i <;> cases hm : m.testBit i <;> simp_all

/-- A mask holds the bits that were just set in it. -/
theorem or_and_self_right (x m : Nat) : (x ||| m) &&& m = m := by
  apply Nat.eq_of_testBit_eq
  intro i
  simp only [Nat.testBit_and, Nat.testBit_or]
  cases x.testBit i <;> cases m.testBit i <;> rfl

/-- The latest producer among the operations and one more operation. -/
theorem latestOutput_append (workflow : RenderWorkflow) (resourceName : String)
    (operations : List RenderOperation) (operation : RenderOperation) :
    workflow.latestOutput resourceName (operations ++ [operation]) =
      if workflow.outputsOn resourceName operation then some operations.length
      else workflow.latestOutput resourceName operations := by
  unfold RenderWorkflow.latestOutput
  rw [List.length_append, List.length_singleton, List.range_succ, List.filter_append]
  have hold : (List.range operations.length).filter (fun index =>
      match (operations ++ [operation])[index]? with
      | some operation => workflow.outputsOn resourceName operation
      | none => false) =
      (List.range operations.length).filter (fun index =>
      match operations[index]? with
      | some operation => workflow.outputsOn resourceName operation
      | none => false) := by
    apply List.filter_congr
    intro index hindex
    rw [List.getElem?_append_left (List.mem_range.mp hindex)]
  rw [hold]
  by_cases hout : workflow.outputsOn resourceName operation = true
  · simp [hout]
  · simp [hout]

/-- Writing through the iterator keeps the sources and destinations of the list when the
write keeps them. -/
theorem modifyDependency_keys (a b : Nat)
    (f : SubpassDependencyDefinition → SubpassDependencyDefinition)
    (hkey : ∀ d, (f d).srcSubpass = d.srcSubpass ∧ (f d).dstSubpass = d.dstSubpass)
    (l : List SubpassDependencyDefinition) :
    (modifyDependency a b f l).map (fun d => (d.srcSubpass, d.dstSubpass)) =
      l.map (fun d => (d.srcSubpass, d.dstSubpass)) := by
  induction l with
  | nil => rfl
  | cons d rest ih =>
    unfold modifyDependency
    split
    · simp [(hkey d).1, (hkey d).2]
    · simp [ih]

/-- Every dependency of the list is still there after the write, as it was or written. -/
theorem modifyDependency_mem_of (a b : Nat)
    (f : SubpassDependencyDefinition → SubpassDependencyDefinition)
    (l : List SubpassDependencyDefinition) :
    ∀ d ∈ l, d ∈ modifyDependency a b f l ∨ f d ∈ modifyDependency a b f l := by
  induction l with
  | nil => simp
  | cons e rest ih =>
    intro d hd
    unfold modifyDependency
    rcases List.mem_cons.mp hd with rfl | hd
    · split
      · exact Or.inr (List.mem_cons_self _ _)
      · exact Or.inl (List.mem_cons_self _ _)
    · split
      · exact Or.inl (List.mem_cons_of_mem _ hd)
      · rcases ih d hd with h | h
        · exact Or.inl (List.mem_cons_of_mem _ h)
        · exact Or.inr (List.mem_cons_of_mem _ h)

/-- When the list has a dependency with the source and destination looked for, one such
dependency is written. -/
theorem modifyDependency_hit (a b : Nat)
    (f : SubpassDependencyDefinition → SubpassDependencyDefinition)
    (l : List SubpassDependencyDefinition)
    (h : ∃ d ∈ l, d.srcSubpass = a ∧ d.dstSubpass = b) :
    ∃ d, d.srcSubpass = a ∧ d.dstSubpass = b ∧ f d ∈ modifyDependency a b f l := by
  induction l with
  | nil => simp at h
  | cons e rest ih =>
    unfold modifyDependency
    by_cases he : e.srcSubpass = a ∧ e.dstSubpass = b
    · exact ⟨e, he.1, he.2, by simp [he]⟩
    · obtain ⟨d, hd, hda, hdb⟩ := h
      rcases List.mem_cons.mp hd with rfl | hd
      · exact absurd ⟨hda, hdb⟩ he
      · obtain ⟨d1, h1, h2, h3⟩ := ih ⟨d, hd, hda, hdb⟩
        exact ⟨d1, h1, h2, by simp only [he, if_false]; exact List.mem_cons_of_mem _ h3⟩

/-- The search for a dependency, the insertion of an empty one when there is none, and the
write through the iterator: the list grows by at most the dependency looked for, its pairs
of source and destination stay distinct, what a dependency included stays included, and the
dependency looked for is written. -/
theorem raiseDependency_spec (deps : List SubpassDependencyDefinition) (a b : Nat)
    (f : SubpassDependencyDefinition → SubpassDependencyDefinition)
    (hkey : ∀ d, (f d).srcSubpass = d.srcSubpass ∧ (f d).dstSubpass = d.dstSubpass)
    (hmono : ∀ d a1 b1 st ac fl, SubpassDependencyDefinition.includes d a1 b1 st ac fl →
      SubpassDependencyDefinition.includes (f d) a1 b1 st ac fl) :
    (∃ extra, (modifyDependency a b f
        (if deps.any (fun sd => sd.srcSubpass == a && sd.dstSubpass == b) then deps
         else deps ++ [⟨a, b, 0, 0, 0, 0, 0⟩])).map (fun d => (d.srcSubpass, d.dstSubpass)) =
        deps.map (fun d => (d.srcSubpass, d.dstSubpass)) ++ extra ∧
      ∀ k ∈ extra, k = (a, b)) ∧
    ((deps.map (fun d => (d.srcSubpass, d.dstSubpass))).Nodup →
      ((modifyDependency a b f
        (if deps.any (fun sd => sd.srcSubpass == a && sd.dstSubpass == b) then deps
         else deps ++ [⟨a, b, 0, 0, 0, 0, 0⟩])).map
          (fun d => (d.srcSubpass, d.dstSubpass))).Nodup) ∧
    (∀ a1 b1 st ac fl,
      (∃ dep ∈ deps, SubpassDependencyDefinition.includes dep a1 b1 st ac fl) →
      ∃ dep ∈ modifyDependency a b f
        (if deps.any (fun sd => sd.srcSubpass == a && sd.dstSubpass == b) then deps
         else deps ++ [⟨a, b, 0, 0, 0, 0, 0⟩]),
        SubpassDependencyDefinition.includes dep a1 b1 st ac fl) ∧
    ∃ d, d.srcSubpass = a ∧ d.dstSubpass = b ∧ f d ∈ modifyDependency a b f
        (if deps.any (fun sd => sd.srcSubpass == a && sd.dstSubpass == b) then deps
         else deps ++ [⟨a, b, 0, 0, 0, 0, 0⟩]) := by
  by_cases hany : deps.any (fun sd => sd.srcSubpass == a && sd.dstSubpass == b) = true
  · simp only [hany, if_true]
    refine ⟨⟨[], by rw [modifyDependency_keys a b f hkey, List.append_nil], by simp⟩,
      fun h => by rw [modifyDependency_keys a b f hkey]; exact h, ?_, ?_⟩
    · rintro a1 b1 st ac fl ⟨dep, hdep, hinc⟩
      rcases modifyDependency_mem_of a b f deps dep hdep with h | h
      · exact ⟨dep, h, hinc⟩
      · exact ⟨f dep, h, hmono dep a1 b1 st ac fl hinc⟩
    · apply modifyDependency_hit
      obtain ⟨d, hd, hp⟩ := List.any_eq_true.mp hany
      simp only [Bool.and_eq_true, beq_iff_eq] at hp
      exact ⟨d, hd, hp.1, hp.2⟩
  · have hfalse := Bool.eq_false_iff.mpr hany
    simp only [hfalse, Bool.false_eq_true, if_false]
    refine ⟨⟨[(a, b)], by rw [modifyDependency_keys a b f hkey]; simp, by simp⟩, ?_, ?_, ?_⟩
    · intro h
      rw [modifyDependency_keys a b f hkey, List.map_append, List.nodup_append]
      refine ⟨h, by simp, ?_⟩
      intro k hk1 hk2
      simp only [List.map_cons, List.map_nil, List.mem_singleton] at hk2
      subst hk2
      obtain ⟨d, hd, hdk⟩ := List.mem_map.mp hk1
      apply hany
      apply List.any_eq_true.mpr
      refine ⟨d, hd, ?_⟩
      simp only [Prod.mk.injEq] at hdk
      simp [hdk.1, hdk.2]
    · rintro a1 b1 st ac fl ⟨dep, hdep, hinc⟩
      rcases modifyDependency_mem_of a b f _ dep (List.mem_append_left _ hdep) with h | h
      · exact ⟨dep, h, hinc⟩
      · exact ⟨f dep, h, hmono dep a1 b1 st ac fl hinc⟩
    · apply modifyDependency_hit
      exact ⟨⟨a, b, 0, 0, 0, 0, 0⟩, by simp, rfl, rfl⟩

/-- The statements made for an attachment leave the dependencies and the map of modified
outputs alone. -/
theorem touchAttachment_dependencies (resourceName : String) (layout : VkImageLayout)
    (load : LoadOp) (s s1 : PassState)
    (h : touchAttachment resourceName layout load s = .ok s1) :
    s1.subpassDependencies = s.subpassDependencies ∧
    s1.modifiedOutputs = s.modifiedOutputs ∧ s1.subpasses = s.subpasses := by
  unfold touchAttachment at h
  simp only at h
  split at h
  · cases h
  · split at h
    · cases h
    · split at h
      · cases h
      · cases h
        exact ⟨rfl, rfl, rfl⟩

/-- The loop over the input transitions of the operation at one index: the map of modified
outputs and the subpasses stay, the dependencies grow by dependencies into that index only,
pairs of source and destination stay distinct, what a dependency included stays included,
and every transition of the loop has a generating transition and a dependency that
includes what the lookup gives for the two. -/
theorem consumeInputs_spec (workflow : RenderWorkflow) (i : Nat) :
    ∀ (ts : List ResourceTransition) (s s1 : PassState),
      consumeInputs workflow i ts s = .ok s1 →
      s1.modifiedOutputs = s.modifiedOutputs ∧ s1.subpasses = s.subpasses ∧
      (∃ extra, s1.subpassDependencies.map (fun d => (d.srcSubpass, d.dstSubpass)) =
          s.subpassDependencies.map (fun d => (d.srcSubpass, d.dstSubpass)) ++ extra ∧
        ∀ k ∈ extra, k.2 = i) ∧
      ((s.subpassDependencies.map (fun d => (d.srcSubpass, d.dstSubpass))).Nodup →
        (s1.subpassDependencies.map (fun d => (d.srcSubpass, d.dstSubpass))).Nodup) ∧
      (∀ a1 b1 st ac fl,
        (∃ dep ∈ s.subpassDependencies,
          SubpassDependencyDefinition.includes dep a1 b1 st ac fl) →
        ∃ dep ∈ s1.subpassDependencies,
          SubpassDependencyDefinition.includes dep a1 b1 st ac fl) ∧
      ∀ t ∈ ts, ∃ gens generating,
        workflow.getResourceIO t.resource.name rttAllOutputs = .ok gens ∧
        (gens.filter (fun gen => gen.resource.name == t.resource.name)).getLast? =
          some generating ∧
        ∃ dep ∈ s1.subpassDependencies, SubpassDependencyDefinition.includes dep
          ((s.modifiedOutputs.lookup t.resource.name).getD VK_SUBPASS_EXTERNAL) i
          (getPipelineStageMasks generating t (0, 0)) (getAccessMasks generating t (0, 0))
          (if t.resource.resourceType.metaType = MetaType.Attachment
           then VK_DEPENDENCY_BY_REGION_BIT else 0) := by
  intro ts
  induction ts with
  | nil =>
    intro s s1 h
    unfold consumeInputs at h
    cases h
    exact ⟨rfl, rfl, ⟨[], by simp, by simp⟩, id, fun _ _ _ _ _ h => h, by simp⟩
  | cons t rest ih =>
    intro s s1 h
    unfold consumeInputs at h
    cases hg : workflow.getResourceIO t.resource.name rttAllOutputs with
    | error e => simp [hg] at h
    | ok gens =>
      cases hlast : (gens.filter (fun gen => gen.resource.name == t.resource.name)).getLast? with
      | none => simp [hg, hlast] at h
      | some generating =>
        simp only [hg, hlast] at h
        generalize hsrc : (match List.lookup t.resource.name s.modifiedOutputs with
          | some index => index
          | none => VK_SUBPASS_EXTERNAL) = src at h
        have hsrc1 : src = (s.modifiedOutputs.lookup t.resource.name).getD VK_SUBPASS_EXTERNAL := by
          rw [← hsrc]
          cases List.lookup t.resource.name s.modifiedOutputs <;> rfl
        obtain ⟨⟨extra, hextra, hextra1⟩, hnodup, hkeep, d0, hd0a, hd0b, hd0⟩ :=
          raiseDependency_spec s.subpassDependencies src i
            (fun dep => { dep with
                srcStageMask := dep.srcStageMask ||| (getPipelineStageMasks generating t (0, 0)).1,
                dstStageMask := dep.dstStageMask ||| (getPipelineStageMasks generating t (0, 0)).2,
                srcAccessMask := dep.srcAccessMask ||| (getAccessMasks generating t (0, 0)).1,
                dstAccessMask := dep.dstAccessMask ||| (getAccessMasks generating t (0, 0)).2,
                dependencyFlags :=
                  if t.resource.resourceType.metaType = MetaType.Attachment
                  then dep.dependencyFlags ||| VK_DEPENDENCY_BY_REGION_BIT
                  else dep.dependencyFlags })
            (fun d => ⟨rfl, rfl⟩)
            (by
              rintro d a1 b1 st ac fl ⟨h1, h2, h3, h4, h5, h6, h7⟩
              refine ⟨h1, h2, and_or_of_and _ _ _ h3, and_or_of_and _ _ _ h4,
                and_or_of_and _ _ _ h5, and_or_of_and _ _ _ h6, ?_⟩
              simp only
              split
              · exact and_or_of_and _ _ _ h7
              · exact h7)
        split at h
        · cases h
        · rename_i s2 heq
          have hs2 : s2.subpassDependencies = modifyDependency src i
              (fun dep => { dep with
                srcStageMask := dep.srcStageMask ||| (getPipelineStageMasks generating t (0, 0)).1,
                dstStageMask := dep.dstStageMask ||| (getPipelineStageMasks generating t (0, 0)).2,
                srcAccessMask := dep.srcAccessMask ||| (getAccessMasks generating t (0, 0)).1,
                dstAccessMask := dep.dstAccessMask ||| (getAccessMasks generating t (0, 0)).2,
                dependencyFlags :=
                  if t.resource.resourceType.metaType = MetaType.Attachment
                  then dep.dependencyFlags ||| VK_DEPENDENCY_BY_REGION_BIT
                  else dep.dependencyFlags })
              (if s.subpassDependencies.any
                  (fun sd => sd.srcSubpass == src && sd.dstSubpass == i)
               then s.subpassDependencies
               else s.subpassDependencies ++ [⟨src, i, 0, 0, 0, 0, 0⟩]) ∧
              s2.modifiedOutputs = s.modifiedOutputs ∧ s2.subpasses = s.subpasses := by
            by_cases hatt : t.resource.resourceType.metaType = MetaType.Attachment
            · simp only [hatt, if_true] at heq ⊢
              exact touchAttachment_dependencies _ _ _ _ _ heq
            · simp only [hatt, if_false] at heq ⊢
              cases heq
              exact ⟨rfl, rfl, rfl⟩
          obtain ⟨hdeps, hmod, hsub⟩ := hs2
          rw [← hdeps] at hextra hnodup hkeep hd0
          obtain ⟨imod, isub, ⟨extra2, hextra2, hextra3⟩, inodup, ikeep, iinputs⟩ := ih s2 s1 h
          refine ⟨imod.trans hmod, isub.trans hsub, ⟨extra ++ extra2, ?_, ?_⟩,
            fun hn => inodup (hnodup hn), fun a1 b1 st ac fl hx => ikeep _ _ _ _ _ (hkeep _ _ _ _ _ hx),
            ?_⟩
          · rw [hextra2, hextra, List.append_assoc]
          · intro k hk
            rcases List.mem_append.mp hk with hk | hk
            · rw [hextra1 k hk]
            · exact hextra3 k hk
          · intro t1 ht1
            rcases List.mem_cons.mp ht1 with rfl | ht1
            · refine ⟨gens, generating, hg, hlast, ikeep _ _ _ _ _ ⟨_, hd0, ?_⟩⟩
              rw [← hsrc1]
              refine ⟨hd0a, hd0b, or_and_self_right _ _, or_and_self_right _ _,
                or_and_self_right _ _, or_and_self_right _ _, ?_⟩
              simp only
              split
              · exact or_and_self_right _ _
              · exact Nat.and_zero _
            · obtain ⟨gens1, generating1, hg1, hlast1, hdep1⟩ := iinputs t1 ht1
              rw [hmod] at hdep1
              exact ⟨gens1, generating1, hg1, hlast1, hdep1⟩



/-- An assignment to one key leaves the values of the other keys alone. -/
theorem lookup_mapAssign_other {V : Type} (k k1 : String) (v : V) (m : List (String × V))
    (hk : k1 ≠ k) : (mapAssign k v m).lookup k1 = m.lookup k1 := by
  induction m with
  | nil =>
    have hb : (k1 == k) = false := by simpa using hk
    simp [mapAssign, List.lookup, hb]
  | cons e rest ih =>
    obtain ⟨k2, v2⟩ := e
    unfold mapAssign
    by_cases h2 : k2 = k
    · subst h2
      have hb : (k1 == k2) = false := by simpa using hk
      simp [List.lookup, hb]
    · simp only [h2, if_false, List.lookup]
      cases (k1 == k2)
      · exact ih
      · rfl

/-- The loop over the output transitions of the operation at one index: the dependencies and
the subpasses stay, and the map of modified outputs gives that index for the resources of the
loop and what it gave before for the others. -/
theorem produceOutputs_spec (i : Nat) :
    ∀ (outs : List ResourceTransition) (s s1 : PassState),
      produceOutputs i outs s = .ok s1 →
      s1.subpassDependencies = s.subpassDependencies ∧ s1.subpasses = s.subpasses ∧
      ∀ R, s1.modifiedOutputs.lookup R =
        if outs.any (fun t => t.resource.name == R) then some i
        else s.modifiedOutputs.lookup R := by
  intro outs
  induction outs with
  | nil =>
    intro s s1 h
    unfold produceOutputs at h
    cases h
    exact ⟨rfl, rfl, fun R => by simp⟩
  | cons t rest ih =>
    intro s s1 h
    unfold produceOutputs at h
    have hstep : ∀ s2 : PassState, s2.subpassDependencies = s.subpassDependencies →
        s2.subpasses = s.subpasses →
        s2.modifiedOutputs = mapAssign t.resource.name i s.modifiedOutputs →
        produceOutputs i rest s2 = .ok s1 →
        s1.subpassDependencies = s.subpassDependencies ∧ s1.subpasses = s.subpasses ∧
        ∀ R, s1.modifiedOutputs.lookup R =
          if (t :: rest).any (fun t => t.resource.name == R) then some i
          else s.modifiedOutputs.lookup R := by
      intro s2 h1 h2 h3 h4
      obtain ⟨i1, i2, i3⟩ := ih s2 s1 h4
      refine ⟨i1.trans h1, i2.trans h2, ?_⟩
      intro R
      rw [i3 R, h3, List.any_cons]
      by_cases hrest : rest.any (fun t => t.resource.name == R) = true
      · simp [hrest]
      · have hfalse := Bool.eq_false_iff.mpr hrest
        simp only [hfalse, Bool.false_eq_true, if_false, Bool.or_false]
        by_cases hR : t.resource.name = R
        · subst hR
          simp [lookup_mapAssign_self]
        · have hb : (t.resource.name == R) = false := by simpa using hR
          simp only [hb, Bool.false_eq_true, if_false]
          exact lookup_mapAssign_other _ _ _ _ (fun h => hR h.symm)
    simp only at h
    split at h
    · split at h
      · cases h
      · rename_i s2 heq
        obtain ⟨t1, t2, t3⟩ := touchAttachment_dependencies _ _ _ _ _ heq
        split at h
        · exact hstep { s2 with renderPassOutputsSurface := true } t1 t3 t2 h
        · exact hstep s2 t1 t3 t2 h
    · exact hstep { s with
        modifiedOutputs := mapAssign t.resource.name i s.modifiedOutputs } rfl rfl rfl h

/-- The main loop from one index on: the dependencies grow by dependencies into that index
or a later one, pairs of source and destination stay distinct, what a dependency included
stays included, and every operation adds one subpass. -/
theorem passLoop_dependencies (workflow : RenderWorkflow) :
    ∀ (ops : List RenderOperation) (i : Nat) (s s1 : PassState),
      passLoop workflow ops i s = .ok s1 →
      (∃ extra, s1.subpassDependencies.map (fun d => (d.srcSubpass, d.dstSubpass)) =
          s.subpassDependencies.map (fun d => (d.srcSubpass, d.dstSubpass)) ++ extra ∧
        ∀ k ∈ extra, i ≤ k.2) ∧
      ((s.subpassDependencies.map (fun d => (d.srcSubpass, d.dstSubpass))).Nodup →
        (s1.subpassDependencies.map (fun d => (d.srcSubpass, d.dstSubpass))).Nodup) ∧
      (∀ a1 b1 st ac fl,
        (∃ dep ∈ s.subpassDependencies,
          SubpassDependencyDefinition.includes dep a1 b1 st ac fl) →
        ∃ dep ∈ s1.subpassDependencies,
          SubpassDependencyDefinition.includes dep a1 b1 st ac fl) ∧
      s1.subpasses.length = s.subpasses.length + ops.length := by
  intro ops
  induction ops with
  | nil =>
    intro i s s1 h
    unfold passLoop at h
    cases h
    exact ⟨⟨[], by simp, by simp⟩, id, fun _ _ _ _ _ h => h, rfl⟩
  | cons op rest ih =>
    intro i s s1 h
    unfold passLoop at h
    cases hsub : op.buildSubPassDefinition workflow s.attachmentIndex with
    | error e => simp [hsub] at h
    | ok subPassDefinition =>
      cases hin : workflow.getOperationIO op.name rttAllInputs with
      | error e => simp [hsub, hin] at h
      | ok ts =>
        cases hcons : consumeInputs workflow i ts
            { s with subpasses := s.subpasses ++ [subPassDefinition] } with
        | error e => simp [hsub, hin, hcons] at h
        | ok sa =>
          cases hout : workflow.getOperationIO op.name rttAllOutputs with
          | error e => simp [hsub, hin, hcons, hout] at h
          | ok outs =>
            cases hprod : produceOutputs i outs sa with
            | error e => simp [hsub, hin, hcons, hout, hprod] at h
            | ok sb =>
              simp only [hsub, hin, hcons, hout, hprod] at h
              obtain ⟨_, csub, ⟨extra, hextra, hextra1⟩, cnodup, ckeep, _⟩ :=
                consumeInputs_spec workflow i ts _ sa hcons
              obtain ⟨pdeps, psub, _⟩ := produceOutputs_spec i outs sa sb hprod
              obtain ⟨⟨extra2, hextra2, hextra3⟩, inodup, ikeep, isub⟩ := ih (i + 1) sb s1 h
              rw [pdeps] at hextra2 inodup ikeep
              refine ⟨⟨extra ++ extra2, ?_, ?_⟩, fun hn => inodup (cnodup hn),
                fun a1 b1 st ac fl hx => ikeep _ _ _ _ _ (ckeep _ _ _ _ _ hx), ?_⟩
              · rw [hextra2, hextra, List.append_assoc]
              · intro k hk
                rcases List.mem_append.mp hk with hk | hk
                · exact Nat.le_of_eq (hextra1 k hk).symm
                · exact Nat.le_of_succ_le (hextra3 k hk)
              · rw [isub, psub, csub]
                simp only [List.length_append, List.length_cons, List.length_nil]
                omega

/-- The main loop, entered after the operations `pre` with the map of modified outputs
giving the latest producer among them: every input transition of every operation of the loop
has a generating transition, and the dependencies at the end have one from the latest
earlier producer of its resource (from outside when there is none) into the index of the
operation that includes what the lookup gives for the two transitions, with the flag of
regions when the resource is an attachment. -/
theorem passLoop_inputs (workflow : RenderWorkflow) :
    ∀ (post pre : List RenderOperation) (s s1 : PassState),
      passLoop workflow post pre.length s = .ok s1 →
      (∀ R, s.modifiedOutputs.lookup R = workflow.latestOutput R pre) →
      ∀ l1 op l2, post = l1 ++ op :: l2 →
        ∃ ts, workflow.getOperationIO op.name rttAllInputs = .ok ts ∧
          ∀ t ∈ ts, ∃ gens generating,
            workflow.getResourceIO t.resource.name rttAllOutputs = .ok gens ∧
            (gens.filter (fun gen => gen.resource.name == t.resource.name)).getLast? =
              some generating ∧
            ∃ dep ∈ s1.subpassDependencies, SubpassDependencyDefinition.includes dep
              ((workflow.latestOutput t.resource.name (pre ++ l1)).getD VK_SUBPASS_EXTERNAL)
              (pre.length + l1.length)
              (getPipelineStageMasks generating t (0, 0))
              (getAccessMasks generating t (0, 0))
              (if t.resource.resourceType.metaType = MetaType.Attachment
               then VK_DEPENDENCY_BY_REGION_BIT else 0) := by
  intro post
  induction post with
  | nil =>
    intro pre s s1 _ _ l1 op l2 hsplit
    simp at hsplit
  | cons first rest ih =>
    intro pre s s1 h hinv l1 op l2 hsplit
    unfold passLoop at h
    cases hsub : first.buildSubPassDefinition workflow s.attachmentIndex with
    | error e => simp [hsub] at h
    | ok subPassDefinition =>
      cases hin : workflow.getOperationIO first.name rttAllInputs with
      | error e => simp [hsub, hin] at h
      | ok ts =>
        cases hcons : consumeInputs workflow pre.length ts
            { s with subpasses := s.subpasses ++ [subPassDefinition] } with
        | error e => simp [hsub, hin, hcons] at h
        | ok sa =>
          cases hout : workflow.getOperationIO first.name rttAllOutputs with
          | error e => simp [hsub, hin, hcons, hout] at h
          | ok outs =>
            cases hprod : produceOutputs pre.length outs sa with
            | error e => simp [hsub, hin, hcons, hout, hprod] at h
            | ok sb =>
              simp only [hsub, hin, hcons, hout, hprod] at h
              obtain ⟨cmod, _, _, _, _, cinputs⟩ :=
                consumeInputs_spec workflow pre.length ts _ sa hcons
              obtain ⟨pdeps, _, pmod⟩ := produceOutputs_spec pre.length outs sa sb hprod
              cases l1 with
              | nil =>
                simp only [List.nil_append, List.cons.injEq] at hsplit
                obtain ⟨rfl, rfl⟩ := hsplit
                refine ⟨ts, hin, ?_⟩
                intro t ht
                obtain ⟨gens, generating, hg, hlast, hdep⟩ := cinputs t ht
                refine ⟨gens, generating, hg, hlast, ?_⟩
                simp only [hinv] at hdep
                rw [← pdeps] at hdep
                simpa using (passLoop_dependencies workflow _ _ sb s1 h).2.2.1 _ _ _ _ _ hdep
              | cons x l1 =>
                simp only [List.cons_append, List.cons.injEq] at hsplit
                obtain ⟨hx, hrest⟩ := hsplit
                subst hx
                have hlen : (pre ++ [first]).length = pre.length + 1 := by simp
                rw [← hlen] at h
                have hinv1 : ∀ R, sb.modifiedOutputs.lookup R =
                    workflow.latestOutput R (pre ++ [first]) := by
                  intro R
                  rw [pmod R, cmod, latestOutput_append]
                  simp only [RenderWorkflow.outputsOn, hout, hinv]
                obtain ⟨ts1, hin1, hall⟩ := ih (pre ++ [first]) sb s1 h hinv1 l1 op l2 hrest
                refine ⟨ts1, hin1, ?_⟩
                intro t ht
                obtain ⟨gens, generating, hg, hlast, dep, hdep, hinc⟩ := hall t ht
                refine ⟨gens, generating, hg, hlast, dep, hdep, ?_⟩
                have e1 : pre ++ first :: l1 = pre ++ [first] ++ l1 := by simp
                have e2 : pre.length + (first :: l1).length = (pre ++ [first]).length + l1.length := by
                  simp only [List.length_cons, hlen]
                  omega
                rw [e1, e2]
                exact hinc

/-- What a call of `constructRenderPassDetails` that returns has done: the set of resources
used later was collected, the main loop ran from an empty list of dependencies, the
dependencies of the render pass are those of the loop, the default first dependency when
the loop made none from outside into subpass 0, and the last dependency; the attachments are
those of the last loop. -/
theorem constructRenderPassDetails_ok (rounds : Nat) (workflow : RenderWorkflow)
    (renderPass : RenderPass) (lastLayout : List VkImageLayout)
    (frameBufferDefinitions : List FrameBufferImageDefinition)
    (resourceVector : List WorkflowResource) (attachmentIndex : List (String × Nat))
    (details : PassDetails)
    (hok : constructRenderPassDetails rounds workflow renderPass lastLayout
      frameBufferDefinitions resourceVector attachmentIndex = .ok details) :
    ∃ used s,
      resourcesUsedAfterRenderPass rounds workflow renderPass.renderOperations
        renderPass.renderOperations [] = .ok used ∧
      passLoop workflow renderPass.renderOperations 0
        ⟨renderPass.subpasses, [], [], lastLayout, frameBufferDefinitions,
         List.replicate frameBufferDefinitions.length ⟨LoadOp.Type.DontCare, ⟨0, 0, 0, 0⟩⟩,
         attachmentIndex, false⟩ = .ok s ∧
      passAttachments used s.firstLoadOp lastLayout s.lastLayout resourceVector
        s.attachmentIndex =
        .ok (details.renderPass.attachments, details.renderPass.clearValues,
          details.attachmentIndex) ∧
      details.renderPass.dependencies =
        (if s.subpassDependencies.any
            (fun sd => sd.srcSubpass == VK_SUBPASS_EXTERNAL && sd.dstSubpass == 0)
         then s.subpassDependencies
         else s.subpassDependencies ++
          [⟨VK_SUBPASS_EXTERNAL, 0, VK_PIPELINE_STAGE_BOTTOM_OF_PIPE_BIT,
            VK_PIPELINE_STAGE_ALL_COMMANDS_BIT, 0, 0, 0⟩]) ++
        [⟨(renderPass.renderOperations.length + 4294967295) % 4294967296,
          VK_SUBPASS_EXTERNAL, VK_PIPELINE_STAGE_ALL_COMMANDS_BIT,
          VK_PIPELINE_STAGE_BOTTOM_OF_PIPE_BIT, 1936, 0, 0⟩] ∧
      details.renderPass.subpasses = s.subpasses ∧
      details.renderPass.renderOperations = renderPass.renderOperations ∧
      details.outputsSurface = s.renderPassOutputsSurface := by
  unfold constructRenderPassDetails at hok
  simp only at hok
  split at hok
  · cases hok
  · rename_i used hused
    split at hok
    · cases hok
    · rename_i s hs
      split at hok
      · cases hok
      · rename_i attachmentDefinitions clearValues attachmentIndex1 hatt
        cases hok
        exact ⟨used, s, hused, hs, hatt, rfl, rfl, rfl, rfl⟩

/-- In a list of dependencies with distinct pairs of source and destination, the search for
the pair of one of them finds that one only. -/
theorem filter_key_singleton (l : List SubpassDependencyDefinition)
    (hn : (l.map (fun d => (d.srcSubpass, d.dstSubpass))).Nodup)
    (d : SubpassDependencyDefinition) (hd : d ∈ l) :
    l.filter (fun sd => sd.srcSubpass == d.srcSubpass && sd.dstSubpass == d.dstSubpass) =
      [d] := by
  induction l with
  | nil => simp at hd
  | cons e rest ih =>
    simp only [List.map_cons, List.nodup_cons] at hn
    obtain ⟨hnot, hrest⟩ := hn
    rcases List.mem_cons.mp hd with rfl | hd
    · have hnil : rest.filter
          (fun sd => sd.srcSubpass == d.srcSubpass && sd.dstSubpass == d.dstSubpass) = [] := by
        apply List.filter_eq_nil_iff.mpr
        intro x hx hp
        simp only [Bool.and_eq_true, beq_iff_eq] at hp
        apply hnot
        exact List.mem_map.mpr ⟨x, hx, by rw [hp.1, hp.2]⟩
      simp [List.filter_cons, hnil]
    · have hne : ¬ (e.srcSubpass = d.srcSubpass ∧ e.dstSubpass = d.dstSubpass) := by
        rintro ⟨h1, h2⟩
        apply hnot
        exact List.mem_map.mpr ⟨d, hd, by rw [h1, h2]⟩
      have hfalse : (e.srcSubpass == d.srcSubpass && e.dstSubpass == d.dstSubpass) = false := by
        apply Bool.eq_false_iff.mpr
        simpa using hne
      rw [List.filter_cons, hfalse]
      exact ih hrest hd

/-- When the first operation of the main loop has no input transition, every dependency the
loop adds goes into a later subpass. -/
theorem passLoop_first_without_inputs (workflow : RenderWorkflow) (first : RenderOperation)
    (rest : List RenderOperation) (i : Nat) (s s1 : PassState)
    (h : passLoop workflow (first :: rest) i s = .ok s1)
    (hin : workflow.getOperationIO first.name rttAllInputs = .ok []) :
    ∃ extra, s1.subpassDependencies.map (fun d => (d.srcSubpass, d.dstSubpass)) =
        s.subpassDependencies.map (fun d => (d.srcSubpass, d.dstSubpass)) ++ extra ∧
      ∀ k ∈ extra, i + 1 ≤ k.2 := by
  unfold passLoop at h
  cases hsub : first.buildSubPassDefinition workflow s.attachmentIndex with
  | error e => simp [hsub] at h
  | ok subPassDefinition =>
    simp only [hsub, hin, consumeInputs] at h
    cases hout : workflow.getOperationIO first.name rttAllOutputs with
    | error e => simp [hout] at h
    | ok outs =>
      simp only [hout] at h
      split at h
      · cases h
      · rename_i sb hprod
        obtain ⟨pdeps, _, _⟩ := produceOutputs_spec i outs _ sb hprod
        obtain ⟨⟨extra, hextra, hextra1⟩, _, _, _⟩ :=
          passLoop_dependencies workflow rest (i + 1) sb s1 h
        rw [pdeps] at hextra
        exact ⟨extra, hextra, hextra1⟩

/-- Claim C22 (amended). When `constructRenderPassDetails` returns for a render pass of n ≥ 1
operations, the last dependency of the render pass goes from subpass n - 1 (as a 32 bit
number) to outside, with the five attachment access bits as source access; exactly one
dependency goes from outside into subpass 0; when the first operation has no input
transition that dependency is the default one (stage masks bottom of pipe and all commands,
no access bit, no flag); and when the first operation has input transitions, that dependency
is the one the main loop made for them: for every input transition of the first operation it
holds every bit that the lookup gives for the generating and the consuming transition, and
the flag of regions when the resource is an attachment. -/
theorem pass_dependencies_intro_outro (rounds : Nat) (workflow : RenderWorkflow)
    (renderPass : RenderPass) (lastLayout : List VkImageLayout)
    (frameBufferDefinitions : List FrameBufferImageDefinition)
    (resourceVector : List WorkflowResource) (attachmentIndex : List (String × Nat))
    (details : PassDetails)
    (hok : constructRenderPassDetails rounds workflow renderPass lastLayout
      frameBufferDefinitions resourceVector attachmentIndex = .ok details)
    (first : RenderOperation) (rest : List RenderOperation)
    (hops : renderPass.renderOperations = first :: rest) :
    ∃ inputs dep,
      workflow.getOperationIO first.name rttAllInputs = .ok inputs ∧
      details.renderPass.dependencies.getLast? =
        some ⟨(renderPass.renderOperations.length - 1) % 4294967296, VK_SUBPASS_EXTERNAL,
          VK_PIPELINE_STAGE_ALL_COMMANDS_BIT, VK_PIPELINE_STAGE_BOTTOM_OF_PIPE_BIT,
          VK_ACCESS_INPUT_ATTACHMENT_READ_BIT ||| VK_ACCESS_COLOR_ATTACHMENT_READ_BIT
            ||| VK_ACCESS_COLOR_ATTACHMENT_WRITE_BIT
            ||| VK_ACCESS_DEPTH_STENCIL_ATTACHMENT_READ_BIT
            ||| VK_ACCESS_DEPTH_STENCIL_ATTACHMENT_WRITE_BIT, 0, 0⟩ ∧
      details.renderPass.dependencies.filter
        (fun sd => sd.srcSubpass == VK_SUBPASS_EXTERNAL && sd.dstSubpass == 0) = [dep] ∧
      (inputs = [] → dep = ⟨VK_SUBPASS_EXTERNAL, 0, VK_PIPELINE_STAGE_BOTTOM_OF_PIPE_BIT,
        VK_PIPELINE_STAGE_ALL_COMMANDS_BIT, 0, 0, 0⟩) ∧
      ∀ consuming ∈ inputs, ∃ gens generating,
        workflow.getResourceIO consuming.resource.name rttAllOutputs = .ok gens ∧
        (gens.filter (fun gen => gen.resource.name == consuming.resource.name)).getLast? =
          some generating ∧
        SubpassDependencyDefinition.includes dep VK_SUBPASS_EXTERNAL 0
          (getPipelineStageMasks generating consuming (0, 0))
          (getAccessMasks generating consuming (0, 0))
          (if consuming.resource.resourceType.metaType = MetaType.Attachment
           then VK_DEPENDENCY_BY_REGION_BIT else 0) := by
  obtain ⟨used, s, _, hloop, _, hdeps, _, _, _⟩ :=
    constructRenderPassDetails_ok rounds workflow renderPass lastLayout frameBufferDefinitions
      resourceVector attachmentIndex details hok
  have hnodup : (s.subpassDependencies.map (fun d => (d.srcSubpass, d.dstSubpass))).Nodup :=
    (passLoop_dependencies workflow _ _ _ s hloop).2.1 List.nodup_nil
  obtain ⟨inputs, hin, hall⟩ := passLoop_inputs workflow renderPass.renderOperations [] _ s
    hloop (fun R => rfl) [] first rest hops
  have hlast : details.renderPass.dependencies.getLast? =
      some ⟨(renderPass.renderOperations.length - 1) % 4294967296, VK_SUBPASS_EXTERNAL,
        VK_PIPELINE_STAGE_ALL_COMMANDS_BIT, VK_PIPELINE_STAGE_BOTTOM_OF_PIPE_BIT,
        VK_ACCESS_INPUT_ATTACHMENT_READ_BIT ||| VK_ACCESS_COLOR_ATTACHMENT_READ_BIT
          ||| VK_ACCESS_COLOR_ATTACHMENT_WRITE_BIT
          ||| VK_ACCESS_DEPTH_STENCIL_ATTACHMENT_READ_BIT
          ||| VK_ACCESS_DEPTH_STENCIL_ATTACHMENT_WRITE_BIT, 0, 0⟩ := by
    rw [hdeps, List.getLast?_append]
    have hn : (renderPass.renderOperations.length + 4294967295) % 4294967296 =
        (renderPass.renderOperations.length - 1) % 4294967296 := by
      rw [hops, List.length_cons]
      omega
    rw [hn]
    rfl
  have houtro : List.filter
      (fun sd => sd.srcSubpass == VK_SUBPASS_EXTERNAL && sd.dstSubpass == 0)
      [(⟨(renderPass.renderOperations.length + 4294967295) % 4294967296,
        VK_SUBPASS_EXTERNAL, VK_PIPELINE_STAGE_ALL_COMMANDS_BIT,
        VK_PIPELINE_STAGE_BOTTOM_OF_PIPE_BIT, 1936, 0, 0⟩ : SubpassDependencyDefinition)] =
      [] := by
    simp [List.filter_cons, VK_SUBPASS_EXTERNAL]
  cases inputs with
  | nil =>
    rw [hops] at hloop
    obtain ⟨extra, hextra, hextra1⟩ :=
      passLoop_first_without_inputs workflow first rest 0 _ s hloop hin
    have hnone : ∀ d ∈ s.subpassDependencies,
        (d.srcSubpass == VK_SUBPASS_EXTERNAL && d.dstSubpass == 0) = false := by
      intro d hd
      have hk : (d.srcSubpass, d.dstSubpass) ∈ extra := by
        have := List.mem_map_of_mem (fun d => (d.srcSubpass, d.dstSubpass)) hd
        rw [hextra] at this
        simpa using this
      have := hextra1 _ hk
      simp only at this
      have hne : d.dstSubpass ≠ 0 := by omega
      simp [hne]
    have hany : s.subpassDependencies.any
        (fun sd => sd.srcSubpass == VK_SUBPASS_EXTERNAL && sd.dstSubpass == 0) = false := by
      apply Bool.eq_false_iff.mpr
      intro h
      obtain ⟨d, hd, hp⟩ := List.any_eq_true.mp h
      rw [hnone d hd] at hp
      cases hp
    have hfilter : s.subpassDependencies.filter
        (fun sd => sd.srcSubpass == VK_SUBPASS_EXTERNAL && sd.dstSubpass == 0) = [] :=
      List.filter_eq_nil_iff.mpr (fun d hd hp => by rw [hnone d hd] at hp; cases hp)
    refine ⟨[], _, hin, hlast, ?_, fun _ => rfl, by simp⟩
    rw [hdeps, hany]
    simp only [Bool.false_eq_true, if_false, List.filter_append, hfilter, houtro]
    simp [List.filter_cons]
  | cons t ts =>
    obtain ⟨gens0, generating0, _, _, dep0, hdep0, hinc0⟩ := hall t (List.mem_cons_self _ _)
    have hsrc0 : dep0.srcSubpass = VK_SUBPASS_EXTERNAL := by simpa using hinc0.1
    have hdst0 : dep0.dstSubpass = 0 := by simpa using hinc0.2.1
    have hany : s.subpassDependencies.any
        (fun sd => sd.srcSubpass == VK_SUBPASS_EXTERNAL && sd.dstSubpass == 0) = true :=
      List.any_eq_true.mpr ⟨dep0, hdep0, by simp [hsrc0, hdst0]⟩
    have hfilter := filter_key_singleton s.subpassDependencies hnodup dep0 hdep0
    rw [hsrc0, hdst0] at hfilter
    refine ⟨t :: ts, dep0, hin, hlast, ?_, (fun h => by cases h), ?_⟩
    · rw [hdeps, hany]
      simp only [if_true, List.filter_append, hfilter, houtro, List.append_nil]
    · intro consuming hcons
      obtain ⟨gens, generating, hg, hl, dep, hdep, hinc⟩ := hall consuming hcons
      have hsrc : dep.srcSubpass = VK_SUBPASS_EXTERNAL := by simpa using hinc.1
      have hdst : dep.dstSubpass = 0 := by simpa using hinc.2.1
      have heq : dep = dep0 :=
        List.inj_on_of_nodup_map hnodup hdep hdep0 (by simp only [hsrc, hdst, hsrc0, hdst0])
      subst heq
      refine ⟨gens, generating, hg, hl, ?_⟩
      simpa using hinc

/-- Claim C22 on the render pass of Shadow and Main of `Sample.shadowMain`, whose first
operation Shadow has no input transition. -/
theorem pass_dependencies_intro_outro_witness :
    ∃ details,
      constructRenderPassDetails 5 Sample.shadowMain
        ⟨[Sample.shadow, Sample.main], [], [], [], []⟩
        [VkImageLayout.UNDEFINED, VkImageLayout.UNDEFINED]
        (frameBufferDefinitionLoop
          [⟨"shadowmap", Sample.depthType⟩, ⟨"color", Sample.surfaceType⟩] [] []).2
        [⟨"shadowmap", Sample.depthType⟩, ⟨"color", Sample.surfaceType⟩]
        [("shadowmap", 0), ("color", 1)] = .ok details ∧
      ∃ inputs dep,
        Sample.shadowMain.getOperationIO Sample.shadow.name rttAllInputs = .ok inputs ∧
        details.renderPass.dependencies.getLast? =
          some ⟨((⟨[Sample.shadow, Sample.main], [], [], [], []⟩ :
              RenderPass).renderOperations.length - 1) % 4294967296, VK_SUBPASS_EXTERNAL,
            VK_PIPELINE_STAGE_ALL_COMMANDS_BIT, VK_PIPELINE_STAGE_BOTTOM_OF_PIPE_BIT,
            VK_ACCESS_INPUT_ATTACHMENT_READ_BIT ||| VK_ACCESS_COLOR_ATTACHMENT_READ_BIT
              ||| VK_ACCESS_COLOR_ATTACHMENT_WRITE_BIT
              ||| VK_ACCESS_DEPTH_STENCIL_ATTACHMENT_READ_BIT
              ||| VK_ACCESS_DEPTH_STENCIL_ATTACHMENT_WRITE_BIT, 0, 0⟩ ∧
        details.renderPass.dependencies.filter
          (fun sd => sd.srcSubpass == VK_SUBPASS_EXTERNAL && sd.dstSubpass == 0) = [dep] ∧
        (inputs = [] → dep = ⟨VK_SUBPASS_EXTERNAL, 0, VK_PIPELINE_STAGE_BOTTOM_OF_PIPE_BIT,
          VK_PIPELINE_STAGE_ALL_COMMANDS_BIT, 0, 0, 0⟩) ∧
        ∀ consuming ∈ inputs, ∃ gens generating,
          Sample.shadowMain.getResourceIO consuming.resource.name rttAllOutputs = .ok gens ∧
          (gens.filter (fun gen => gen.resource.name == consuming.resource.name)).getLast? =
            some generating ∧
          SubpassDependencyDefinition.includes dep VK_SUBPASS_EXTERNAL 0
            (getPipelineStageMasks generating consuming (0, 0))
            (getAccessMasks generating consuming (0, 0))
            (if consuming.resource.resourceType.metaType = MetaType.Attachment
             then VK_DEPENDENCY_BY_REGION_BIT else 0) :=
  ⟨_, rfl, pass_dependencies_intro_outro 5 Sample.shadowMain
    ⟨[Sample.shadow, Sample.main], [], [], [], []⟩
    [VkImageLayout.UNDEFINED, VkImageLayout.UNDEFINED]
    (frameBufferDefinitionLoop
      [⟨"shadowmap", Sample.depthType⟩, ⟨"color", Sample.surfaceType⟩] [] []).2
    [⟨"shadowmap", Sample.depthType⟩, ⟨"color", Sample.surfaceType⟩]
    [("shadowmap", 0), ("color", 1)] _ rfl Sample.shadow [Sample.main] rfl⟩

set_option maxRecDepth 100000 in
/-- Claim C22 against the code. The workflow `Sample.plainBuffer` compiles to a compute pass
for Cull and a render pass for B. The one operation B of the render pass has an input
transition, on the buffer `u`, and the one dependency of the pass from outside into subpass
0, which the main loop made for that input, has the stage masks of the default first
dependency, no access bit and no flag. -/
theorem loop_dependency_like_default :
    (SingleQueueWorkflowCompiler.compile 5 Sample.compiler Sample.plainBuffer).1 = .ok () ∧
    (∃ consuming, Sample.plainBuffer.getOperationIO "B" rttAllInputs = .ok [consuming] ∧
      consuming.transitionType = rttBufferInput ∧ consuming.resource.name = "u") ∧
    ∃ pass,
      (SingleQueueWorkflowCompiler.compile 5 Sample.compiler
        Sample.plainBuffer).2.2.commandSequences =
        [[RenderCommand.computePass ⟨Sample.cull⟩, RenderCommand.renderPass pass]] ∧
      pass.renderOperations = [Sample.opB] ∧
      pass.dependencies =
        [⟨VK_SUBPASS_EXTERNAL, 0, VK_PIPELINE_STAGE_BOTTOM_OF_PIPE_BIT,
          VK_PIPELINE_STAGE_ALL_COMMANDS_BIT, 0, 0, 0⟩,
         ⟨0, VK_SUBPASS_EXTERNAL, VK_PIPELINE_STAGE_ALL_COMMANDS_BIT,
          VK_PIPELINE_STAGE_BOTTOM_OF_PIPE_BIT, 1936, 0, 0⟩] :=
  ⟨by decide, ⟨_, rfl, rfl, rfl⟩, _, rfl, rfl, rfl⟩

/-- Claim C28. When `constructRenderPassDetails` returns, every input transition, on a
resource R, of the operation at index i of the render pass has a generating transition (the
last output transition on R of the workflow), and the dependencies of the render pass hold a
dependency into subpass i from the index of the latest earlier operation of the pass with an
output transition on R, from outside when there is none; the four masks of that dependency
hold every bit of the stage masks and access masks that the lookup gives for the generating
and the consuming transition, and the dependency has the flag of regions set when R is of
attachment meta type, which is what the code tests. -/
theorem input_dependency_latest_producer (rounds : Nat) (workflow : RenderWorkflow)
    (renderPass : RenderPass) (lastLayout : List VkImageLayout)
    (frameBufferDefinitions : List FrameBufferImageDefinition)
    (resourceVector : List WorkflowResource) (attachmentIndex : List (String × Nat))
    (details : PassDetails)
    (hok : constructRenderPassDetails rounds workflow renderPass lastLayout
      frameBufferDefinitions resourceVector attachmentIndex = .ok details)
    (earlier later : List RenderOperation) (operation : RenderOperation)
    (hops : renderPass.renderOperations = earlier ++ operation :: later)
    (inputs : List ResourceTransition)
    (hin : workflow.getOperationIO operation.name rttAllInputs = .ok inputs)
    (consuming : ResourceTransition) (hcons : consuming ∈ inputs) :
    ∃ gens generating,
      workflow.getResourceIO consuming.resource.name rttAllOutputs = .ok gens ∧
      (gens.filter (fun gen => gen.resource.name == consuming.resource.name)).getLast? =
        some generating ∧
      ∃ dep ∈ details.renderPass.dependencies,
        dep.dstSubpass = earlier.length ∧
        dep.srcSubpass = (workflow.latestOutput consuming.resource.name earlier).getD
          VK_SUBPASS_EXTERNAL ∧
        (consuming.resource.resourceType.metaType = MetaType.Attachment →
          dep.dependencyFlags &&& VK_DEPENDENCY_BY_REGION_BIT =
            VK_DEPENDENCY_BY_REGION_BIT) ∧
        dep.srcStageMask &&& (getPipelineStageMasks generating consuming (0, 0)).1 =
          (getPipelineStageMasks generating consuming (0, 0)).1 ∧
        dep.dstStageMask &&& (getPipelineStageMasks generating consuming (0, 0)).2 =
          (getPipelineStageMasks generating consuming (0, 0)).2 ∧
        dep.srcAccessMask &&& (getAccessMasks generating consuming (0, 0)).1 =
          (getAccessMasks generating consuming (0, 0)).1 ∧
        dep.dstAccessMask &&& (getAccessMasks generating consuming (0, 0)).2 =
          (getAccessMasks generating consuming (0, 0)).2 := by
  obtain ⟨used, s, _, hloop, _, hdeps, _, _, _⟩ :=
    constructRenderPassDetails_ok rounds workflow renderPass lastLayout frameBufferDefinitions
      resourceVector attachmentIndex details hok
  obtain ⟨ts, hts, hall⟩ := passLoop_inputs workflow renderPass.renderOperations [] _ s hloop
    (fun R => rfl) earlier operation later hops
  rw [hin] at hts
  cases hts
  obtain ⟨gens, generating, hg, hlast, dep, hdep, h1, h2, h3, h4, h5, h6, h7⟩ :=
    hall consuming hcons
  refine ⟨gens, generating, hg, hlast, dep, ?_, ?_, ?_, ?_, h3, h4, h5, h6⟩
  · rw [hdeps]
    apply List.mem_append_left
    split
    · exact hdep
    · exact List.mem_append_left _ hdep
  · simpa using h2
  · simpa using h1
  · intro hmeta
    simpa [hmeta] using h7

/-- Claim C28 on the render pass of Shadow and Main of `Sample.shadowMain`: Main, at index 1,
reads the attachment `shadowmap` that Shadow, at index 0, writes. -/
theorem input_dependency_latest_producer_witness :
    ∃ details consuming,
      constructRenderPassDetails 5 Sample.shadowMain
        ⟨[Sample.shadow, Sample.main], [], [], [], []⟩
        [VkImageLayout.UNDEFINED, VkImageLayout.UNDEFINED]
        (frameBufferDefinitionLoop
          [⟨"shadowmap", Sample.depthType⟩, ⟨"color", Sample.surfaceType⟩] [] []).2
        [⟨"shadowmap", Sample.depthType⟩, ⟨"color", Sample.surfaceType⟩]
        [("shadowmap", 0), ("color", 1)] = .ok details ∧
      Sample.shadowMain.getOperationIO "Main" rttAllInputs = .ok [consuming] ∧
      consuming.transitionType = rttAttachmentInput ∧
      consuming.resource.resourceType.metaType = MetaType.Attachment ∧
      ∃ gens generating,
        Sample.shadowMain.getResourceIO consuming.resource.name rttAllOutputs = .ok gens ∧
        (gens.filter (fun gen => gen.resource.name == consuming.resource.name)).getLast? =
          some generating ∧
        ∃ dep ∈ details.renderPass.dependencies,
          dep.dstSubpass = [Sample.shadow].length ∧
          dep.srcSubpass =
            (Sample.shadowMain.latestOutput consuming.resource.name [Sample.shadow]).getD
              VK_SUBPASS_EXTERNAL ∧
          (consuming.resource.resourceType.metaType = MetaType.Attachment →
            dep.dependencyFlags &&& VK_DEPENDENCY_BY_REGION_BIT =
              VK_DEPENDENCY_BY_REGION_BIT) ∧
          dep.srcStageMask &&& (getPipelineStageMasks generating consuming (0, 0)).1 =
            (getPipelineStageMasks generating consuming (0, 0)).1 ∧
          dep.dstStageMask &&& (getPipelineStageMasks generating consuming (0, 0)).2 =
            (getPipelineStageMasks generating consuming (0, 0)).2 ∧
          dep.srcAccessMask &&& (getAccessMasks generating consuming (0, 0)).1 =
            (getAccessMasks generating consuming (0, 0)).1 ∧
          dep.dstAccessMask &&& (getAccessMasks generating consuming (0, 0)).2 =
            (getAccessMasks generating consuming (0, 0)).2 :=
  ⟨_, _, rfl, rfl, rfl, rfl,
    input_dependency_latest_producer 5 Sample.shadowMain
      ⟨[Sample.shadow, Sample.main], [], [], [], []⟩
      [VkImageLayout.UNDEFINED, VkImageLayout.UNDEFINED]
      (frameBufferDefinitionLoop
        [⟨"shadowmap", Sample.depthType⟩, ⟨"color", Sample.surfaceType⟩] [] []).2
      [⟨"shadowmap", Sample.depthType⟩, ⟨"color", Sample.surfaceType⟩]
      [("shadowmap", 0), ("color", 1)] _ rfl [Sample.shadow] [] Sample.main rfl _ rfl _
      (List.mem_singleton.mpr rfl)⟩

/-! ### Resources used after a render pass -/

/-- The next operations of a registered operation, when every transition points to a
registered operation: they are the targets of its edges, and they are registered. -/
theorem getNextOperations_stored (workflow : RenderWorkflow) (hwf : WellFormed workflow)
    (hstored : OperationsStored workflow) (n : String) (a : RenderOperation)
    (h : workflow.renderOperations.lookup n = some a) :
    ∃ l, workflow.getNextOperations n = .ok l ∧
      (∀ b, b ∈ l.map (fun y => y.addr) ↔ dependsOn workflow a.addr b) ∧
      ∀ y ∈ l, workflow.renderOperations.lookup y.name = some y := by
  obtain ⟨l, hl, haddr⟩ := (neighbours_spec workflow hwf n a h).2
  obtain ⟨l1, hl1, hmem⟩ := collectOperations_spec workflow hwf rttAllInputs
    (workflow.transitions.filter
      (fun c => c.operation.addr == a.addr && c.transitionType.inFlags rttAllOutputs))
    (fun t ht => (List.mem_filter.mp ht).1)
  have hsame : workflow.getNextOperations n = .ok l1 := by
    simp only [getNextOperations, getOperationIO_eq workflow _ a _ h, hl1]
  rw [hl] at hsame
  cases hsame
  refine ⟨l, hl, haddr, ?_⟩
  intro y hy
  obtain ⟨t1, _, t2, ht2, _, _, rfl⟩ := (hmem y).mp hy
  exact hstored.transitions t2 ht2

/-- A pointer is found in a sequence of operations when its address is among the addresses
of the sequence. -/
theorem ptrListContains_iff (ops : List RenderOperation) (op : RenderOperation) :
    ptrListContains ops op = true ↔ op.addr ∈ ops.map (fun y => y.addr) := by
  simp only [ptrListContains, List.any_eq_true, beq_iff_eq, List.mem_map]

/-- The names of a set of names after the resource names of a list of transitions were
inserted. -/
theorem mem_foldl_nameSetInsert (ts : List ResourceTransition) :
    ∀ (used : List String) (n : String),
      n ∈ ts.foldl (fun u t => nameSetInsert t.resource.name u) used ↔
        n ∈ used ∨ ∃ t ∈ ts, t.resource.name = n := by
  induction ts with
  | nil => intro used n; simp
  | cons t rest ih =>
    intro used n
    rw [List.foldl_cons, ih]
    have hins : n ∈ nameSetInsert t.resource.name used ↔ n ∈ used ∨ t.resource.name = n := by
      unfold nameSetInsert
      split
      · rename_i hc
        constructor
        · exact Or.inl
        · rintro (h | h)
          · exact h
          · subst h
            simpa using hc
      · simp only [List.mem_append, List.mem_singleton]
        constructor
        · rintro (h | h)
          · exact Or.inl h
          · exact Or.inr h.symm
        · rintro (h | h)
          · exact Or.inl h
          · exact Or.inr h.symm
    rw [hins]
    simp only [List.mem_cons, exists_eq_or_imp]
    tauto

/-- The addresses of a set of operation pointers after a list of pointers was inserted, and
where its pointers come from. -/
theorem foldl_ptrSetInsert (l : List RenderOperation) :
    ∀ (s : List RenderOperation),
      (∀ b, b ∈ (l.foldl (fun acc lop => ptrSetInsert lop acc) s).map (fun y => y.addr) ↔
        b ∈ s.map (fun y => y.addr) ∨ b ∈ l.map (fun y => y.addr)) ∧
      ∀ y ∈ l.foldl (fun acc lop => ptrSetInsert lop acc) s, y ∈ s ∨ y ∈ l := by
  induction l with
  | nil => intro s; simp
  | cons x rest ih =>
    intro s
    rw [List.foldl_cons]
    obtain ⟨h1, h2⟩ := ih (ptrSetInsert x s)
    constructor
    · intro b
      rw [h1, addr_mem_ptrSetInsert]
      simp only [List.map_cons, List.mem_cons]
      tauto
    · intro y hy
      rcases h2 y hy with h | h
      · rcases mem_ptrSetInsert x s y h with rfl | h
        · exact Or.inr (List.mem_cons_self _ _)
        · exact Or.inl h
      · exact Or.inr (List.mem_cons_of_mem _ h)

/-- One level of the search that fills `resourcesUsedAfterRenderPass`, on registered
operations: it returns; the names are those it had and the resources of the input
transitions of the operations of the level that are not in the pass; the pointers of
`laterOperations` are those it had and the targets of the edges from these operations. -/
theorem laterLevel_spec (workflow : RenderWorkflow) (hwf : WellFormed workflow)
    (hstored : OperationsStored workflow) (passOperations : List RenderOperation) :
    ∀ (ops : List RenderOperation) (used : List String) (later : List RenderOperation),
      (∀ op ∈ ops, workflow.renderOperations.lookup op.name = some op) →
      (∀ y ∈ later, workflow.renderOperations.lookup y.name = some y) →
      ∃ used1 later1,
        laterLevel workflow passOperations ops used later = .ok (used1, later1) ∧
        (∀ n, n ∈ used1 ↔ n ∈ used ∨ ∃ op ∈ ops,
          op.addr ∉ passOperations.map (fun y => y.addr) ∧
          ∃ t ∈ workflow.transitions, t.operation.addr = op.addr ∧
            t.transitionType.isInput = true ∧ t.resource.name = n) ∧
        (∀ b, b ∈ later1.map (fun y => y.addr) ↔ b ∈ later.map (fun y => y.addr) ∨
          ∃ op ∈ ops, op.addr ∉ passOperations.map (fun y => y.addr) ∧
            dependsOn workflow op.addr b) ∧
        ∀ y ∈ later1, workflow.renderOperations.lookup y.name = some y := by
  intro ops
  induction ops with
  | nil =>
    intro used later _ hlater
    exact ⟨used, later, rfl, by simp, by simp, hlater⟩
  | cons op rest ih =>
    intro used later hops hlater
    have hop := hops op (List.mem_cons_self _ _)
    have hrest : ∀ x ∈ rest, workflow.renderOperations.lookup x.name = some x :=
      fun x hx => hops x (List.mem_cons_of_mem _ hx)
    unfold laterLevel
    by_cases hin : ptrListContains passOperations op = true
    · have haddr := (ptrListContains_iff passOperations op).mp hin
      obtain ⟨used1, later1, hl, hu, hb, hs⟩ := ih used later hrest hlater
      refine ⟨used1, later1, by simp only [hin, Bool.not_true, Bool.false_eq_true, if_false, hl],
        ?_, ?_, hs⟩
      · intro n
        rw [hu n]
        simp only [List.mem_cons, exists_eq_or_imp]
        tauto
      · intro b
        rw [hb b]
        simp only [List.mem_cons, exists_eq_or_imp]
        tauto
    · have hfalse := Bool.eq_false_iff.mpr hin
      have haddr : op.addr ∉ passOperations.map (fun y => y.addr) :=
        fun h => hin ((ptrListContains_iff passOperations op).mpr h)
      obtain ⟨l, hl, hladdr, hlstored⟩ :=
        getNextOperations_stored workflow hwf hstored op.name op hop
      obtain ⟨f1, f2⟩ := foldl_ptrSetInsert l later
      obtain ⟨used1, later1, hlev, hu, hb, hs⟩ := ih
        ((workflow.transitions.filter (fun c => c.operation.addr == op.addr &&
          c.transitionType.inFlags rttAllInputs)).foldl
          (fun u t => nameSetInsert t.resource.name u) used)
        (l.foldl (fun acc lop => ptrSetInsert lop acc) later) hrest
        (fun y hy => by
          rcases f2 y hy with h | h
          · exact hlater y h
          · exact hlstored y h)
      refine ⟨used1, later1, by
        simp only [hfalse, Bool.not_false, if_true, getOperationIO_eq workflow _ op _ hop, hl,
          hlev], ?_, ?_, hs⟩
      · intro n
        rw [hu n, mem_foldl_nameSetInsert]
        simp only [List.mem_filter, Bool.and_eq_true, beq_iff_eq, inFlags_rttAllInputs,
          List.mem_cons, exists_eq_or_imp]
        constructor
        · rintro ((h | ⟨t, ⟨ht, ha, hk⟩, hn⟩) | h)
          · exact Or.inl h
          · exact Or.inr (Or.inl ⟨haddr, t, ht, ha, hk, hn⟩)
          · exact Or.inr (Or.inr h)
        · rintro (h | ⟨_, t, ht, ha, hk, hn⟩ | h)
          · exact Or.inl (Or.inl h)
          · exact Or.inl (Or.inr ⟨t, ⟨ht, ha, hk⟩, hn⟩)
          · exact Or.inr h
      · intro b
        rw [hb b, f1 b, hladdr b]
        simp only [List.mem_cons, exists_eq_or_imp]
        constructor
        · rintro ((h | h) | h)
          · exact Or.inl h
          · exact Or.inr (Or.inl ⟨haddr, h⟩)
          · exact Or.inr (Or.inr h)
        · rintro (h | ⟨_, h⟩ | h)
          · exact Or.inl (Or.inl h)
          · exact Or.inl (Or.inr h)
          · exact Or.inr h

/-- The search by levels that fills `resourcesUsedAfterRenderPass`, when it ends: the names
are those it had and the resources of the input transitions of every operation that is
reached from an operation of the first level outside the pass along edges that end outside
the pass. -/
theorem usedAfterLoop_spec (workflow : RenderWorkflow) (hwf : WellFormed workflow)
    (hstored : OperationsStored workflow) (passOperations : List RenderOperation) :
    ∀ (rounds : Nat) (level : List RenderOperation) (used used1 : List String),
      (∀ op ∈ level, workflow.renderOperations.lookup op.name = some op) →
      usedAfterLoop workflow passOperations rounds level used = .ok used1 →
      ∀ n, n ∈ used1 ↔ n ∈ used ∨ ∃ a ∈ level.map (fun y => y.addr),
        a ∉ passOperations.map (fun y => y.addr) ∧
        ∃ b, Relation.ReflTransGen (leavesPass workflow passOperations) a b ∧
          ∃ t ∈ workflow.transitions, t.operation.addr = b ∧
            t.transitionType.isInput = true ∧ t.resource.name = n := by
  intro rounds
  induction rounds with
  | zero =>
    intro level used used1 _ h n
    cases level with
    | nil =>
      simp only [usedAfterLoop, Except.ok.injEq] at h
      subst h
      simp
    | cons x more => simp [usedAfterLoop] at h
  | succ rounds ih =>
    intro level used used1 hlevel h n
    cases level with
    | nil =>
      simp only [usedAfterLoop, Except.ok.injEq] at h
      subst h
      simp
    | cons x more =>
      obtain ⟨used2, later2, hlev, hu, hb, hs⟩ :=
        laterLevel_spec workflow hwf hstored passOperations (x :: more) used [] hlevel
          (by simp)
      simp only [usedAfterLoop, hlev] at h
      rw [ih later2 used2 used1 hs h n, hu n]
      constructor
      · rintro ((h1 | ⟨op, hop, hout, t, ht, ha, hk, hn⟩) | ⟨a, ha, hout, b, hreach, hread⟩)
        · exact Or.inl h1
        · exact Or.inr ⟨op.addr, List.mem_map_of_mem _ hop, hout, op.addr,
            Relation.ReflTransGen.refl, t, ht, ha, hk, hn⟩
        · rcases (hb a).mp ha with h0 | ⟨op, hop, hopout, hdep⟩
          · simp at h0
          · exact Or.inr ⟨op.addr, List.mem_map_of_mem _ hop, hopout, b,
              Relation.ReflTransGen.head ⟨hdep, hout⟩ hreach, hread⟩
      · rintro (h1 | ⟨a, ha, hout, b, hreach, t, ht, hta, hk, hn⟩)
        · exact Or.inl (Or.inl h1)
        · obtain ⟨op, hop, rfl⟩ := List.mem_map.mp ha
          rcases Relation.ReflTransGen.cases_head hreach with rfl | ⟨c, hstep, hrest⟩
          · exact Or.inl (Or.inr ⟨op, hop, hout, t, ht, hta, hk, hn⟩)
          · exact Or.inr ⟨c, (hb c).mpr (Or.inr ⟨op, hop, hout, hstep.1⟩), hstep.2, b, hrest,
              t, ht, hta, hk, hn⟩

/-- The first loop of `constructRenderPassDetails` over registered operations, when it ends:
the names are those it had and the resources that are read downstream of these operations,
outside the pass. -/
theorem resourcesUsedAfterRenderPass_spec (rounds : Nat) (workflow : RenderWorkflow)
    (hwf : WellFormed workflow) (hstored : OperationsStored workflow)
    (passOperations : List RenderOperation) :
    ∀ (ops : List RenderOperation) (used used1 : List String),
      (∀ op ∈ ops, workflow.renderOperations.lookup op.name = some op) →
      resourcesUsedAfterRenderPass rounds workflow passOperations ops used = .ok used1 →
      ∀ n, n ∈ used1 ↔ n ∈ used ∨ ∃ op ∈ ops, ∃ b,
        Relation.TransGen (leavesPass workflow passOperations) op.addr b ∧
        ∃ t ∈ workflow.transitions, t.operation.addr = b ∧
          t.transitionType.isInput = true ∧ t.resource.name = n := by
  intro ops
  induction ops with
  | nil =>
    intro used used1 _ h n
    simp only [resourcesUsedAfterRenderPass, Except.ok.injEq] at h
    subst h
    simp
  | cons op rest ih =>
    intro used used1 hops h n
    obtain ⟨l, hl, hladdr, hlstored⟩ := getNextOperations_stored workflow hwf hstored op.name op
      (hops op (List.mem_cons_self _ _))
    simp only [resourcesUsedAfterRenderPass, hl] at h
    cases hloop : usedAfterLoop workflow passOperations rounds l used with
    | error e => simp [hloop] at h
    | ok used2 =>
      simp only [hloop] at h
      rw [ih used2 used1 (fun x hx => hops x (List.mem_cons_of_mem _ hx)) h n,
        usedAfterLoop_spec workflow hwf hstored passOperations rounds l used used2 hlstored
          hloop n]
      simp only [List.mem_cons, exists_eq_or_imp]
      constructor
      · rintro ((h1 | ⟨a, ha, hout, b, hreach, hread⟩) | h1)
        · exact Or.inl h1
        · exact Or.inr (Or.inl ⟨b, Relation.TransGen.head'_iff.mpr
            ⟨a, ⟨(hladdr a).mp ha, hout⟩, hreach⟩, hread⟩)
        · exact Or.inr (Or.inr h1)
      · rintro (h1 | ⟨b, hreach, hread⟩ | h1)
        · exact Or.inl (Or.inl h1)
        · obtain ⟨a, hstep, hrest⟩ := Relation.TransGen.head'_iff.mp hreach
          exact Or.inl (Or.inr ⟨a, (hladdr a).mpr hstep.1, hstep.2, b, hrest, hread⟩)
        · exact Or.inr h1

/-- The last loop of `constructRenderPassDetails` makes one attachment definition for every
attachment resource of the slot vector, in order; the store operation (the stencil store
operation for a stencil attachment) is STORE when the type of the resource is persistent, or
is the type of the surface, or the name of the resource is in the set of names, and
DONT_CARE otherwise. -/
theorem passAttachments_store (used : List String) (firstLoadOp : List LoadOp)
    (beginLayout lastLayout : List VkImageLayout) :
    ∀ (resourceVector : List WorkflowResource) (attachmentIndex : List (String × Nat))
      (definitions : List AttachmentDefinition) (clearValues : List VkClearValue)
      (attachmentIndex1 : List (String × Nat)),
      passAttachments used firstLoadOp beginLayout lastLayout resourceVector attachmentIndex =
        .ok (definitions, clearValues, attachmentIndex1) →
      List.Forall₂ (fun res att =>
        (res.resourceType.attachment.attachmentType ≠ AttachmentType.atStencil →
          att.storeOp = if (res.resourceType.persistent
              || res.resourceType.attachment.attachmentType == AttachmentType.atSurface
              || used.contains res.name) = true
            then VkAttachmentStoreOp.STORE else VkAttachmentStoreOp.DONT_CARE) ∧
        (res.resourceType.attachment.attachmentType = AttachmentType.atStencil →
          att.stencilStoreOp = if (res.resourceType.persistent
              || res.resourceType.attachment.attachmentType == AttachmentType.atSurface
              || used.contains res.name) = true
            then VkAttachmentStoreOp.STORE else VkAttachmentStoreOp.DONT_CARE))
        (resourceVector.filter (fun res => res.resourceType.metaType == MetaType.Attachment))
        definitions := by
  intro resourceVector
  induction resourceVector with
  | nil =>
    intro attachmentIndex definitions clearValues attachmentIndex1 h
    simp only [passAttachments, Except.ok.injEq, Prod.mk.injEq] at h
    obtain ⟨rfl, _, _⟩ := h
    exact List.Forall₂.nil
  | cons res rest ih =>
    intro attachmentIndex definitions clearValues attachmentIndex1 h
    unfold passAttachments at h
    by_cases hmeta : res.resourceType.metaType = MetaType.Attachment
    · simp only [hmeta, ne_eq, not_true_eq_false, if_false] at h
      cases hkinds : attachmentKinds res.resourceType.attachment.attachmentType with
      | none => simp [hkinds] at h
      | some kinds =>
        obtain ⟨colorDepthAttachment, stencilAttachment⟩ := kinds
        simp only [hkinds] at h
        split at h
        · cases h
        · split at h
          · cases h
          · split at h
            · cases h
            · split at h
              · cases h
              · rename_i definitions1 clearValues1 attachmentIndex2 hrest
                simp only [Except.ok.injEq, Prod.mk.injEq] at h
                obtain ⟨rfl, _, _⟩ := h
                have hfilter : (res :: rest).filter
                    (fun res => res.resourceType.metaType == MetaType.Attachment) =
                    res :: rest.filter
                      (fun res => res.resourceType.metaType == MetaType.Attachment) := by
                  simp [List.filter_cons, hmeta]
                rw [hfilter]
                refine List.Forall₂.cons ⟨?_, ?_⟩ (ih _ _ _ _ hrest)
                · intro hne
                  have hcd : colorDepthAttachment = true := by
                    cases htype : res.resourceType.attachment.attachmentType <;>
                      simp_all [attachmentKinds]
                  simp [hcd]
                · intro heq
                  have hst : stencilAttachment = true := by
                    simp only [heq, attachmentKinds, Option.some.injEq, Prod.mk.injEq] at hkinds
                    exact hkinds.2.symm
                  simp [hst]
    · have hfilter : (res :: rest).filter
          (fun res => res.resourceType.metaType == MetaType.Attachment) =
          rest.filter (fun res => res.resourceType.metaType == MetaType.Attachment) := by
        simp [List.filter_cons, hmeta]
      rw [hfilter]
      simp only [hmeta, ne_eq, not_false_eq_true, if_true] at h
      exact ih _ _ _ _ h

/-- Claim C23 (amended). In a workflow whose transitions point to registered operations,
when `constructRenderPassDetails` returns for a render pass of registered operations, the
attachments of the render pass are, in order, those of the attachment resources of the slot
vector, and for each of them the store operation (the stencil store operation when the
attachment type is stencil) is STORE when the type of the resource is persistent, or its
attachment type is the surface, or the resource is read downstream of the pass: an operation
outside the pass that is reached from an operation of the pass along consumers outside the
pass has an input transition on it. Otherwise it is DONT_CARE. -/
theorem store_operation_read_downstream (rounds : Nat) (workflow : RenderWorkflow)
    (renderPass : RenderPass) (lastLayout : List VkImageLayout)
    (frameBufferDefinitions : List FrameBufferImageDefinition)
    (resourceVector : List WorkflowResource) (attachmentIndex : List (String × Nat))
    (details : PassDetails)
    (hwf : WellFormed workflow) (hstored : OperationsStored workflow)
    (hpass : ∀ op ∈ renderPass.renderOperations,
      workflow.renderOperations.lookup op.name = some op)
    (hok : constructRenderPassDetails rounds workflow renderPass lastLayout
      frameBufferDefinitions resourceVector attachmentIndex = .ok details) :
    List.Forall₂ (fun res att =>
      (res.resourceType.attachment.attachmentType ≠ AttachmentType.atStencil →
        ((res.resourceType.persistent = true ∨
            res.resourceType.attachment.attachmentType = AttachmentType.atSurface ∨
            usedAfterPass workflow renderPass.renderOperations res.name) →
          att.storeOp = VkAttachmentStoreOp.STORE) ∧
        (¬ (res.resourceType.persistent = true ∨
            res.resourceType.attachment.attachmentType = AttachmentType.atSurface ∨
            usedAfterPass workflow renderPass.renderOperations res.name) →
          att.storeOp = VkAttachmentStoreOp.DONT_CARE)) ∧
      (res.resourceType.attachment.attachmentType = AttachmentType.atStencil →
        ((res.resourceType.persistent = true ∨
            res.resourceType.attachment.attachmentType = AttachmentType.atSurface ∨
            usedAfterPass workflow renderPass.renderOperations res.name) →
          att.stencilStoreOp = VkAttachmentStoreOp.STORE) ∧
        (¬ (res.resourceType.persistent = true ∨
            res.resourceType.attachment.attachmentType = AttachmentType.atSurface ∨
            usedAfterPass workflow renderPass.renderOperations res.name) →
          att.stencilStoreOp = VkAttachmentStoreOp.DONT_CARE)))
      (resourceVector.filter (fun res => res.resourceType.metaType == MetaType.Attachment))
      details.renderPass.attachments := by
  obtain ⟨used, s, hused, _, hatt, _, _, _, _⟩ :=
    constructRenderPassDetails_ok rounds workflow renderPass lastLayout frameBufferDefinitions
      resourceVector attachmentIndex details hok
  have hspec := resourcesUsedAfterRenderPass_spec rounds workflow hwf hstored
    renderPass.renderOperations renderPass.renderOperations [] used hpass hused
  have hmust : ∀ res : WorkflowResource,
      (res.resourceType.persistent
        || res.resourceType.attachment.attachmentType == AttachmentType.atSurface
        || used.contains res.name) = true ↔
      (res.resourceType.persistent = true ∨
        res.resourceType.attachment.attachmentType = AttachmentType.atSurface ∨
        usedAfterPass workflow renderPass.renderOperations res.name) := by
    intro res
    have hmem : used.contains res.name = true ↔
        usedAfterPass workflow renderPass.renderOperations res.name := by
      have hc : used.contains res.name = true ↔ res.name ∈ used := by simp
      rw [hc, hspec res.name]
      simp only [List.not_mem_nil, false_or, usedAfterPass]
    simp only [Bool.or_eq_true, beq_iff_eq, hmem, or_assoc]
  refine List.Forall₂.imp ?_ (passAttachments_store used _ _ _ _ _ _ _ _ hatt)
  intro res att ⟨h1, h2⟩
  refine ⟨fun hne => ?_, fun heq => ?_⟩
  · have h := h1 hne
    constructor
    · intro hm
      rw [h, if_pos ((hmust res).mpr hm)]
    · intro hm
      rw [h, if_neg (fun hc => hm ((hmust res).mp hc))]
  · have h := h2 heq
    constructor
    · intro hm
      rw [h, if_pos ((hmust res).mpr hm)]
    · intro hm
      rw [h, if_neg (fun hc => hm ((hmust res).mp hc))]

/-- Claim C23 on the render pass of A in `Sample.laterOutput`, with the slots `a`, `u`
and `r` that `collectResources` makes. -/
theorem store_operation_read_downstream_witness :
    WellFormed Sample.laterOutput ∧ OperationsStored Sample.laterOutput ∧
    (∀ op ∈ (⟨[Sample.opA], [], [], [], []⟩ : RenderPass).renderOperations,
      Sample.laterOutput.renderOperations.lookup op.name = some op) ∧
    ∃ details,
      constructRenderPassDetails 5 Sample.laterOutput ⟨[Sample.opA], [], [], [], []⟩
        [VkImageLayout.UNDEFINED, VkImageLayout.UNDEFINED]
        (frameBufferDefinitionLoop [⟨"a", Sample.colorType⟩, ⟨"u", Sample.dataBufferType⟩,
          ⟨"r", Sample.maskType⟩] [] []).2
        [⟨"a", Sample.colorType⟩, ⟨"u", Sample.dataBufferType⟩, ⟨"r", Sample.maskType⟩]
        [("a", 0), ("r", 1)] = .ok details ∧
      List.Forall₂ (fun res att =>
        (res.resourceType.attachment.attachmentType ≠ AttachmentType.atStencil →
          ((res.resourceType.persistent = true ∨
              res.resourceType.attachment.attachmentType = AttachmentType.atSurface ∨
              usedAfterPass Sample.laterOutput
                (⟨[Sample.opA], [], [], [], []⟩ : RenderPass).renderOperations res.name) →
            att.storeOp = VkAttachmentStoreOp.STORE) ∧
          (¬ (res.resourceType.persistent = true ∨
              res.resourceType.attachment.attachmentType = AttachmentType.atSurface ∨
              usedAfterPass Sample.laterOutput
                (⟨[Sample.opA], [], [], [], []⟩ : RenderPass).renderOperations res.name) →
            att.storeOp = VkAttachmentStoreOp.DONT_CARE)) ∧
        (res.resourceType.attachment.attachmentType = AttachmentType.atStencil →
          ((res.resourceType.persistent = true ∨
              res.resourceType.attachment.attachmentType = AttachmentType.atSurface ∨
              usedAfterPass Sample.laterOutput
                (⟨[Sample.opA], [], [], [], []⟩ : RenderPass).renderOperations res.name) →
            att.stencilStoreOp = VkAttachmentStoreOp.STORE) ∧
          (¬ (res.resourceType.persistent = true ∨
              res.resourceType.attachment.attachmentType = AttachmentType.atSurface ∨
              usedAfterPass Sample.laterOutput
                (⟨[Sample.opA], [], [], [], []⟩ : RenderPass).renderOperations res.name) →
            att.stencilStoreOp = VkAttachmentStoreOp.DONT_CARE)))
        (([⟨"a", Sample.colorType⟩, ⟨"u", Sample.dataBufferType⟩,
          ⟨"r", Sample.maskType⟩] : List WorkflowResource).filter
            (fun res => res.resourceType.metaType == MetaType.Attachment))
        details.renderPass.attachments := by
  have hwf : WellFormed Sample.laterOutput := ⟨by decide, by decide, by decide, by decide⟩
  have hstored : OperationsStored Sample.laterOutput := ⟨by decide, by decide⟩
  exact ⟨hwf, hstored, by decide, _, rfl,
    store_operation_read_downstream 5 Sample.laterOutput ⟨[Sample.opA], [], [], [], []⟩
      [VkImageLayout.UNDEFINED, VkImageLayout.UNDEFINED]
      (frameBufferDefinitionLoop [⟨"a", Sample.colorType⟩, ⟨"u", Sample.dataBufferType⟩,
        ⟨"r", Sample.maskType⟩] [] []).2
      [⟨"a", Sample.colorType⟩, ⟨"u", Sample.dataBufferType⟩, ⟨"r", Sample.maskType⟩]
      [("a", 0), ("r", 1)] _ hwf hstored (by decide) rfl⟩

set_option maxRecDepth 100000 in
/-- Claim C23 against the code. `Sample.laterOutput` compiles to the render pass of A, the
compute pass of Cull and the render pass of B, in this order. The attachment `r`, of a type
that is neither persistent nor the surface, is referenced by a transition of B, the
attachment output of B, and B is scheduled after the render pass of A; the store operation
of `r`, at image index 1, in the render pass of A is DONT_CARE. -/
theorem later_output_not_stored :
    (SingleQueueWorkflowCompiler.compile 5 Sample.compiler Sample.laterOutput).1 = .ok () ∧
    (∃ t ∈ Sample.laterOutput.transitions, t.operation = Sample.opB ∧
      t.transitionType = rttAttachmentOutput ∧ t.resource = ⟨"r", Sample.maskType⟩) ∧
    Sample.maskType.persistent = false ∧
    Sample.maskType.attachment.attachmentType = AttachmentType.atColor ∧
    ∃ passA passB,
      (SingleQueueWorkflowCompiler.compile 5 Sample.compiler
        Sample.laterOutput).2.2.commandSequences =
        [[RenderCommand.renderPass passA, RenderCommand.computePass ⟨Sample.cull⟩,
          RenderCommand.renderPass passB]] ∧
      passA.renderOperations = [Sample.opA] ∧ passB.renderOperations = [Sample.opB] ∧
      ((SingleQueueWorkflowCompiler.compile 5 Sample.compiler
        Sample.laterOutput).2.2.frameBufferImages.map
          (fun images => images.imageDefinitions.map (fun d => d.name))) =
        some ["a", "r"] ∧
      passA.attachments.map (fun att => (att.imageDefinitionIndex, att.storeOp)) =
        [(0, VkAttachmentStoreOp.STORE), (1, VkAttachmentStoreOp.DONT_CARE)] :=
  ⟨by decide, by decide, rfl, rfl, _, _, rfl, rfl, rfl, rfl, rfl⟩

/-! ### A workflow of one operation that clears a surface -/

/-- Claim C24. A workflow has one operation, a graphics operation, one resource, of the
attachment type of the surface, and one transition, an attachment output of that operation
on that resource with the load policy Clear. Then `compile`, given at least one round for
its loops, returns, and leaves one command sequence that holds one render pass and nothing
else; the render pass holds the operation, has one subpass and one attachment, with the load
operation CLEAR and the store operation STORE; it is the render pass of the frame buffer,
and the presentation queue index is 0. -/
theorem single_clear_operation_compiles (rounds : Nat) (self : SingleQueueWorkflowCompiler)
    (workflow : RenderWorkflow) (operation : RenderOperation)
    (transition : ResourceTransition)
    (hops : workflow.renderOperations = [(operation.name, operation)])
    (hgraphics : operation.operationType = RenderOperation.Type.Graphics)
    (htrans : workflow.transitions = [transition])
    (hop : transition.operation = operation)
    (hkind : transition.transitionType = rttAttachmentOutput)
    (hclear : transition.load.loadType = LoadOp.Type.Clear)
    (hres : workflow.resources = [(transition.resource.name, transition.resource)])
    (hmeta : transition.resource.resourceType.metaType = MetaType.Attachment)
    (hsurface : transition.resource.resourceType.attachment.attachmentType =
      AttachmentType.atSurface)
    (hrounds : 1 ≤ rounds) :
    ∃ pass,
      (SingleQueueWorkflowCompiler.compile rounds self workflow).1 = .ok () ∧
      (SingleQueueWorkflowCompiler.compile rounds self workflow).2.2.commandSequences =
        [[RenderCommand.renderPass pass]] ∧
      pass.renderOperations = [operation] ∧
      pass.subpasses.length = 1 ∧
      pass.attachments.map (fun a => (a.loadOp, a.storeOp)) =
        [(VkAttachmentLoadOp.CLEAR, VkAttachmentStoreOp.STORE)] ∧
      (SingleQueueWorkflowCompiler.compile rounds self workflow).2.2.frameBuffer.map
        (fun f => f.renderPass) = some (some pass) ∧
      (SingleQueueWorkflowCompiler.compile rounds self workflow).2.2.presentationQueueIndex =
        0 := by
  have hlookup : workflow.renderOperations.lookup operation.name = some operation := by
    simp [hops]
  have hresource : workflow.resources.lookup transition.resource.name =
      some transition.resource := by
    simp [hres]
  have hio : ∀ flags, workflow.getOperationIO operation.name flags =
      .ok (if rttAttachmentOutput.inFlags flags then [transition] else []) := by
    intro flags
    rw [getOperationIO_eq workflow _ operation flags hlookup, htrans]
    simp [hop, hkind, List.filter_cons]
  have hrio : ∀ flags, workflow.getResourceIO transition.resource.name flags =
      .ok (if rttAttachmentOutput.inFlags flags then [transition] else []) := by
    intro flags
    rw [getResourceIO_eq workflow _ transition.resource flags hresource, htrans]
    simp [hkind, List.filter_cons]
  have hin : rttAttachmentOutput.inFlags rttAllInputs = false := by decide
  have hout : rttAttachmentOutput.inFlags rttAllOutputs = true := by decide
  have hatt : rttAttachmentOutput.inFlags rttAllAttachments = true := by decide
  have hverify : verifyOperations workflow = .ok () := by
    simp [verifyOperations, verifyOperationSizes, verifyResourceOutputs, hops, hres, hio, hrio,
      hatt, hout, sameSize]
  have htag : self.costCalculator.tagOperationByAttachmentType workflow =
      (.ok (), ⟨[(operation.name, 0)]⟩) := by
    simp [tagOperationByAttachmentType, tagLoop, hops, hgraphics, hio, findTag, mapInsert]
  have hnext : workflow.getNextOperations operation.name = .ok [] := by
    simp [getNextOperations, hio, hout, collectOperations, hrio, hin]
  have hsched : scheduleOperations workflow ⟨[(operation.name, 0)]⟩ = .ok [operation] := by
    simp [scheduleOperations, recursiveScheduleOperations, hops, initialDoneLoop, hnext,
      ptrSetInsert, ptrSetContains, candidateLoop, nextDoneLoop, calculateWorkflowCost, mapAt,
      costLoop, minElement]
  have hcmd : createCommandSequence ⟨[(operation.name, 0)]⟩ [operation] =
      .ok [RenderCommand.renderPass ⟨[operation], [], [], [], []⟩] := by
    simp [createCommandSequence, commandLoop, mapAt, takeSameTag, commandsOfRun, hgraphics]
  obtain ⟨n, rfl⟩ : ∃ n, rounds = n + 1 := ⟨rounds - 1, by omega⟩
  have hprev : workflow.getPreviousOperations operation.name = .ok [] := by
    simp [getPreviousOperations, hio, hin, collectOperations]
  have hcollect : collectResources (n + 1) workflow =
      .ok ([transition.resource], [(transition.resource.name, 0)]) := by
    simp [collectResources, collectRun, collectInitial, hops, hprev, hio, hin, hout,
      insertResources, mapInsert, markInitialDone, collectLoop, collectOutputs, mapAssign,
      assignSlot, hmeta, findAlias, hrio, pushConsumers, markDone]
    cases n <;> simp [collectLoop]
  have hframe : frameBufferDefinitionLoop [transition.resource] [] [] =
      ([(transition.resource.name, 0)],
        [⟨AttachmentType.atSurface, transition.resource.resourceType.attachment.format, 0, 1,
          transition.resource.resourceType.attachment.samples, transition.resource.name,
          transition.resource.resourceType.attachment.attachmentSize⟩]) := by
    simp [frameBufferDefinitionLoop, hmeta, hsurface, mapInsert, getAspectMask]
  have hused : resourcesUsedAfterRenderPass (n + 1) workflow [operation] [operation] [] =
      .ok [] := by
    simp [resourcesUsedAfterRenderPass, hnext, usedAfterLoop]
  have hsub : operation.buildSubPassDefinition workflow [(transition.resource.name, 0)] =
      .ok ⟨VK_PIPELINE_BIND_POINT_GRAPHICS, [], [⟨0, transition.layout⟩],
        [⟨VK_ATTACHMENT_UNUSED, VkImageLayout.UNDEFINED⟩],
        ⟨VK_ATTACHMENT_UNUSED, VkImageLayout.UNDEFINED⟩, []⟩ := by
    have h1 : rttAttachmentOutput.inFlags rttAttachmentInput.value = false := by decide
    have h2 : rttAttachmentOutput.inFlags rttAttachmentOutput.value = true := by decide
    have h3 : rttAttachmentOutput.inFlags rttAttachmentResolveOutput.value = false := by decide
    have h4 : rttAttachmentOutput.inFlags rttAttachmentDepthOutput.value = false := by decide
    simp [RenderOperation.buildSubPassDefinition, hio, h1, h2, h3, h4, hgraphics,
      attachmentReferences, outputReferences, resolveReference, mapAt]
  have hpass : passLoop workflow [operation] 0
      ⟨[], [], [], [VkImageLayout.UNDEFINED],
        [⟨AttachmentType.atSurface, transition.resource.resourceType.attachment.format, 0, 1,
          transition.resource.resourceType.attachment.samples, transition.resource.name,
          transition.resource.resourceType.attachment.attachmentSize⟩],
        [⟨LoadOp.Type.DontCare, ⟨0, 0, 0, 0⟩⟩], [(transition.resource.name, 0)], false⟩ =
      .ok ⟨[⟨VK_PIPELINE_BIND_POINT_GRAPHICS, [], [⟨0, transition.layout⟩],
          [⟨VK_ATTACHMENT_UNUSED, VkImageLayout.UNDEFINED⟩],
          ⟨VK_ATTACHMENT_UNUSED, VkImageLayout.UNDEFINED⟩, []⟩], [],
        [(transition.resource.name, 0)], [transition.layout],
        [⟨AttachmentType.atSurface, transition.resource.resourceType.attachment.format,
          0 ||| getAttachmentUsage transition.layout, 1,
          transition.resource.resourceType.attachment.samples, transition.resource.name,
          transition.resource.resourceType.attachment.attachmentSize⟩],
        [transition.load], [(transition.resource.name, 0)], true⟩ := by
    simp [passLoop, hsub, hio, hin, hout, consumeInputs, produceOutputs, hmeta, hsurface,
      touchAttachment, mapIndex, vecModify, mapAssign]
  have hatts : passAttachments [] [transition.load] [VkImageLayout.UNDEFINED]
      [transition.layout] [transition.resource] [(transition.resource.name, 0)] =
      .ok ([⟨0, transition.resource.resourceType.attachment.format,
          transition.resource.resourceType.attachment.samples, .CLEAR, .STORE, .DONT_CARE,
          .DONT_CARE, VkImageLayout.UNDEFINED, transition.layout, 0⟩],
        [VkClearValue.color transition.load.clearColor],
        [(transition.resource.name, 0)]) := by
    simp [passAttachments, hmeta, hsurface, attachmentKinds, mapIndex, vecGet, hclear,
      LoadOp.Type.toVk]
  cases hc : constructRenderPassDetails (n + 1) workflow ⟨[operation], [], [], [], []⟩
      [VkImageLayout.UNDEFINED]
      [⟨AttachmentType.atSurface, transition.resource.resourceType.attachment.format, 0, 1,
        transition.resource.resourceType.attachment.samples, transition.resource.name,
        transition.resource.resourceType.attachment.attachmentSize⟩]
      [transition.resource] [(transition.resource.name, 0)] with
  | error e =>
    simp only [constructRenderPassDetails, hused, hpass, hatts, List.length_singleton,
      List.replicate_one] at hc
    cases hc
  | ok details =>
    have hd := hc
    simp only [constructRenderPassDetails, hused, hpass, hatts, List.length_singleton,
      List.replicate_one, Except.ok.injEq] at hd
    have hcompile : SingleQueueWorkflowCompiler.compile (n + 1) self workflow =
        (.ok (), ⟨⟨[(operation.name, 0)]⟩⟩,
          workflow.setOutputData [[RenderCommand.renderPass details.renderPass]]
            ⟨details.frameBufferDefinitions, workflow.frameBufferAllocator⟩
            ⟨some details.renderPass,
              ⟨details.frameBufferDefinitions, workflow.frameBufferAllocator⟩⟩
            [(transition.resource.name, 0)] 0) := by
      have hsurf : details.outputsSurface = true := by rw [← hd]
      simp [SingleQueueWorkflowCompiler.compile, hverify, htag, buildOutputData, hcollect,
        hframe, hsched, hcmd, commandDetailsLoop, hc, hsurf]
    refine ⟨details.renderPass, ?_, ?_, ?_, ?_, ?_, ?_, ?_⟩
    · rw [hcompile]
    · rw [hcompile]
      rfl
    · rw [← hd]
    · rw [← hd]
      rfl
    · rw [← hd]
      rfl
    · rw [hcompile]
      rfl
    · rw [hcompile]
      rfl

/-- Claim C24 on `Sample.clearOnly`, compiled with five rounds. -/
theorem single_clear_operation_compiles_witness :
    ∃ transition,
      Sample.clearOnly.renderOperations = [(Sample.main.name, Sample.main)] ∧
      Sample.main.operationType = RenderOperation.Type.Graphics ∧
      Sample.clearOnly.transitions = [transition] ∧
      transition.operation = Sample.main ∧
      transition.transitionType = rttAttachmentOutput ∧
      transition.load.loadType = LoadOp.Type.Clear ∧
      Sample.clearOnly.resources = [(transition.resource.name, transition.resource)] ∧
      transition.resource.resourceType.metaType = MetaType.Attachment ∧
      transition.resource.resourceType.attachment.attachmentType = AttachmentType.atSurface ∧
      1 ≤ 5 ∧
      ∃ pass,
        (SingleQueueWorkflowCompiler.compile 5 Sample.compiler Sample.clearOnly).1 = .ok () ∧
        (SingleQueueWorkflowCompiler.compile 5 Sample.compiler
          Sample.clearOnly).2.2.commandSequences = [[RenderCommand.renderPass pass]] ∧
        pass.renderOperations = [Sample.main] ∧
        pass.subpasses.length = 1 ∧
        pass.attachments.map (fun a => (a.loadOp, a.storeOp)) =
          [(VkAttachmentLoadOp.CLEAR, VkAttachmentStoreOp.STORE)] ∧
        (SingleQueueWorkflowCompiler.compile 5 Sample.compiler
          Sample.clearOnly).2.2.frameBuffer.map (fun f => f.renderPass) = some (some pass) ∧
        (SingleQueueWorkflowCompiler.compile 5 Sample.compiler
          Sample.clearOnly).2.2.presentationQueueIndex = 0 :=
  ⟨_, rfl, rfl, rfl, rfl, rfl, rfl, rfl, rfl, rfl, by decide,
    single_clear_operation_compiles 5 Sample.compiler Sample.clearOnly Sample.main _
      rfl rfl rfl rfl rfl rfl rfl rfl rfl (by decide)⟩

/-! ### Scenarios of compilation -/

/-- Claim C25 (amended). For every workflow that is not valid and has an operation, stored
under its name, with an attachment input on one resource and an attachment output on another
whose types have different attachment sizes, as Main has in the scenario, `compile()` throws
the report of `verifyOperations`, which has the line that names the operation; the tagging,
the scheduling and `createCommandSequence` are not reached, and the compiler and the workflow,
with its command sequences, are as they were. -/
theorem mixed_sizes_stop_compile (rounds : Nat) (compiler : SingleQueueWorkflowCompiler)
    (workflow : RenderWorkflow) (main : RenderOperation) (tIn tOut : ResourceTransition)
    (hvalid : workflow.valid = false)
    (hmain : workflow.renderOperations.lookup main.name = some main)
    (hin : tIn ∈ workflow.transitions) (hout : tOut ∈ workflow.transitions)
    (hinOperation : tIn.operation.addr = main.addr)
    (houtOperation : tOut.operation.addr = main.addr)
    (hinKind : tIn.transitionType = rttAttachmentInput)
    (houtKind : tOut.transitionType = rttAttachmentOutput)
    (hsizes : tIn.resource.resourceType.attachment.attachmentSize ≠
      tOut.resource.resourceType.attachment.attachmentSize) :
    ∃ report,
      verifyOperations workflow = .error (.errorsInOperations report) ∧
      VerifyEntry.notAllAttachmentsSameSize main.name ∈ report ∧
      workflow.compile (SingleQueueWorkflowCompiler.compile rounds) compiler =
        (.error (.errorsInOperations report), compiler, workflow) ∧
      (workflow.compile (SingleQueueWorkflowCompiler.compile rounds) compiler).2.2.commandSequences
        = workflow.commandSequences := by
  obtain ⟨report, hv, hops, _⟩ := verifyOperations_report workflow
  have hmem : VerifyEntry.notAllAttachmentsSameSize main.name ∈ report :=
    (hops main.name).mpr ⟨main, hmain, tIn, hin, tOut, hout, hinOperation, houtOperation,
      by rw [hinKind]; rfl, by rw [houtKind]; rfl, hsizes⟩
  have hverify : verifyOperations workflow = .error (.errorsInOperations report) := by
    rw [hv, if_neg]
    intro hnil
    rw [hnil] at hmem
    simp at hmem
  have hcompile : workflow.compile (SingleQueueWorkflowCompiler.compile rounds) compiler =
      (.error (.errorsInOperations report), compiler, workflow) := by
    simp [RenderWorkflow.compile, hvalid, SingleQueueWorkflowCompiler.compile, hverify]
  exact ⟨report, hverify, hmem, hcompile, by rw [hcompile]⟩

set_option maxRecDepth 100000 in
/-- Claim C25 (amended) on `Sample.shadowMain`, with the attachment input of Main on
`shadowmap` and its attachment output on `color`. -/
theorem mixed_sizes_stop_compile_witness :
    Sample.shadowMain.valid = false ∧
    Sample.shadowMain.renderOperations.lookup Sample.main.name = some Sample.main ∧
    ∃ report,
      verifyOperations Sample.shadowMain = .error (.errorsInOperations report) ∧
      VerifyEntry.notAllAttachmentsSameSize Sample.main.name ∈ report ∧
      Sample.shadowMain.compile (SingleQueueWorkflowCompiler.compile 8) Sample.compiler =
        (.error (.errorsInOperations report), Sample.compiler, Sample.shadowMain) ∧
      (Sample.shadowMain.compile (SingleQueueWorkflowCompiler.compile 8)
        Sample.compiler).2.2.commandSequences = Sample.shadowMain.commandSequences :=
  ⟨by decide, by decide,
   mixed_sizes_stop_compile 8 Sample.compiler Sample.shadowMain Sample.main
     (ResourceTransition.mkAttachment Sample.main ⟨"shadowmap", Sample.depthType⟩
       rttAttachmentInput .SHADER_READ_ONLY_OPTIMAL loadOpLoad)
     (ResourceTransition.mkAttachment Sample.main ⟨"color", Sample.surfaceType⟩
       rttAttachmentOutput .COLOR_ATTACHMENT_OPTIMAL loadOpLoad)
     (by decide) (by decide) (by decide) (by decide) (by decide) (by decide) (by decide)
     (by decide) (by decide)⟩

set_option maxRecDepth 100000 in
/-- Counterexample to claim C25 as stated. `Sample.shadowMain` is the workflow of the claim:
the graphics operation Shadow has a depth output on `shadowmap`, the graphics operation Main
an attachment input on `shadowmap` and an attachment output on `color`, and the types of
`shadowmap` and `color` have different attachment sizes. Whatever the bound on the rounds,
`compile()` throws the report of `verifyOperations` with the one line that names Main, and
the workflow has no command sequence before and after the call: no render pass is made. -/
theorem shadow_main_stopped_by_verification :
    Sample.shadowMain.transitions.map
      (fun t => (t.operation.name, t.operation.operationType, t.resource.name,
        t.transitionType, t.resource.resourceType.attachment.attachmentSize))
      = [("Shadow", RenderOperation.Type.Graphics, "shadowmap", rttAttachmentDepthOutput,
            ⟨.Absolute, ⟨1024, 1024, 1⟩⟩),
         ("Main", RenderOperation.Type.Graphics, "shadowmap", rttAttachmentInput,
            ⟨.Absolute, ⟨1024, 1024, 1⟩⟩),
         ("Main", RenderOperation.Type.Graphics, "color", rttAttachmentOutput,
            ⟨.SurfaceDependent, ⟨1, 1, 1⟩⟩)] ∧
    Sample.shadowMain.valid = false ∧
    Sample.shadowMain.commandSequences = [] ∧
    verifyOperations Sample.shadowMain
      = .error (.errorsInOperations [.notAllAttachmentsSameSize "Main"]) ∧
    ∀ rounds, Sample.shadowMain.compile (SingleQueueWorkflowCompiler.compile rounds)
        Sample.compiler
      = (.error (.errorsInOperations [.notAllAttachmentsSameSize "Main"]), Sample.compiler,
          Sample.shadowMain) := by
  have hverify : verifyOperations Sample.shadowMain
      = .error (.errorsInOperations [.notAllAttachmentsSameSize "Main"]) := by decide
  have hvalid : Sample.shadowMain.valid = false := by decide
  refine ⟨by decide, hvalid, by decide, hverify, ?_⟩
  intro rounds
  simp [RenderWorkflow.compile, hvalid, SingleQueueWorkflowCompiler.compile, hverify]

/-- Claim C26 against the code. Two entries of the table are not applied alike to both
sides. For a generating attachment transition of layout `DEPTH_STENCIL_READ_ONLY_OPTIMAL`,
`getPipelineStageMasks` leaves the source stage mask as it was and writes the two fragment
test stages to the destination stage mask, which a consuming buffer input then overwrites.
For a consuming attachment input of layout `SHADER_READ_ONLY_OPTIMAL`, `getAccessMasks` gives
the destination access `COLOR_ATTACHMENT_READ`, while the same layout on the generating side
gives the source access `SHADER_READ`. The last part is the case of the depth output of Shadow
and the attachment input of Main in `Sample.shadowMain`. -/
theorem mask_table_deviations :
    (∀ (generating consuming : ResourceTransition) (masks : Nat × Nat),
      getPipelineStageMasks
        { generating with transitionType := rttAttachmentDepthOutput,
                          layout := .DEPTH_STENCIL_READ_ONLY_OPTIMAL }
        { consuming with transitionType := rttBufferInput } masks
        = (masks.1, consuming.pipelineStage)) ∧
    (∀ (generating consuming : ResourceTransition) (masks : Nat × Nat),
      (getPipelineStageMasks
        { generating with transitionType := rttAttachmentDepthOutput,
                          layout := .DEPTH_STENCIL_READ_ONLY_OPTIMAL }
        { consuming with transitionType := rttAttachmentOutput } masks)
        = (masks.1, fragmentTests)) ∧
    (∀ (generating consuming : ResourceTransition) (masks : Nat × Nat),
      (getAccessMasks generating
        { consuming with transitionType := rttAttachmentInput,
                         layout := .SHADER_READ_ONLY_OPTIMAL } masks).2
        = VK_ACCESS_COLOR_ATTACHMENT_READ_BIT) ∧
    (∀ (generating consuming : ResourceTransition) (masks : Nat × Nat),
      (getAccessMasks
        { generating with transitionType := rttAttachmentOutput,
                          layout := .SHADER_READ_ONLY_OPTIMAL } consuming masks).1
        = VK_ACCESS_SHADER_READ_BIT) ∧
    VK_ACCESS_COLOR_ATTACHMENT_READ_BIT ≠ VK_ACCESS_SHADER_READ_BIT ∧
    (∃ generating consuming rest,
      Sample.shadowMain.transitions = generating :: consuming :: rest ∧
      generating.transitionType = rttAttachmentDepthOutput ∧
      consuming.transitionType = rttAttachmentInput ∧
      consuming.layout = .SHADER_READ_ONLY_OPTIMAL ∧
      getAccessMasks generating consuming (0, 0)
        = (VK_ACCESS_DEPTH_STENCIL_ATTACHMENT_WRITE_BIT,
           VK_ACCESS_COLOR_ATTACHMENT_READ_BIT)) := by
  refine ⟨?_, ?_, ?_, ?_, by decide, _, _, _, rfl, by decide, by decide, by decide,
    by decide⟩
  · intro generating consuming masks
    simp only [getPipelineStageMasks]
  · intro generating consuming masks
    simp only [getPipelineStageMasks]
  · intro generating consuming masks
    simp only [getAccessMasks]
  · intro generating consuming masks
    simp only [getAccessMasks]
    split
    · split <;> rfl
    · rfl
    · rfl

/-! ### Associated resources -/

/-- Claim C27 (amended). For a name that is a resource of the workflow, `associateResource`
returns; after it `getAssociatedResource` gives the resource associated by the call when the
name had no association before, and the resource associated before when it had one. For a
name that is not a resource of the workflow `associateResource` throws and leaves the
workflow as it was. `getAssociatedResource` gives the null pointer for a name without an
association. `associateResource` changes neither the transitions nor the resource map;
`getAssociatedResource` is a function of the workflow that gives no workflow back. -/
theorem associateResource_first_wins (self : RenderWorkflow) (resourceName : String)
    (resource : ResourcePtr) :
    (self.resources.lookup resourceName = none →
      self.associateResource resourceName resource = (.error .cannotAssociate, self)) ∧
    ((self.resources.lookup resourceName).isSome = true →
      (self.associateResource resourceName resource).1 = .ok () ∧
      (self.associatedResources.lookup resourceName = none →
        (self.associateResource resourceName resource).2.getAssociatedResource resourceName
          = resource) ∧
      (∀ earlier, self.associatedResources.lookup resourceName = some earlier →
        (self.associateResource resourceName resource).2.getAssociatedResource resourceName
          = earlier)) ∧
    (self.associatedResources.lookup resourceName = none →
      self.getAssociatedResource resourceName = none) ∧
    (self.associateResource resourceName resource).2.transitions = self.transitions ∧
    (self.associateResource resourceName resource).2.resources = self.resources := by
  refine ⟨?_, ?_, ?_, ?_, ?_⟩
  · intro h
    simp only [associateResource, h]
  · intro h
    obtain ⟨r, hr⟩ := Option.isSome_iff_exists.mp h
    refine ⟨by simp only [associateResource, hr], ?_, ?_⟩
    · intro hnone
      simp only [associateResource, hr, getAssociatedResource,
        lookup_mapInsert_new _ _ _ _ hnone, if_true]
    · intro earlier hsome
      simp only [associateResource, hr, getAssociatedResource, mapInsert, hsome]
  · intro h
    simp only [getAssociatedResource, h]
  · unfold associateResource
    split <;> rfl
  · unfold associateResource
    split <;> rfl

/-- Claim C27 on `Sample.shadowDeclared`: the resource `shadowmap`, which has no association,
is associated with the resource at address 500. -/
theorem associateResource_first_wins_witness :
    (Sample.shadowDeclared.resources.lookup "shadowmap").isSome = true ∧
    Sample.shadowDeclared.associatedResources.lookup "shadowmap" = none ∧
    (Sample.shadowDeclared.associateResource "shadowmap" (some 500)).2.getAssociatedResource
      "shadowmap" = some 500 :=
  ⟨by decide, by decide,
   ((associateResource_first_wins Sample.shadowDeclared "shadowmap" (some 500)).2.1
      (by decide)).2.1 (by decide)⟩

/-- Counterexample to claim C27 as stated. In `Sample.shadowDeclared` the name `shadowmap`
is a resource. It is associated with the resource at address 500 and then with the resource
at address 501; both calls return, and `getAssociatedResource` still gives the resource at
address 500. -/
theorem second_association_ignored :
    (Sample.shadowDeclared.resources.lookup "shadowmap").isSome = true ∧
    (Sample.shadowDeclared.associateResource "shadowmap" (some 500)).1 = .ok () ∧
    ((Sample.shadowDeclared.associateResource "shadowmap" (some 500)).2.associateResource
      "shadowmap" (some 501)).1 = .ok () ∧
    ((Sample.shadowDeclared.associateResource "shadowmap" (some 500)).2.associateResource
      "shadowmap" (some 501)).2.getAssociatedResource "shadowmap" = some 500 := by
  decide

/-! ### Attachments without an index, inputs without a producer -/

set_option maxRecDepth 100000 in
/-- Claim C29 against the code. The workflow `Sample.chain` passes `verifyOperations` and is
acyclic. `collectResources` puts the attachment c on the slot of a and the attachment d on
the slot of b; the attachment index map that `compile` builds from the slot vector has
entries for a and b only; c is the resource of the attachment output of C, so
`buildSubPassDefinition` of C throws `out_of_range`, and so does `compile`. -/
theorem aliased_attachment_without_index :
    verifyOperations Sample.chain = .ok () ∧ Acyclic Sample.chain ∧
    collectResources 5 Sample.chain
      = .ok ([⟨"a", Sample.colorType⟩, ⟨"b", Sample.colorType⟩],
          [("a", 0), ("b", 1), ("c", 0), ("d", 1)]) ∧
    (frameBufferDefinitionLoop [⟨"a", Sample.colorType⟩, ⟨"b", Sample.colorType⟩] [] []).1
      = [("a", 0), ("b", 1)] ∧
    (∃ t ∈ Sample.chain.transitions, t.operation = Sample.opC ∧
      t.transitionType = rttAttachmentOutput ∧ t.resource = ⟨"c", Sample.colorType⟩ ∧
      Sample.colorType.metaType = MetaType.Attachment) ∧
    Sample.opC.buildSubPassDefinition Sample.chain [("a", 0), ("b", 1)]
      = .error .outOfRange ∧
    (SingleQueueWorkflowCompiler.compile 5 Sample.compiler Sample.chain).1
      = .error .outOfRange :=
  ⟨by decide, acyclic_of_rank _ id (by decide), by decide, by decide, by decide, by decide,
    by decide⟩

set_option maxRecDepth 100000 in
/-- Claim C30 against the code. The workflow `Sample.externalInput` passes
`verifyOperations`; its one operation Main has a buffer input on `params`, which has no
output transition in the workflow. For this input the loop of `constructRenderPassDetails`
finds no generating transition and hands the null pointer to the mask functions, which read
through it: the set of resources used later and the subpass of Main are built, and then the
run of `constructRenderPassDetails` on the render pass of Main, and with it `compile`, ends
in undefined behaviour. -/
theorem external_input_null_generating :
    verifyOperations Sample.externalInput = .ok () ∧
    (∃ t ∈ Sample.externalInput.transitions, t.operation = Sample.main ∧
      t.transitionType = rttBufferInput ∧ t.resource.name = "params") ∧
    Sample.externalInput.getResourceIO "params" rttAllOutputs = .ok [] ∧
    createCommandSequence ⟨[("Main", 0)]⟩ [Sample.main]
      = .ok [RenderCommand.renderPass ⟨[Sample.main], [], [], [], []⟩] ∧
    resourcesUsedAfterRenderPass 5 Sample.externalInput [Sample.main] [Sample.main] []
      = .ok [] ∧
    (Sample.main.buildSubPassDefinition Sample.externalInput [("color", 0)]).isOk = true ∧
    constructRenderPassDetails 5 Sample.externalInput ⟨[Sample.main], [], [], [], []⟩
        [VkImageLayout.UNDEFINED]
        (frameBufferDefinitionLoop [⟨"color", Sample.surfaceType⟩] [] []).2
        [⟨"color", Sample.surfaceType⟩] [("color", 0)]
      = .error .undefinedBehaviour ∧
    (SingleQueueWorkflowCompiler.compile 5 Sample.compiler Sample.externalInput).1
      = .error .undefinedBehaviour := by
  decide

/-! ### The schedule as a whole -/

/-- A sequence that schedules all operations, none being done, is a rearrangement of the
registered operations. -/
theorem scheduled_perm (workflow : RenderWorkflow) (hwf : WellFormed workflow)
    (s : List RenderOperation) (hsch : Scheduled workflow [] s) :
    s.Perm (workflow.renderOperations.map (fun e => e.2)) := by
  have hops : (workflow.renderOperations.map (fun e => e.2)).Nodup := by
    have h := hwf.operationAddrs
    rw [show workflow.renderOperations.map (fun e => e.2.addr) =
      (workflow.renderOperations.map (fun e => e.2)).map (fun z => z.addr) by
        rw [List.map_map]; rfl] at h
    exact List.Nodup.of_map _ h
  refine (List.perm_ext_iff_of_nodup (List.Nodup.of_map _ hsch.nodup) hops).mpr ?_
  intro a
  constructor
  · intro ha
    obtain ⟨e, he, hea, _⟩ := hsch.registered a ha
    exact List.mem_map.mpr ⟨e, he, hea⟩
  · intro ha
    obtain ⟨e, he, rfl⟩ := List.mem_map.mp ha
    obtain ⟨y, hy, hya⟩ := List.mem_map.mp (hsch.complete e he (by simp))
    obtain ⟨e1, he1, he1y, _⟩ := hsch.registered y hy
    have heq : e1 = e := by
      apply List.inj_on_of_nodup_map hwf.operationAddrs he1 he
      rw [he1y, hya]
    rw [← heq, he1y]
    exact hy

/-- Claim C32. For every acyclic workflow with well formed containers whose transitions all
belong to registered operations, `recursiveScheduleOperations` called with an empty done set
returns as soon as every registered operation has a tag, and every sequence it returns is a
rearrangement of the registered operations: each of them occurs once and nothing else
occurs. -/
theorem schedule_permutation (workflow : RenderWorkflow)
    (costCalculator : StandardRenderWorkflowCostCalculator)
    (hwf : WellFormed workflow) (hreg : TransitionsRegistered workflow)
    (hacyc : Acyclic workflow) :
    ((∀ e ∈ workflow.renderOperations,
        (costCalculator.attachmentTag.lookup e.2.name).isSome = true) →
      ∃ s, scheduleOperations workflow costCalculator = .ok s) ∧
    ∀ s, scheduleOperations workflow costCalculator = .ok s →
      s.Perm (workflow.renderOperations.map (fun e => e.2)) ∧ s.Nodup ∧
      ∀ op, op ∈ s ↔ ∃ e ∈ workflow.renderOperations, e.2 = op := by
  constructor
  · intro htags
    apply recursiveScheduleOperations_total workflow costCalculator hwf hreg hacyc htags
    have := List.countP_le_length
      (fun e : String × RenderOperation => decide (e.2.addr ∉ ([] : List RenderOperation).map
        (fun z => z.addr))) (l := workflow.renderOperations)
    omega
  · intro s hs
    have hsch := recursiveScheduleOperations_scheduled workflow costCalculator hwf hreg hacyc
      _ _ _ hs
    have hperm := scheduled_perm workflow hwf s hsch
    refine ⟨hperm, List.Nodup.of_map _ hsch.nodup, ?_⟩
    intro op
    rw [hperm.mem_iff, List.mem_map]

/-- Claim C32 on `Sample.fiveOperations` with the chain of five operations declared, and the
tags that `tagOperationByAttachmentType` gives. -/
theorem schedule_permutation_witness :
    WellFormed Sample.chain ∧ TransitionsRegistered Sample.chain ∧ Acyclic Sample.chain ∧
    ∃ s, scheduleOperations Sample.chain
        (Sample.compiler.costCalculator.tagOperationByAttachmentType Sample.chain).2 = .ok s ∧
      s.Perm (Sample.chain.renderOperations.map (fun e => e.2)) :=
  have hwf : WellFormed Sample.chain := ⟨by decide, by decide, by decide, by decide⟩
  have hreg : TransitionsRegistered Sample.chain := by
    unfold TransitionsRegistered; decide
  have hacyc : Acyclic Sample.chain := acyclic_of_rank _ id (by decide)
  have h := schedule_permutation Sample.chain
    (Sample.compiler.costCalculator.tagOperationByAttachmentType Sample.chain).2 hwf hreg hacyc
  ⟨hwf, hreg, hacyc, (h.1 (by decide)).choose,
    (h.1 (by decide)).choose_spec, (h.2 _ (h.1 (by decide)).choose_spec).1⟩

/-! ### The cost of the schedule -/

/-- No entry has a lower cost than the one `std::min_element` points at. -/
theorem minElement_min {α : Type} (best : Nat × α) (rest : List (Nat × α)) :
    ∀ p ∈ best :: rest, (minElement best rest).1 ≤ p.1 := by
  induction rest generalizing best with
  | nil => intro p hp; simp only [List.mem_singleton] at hp; subst hp; exact le_refl _
  | cons c rest ih =>
    intro p hp
    unfold minElement
    split
    · rename_i hlt
      rcases List.mem_cons.mp hp with rfl | hp
      · exact le_trans (ih c c (List.mem_cons_self _ _)) (le_of_lt hlt)
      · exact ih c p hp
    · rename_i hge
      rcases List.mem_cons.mp hp with rfl | hp
      · exact ih p p (List.mem_cons_self _ _)
      · rcases List.mem_cons.mp hp with rfl | hp
        · exact le_trans (ih best best (List.mem_cons_self _ _)) (not_lt.mp hge)
        · exact ih best p (List.mem_cons_of_mem _ hp)

/-- Every entry of the candidate loop carries the cost of its sequence, and every candidate
has an entry. -/
theorem candidateLoop_cost
    (schedule : List RenderOperation → Except WorkflowError (List RenderOperation))
    (workflow : RenderWorkflow) (done : List RenderOperation)
    (cc : StandardRenderWorkflowCostCalculator) (N : List RenderOperation)
    (L : List (Nat × List RenderOperation))
    (h : candidateLoop schedule workflow done cc N = .ok L) :
    (∀ p ∈ L, cc.calculateWorkflowCost workflow p.2 = .ok p.1) ∧
    ∀ x ∈ N, ∃ xx, schedule (ptrSetInsert x done) = .ok xx ∧
      ∃ p ∈ L, p.2 = xx ++ [x] := by
  induction N generalizing L with
  | nil =>
    simp only [candidateLoop, Except.ok.injEq] at h
    subst h
    simp
  | cons x rest ih =>
    unfold candidateLoop at h
    cases hs : schedule (ptrSetInsert x done) with
    | error e => simp [hs] at h
    | ok xx =>
      simp only [hs] at h
      cases hc : cc.calculateWorkflowCost workflow (xx ++ [x]) with
      | error e => simp [hc] at h
      | ok c =>
        simp only [hc] at h
        cases hr : candidateLoop schedule workflow done cc rest with
        | error e => simp [hr] at h
        | ok more =>
          simp only [hr, Except.ok.injEq] at h
          subst h
          obtain ⟨hcost, hall⟩ := ih more hr
          constructor
          · intro p hp
            rcases List.mem_cons.mp hp with rfl | hp
            · exact hc
            · exact hcost p hp
          · intro y hy
            rcases List.mem_cons.mp hy with rfl | hy
            · exact ⟨xx, hs, (c, xx ++ [y]), List.mem_cons_self _ _, rfl⟩
            · obtain ⟨yy, hyy, p, hp, hpe⟩ := hall y hy
              exact ⟨yy, hyy, p, List.mem_cons_of_mem _ hp, hpe⟩

/-- The entry `std::min_element` points at is the first of lowest cost: the entries before
it cost more, the entries after it do not cost less. -/
theorem minElement_first {α : Type} (best : Nat × α) (rest : List (Nat × α)) :
    ∃ pre post, best :: rest = pre ++ minElement best rest :: post ∧
      (∀ q ∈ pre, (minElement best rest).1 < q.1) ∧
      ∀ q ∈ post, (minElement best rest).1 ≤ q.1 := by
  induction rest generalizing best with
  | nil => exact ⟨[], [], rfl, by simp, by simp⟩
  | cons c rest ih =>
    unfold minElement
    split
    · rename_i hlt
      obtain ⟨pre, post, hsplit, hpre, hpost⟩ := ih c
      refine ⟨best :: pre, post,
        by simp only [List.cons_append, List.cons.injEq, true_and]; exact hsplit, ?_, hpost⟩
      intro q hq
      rcases List.mem_cons.mp hq with rfl | hq
      · exact lt_of_le_of_lt (minElement_min c rest c (List.mem_cons_self _ _)) hlt
      · exact hpre q hq
    · rename_i hge
      obtain ⟨pre, post, hsplit, hpre, hpost⟩ := ih best
      cases pre with
      | nil =>
        simp only [List.nil_append, List.cons.injEq] at hsplit
        refine ⟨[], c :: rest, ?_, by simp, ?_⟩
        · simp only [List.nil_append, List.cons.injEq, and_true]
          exact hsplit.1
        · intro q hq
          rcases List.mem_cons.mp hq with rfl | hq
          · rw [← hsplit.1]
            exact not_lt.mp hge
          · exact minElement_min best rest q (List.mem_cons_of_mem _ hq)
      | cons b pre2 =>
        simp only [List.cons_append, List.cons.injEq] at hsplit
        obtain ⟨hb, hrest⟩ := hsplit
        subst hb
        refine ⟨best :: c :: pre2, post,
          by simp only [List.cons_append, List.cons.injEq, true_and]; exact hrest, ?_, hpost⟩
        intro q hq
        rcases List.mem_cons.mp hq with rfl | hq
        · exact hpre q (List.mem_cons_self _ _)
        · rcases List.mem_cons.mp hq with rfl | hq
          · exact lt_of_lt_of_le (hpre best (List.mem_cons_self _ _)) (not_lt.mp hge)
          · exact hpre q (List.mem_cons_of_mem _ hq)

/-- The candidate loop makes one entry per candidate, in the order of the candidates: the
sequence returned for the done set with the candidate, followed by the candidate, with its
cost. -/
theorem candidateLoop_entries
    (schedule : List RenderOperation → Except WorkflowError (List RenderOperation))
    (workflow : RenderWorkflow) (done : List RenderOperation)
    (cc : StandardRenderWorkflowCostCalculator) (N : List RenderOperation)
    (L : List (Nat × List RenderOperation))
    (h : candidateLoop schedule workflow done cc N = .ok L) :
    List.Forall₂ (fun x p => ∃ xx, schedule (ptrSetInsert x done) = .ok xx ∧
      p.2 = xx ++ [x] ∧ cc.calculateWorkflowCost workflow (xx ++ [x]) = .ok p.1) N L := by
  induction N generalizing L with
  | nil =>
    simp only [candidateLoop, Except.ok.injEq] at h
    subst h
    exact List.Forall₂.nil
  | cons x rest ih =>
    unfold candidateLoop at h
    cases hs : schedule (ptrSetInsert x done) with
    | error e => simp [hs] at h
    | ok xx =>
      simp only [hs] at h
      cases hc : cc.calculateWorkflowCost workflow (xx ++ [x]) with
      | error e => simp [hc] at h
      | ok c =>
        simp only [hc] at h
        cases hr : candidateLoop schedule workflow done cc rest with
        | error e => simp [hr] at h
        | ok more =>
          simp only [hr, Except.ok.injEq] at h
          subst h
          exact List.Forall₂.cons ⟨xx, hs, rfl, hc⟩ (ih more hr)

/-- Two lists related element by element, the second cut in two: the first is cut in two at
the same place. -/
theorem forall2_split_right {α β : Type} (R : α → β → Prop) :
    ∀ (pre : List β) (N : List α) (p : β) (post : List β),
      List.Forall₂ R N (pre ++ p :: post) →
      ∃ N1 x N2, N = N1 ++ x :: N2 ∧ List.Forall₂ R N1 pre ∧ R x p ∧
        List.Forall₂ R N2 post := by
  intro pre
  induction pre with
  | nil =>
    intro N p post h
    cases h with
    | cons hx hrest => exact ⟨[], _, _, rfl, List.Forall₂.nil, hx, hrest⟩
  | cons b pre ih =>
    intro N p post h
    cases h with
    | cons hx hrest =>
      obtain ⟨N1, x, N2, hN, h1, hxp, h2⟩ := ih _ p post hrest
      exact ⟨_ :: N1, x, N2, by rw [hN]; rfl, List.Forall₂.cons hx h1, hxp, h2⟩

/-- Two lists related element by element: every element of the first has a partner in the
second. -/
theorem forall2_mem_left {α β : Type} (R : α → β → Prop) (l1 : List α) (l2 : List β)
    (h : List.Forall₂ R l1 l2) : ∀ x ∈ l1, ∃ y ∈ l2, R x y := by
  induction h with
  | nil => simp
  | cons hx _ ih =>
    intro x hxm
    rcases List.mem_cons.mp hxm with rfl | hxm
    · exact ⟨_, List.mem_cons_self _ _, hx⟩
    · obtain ⟨y, hy, hr⟩ := ih x hxm
      exact ⟨y, List.mem_cons_of_mem _ hy, hr⟩

/-- Claim C31 (amended). Whenever `recursiveScheduleOperations` returns a sequence, the set
`newDoneOperations` of candidates for the last place was found; the sequence is empty when
there is no candidate; otherwise it is, for one candidate `x`, the sequence returned for the
done set enlarged by `x`, followed by `x`, and `x` is the first candidate, in the order of
the set, whose sequence has the lowest cost: the sequences made in this way from the
candidates before `x` cost strictly more, and those made from the candidates after `x` do
not cost less. The comparison is made among these sequences, one per candidate, and not
among all the orderings of the operations. -/
theorem schedule_first_lowest_candidate (depth : Nat) (workflow : RenderWorkflow)
    (doneOperations : List RenderOperation)
    (costCalculator : StandardRenderWorkflowCostCalculator) (s : List RenderOperation)
    (h : recursiveScheduleOperations (depth + 1) workflow doneOperations costCalculator
      = .ok s) :
    ∃ newDoneOperations,
      (if doneOperations.isEmpty then initialDoneLoop workflow workflow.renderOperations []
       else nextDoneLoop workflow doneOperations workflow.renderOperations [])
        = .ok newDoneOperations ∧
      (newDoneOperations = [] → s = []) ∧
      (newDoneOperations ≠ [] → ∃ pre x post xx c,
        newDoneOperations = pre ++ x :: post ∧
        recursiveScheduleOperations depth workflow (ptrSetInsert x doneOperations)
          costCalculator = .ok xx ∧
        s = xx ++ [x] ∧
        costCalculator.calculateWorkflowCost workflow s = .ok c ∧
        (∀ y ∈ pre, ∃ yy cy,
          recursiveScheduleOperations depth workflow (ptrSetInsert y doneOperations)
            costCalculator = .ok yy ∧
          costCalculator.calculateWorkflowCost workflow (yy ++ [y]) = .ok cy ∧ c < cy) ∧
        ∀ y ∈ post, ∃ yy cy,
          recursiveScheduleOperations depth workflow (ptrSetInsert y doneOperations)
            costCalculator = .ok yy ∧
          costCalculator.calculateWorkflowCost workflow (yy ++ [y]) = .ok cy ∧ c ≤ cy) ∧
      ∀ x ∈ newDoneOperations, ∃ xx cx c,
        recursiveScheduleOperations depth workflow (ptrSetInsert x doneOperations)
          costCalculator = .ok xx ∧
        costCalculator.calculateWorkflowCost workflow (xx ++ [x]) = .ok cx ∧
        costCalculator.calculateWorkflowCost workflow s = .ok c ∧ c ≤ cx := by
  unfold recursiveScheduleOperations at h
  cases hN : (if doneOperations.isEmpty then
      initialDoneLoop workflow workflow.renderOperations []
    else nextDoneLoop workflow doneOperations workflow.renderOperations []) with
  | error e => rw [hN] at h; cases h
  | ok N =>
    rw [hN] at h
    refine ⟨N, rfl, ?_⟩
    cases N with
    | nil =>
      simp only [Except.ok.injEq] at h
      exact ⟨fun _ => h.symm, fun hne => absurd rfl hne, fun x hx => by simp at hx⟩
    | cons n rest =>
      simp only at h
      cases hL : candidateLoop
          (fun a => recursiveScheduleOperations depth workflow a costCalculator)
          workflow doneOperations costCalculator (n :: rest) with
      | error e => simp [hL] at h
      | ok L =>
        simp only [hL] at h
        have hent := candidateLoop_entries _ workflow doneOperations costCalculator _ L hL
        cases L with
        | nil => cases hent
        | cons first more =>
          simp only [Except.ok.injEq] at h
          obtain ⟨pre, post, hsplit, hpre, hpost⟩ := minElement_first first more
          have hmin := minElement_min first more
          rw [hsplit] at hent
          obtain ⟨N1, x, N2, hNs, h1, ⟨xx, hxx, hp2, hcx⟩, h2⟩ :=
            forall2_split_right _ pre _ _ post hent
          have hs : s = xx ++ [x] := by rw [← h, hp2]
          have hcost : costCalculator.calculateWorkflowCost workflow s =
              .ok (minElement first more).1 := by rw [hs]; exact hcx
          refine ⟨fun hnil => (by cases hnil), fun _ => ?_, ?_⟩
          · refine ⟨N1, x, N2, xx, (minElement first more).1, hNs, hxx, hs, hcost, ?_, ?_⟩
            · intro y hy
              obtain ⟨q, hq, yy, hyy, _, hcy⟩ := forall2_mem_left _ _ _ h1 y hy
              exact ⟨yy, q.1, hyy, hcy, hpre q hq⟩
            · intro y hy
              obtain ⟨q, hq, yy, hyy, _, hcy⟩ := forall2_mem_left _ _ _ h2 y hy
              exact ⟨yy, q.1, hyy, hcy, hpost q hq⟩
          · intro y hy
            rw [← hsplit] at hent
            obtain ⟨q, hq, yy, hyy, _, hcy⟩ := forall2_mem_left _ _ _ hent y hy
            exact ⟨yy, q.1, (minElement first more).1, hyy, hcy, hcost, hmin q hq⟩

set_option maxRecDepth 100000 in
/-- Claim C31 (amended) on `Sample.sortFirst` with B done: the candidates are Sort and A in
this order, the sequences made from them both cost 10, and the one made from Sort, the
first, is returned. -/
theorem schedule_first_lowest_candidate_witness :
    recursiveScheduleOperations (2 + 1) Sample.sortFirst [Sample.opB] Sample.sortFirstTags
      = .ok [Sample.opA, Sample.sort] ∧
    (if [Sample.opB].isEmpty then
       initialDoneLoop Sample.sortFirst Sample.sortFirst.renderOperations []
     else nextDoneLoop Sample.sortFirst [Sample.opB] Sample.sortFirst.renderOperations [])
      = .ok [Sample.sort, Sample.opA] ∧
    Sample.sortFirstTags.calculateWorkflowCost Sample.sortFirst [Sample.opA, Sample.sort]
      = .ok 10 ∧
    Sample.sortFirstTags.calculateWorkflowCost Sample.sortFirst [Sample.sort, Sample.opA]
      = .ok 10 ∧
    ∃ newDoneOperations,
      (if [Sample.opB].isEmpty then
         initialDoneLoop Sample.sortFirst Sample.sortFirst.renderOperations []
       else nextDoneLoop Sample.sortFirst [Sample.opB] Sample.sortFirst.renderOperations [])
        = .ok newDoneOperations ∧
      (newDoneOperations = [] → [Sample.opA, Sample.sort] = []) ∧
      (newDoneOperations ≠ [] → ∃ pre x post xx c,
        newDoneOperations = pre ++ x :: post ∧
        recursiveScheduleOperations 2 Sample.sortFirst (ptrSetInsert x [Sample.opB])
          Sample.sortFirstTags = .ok xx ∧
        [Sample.opA, Sample.sort] = xx ++ [x] ∧
        Sample.sortFirstTags.calculateWorkflowCost Sample.sortFirst
          [Sample.opA, Sample.sort] = .ok c ∧
        (∀ y ∈ pre, ∃ yy cy,
          recursiveScheduleOperations 2 Sample.sortFirst (ptrSetInsert y [Sample.opB])
            Sample.sortFirstTags = .ok yy ∧
          Sample.sortFirstTags.calculateWorkflowCost Sample.sortFirst (yy ++ [y]) = .ok cy ∧
          c < cy) ∧
        ∀ y ∈ post, ∃ yy cy,
          recursiveScheduleOperations 2 Sample.sortFirst (ptrSetInsert y [Sample.opB])
            Sample.sortFirstTags = .ok yy ∧
          Sample.sortFirstTags.calculateWorkflowCost Sample.sortFirst (yy ++ [y]) = .ok cy ∧
          c ≤ cy) ∧
      ∀ x ∈ newDoneOperations, ∃ xx cx c,
        recursiveScheduleOperations 2 Sample.sortFirst (ptrSetInsert x [Sample.opB])
          Sample.sortFirstTags = .ok xx ∧
        Sample.sortFirstTags.calculateWorkflowCost Sample.sortFirst (xx ++ [x]) = .ok cx ∧
        Sample.sortFirstTags.calculateWorkflowCost Sample.sortFirst
          [Sample.opA, Sample.sort] = .ok c ∧ c ≤ cx :=
  ⟨by decide, by decide, by decide, by decide,
   schedule_first_lowest_candidate 2 Sample.sortFirst [Sample.opB] Sample.sortFirstTags
     [Sample.opA, Sample.sort] (by decide)⟩

/-- Counterexample to claim C31 as stated. In `Sample.sortFirst` the compute operation Sort
writes a buffer, the graphics operation A writes an attachment, and the graphics operation B
reads both; the object of Sort lies before that of A, so that Sort comes first in the set of
candidates. The dependency graph is acyclic and the tags are those that
`tagOperationByAttachmentType` gives: one for Sort and another one shared by A and B. The
sequence returned is A, Sort, B, of cost 20, while Sort, A, B also has every producer before
its consumers and costs 10: with B done, the sequences made for the candidates Sort and A
both cost 10, and the first of them is kept although it ends in Sort. -/
theorem schedule_not_cheapest :
    Acyclic Sample.sortFirst ∧ WellFormed Sample.sortFirst ∧
    TransitionsRegistered Sample.sortFirst ∧
    (Sample.compiler.costCalculator.tagOperationByAttachmentType Sample.sortFirst).2
      = ⟨[("Sort", 0), ("A", 1), ("B", 1)]⟩ ∧
    scheduleOperations Sample.sortFirst
        (Sample.compiler.costCalculator.tagOperationByAttachmentType Sample.sortFirst).2
      = .ok [Sample.opA, Sample.sort, Sample.opB] ∧
    (Sample.compiler.costCalculator.tagOperationByAttachmentType
        Sample.sortFirst).2.calculateWorkflowCost Sample.sortFirst
      [Sample.opA, Sample.sort, Sample.opB] = .ok 20 ∧
    (Sample.compiler.costCalculator.tagOperationByAttachmentType
        Sample.sortFirst).2.calculateWorkflowCost Sample.sortFirst
      [Sample.sort, Sample.opA, Sample.opB] = .ok 10 ∧
    List.Perm [Sample.sort, Sample.opA, Sample.opB]
      (Sample.sortFirst.renderOperations.map (fun e => e.2)) ∧
    (∀ tA ∈ Sample.sortFirst.transitions, ∀ tB ∈ Sample.sortFirst.transitions,
      tA.transitionType.isOutput = true → tB.transitionType.isInput = true →
      tA.resource.name = tB.resource.name →
      List.indexOf tA.operation.addr
          ([Sample.sort, Sample.opA, Sample.opB].map (fun z => z.addr)) <
        List.indexOf tB.operation.addr
          ([Sample.sort, Sample.opA, Sample.opB].map (fun z => z.addr))) ∧
    recursiveScheduleOperations 2 Sample.sortFirst [Sample.sort, Sample.opB]
        Sample.sortFirstTags = .ok [Sample.opA] ∧
    recursiveScheduleOperations 2 Sample.sortFirst [Sample.opA, Sample.opB]
        Sample.sortFirstTags = .ok [Sample.sort] ∧
    Sample.sortFirstTags.calculateWorkflowCost Sample.sortFirst [Sample.opA, Sample.sort]
      = .ok 10 ∧
    Sample.sortFirstTags.calculateWorkflowCost Sample.sortFirst [Sample.sort, Sample.opA]
      = .ok 10 := by
  refine ⟨acyclic_of_rank _ id (by decide), ⟨by decide, by decide, by decide, by decide⟩,
    by unfold TransitionsRegistered; decide, by decide, by decide, by decide, by decide,
    by decide, by decide, by decide, by decide, by decide, by decide⟩

/-! ### Passes and the types of their operations -/

/-- After `tagOperationByAttachmentType` every operation stored under its name has a tag. -/
theorem tag_of_registered (cc : StandardRenderWorkflowCostCalculator)
    (workflow : RenderWorkflow)
    (hkeys : (workflow.renderOperations.map (fun e => e.1)).Nodup)
    (op : RenderOperation) (hop : (op.name, op) ∈ workflow.renderOperations) :
    ((cc.tagOperationByAttachmentType workflow).2.attachmentTag.lookup op.name).isSome
      = true := by
  obtain ⟨_, htotal, _, _⟩ := tagOperationByAttachmentType_spec cc workflow hkeys
  obtain ⟨t, ht⟩ := htotal (op.name, op) hop
  rw [ht]; rfl

/-- After `tagOperationByAttachmentType` an operation that has the tag of a compute operation
is that compute operation. -/
theorem same_tag_as_compute (cc : StandardRenderWorkflowCostCalculator)
    (workflow : RenderWorkflow)
    (hkeys : (workflow.renderOperations.map (fun e => e.1)).Nodup)
    (x y : RenderOperation)
    (hx : (x.name, x) ∈ workflow.renderOperations)
    (hy : (y.name, y) ∈ workflow.renderOperations)
    (hcompute : x.operationType = RenderOperation.Type.Compute)
    (htag : (cc.tagOperationByAttachmentType workflow).2.attachmentTag.lookup x.name =
      (cc.tagOperationByAttachmentType workflow).2.attachmentTag.lookup y.name) :
    y = x := by
  obtain ⟨_, htotal, hd, _⟩ := tagOperationByAttachmentType_spec cc workflow hkeys
  obtain ⟨tx, htx⟩ := htotal (x.name, x) hx
  obtain ⟨ty, hty⟩ := htotal (y.name, y) hy
  have hname : y.name = x.name := by
    by_contra hne
    have h := hd (x.name, x) hx (by rw [hcompute]; decide) tx htx y.name ty hne hty
    rw [htx, hty] at htag
    exact h (Option.some.inj htag).symm
  have h1 := lookup_of_mem_nodup _ x.name x hkeys hx
  have h2 := lookup_of_mem_nodup _ y.name y hkeys hy
  rw [hname, h1] at h2
  exact (Option.some.inj h2).symm

/-- Claim C34. With the tags that `tagOperationByAttachmentType` gives, for every sequence of
operations that are stored in the operation map under their names, `createCommandSequence`
returns; every render pass among its commands holds one operation or more and graphics
operations only; the one operation of every compute pass is a compute operation; and the
operations of the commands, in the order of the commands, are the sequence, so that every
compute operation of the sequence is in a compute pass. -/
theorem passes_by_operation_type (costCalculator : StandardRenderWorkflowCostCalculator)
    (workflow : RenderWorkflow)
    (hkeys : (workflow.renderOperations.map (fun e => e.1)).Nodup)
    (operationSequence : List RenderOperation)
    (hreg : ∀ op ∈ operationSequence, (op.name, op) ∈ workflow.renderOperations) :
    ∃ commands,
      createCommandSequence (costCalculator.tagOperationByAttachmentType workflow).2
        operationSequence = .ok commands ∧
      (∀ p, RenderCommand.renderPass p ∈ commands →
        p.renderOperations ≠ [] ∧
        ∀ op ∈ p.renderOperations, op.operationType = RenderOperation.Type.Graphics) ∧
      (∀ p, RenderCommand.computePass p ∈ commands →
        p.computeOperation.operationType = RenderOperation.Type.Compute) ∧
      commands.flatMap RenderCommand.operations = operationSequence := by
  obtain ⟨runs, hloop, hflat, hruns, _⟩ :=
    commandLoop_spec (costCalculator.tagOperationByAttachmentType workflow).2.attachmentTag
      operationSequence.length operationSequence (Nat.le_refl _)
      (fun op hop => tag_of_registered costCalculator workflow hkeys op (hreg op hop))
  have hin : ∀ run ∈ runs, ∀ x ∈ run, (x.name, x) ∈ workflow.renderOperations := by
    intro run hrun x hx
    apply hreg
    rw [← hflat]
    exact List.mem_flatten.mpr ⟨run, hrun, hx⟩
  refine ⟨_, hloop, ?_, ?_, ?_⟩
  · intro p hp
    obtain ⟨run, hrun, hc⟩ := List.mem_flatMap.mp hp
    obtain ⟨hne, hsame⟩ := hruns run hrun
    obtain ⟨first, rest, rfl⟩ := List.exists_cons_of_ne_nil hne
    unfold commandsOfGroup at hc
    split at hc
    · rename_i hg
      simp only [List.mem_singleton, RenderCommand.renderPass.injEq] at hc
      subst hc
      refine ⟨by simp, ?_⟩
      intro op hop
      simp only [List.head?_cons, Option.map_some', Option.some.injEq] at hg
      cases hty : op.operationType with
      | Graphics => rfl
      | Compute =>
        have := same_tag_as_compute costCalculator workflow hkeys op first
          (hin _ hrun op hop) (hin _ hrun first (List.mem_cons_self _ _)) hty
          (hsame op hop first (List.mem_cons_self _ _))
        rw [this, hty] at hg
        cases hg
    · simp at hc
  · intro p hp
    obtain ⟨run, hrun, hc⟩ := List.mem_flatMap.mp hp
    obtain ⟨hne, hsame⟩ := hruns run hrun
    obtain ⟨first, rest, rfl⟩ := List.exists_cons_of_ne_nil hne
    unfold commandsOfGroup at hc
    split at hc
    · simp at hc
    · rename_i hg
      simp only [List.head?_cons, Option.map_some', Option.some.injEq] at hg
      have hfirst : first.operationType = RenderOperation.Type.Compute := by
        cases hty : first.operationType with
        | Graphics => exact absurd hty hg
        | Compute => rfl
      obtain ⟨op, hop, hpe⟩ := List.mem_map.mp hc
      simp only [RenderCommand.computePass.injEq] at hpe
      subst hpe
      have := same_tag_as_compute costCalculator workflow hkeys first op
        (hin _ hrun first (List.mem_cons_self _ _)) (hin _ hrun op hop) hfirst
        (hsame first (List.mem_cons_self _ _) op hop)
      rw [this]
      exact hfirst
  · rw [flatMap_commandsOfGroup_operations, hflat]

/-- Claim C34 on `Sample.withCompute` and the sequence Shadow, Main, Cull. -/
theorem passes_by_operation_type_witness :
    (Sample.withCompute.renderOperations.map (fun e => e.1)).Nodup ∧
    (∀ op ∈ [Sample.shadow, Sample.main, Sample.cull],
      (op.name, op) ∈ Sample.withCompute.renderOperations) ∧
    ∃ commands,
      createCommandSequence
        (Sample.compiler.costCalculator.tagOperationByAttachmentType Sample.withCompute).2
        [Sample.shadow, Sample.main, Sample.cull] = .ok commands ∧
      (∀ p, RenderCommand.renderPass p ∈ commands →
        p.renderOperations ≠ [] ∧
        ∀ op ∈ p.renderOperations, op.operationType = RenderOperation.Type.Graphics) ∧
      (∀ p, RenderCommand.computePass p ∈ commands →
        p.computeOperation.operationType = RenderOperation.Type.Compute) ∧
      commands.flatMap RenderCommand.operations =
        [Sample.shadow, Sample.main, Sample.cull] :=
  ⟨by decide, by decide,
   passes_by_operation_type Sample.compiler.costCalculator Sample.withCompute (by decide)
     [Sample.shadow, Sample.main, Sample.cull] (by decide)⟩

/-! ### The cost and the number of commands -/

/-- The cost of a sequence whose operations all have a tag is 10 for every change of tag. -/
theorem calculateWorkflowCost_eq (cc : StandardRenderWorkflowCostCalculator)
    (workflow : RenderWorkflow) (operationSchedule : List RenderOperation)
    (htags : ∀ x ∈ operationSchedule, (cc.attachmentTag.lookup x.name).isSome = true) :
    cc.calculateWorkflowCost workflow operationSchedule
      = .ok (10 * tagChanges
          (operationSchedule.map (fun x => cc.attachmentTag.lookup x.name))) := by
  cases operationSchedule with
  | nil => rfl
  | cons first rest =>
    obtain ⟨t, ht⟩ := Option.isSome_iff_exists.mp (htags first (List.mem_cons_self _ _))
    simp only [calculateWorkflowCost, mapAt, ht, List.map_cons,
      costLoop_eq cc rest t 0 (fun y hy => htags y (List.mem_cons_of_mem _ hy)), Nat.zero_add]

/-- A run of elements with one tag in front of a sequence has the changes of tag of its
first element in front of the sequence. -/
theorem tagChanges_run {α β : Type} [DecidableEq β] (f : α → β) (tail : List α) :
    ∀ (run : List α) (a : α), (∀ x ∈ run, f x = f a) →
      tagChanges ((a :: run ++ tail).map f) = tagChanges (f a :: tail.map f) := by
  intro run
  induction run with
  | nil => intro a _; rfl
  | cons b rest ih =>
    intro a h
    have hb : f b = f a := h b (List.mem_cons_self _ _)
    have hrest := ih b (fun x hx => by rw [h x (List.mem_cons_of_mem _ hx), hb])
    simp only [List.cons_append, List.map_cons] at hrest ⊢
    rw [tagChanges_cons_cons, hrest, hb]
    simp

/-- Runs that are not empty, each with one tag, neighbours with different tags: the sequence
they make has one change of tag less than there are runs. -/
theorem tagChanges_runs {α β : Type} [DecidableEq β] (f : α → β) (runs : List (List α))
    (hruns : ∀ run ∈ runs, run ≠ [] ∧ ∀ x ∈ run, ∀ y ∈ run, f x = f y)
    (hchain : List.Chain' (fun r1 r2 => ∀ x ∈ r1, ∀ y ∈ r2, f x ≠ f y) runs) :
    tagChanges (runs.flatten.map f) = runs.length - 1 := by
  induction runs with
  | nil => rfl
  | cons r rs ih =>
    obtain ⟨hne, hsame⟩ := hruns r (List.mem_cons_self _ _)
    obtain ⟨a, as, rfl⟩ := List.exists_cons_of_ne_nil hne
    have hrest := ih (fun run hrun => hruns run (List.mem_cons_of_mem _ hrun))
      (List.Chain'.tail hchain)
    rw [List.flatten_cons, tagChanges_run f rs.flatten as a
      (fun x hx => hsame x (List.mem_cons_of_mem _ hx) a (List.mem_cons_self _ _))]
    cases rs with
    | nil => rfl
    | cons r2 rs2 =>
      obtain ⟨hne2, _⟩ := hruns r2 (by simp)
      obtain ⟨b, bs, rfl⟩ := List.exists_cons_of_ne_nil hne2
      have hab : f b ≠ f a := by
        have h := (List.chain'_cons.mp hchain).1
        exact fun heq => h a (List.mem_cons_self _ _) b (List.mem_cons_self _ _) heq.symm
      simp only [List.flatten_cons, List.cons_append, List.map_cons, List.length_cons] at hrest ⊢
      rw [tagChanges_cons_cons, hrest]
      simp only [hab, ne_eq, not_false_eq_true, if_true]
      omega

/-- Claim C35. With the tags that `tagOperationByAttachmentType` gives, for every sequence
that is not empty, holds no operation twice and holds only operations stored in the operation
map under their names, `createCommandSequence` and `calculateWorkflowCost` both return, and
the number of commands is the cost divided by 10, plus 1. -/
theorem commands_count_from_cost (costCalculator : StandardRenderWorkflowCostCalculator)
    (workflow : RenderWorkflow)
    (hkeys : (workflow.renderOperations.map (fun e => e.1)).Nodup)
    (s : List RenderOperation) (hne : s ≠ []) (hnodup : s.Nodup)
    (hreg : ∀ op ∈ s, (op.name, op) ∈ workflow.renderOperations) :
    ∃ commands cost,
      createCommandSequence (costCalculator.tagOperationByAttachmentType workflow).2 s
        = .ok commands ∧
      (costCalculator.tagOperationByAttachmentType workflow).2.calculateWorkflowCost
        workflow s = .ok cost ∧
      commands.length = cost / 10 + 1 := by
  have htags := fun op hop =>
    tag_of_registered costCalculator workflow hkeys op (hreg op hop)
  obtain ⟨runs, hloop, hflat, hruns, hchain⟩ :=
    commandLoop_spec (costCalculator.tagOperationByAttachmentType workflow).2.attachmentTag
      s.length s (Nat.le_refl _) htags
  refine ⟨_, _, hloop, calculateWorkflowCost_eq _ workflow s htags, ?_⟩
  have hone : ∀ run ∈ runs, (commandsOfGroup run).length = 1 := by
    intro run hrun
    obtain ⟨hrne, hsame⟩ := hruns run hrun
    obtain ⟨first, rest, rfl⟩ := List.exists_cons_of_ne_nil hrne
    have hin : ∀ x ∈ first :: rest, (x.name, x) ∈ workflow.renderOperations := by
      intro x hx
      apply hreg
      rw [← hflat]
      exact List.mem_flatten.mpr ⟨_, hrun, hx⟩
    unfold commandsOfGroup
    split
    · rfl
    · rename_i hg
      simp only [List.head?_cons, Option.map_some', Option.some.injEq] at hg
      have hfirst : first.operationType = RenderOperation.Type.Compute := by
        cases hty : first.operationType with
        | Graphics => exact absurd hty hg
        | Compute => rfl
      have hrun_nodup : (first :: rest).Nodup := by
        have hsub : (first :: rest).Sublist runs.flatten := List.sublist_flatten_of_mem hrun
        rw [hflat] at hsub
        exact hnodup.sublist hsub
      cases rest with
      | nil => rfl
      | cons y more =>
        have hy := same_tag_as_compute costCalculator workflow hkeys first y
          (hin first (List.mem_cons_self _ _)) (hin y (by simp)) hfirst
          (hsame first (List.mem_cons_self _ _) y (by simp))
        rw [hy] at hrun_nodup
        simp at hrun_nodup
  have hlen : ∀ l : List (List RenderOperation),
      (∀ run ∈ l, (commandsOfGroup run).length = 1) →
      (l.flatMap commandsOfGroup).length = l.length := by
    intro l
    induction l with
    | nil => intro _; rfl
    | cons r rs ih =>
      intro h
      rw [List.flatMap_cons, List.length_append, h r (List.mem_cons_self _ _),
        ih (fun run hrun => h run (List.mem_cons_of_mem _ hrun)), List.length_cons]
      omega
  have hchanges := tagChanges_runs
    (fun x : RenderOperation =>
      (costCalculator.tagOperationByAttachmentType workflow).2.attachmentTag.lookup x.name)
    runs hruns hchain
  rw [hflat] at hchanges
  rw [hlen runs hone, hchanges]
  have hpos : 0 < runs.length := by
    cases runs with
    | nil => exact absurd hflat.symm hne
    | cons r rs => simp
  omega

/-- Claim C35 on `Sample.withCompute` and the sequence Shadow, Main, Cull: two commands for
the cost 10. -/
theorem commands_count_from_cost_witness :
    (Sample.withCompute.renderOperations.map (fun e => e.1)).Nodup ∧
    [Sample.shadow, Sample.main, Sample.cull] ≠ [] ∧
    [Sample.shadow, Sample.main, Sample.cull].Nodup ∧
    (∀ op ∈ [Sample.shadow, Sample.main, Sample.cull],
      (op.name, op) ∈ Sample.withCompute.renderOperations) ∧
    (Sample.compiler.costCalculator.tagOperationByAttachmentType
        Sample.withCompute).2.calculateWorkflowCost Sample.withCompute
      [Sample.shadow, Sample.main, Sample.cull] = .ok 10 ∧
    ∃ commands cost,
      createCommandSequence
        (Sample.compiler.costCalculator.tagOperationByAttachmentType Sample.withCompute).2
        [Sample.shadow, Sample.main, Sample.cull] = .ok commands ∧
      (Sample.compiler.costCalculator.tagOperationByAttachmentType
          Sample.withCompute).2.calculateWorkflowCost Sample.withCompute
        [Sample.shadow, Sample.main, Sample.cull] = .ok cost ∧
      commands.length = cost / 10 + 1 :=
  ⟨by decide, by decide, by decide, by decide, by decide,
   commands_count_from_cost Sample.compiler.costCalculator Sample.withCompute (by decide)
     [Sample.shadow, Sample.main, Sample.cull] (by decide) (by decide) (by decide)⟩

/-! ### Sources and destinations of the dependencies of a render pass -/

/-- The loop over the input transitions of the operation at one index: a property of pairs
of source and destination that holds for the dependencies at the start, and for the pair of
what the map of modified outputs gives for a resource with that index, holds for the
dependencies at the end. -/
theorem consumeInputs_keys (workflow : RenderWorkflow) (i : Nat) (P : Nat × Nat → Prop) :
    ∀ (ts : List ResourceTransition) (s s1 : PassState),
      consumeInputs workflow i ts s = .ok s1 →
      (∀ R, P ((s.modifiedOutputs.lookup R).getD VK_SUBPASS_EXTERNAL, i)) →
      (∀ d ∈ s.subpassDependencies, P (d.srcSubpass, d.dstSubpass)) →
      ∀ d ∈ s1.subpassDependencies, P (d.srcSubpass, d.dstSubpass) := by
  intro ts
  induction ts with
  | nil =>
    intro s s1 h _ hdeps
    unfold consumeInputs at h
    cases h
    exact hdeps
  | cons t rest ih =>
    intro s s1 h hmod hdeps
    unfold consumeInputs at h
    cases hg : workflow.getResourceIO t.resource.name rttAllOutputs with
    | error e => simp [hg] at h
    | ok gens =>
      cases hlast : (gens.filter (fun gen => gen.resource.name == t.resource.name)).getLast? with
      | none => simp [hg, hlast] at h
      | some generating =>
        simp only [hg, hlast] at h
        generalize hsrc : (match List.lookup t.resource.name s.modifiedOutputs with
          | some index => index
          | none => VK_SUBPASS_EXTERNAL) = src at h
        have hsrc1 : src = (s.modifiedOutputs.lookup t.resource.name).getD VK_SUBPASS_EXTERNAL := by
          rw [← hsrc]
          cases List.lookup t.resource.name s.modifiedOutputs <;> rfl
        generalize hf : (fun dep : SubpassDependencyDefinition => { dep with
            srcStageMask := dep.srcStageMask ||| (getPipelineStageMasks generating t (0, 0)).1,
            dstStageMask := dep.dstStageMask ||| (getPipelineStageMasks generating t (0, 0)).2,
            srcAccessMask := dep.srcAccessMask ||| (getAccessMasks generating t (0, 0)).1,
            dstAccessMask := dep.dstAccessMask ||| (getAccessMasks generating t (0, 0)).2,
            dependencyFlags :=
              if t.resource.resourceType.metaType = MetaType.Attachment
              then dep.dependencyFlags ||| VK_DEPENDENCY_BY_REGION_BIT
              else dep.dependencyFlags }) = f at h
        have hkey : ∀ d, (f d).srcSubpass = d.srcSubpass ∧ (f d).dstSubpass = d.dstSubpass := by
          intro d; rw [← hf]; exact ⟨rfl, rfl⟩
        have hkeys : ∀ d ∈ modifyDependency src i f
            (if s.subpassDependencies.any
                (fun sd => sd.srcSubpass == src && sd.dstSubpass == i)
             then s.subpassDependencies
             else s.subpassDependencies ++ [⟨src, i, 0, 0, 0, 0, 0⟩]),
            P (d.srcSubpass, d.dstSubpass) := by
          intro d hd
          have hmem : (d.srcSubpass, d.dstSubpass) ∈ (modifyDependency src i f
            (if s.subpassDependencies.any
                (fun sd => sd.srcSubpass == src && sd.dstSubpass == i)
             then s.subpassDependencies
             else s.subpassDependencies ++ [⟨src, i, 0, 0, 0, 0, 0⟩])).map
              (fun d => (d.srcSubpass, d.dstSubpass)) := List.mem_map.mpr ⟨d, hd, rfl⟩
          rw [modifyDependency_keys src i f hkey] at hmem
          obtain ⟨d0, hd0, hk⟩ := List.mem_map.mp hmem
          rw [← hk]
          split at hd0
          · exact hdeps d0 hd0
          · rcases List.mem_append.mp hd0 with hd0 | hd0
            · exact hdeps d0 hd0
            · simp only [List.mem_singleton] at hd0
              subst hd0
              simp only
              rw [hsrc1]
              exact hmod _
        subst hsrc
        split at h
        · cases h
        · rename_i s2 heq
          have hs2 : (∀ d ∈ s2.subpassDependencies, P (d.srcSubpass, d.dstSubpass)) ∧
              s2.modifiedOutputs = s.modifiedOutputs := by
            by_cases hatt : t.resource.resourceType.metaType = MetaType.Attachment
            · simp only [hatt, if_true] at heq
              obtain ⟨h1, h2, _⟩ := touchAttachment_dependencies _ _ _ _ _ heq
              exact ⟨fun d hd => hkeys d (by rw [h1] at hd; exact hd), h2⟩
            · simp only [hatt, if_false] at heq
              cases heq
              exact ⟨hkeys, rfl⟩
          obtain ⟨hdeps2, hmod2⟩ := hs2
          apply ih s2 s1 h
          · rw [hmod2]; exact hmod
          · exact hdeps2

/-- The main loop from one index on, over operations that end before index `n`, entered with
a map of modified outputs that holds earlier indices only: every dependency made goes into an
index below `n`, and comes from outside or from an earlier index. -/
theorem passLoop_forward (workflow : RenderWorkflow) (n : Nat) :
    ∀ (ops : List RenderOperation) (i : Nat) (s s1 : PassState),
      passLoop workflow ops i s = .ok s1 → i + ops.length ≤ n →
      (∀ R j, s.modifiedOutputs.lookup R = some j → j < i) →
      (∀ d ∈ s.subpassDependencies,
        d.dstSubpass < n ∧ (d.srcSubpass = VK_SUBPASS_EXTERNAL ∨ d.srcSubpass < d.dstSubpass)) →
      ∀ d ∈ s1.subpassDependencies,
        d.dstSubpass < n ∧ (d.srcSubpass = VK_SUBPASS_EXTERNAL ∨ d.srcSubpass < d.dstSubpass) := by
  intro ops
  induction ops with
  | nil =>
    intro i s s1 h _ _ hdeps
    unfold passLoop at h
    cases h
    exact hdeps
  | cons op rest ih =>
    intro i s s1 h hlen hmod hdeps
    unfold passLoop at h
    cases hsub : op.buildSubPassDefinition workflow s.attachmentIndex with
    | error e => simp [hsub] at h
    | ok subPassDefinition =>
      cases hin : workflow.getOperationIO op.name rttAllInputs with
      | error e => simp [hsub, hin] at h
      | ok ts =>
        cases hcons : consumeInputs workflow i ts
            { s with subpasses := s.subpasses ++ [subPassDefinition] } with
        | error e => simp [hsub, hin, hcons] at h
        | ok sa =>
          cases hout : workflow.getOperationIO op.name rttAllOutputs with
          | error e => simp [hsub, hin, hcons, hout] at h
          | ok outs =>
            cases hprod : produceOutputs i outs sa with
            | error e => simp [hsub, hin, hcons, hout, hprod] at h
            | ok sb =>
              simp only [hsub, hin, hcons, hout, hprod] at h
              simp only [List.length_cons] at hlen
              obtain ⟨cmod, _, _, _, _, _⟩ := consumeInputs_spec workflow i ts _ sa hcons
              have hsa := consumeInputs_keys workflow i
                (fun k => k.2 < n ∧ (k.1 = VK_SUBPASS_EXTERNAL ∨ k.1 < k.2)) ts _ sa hcons
                (by
                  intro R
                  refine ⟨by simp only; omega, ?_⟩
                  simp only
                  cases hl : List.lookup R s.modifiedOutputs with
                  | none => exact Or.inl rfl
                  | some j => exact Or.inr (hmod R j hl))
                hdeps
              obtain ⟨pdeps, _, pmod⟩ := produceOutputs_spec i outs sa sb hprod
              apply ih (i + 1) sb s1 h (by omega)
              · intro R j hj
                rw [pmod R] at hj
                split at hj
                · cases hj; omega
                · rw [cmod] at hj
                  exact Nat.lt_succ_of_lt (hmod R j hj)
              · rw [pdeps]; exact hsa

/-- Claim C36. In the list of dependencies of every render pass that
`constructRenderPassDetails` returns, for a render pass of fewer than 4294967295 operations or
just as many (the index of an operation is a 32 bit number), no two dependencies have the same
pair of source and destination, and every dependency whose source and destination are both
indices of subpasses, neither being `VK_SUBPASS_EXTERNAL`, has a source that is strictly
smaller than its destination. -/
theorem pass_dependencies_distinct_forward (rounds : Nat) (workflow : RenderWorkflow)
    (renderPass : RenderPass) (lastLayout : List VkImageLayout)
    (frameBufferDefinitions : List FrameBufferImageDefinition)
    (resourceVector : List WorkflowResource) (attachmentIndex : List (String × Nat))
    (details : PassDetails)
    (hlen : renderPass.renderOperations.length ≤ 4294967295)
    (hok : constructRenderPassDetails rounds workflow renderPass lastLayout
      frameBufferDefinitions resourceVector attachmentIndex = .ok details) :
    (details.renderPass.dependencies.map (fun d => (d.srcSubpass, d.dstSubpass))).Nodup ∧
    ∀ d ∈ details.renderPass.dependencies,
      d.srcSubpass ≠ VK_SUBPASS_EXTERNAL → d.dstSubpass ≠ VK_SUBPASS_EXTERNAL →
      d.srcSubpass < d.dstSubpass := by
  obtain ⟨used, s, _, hs, _, hdeps, _, _, _⟩ := constructRenderPassDetails_ok rounds workflow
    renderPass lastLayout frameBufferDefinitions resourceVector attachmentIndex details hok
  obtain ⟨_, hnodup, _, _⟩ := passLoop_dependencies workflow _ 0 _ s hs
  have hloop := hnodup (by simp)
  have hfwd := passLoop_forward workflow renderPass.renderOperations.length
    renderPass.renderOperations 0 _ s hs (by omega) (by simp) (by simp)
  have hext : VK_SUBPASS_EXTERNAL = 4294967295 := rfl
  rw [hdeps]
  constructor
  · rw [List.map_append, List.nodup_append]
    refine ⟨?_, by simp, ?_⟩
    · split
      · exact hloop
      · rename_i hany
        rw [List.map_append, List.nodup_append]
        refine ⟨hloop, by simp, ?_⟩
        intro k hk1 hk2
        simp only [List.map_cons, List.map_nil, List.mem_singleton] at hk2
        subst hk2
        obtain ⟨d, hd, hdk⟩ := List.mem_map.mp hk1
        apply hany
        apply List.any_eq_true.mpr
        refine ⟨d, hd, ?_⟩
        simp only [Prod.mk.injEq] at hdk
        simp [hdk.1, hdk.2]
    · intro k hk1 hk2
      simp only [List.map_cons, List.map_nil, List.mem_singleton] at hk2
      subst hk2
      obtain ⟨d, hd, hdk⟩ := List.mem_map.mp hk1
      simp only [Prod.mk.injEq] at hdk
      split at hd
      · have := (hfwd d hd).1
        rw [hdk.2, hext] at this
        omega
      · rcases List.mem_append.mp hd with hd | hd
        · have := (hfwd d hd).1
          rw [hdk.2, hext] at this
          omega
        · simp only [List.mem_singleton] at hd
          subst hd
          have := hdk.2
          rw [hext] at this
          cases this
  · intro d hd hsrc hdst
    rcases List.mem_append.mp hd with hd | hd
    · have hin : d ∈ s.subpassDependencies ∨ d.srcSubpass = VK_SUBPASS_EXTERNAL := by
        split at hd
        · exact Or.inl hd
        · rcases List.mem_append.mp hd with hd | hd
          · exact Or.inl hd
          · simp only [List.mem_singleton] at hd
            subst hd
            exact Or.inr rfl
      rcases hin with hin | hin
      · rcases (hfwd d hin).2 with h | h
        · exact absurd h hsrc
        · exact h
      · exact absurd hin hsrc
    · simp only [List.mem_singleton] at hd
      subst hd
      exact absurd rfl hdst

/-- Claim C36 on the render pass of Shadow and Main in `Sample.shadowMain`: the dependencies
go from outside into subpass 0, from subpass 0 into subpass 1, and from subpass 1 to
outside. -/
theorem pass_dependencies_distinct_forward_witness :
    ∃ details,
      constructRenderPassDetails 5 Sample.shadowMain
        ⟨[Sample.shadow, Sample.main], [], [], [], []⟩
        [VkImageLayout.UNDEFINED, VkImageLayout.UNDEFINED]
        (frameBufferDefinitionLoop
          [⟨"shadowmap", Sample.depthType⟩, ⟨"color", Sample.surfaceType⟩] [] []).2
        [⟨"shadowmap", Sample.depthType⟩, ⟨"color", Sample.surfaceType⟩]
        [("shadowmap", 0), ("color", 1)] = .ok details ∧
      details.renderPass.dependencies.map (fun d => (d.srcSubpass, d.dstSubpass)) =
        [(0, 1), (VK_SUBPASS_EXTERNAL, 0), (1, VK_SUBPASS_EXTERNAL)] ∧
      (details.renderPass.dependencies.map (fun d => (d.srcSubpass, d.dstSubpass))).Nodup ∧
      ∀ d ∈ details.renderPass.dependencies,
        d.srcSubpass ≠ VK_SUBPASS_EXTERNAL → d.dstSubpass ≠ VK_SUBPASS_EXTERNAL →
        d.srcSubpass < d.dstSubpass :=
  ⟨_, rfl, by decide, pass_dependencies_distinct_forward 5 Sample.shadowMain
    ⟨[Sample.shadow, Sample.main], [], [], [], []⟩
    [VkImageLayout.UNDEFINED, VkImageLayout.UNDEFINED]
    (frameBufferDefinitionLoop
      [⟨"shadowmap", Sample.depthType⟩, ⟨"color", Sample.surfaceType⟩] [] []).2
    [⟨"shadowmap", Sample.depthType⟩, ⟨"color", Sample.surfaceType⟩]
    [("shadowmap", 0), ("color", 1)] _ (by decide) rfl⟩

/-! ### Sides of the mask functions -/

/-- The source stage mask that `getPipelineStageMasks` gives does not depend on the
consuming transition. -/
theorem getPipelineStageMasks_source (generating c1 c2 : ResourceTransition)
    (masks : Nat × Nat) :
    (getPipelineStageMasks generating c1 masks).1 =
      (getPipelineStageMasks generating c2 masks).1 := by
  have h : ∀ c : ResourceTransition, (getPipelineStageMasks generating c masks).1 =
      (getPipelineStageMasks generating
        { c with transitionType := rttBufferOutput } masks).1 := by
    intro c
    simp only [getPipelineStageMasks]
    split
    · split <;> rfl
    · rfl
    · rfl
  rw [h c1, h c2]
  simp only [getPipelineStageMasks]

/-- The access masks that `getAccessMasks` gives: the source mask does not depend on the
consuming transition, and from zeroed masks the destination mask does not depend on the
generating transition. -/
theorem getAccessMasks_sides (g1 g2 c1 c2 : ResourceTransition) (masks : Nat × Nat) :
    (getAccessMasks g1 c1 masks).1 = (getAccessMasks g1 c2 masks).1 ∧
    (getAccessMasks g1 c1 masks).2 = (getAccessMasks g2 c1 masks).2 := by
  constructor
  · have h : ∀ c : ResourceTransition, (getAccessMasks g1 c masks).1 =
        (getAccessMasks g1 { c with transitionType := rttBufferOutput } masks).1 := by
      intro c
      simp only [getAccessMasks]
      split
      · split <;> rfl
      · rfl
      · rfl
    rw [h c1, h c2]
    simp only [getAccessMasks]
  · have h : ∀ g : ResourceTransition, (getAccessMasks g c1 masks).2 =
        (getAccessMasks { g with transitionType := rttBufferInput } c1 masks).2 := by
      intro g
      simp only [getAccessMasks]
      cases g.transitionType <;> cases g.layout <;> (split <;> (try split) <;> rfl)
    rw [h g1, h g2]
    simp only [getAccessMasks]

/-- Claim C37 against the code. From zeroed masks the source stage mask and the source
access mask do not depend on the consuming transition, and the destination access mask does
not depend on the generating transition. The destination stage mask does: a generating
attachment transition of layout `DEPTH_STENCIL_READ_ONLY_OPTIMAL` writes the two fragment
test stages to the destination stage mask, and a consuming attachment input of a layout
outside the table, such as `GENERAL`, leaves them there; with the generating layout
`DEPTH_STENCIL_ATTACHMENT_OPTIMAL` and the same consuming transition the destination stage
mask stays zero. The last part is the case of a depth output of Shadow and an attachment
input of Main on `shadowmap`. -/
theorem destination_stage_from_generating :
    (∀ generating c1 c2 : ResourceTransition,
      (getPipelineStageMasks generating c1 (0, 0)).1 =
        (getPipelineStageMasks generating c2 (0, 0)).1) ∧
    (∀ generating c1 c2 : ResourceTransition,
      (getAccessMasks generating c1 (0, 0)).1 = (getAccessMasks generating c2 (0, 0)).1) ∧
    (∀ g1 g2 consuming : ResourceTransition,
      (getAccessMasks g1 consuming (0, 0)).2 = (getAccessMasks g2 consuming (0, 0)).2) ∧
    (∀ (generating consuming : ResourceTransition) (masks : Nat × Nat),
      (getPipelineStageMasks
        { generating with transitionType := rttAttachmentDepthOutput,
                          layout := .DEPTH_STENCIL_READ_ONLY_OPTIMAL }
        { consuming with transitionType := rttAttachmentInput,
                         layout := .GENERAL } masks).2 = fragmentTests) ∧
    (∀ (generating consuming : ResourceTransition) (masks : Nat × Nat),
      (getPipelineStageMasks
        { generating with transitionType := rttAttachmentDepthOutput,
                          layout := .DEPTH_STENCIL_ATTACHMENT_OPTIMAL }
        { consuming with transitionType := rttAttachmentInput,
                         layout := .GENERAL } masks).2 = masks.2) ∧
    (getPipelineStageMasks
        (ResourceTransition.mkAttachment Sample.shadow ⟨"shadowmap", Sample.depthType⟩
          rttAttachmentDepthOutput .DEPTH_STENCIL_READ_ONLY_OPTIMAL loadOpLoad)
        (ResourceTransition.mkAttachment Sample.main ⟨"shadowmap", Sample.depthType⟩
          rttAttachmentInput .GENERAL loadOpLoad) (0, 0)).2 = 768 ∧
    (getPipelineStageMasks
        (ResourceTransition.mkAttachment Sample.shadow ⟨"shadowmap", Sample.depthType⟩
          rttAttachmentDepthOutput .DEPTH_STENCIL_ATTACHMENT_OPTIMAL loadOpLoad)
        (ResourceTransition.mkAttachment Sample.main ⟨"shadowmap", Sample.depthType⟩
          rttAttachmentInput .GENERAL loadOpLoad) (0, 0)).2 = 0 := by
  refine ⟨fun g c1 c2 => getPipelineStageMasks_source g c1 c2 _,
    fun g c1 c2 => (getAccessMasks_sides g g c1 c2 _).1,
    fun g1 g2 c => (getAccessMasks_sides g1 g2 c c _).2, ?_, ?_, by decide, by decide⟩
  · intro generating consuming masks
    simp only [getPipelineStageMasks]
  · intro generating consuming masks
    simp only [getPipelineStageMasks]

/-! ### Declaration calls that fail -/

/-- What a declaration call that throws leaves behind: the workflow as it was, or, when the
exception is the one for a resolve source that does not exist and the resource named was not
there, the workflow with that resource added to the resource map. -/
theorem Declaration.apply_error (d : Declaration) (self : RenderWorkflow) (e : WorkflowError)
    (h : (d.apply self).1 = .error e) :
    (d.apply self).2 = self ∨
    (e = .nonexistingResolveResource ∧ ∃ tp source,
      self.resourceTypes.lookup d.resourceType = some tp ∧
      d.resourceSource = some source ∧
      self.resources.lookup d.resourceName = none ∧
      (d.apply self).2 = { self with
        resources := self.resources ++ [(d.resourceName, ⟨d.resourceName, tp⟩)] }) := by
  cases hop : self.renderOperations.lookup d.opName with
  | none =>
    left
    rw [Declaration.apply_noOperation d self hop]
  | some op =>
    cases hty : self.resourceTypes.lookup d.resourceType with
    | none =>
      left
      rw [Declaration.apply_noResourceType d self op hop hty]
    | some tp =>
      rcases Declaration.apply_found d self op tp hop hty with
        ⟨e1, he1, he⟩ | ⟨res, hres, ⟨s, hs, _, he⟩ | ⟨t, _, _, _, _, he⟩⟩
      · left
        rw [he]
        rcases findOrInsertResource_cases self tp d.resourceName with
          ⟨_, hf⟩ | ⟨_, _, _, hf⟩ | ⟨_, _, _, hf⟩
        · rw [hf] at he1
          cases he1
        · rw [hf] at he1
          cases he1
        · rw [hf]
      · rw [he] at h ⊢
        simp only [Except.error.injEq] at h
        rcases findOrInsertResource_cases self tp d.resourceName with
          ⟨hnone, hf⟩ | ⟨_, _, _, hf⟩ | ⟨_, _, _, hf⟩
        · right
          exact ⟨h.symm, tp, s, rfl, hs, hnone, by rw [hf]⟩
        · left
          rw [hf]
        · left
          rw [hf]
      · rw [he] at h
        cases h

/-- Claim C39 against the code. A declaration call that throws leaves the transitions and
the `valid` flag as they were, and it leaves the whole workflow as it was when the operation
or the resource type is unknown, when the type does not match, and when the resource named
already exists. But `addAttachmentResolveOutput` inserts a resource that is new before it
looks for the resolve source: in `Sample.registered`, where no resource exists, the call for
the new resource `resolved` with the unknown resolve source `multisampled` throws and
leaves `resolved` in the resource map. -/
theorem failed_resolve_output_inserts :
    (∀ (d : Declaration) (self : RenderWorkflow) (e : WorkflowError),
      (d.apply self).1 = .error e →
      (d.apply self).2.transitions = self.transitions ∧
      (d.apply self).2.valid = self.valid ∧
      (e ≠ .nonexistingResolveResource → (d.apply self).2 = self) ∧
      ((self.resources.lookup d.resourceName).isSome = true → (d.apply self).2 = self) ∧
      ((d.apply self).2.resources = self.resources ∨
        ∃ tp, self.resourceTypes.lookup d.resourceType = some tp ∧
          (d.apply self).2.resources =
            self.resources ++ [(d.resourceName, ⟨d.resourceName, tp⟩)])) ∧
    Sample.registered.resources = [] ∧
    Sample.registered.renderOperations.lookup "Main" = some Sample.main ∧
    Sample.registered.resourceTypes.lookup "surface" = some Sample.surfaceType ∧
    Sample.registered.addAttachmentResolveOutput "Main" "surface" "resolved" "multisampled"
        .COLOR_ATTACHMENT_OPTIMAL loadOpLoad =
      (.error .nonexistingResolveResource,
        { Sample.registered with
          resources := [("resolved", ⟨"resolved", Sample.surfaceType⟩)] }) := by
  refine ⟨?_, by decide, by decide, by decide, by decide⟩
  intro d self e h
  rcases Declaration.apply_error d self e h with hsame | ⟨he, tp, source, hty, _, hnone, hw⟩
  · rw [hsame]
    exact ⟨rfl, rfl, fun _ => rfl, fun _ => rfl, Or.inl rfl⟩
  · rw [hw]
    refine ⟨rfl, rfl, fun hne => absurd he hne, ?_, Or.inr ⟨tp, hty, rfl⟩⟩
    intro hsome
    rw [hnone] at hsome
    cases hsome

/-! ### Slots for all resources that are written -/

/-- The slot step of `collectResources` for one output transition: the resource of the
transition has a slot afterwards, names that had a slot keep one, and the other locals are
as they were, the resource being marked generated. -/
theorem slotStep_spec (workflow : RenderWorkflow) (t : ResourceTransition)
    (s s2 : CollectState)
    (h : (if (s.resourceIndex.lookup t.resource.name).isNone then
            assignSlot workflow t.resource { s with
              resourcesGenerated := mapAssign t.resource.name true s.resourcesGenerated }
          else .ok { s with
              resourcesGenerated := mapAssign t.resource.name true s.resourcesGenerated })
          = Except.ok s2) :
    (s2.resourceIndex.lookup t.resource.name).isSome = true ∧
    (∀ n, (s.resourceIndex.lookup n).isSome = true → (s2.resourceIndex.lookup n).isSome = true) ∧
    s2.nextOperations = s.nextOperations ∧ s2.sortedOperations = s.sortedOperations ∧
    s2.resourcesGenerated = mapAssign t.resource.name true s.resourcesGenerated := by
  cases hlook : s.resourceIndex.lookup t.resource.name with
  | some i =>
    simp only [hlook, Option.isNone_some, Bool.false_eq_true, if_false, Except.ok.injEq] at h
    subst h
    exact ⟨by simp [hlook], fun n hn => hn, rfl, rfl, rfl⟩
  | none =>
    simp only [hlook, Option.isNone_none, if_true] at h
    have key : ∀ v : Nat,
        ((mapInsert t.resource.name v s.resourceIndex).lookup t.resource.name).isSome = true ∧
        ∀ n, (s.resourceIndex.lookup n).isSome = true →
          ((mapInsert t.resource.name v s.resourceIndex).lookup n).isSome = true := by
      intro v
      refine ⟨by rw [lookup_mapInsert_new _ _ _ _ hlook]; simp, ?_⟩
      intro n hn
      obtain ⟨w, hw⟩ := Option.isSome_iff_exists.mp hn
      rw [lookup_mapInsert_old _ _ _ _ w hw]
      rfl
    rcases assignSlot_cases workflow t.resource _ s2 h with ⟨_, res, _, _, rfl⟩ | rfl
    · exact ⟨(key res.2).1, (key res.2).2, rfl, rfl, rfl⟩
    · exact ⟨(key _).1, (key _).2, rfl, rfl, rfl⟩

/-- The loop of `collectResources` over the outputs of an operation, when it returns: the
resource of every transition of the loop has a slot, names that had a slot keep one, the
operations of all input transitions on these resources are on `nextOperations`, what was on
it stays, what is new on it are operations of transitions, and `sortedOperations` is as it
was. -/
theorem collectOutputs_slots (workflow : RenderWorkflow) (hwf : WellFormed workflow)
    (ts : List ResourceTransition) (hts : ∀ t ∈ ts, t ∈ workflow.transitions) :
    ∀ s s1 : CollectState, collectOutputs workflow ts s = .ok s1 →
      s1.sortedOperations = s.sortedOperations ∧
      (∀ n, (s.resourceIndex.lookup n).isSome = true →
        (s1.resourceIndex.lookup n).isSome = true) ∧
      (∀ t ∈ ts, (s1.resourceIndex.lookup t.resource.name).isSome = true) ∧
      (∀ p ∈ s.nextOperations, p ∈ s1.nextOperations) ∧
      (∀ t ∈ ts, ∀ c ∈ workflow.transitions, c.resource.name = t.resource.name →
        c.transitionType.isInput = true → c.operation ∈ s1.nextOperations) ∧
      (∀ p ∈ s1.nextOperations, p ∈ s.nextOperations ∨
        ∃ c ∈ workflow.transitions, c.operation = p) := by
  induction ts with
  | nil =>
    intro s s1 h
    unfold collectOutputs at h
    cases h
    exact ⟨rfl, fun n hn => hn, by simp, fun p hp => hp, by simp, fun p hp => Or.inl hp⟩
  | cons t rest ih =>
    intro s s1 h
    have htm := hts t (List.mem_cons_self _ _)
    unfold collectOutputs at h
    simp only at h
    split at h
    · cases h
    · rename_i s2 hs2
      obtain ⟨hslot, hmono, hnext2, hsorted2, hgen2⟩ := slotStep_spec workflow t s s2 hs2
      have hpush := pushConsumers_eq workflow hwf s2.resourcesGenerated
        (workflow.transitions.filter
          (fun c => c.resource.name == t.resource.name && c.transitionType.inFlags rttAllInputs))
        (fun c hc => by
          have hcn := (List.mem_filter.mp hc).2
          simp only [Bool.and_eq_true, beq_iff_eq] at hcn
          refine ⟨(List.mem_filter.mp hc).1, ?_⟩
          rw [hgen2, hcn.1]
          exact lookup_mapAssign_self _ _ _)
        s2.nextOperations
      simp only [getResourceIO_of_transition workflow hwf t htm, hpush] at h
      obtain ⟨i1, i2, i3, i4, i5, i6⟩ :=
        ih (fun x hx => hts x (List.mem_cons_of_mem _ hx)) _ s1 h
      simp only at i1 i2 i4 i6
      refine ⟨i1.trans hsorted2, fun n hn => i2 n (hmono n hn), ?_, ?_, ?_, ?_⟩
      · intro x hx
        rcases List.mem_cons.mp hx with rfl | hx
        · exact i2 _ hslot
        · exact i3 x hx
      · intro p hp
        apply i4
        rw [hnext2]
        exact List.mem_append_left _ hp
      · intro x hx c hc hcn hck
        rcases List.mem_cons.mp hx with rfl | hx
        · apply i4
          apply List.mem_append_right
          apply List.mem_map.mpr
          refine ⟨c, List.mem_filter.mpr ⟨hc, ?_⟩, rfl⟩
          simp only [Bool.and_eq_true, beq_iff_eq, inFlags_rttAllInputs]
          exact ⟨hcn, hck⟩
        · exact i5 x hx c hc hcn hck
      · intro p hp
        rcases i6 p hp with h1 | h1
        · rcases List.mem_append.mp h1 with h2 | h2
          · left; rw [← hnext2]; exact h2
          · right
            obtain ⟨c, hc, rfl⟩ := List.mem_map.mp h2
            exact ⟨c, (List.mem_filter.mp hc).1, rfl⟩
        · exact Or.inr h1

/-- The `while` loop of `collectResources`, when it returns, in a workflow with well formed
containers whose transitions point to registered operations: `nextOperations` is empty, every
operation that was sorted or waiting is sorted, the outputs of the sorted operations have
slots, and the operations that depend on a sorted operation are sorted. -/
theorem collectLoop_closure (workflow : RenderWorkflow) (hwf : WellFormed workflow)
    (hops : OperationsStored workflow) (rounds : Nat) :
    ∀ s s1 : CollectState, collectLoop workflow rounds s = .ok s1 →
      (∀ op ∈ s.nextOperations, workflow.renderOperations.lookup op.name = some op) →
      (∀ op ∈ s.sortedOperations, ∀ t ∈ workflow.transitions, t.operation.addr = op.addr →
        t.transitionType.isOutput = true →
        (s.resourceIndex.lookup t.resource.name).isSome = true) →
      (∀ op ∈ s.sortedOperations, ∀ b, dependsOn workflow op.addr b →
        b ∈ (s.sortedOperations ++ s.nextOperations).map (fun y => y.addr)) →
      s1.nextOperations = [] ∧
      (∀ op ∈ s.sortedOperations ++ s.nextOperations, op ∈ s1.sortedOperations) ∧
      (∀ op ∈ s1.sortedOperations, ∀ t ∈ workflow.transitions, t.operation.addr = op.addr →
        t.transitionType.isOutput = true →
        (s1.resourceIndex.lookup t.resource.name).isSome = true) ∧
      (∀ op ∈ s1.sortedOperations, ∀ b, dependsOn workflow op.addr b →
        b ∈ s1.sortedOperations.map (fun y => y.addr)) := by
  have hend : ∀ s : CollectState, s.nextOperations = [] →
      (∀ op ∈ s.sortedOperations, ∀ t ∈ workflow.transitions, t.operation.addr = op.addr →
        t.transitionType.isOutput = true →
        (s.resourceIndex.lookup t.resource.name).isSome = true) →
      (∀ op ∈ s.sortedOperations, ∀ b, dependsOn workflow op.addr b →
        b ∈ (s.sortedOperations ++ s.nextOperations).map (fun y => y.addr)) →
      s.nextOperations = [] ∧
      (∀ op ∈ s.sortedOperations ++ s.nextOperations, op ∈ s.sortedOperations) ∧
      (∀ op ∈ s.sortedOperations, ∀ t ∈ workflow.transitions, t.operation.addr = op.addr →
        t.transitionType.isOutput = true →
        (s.resourceIndex.lookup t.resource.name).isSome = true) ∧
      (∀ op ∈ s.sortedOperations, ∀ b, dependsOn workflow op.addr b →
        b ∈ s.sortedOperations.map (fun y => y.addr)) := by
    intro s hn h1 h2
    refine ⟨hn, ?_, h1, ?_⟩
    · intro op hop
      rw [hn, List.append_nil] at hop
      exact hop
    · intro op hop b hb
      have := h2 op hop b hb
      rw [hn, List.append_nil] at this
      exact this
  induction rounds with
  | zero =>
    intro s s1 h hQ h1 h2
    unfold collectLoop at h
    obtain hn | ⟨op, more, hn⟩ : s.nextOperations = [] ∨
        ∃ op more, s.nextOperations = op :: more := by
      cases s.nextOperations <;> simp
    · simp only [hn, Except.ok.injEq] at h; subst h; exact hend s hn h1 h2
    · simp [hn] at h
  | succ rounds ih =>
    intro s s1 h hQ h1 h2
    unfold collectLoop at h
    obtain hn | ⟨op, more, hn⟩ : s.nextOperations = [] ∨
        ∃ op more, s.nextOperations = op :: more := by
      cases s.nextOperations <;> simp
    · simp only [hn, Except.ok.injEq] at h; subst h; exact hend s hn h1 h2
    · rw [hn] at hQ h2 ⊢
      have hop := hQ op (List.mem_cons_self _ _)
      have hout := getOperationIO_eq workflow op.name op rttAllOutputs hop
      have hin := getOperationIO_eq workflow op.name op rttAllInputs hop
      simp only [hn, hout, hin] at h
      cases hco : collectOutputs workflow (workflow.transitions.filter
          (fun c => c.operation.addr == op.addr && c.transitionType.inFlags rttAllOutputs))
          { s with nextOperations := more,
                   sortedOperations := s.sortedOperations ++ [op] } with
      | error e => simp [hco] at h
      | ok s2 =>
        simp only [hco] at h
        obtain ⟨c1, c2, c3, c4, c5, c6⟩ := collectOutputs_slots workflow hwf _
          (fun t ht => (List.mem_filter.mp ht).1) _ s2 hco
        simp only at c1 c2 c4 c6
        obtain ⟨r1, r2, r3, r4⟩ := ih _ s1 h
          (by
            intro p hp
            rcases c6 p hp with hp | ⟨c, hc, rfl⟩
            · exact hQ p (List.mem_cons_of_mem _ hp)
            · exact hops.transitions c hc)
          (by
            intro x hx t ht hta htk
            simp only [c1] at hx
            rcases List.mem_append.mp hx with hx | hx
            · exact c2 _ (h1 x hx t ht hta htk)
            · simp only [List.mem_singleton] at hx
              subst hx
              apply c3 t
              apply List.mem_filter.mpr
              refine ⟨ht, ?_⟩
              simp only [Bool.and_eq_true, beq_iff_eq, inFlags_rttAllOutputs]
              exact ⟨hta, htk⟩)
          (by
            intro x hx b hb
            simp only [c1] at hx ⊢
            rw [List.map_append, List.mem_append]
            rcases List.mem_append.mp hx with hx | hx
            · have hb2 := h2 x hx b hb
              rw [List.map_append, List.mem_append] at hb2
              rcases hb2 with hb2 | hb2
              · left
                rw [List.map_append]
                exact List.mem_append_left _ hb2
              · obtain ⟨y, hy, hya⟩ := List.mem_map.mp hb2
                rcases List.mem_cons.mp hy with rfl | hy
                · left
                  rw [List.map_append]
                  exact List.mem_append_right _ (by simp [hya])
                · right
                  exact List.mem_map.mpr ⟨y, c4 y hy, hya⟩
            · simp only [List.mem_singleton] at hx
              subst hx
              right
              obtain ⟨t1, h1m, t2, h2m, h1a, h2a, h1k, h2k, hname⟩ := hb
              have ht1 : t1 ∈ workflow.transitions.filter
                  (fun c => c.operation.addr == x.addr &&
                    c.transitionType.inFlags rttAllOutputs) := by
                apply List.mem_filter.mpr
                refine ⟨h1m, ?_⟩
                simp only [Bool.and_eq_true, beq_iff_eq, inFlags_rttAllOutputs]
                exact ⟨h1a, h1k⟩
              exact List.mem_map.mpr ⟨t2.operation, c5 t1 ht1 t2 h2m hname.symm h2k, h2a⟩)
        refine ⟨r1, ?_, r3, r4⟩
        intro x hx
        apply r2
        simp only [c1]
        rcases List.mem_append.mp hx with hx | hx
        · exact List.mem_append_left _ (List.mem_append_left _ hx)
        · rcases List.mem_cons.mp hx with rfl | hx
          · exact List.mem_append_left _ (by simp)
          · exact List.mem_append_right _ (c4 x hx)

/-- The first loop of `collectResources`, when it returns: nothing is sorted by it, what was
on `nextOperations` stays, and every operation of the loop that depends on no operation is
put on `nextOperations`. -/
theorem collectInitial_sources (workflow : RenderWorkflow) (hwf : WellFormed workflow)
    (ops : List (String × RenderOperation)) :
    (∀ e ∈ ops, e ∈ workflow.renderOperations) →
    ∀ s s0 : CollectState, collectInitial workflow ops s = .ok s0 →
      s0.sortedOperations = s.sortedOperations ∧
      (∀ p ∈ s.nextOperations, p ∈ s0.nextOperations) ∧
      ∀ e ∈ ops, (∀ a, ¬ dependsOn workflow a e.2.addr) → e.2 ∈ s0.nextOperations := by
  induction ops with
  | nil =>
    intro _ s s0 h
    simp only [collectInitial, Except.ok.injEq] at h
    subst h
    exact ⟨rfl, fun p hp => hp, by simp⟩
  | cons e rest ih =>
    intro hops s s0 h
    have hrest := fun x hx => hops x (List.mem_cons_of_mem _ hx)
    have hlook := lookup_of_mem_nodup _ e.1 e.2 hwf.operationKeys (hops e (List.mem_cons_self _ _))
    obtain ⟨⟨prev, hprev, hprevmem⟩, _⟩ := neighbours_spec workflow hwf e.1 e.2 hlook
    have hin := getOperationIO_eq workflow e.1 e.2 rttAllInputs hlook
    have hout := getOperationIO_eq workflow e.1 e.2 rttAllOutputs hlook
    unfold collectInitial at h
    simp only [hprev, hin, hout] at h
    cases hemp : prev.isEmpty with
    | true =>
      simp only [hemp, if_true] at h
      obtain ⟨i1, i2, i3⟩ := ih hrest _ s0 h
      simp only at i1 i2
      refine ⟨i1, fun p hp => i2 p (List.mem_append_left _ hp), ?_⟩
      intro x hx hsrc
      rcases List.mem_cons.mp hx with rfl | hx
      · exact i2 _ (List.mem_append_right _ (List.mem_singleton_self _))
      · exact i3 x hx hsrc
    | false =>
      simp only [hemp, Bool.false_eq_true, if_false] at h
      obtain ⟨i1, i2, i3⟩ := ih hrest _ s0 h
      simp only at i1 i2
      refine ⟨i1, i2, ?_⟩
      intro x hx hsrc
      rcases List.mem_cons.mp hx with rfl | hx
      · exfalso
        cases prev with
        | nil => simp at hemp
        | cons p ps =>
          exact hsrc p.addr ((hprevmem p.addr).mp (by simp))
      · exact i3 x hx hsrc

/-- In an acyclic workflow the relation of an operation to the operations that depend on it
is well founded. -/
theorem producers_wellFounded (workflow : RenderWorkflow) (hacyc : Acyclic workflow) :
    WellFounded (fun a b => dependsOn workflow a b) := by
  classical
  let reach : Addr → Nat := fun a =>
    (workflow.transitions.map (fun t => t.operation.addr)).countP
      (fun c => decide (Relation.TransGen (dependsOn workflow) c a))
  refine Subrelation.wf ?_ (InvImage.wf reach Nat.lt_wfRel.wf)
  intro a b hab
  show reach a < reach b
  apply countP_lt_of_imp
  · intro c _ hc
    simp only [decide_eq_true_eq] at hc ⊢
    exact Relation.TransGen.tail hc hab
  · obtain ⟨t1, h1m, t2, h2m, ha, hb, h1k, h2k, hn⟩ := hab
    refine ⟨a, List.mem_map.mpr ⟨t1, h1m, ha⟩, ?_, ?_⟩
    · simp only [decide_eq_true_eq]
      exact Relation.TransGen.single ⟨t1, h1m, t2, h2m, ha, hb, h1k, h2k, hn⟩
    · simp only [decide_eq_false_iff_not]
      exact hacyc a

/-- Claim C33 (amended). In a workflow with well formed containers that is acyclic and
whose transitions point to the operations registered under their names, the `while` loop of
`collectResources` ends: some number of rounds is enough for `collectResources` to return.
And whenever it returns, `nextOperations` is empty, every registered operation was sorted,
and the resource of every transition of output kind has an entry in the slot map. -/
theorem collectResources_slots_for_outputs (workflow : RenderWorkflow)
    (hwf : WellFormed workflow) (hops : OperationsStored workflow)
    (hacyc : Acyclic workflow) :
    (∃ rounds s, collectRun rounds workflow = .ok s ∧
      collectResources rounds workflow = .ok (s.resourceVector, s.resourceIndex)) ∧
    ∀ rounds s, collectRun rounds workflow = .ok s →
      s.nextOperations = [] ∧
      (∀ e ∈ workflow.renderOperations,
        e.2.addr ∈ s.sortedOperations.map (fun y => y.addr)) ∧
      ∀ t ∈ workflow.transitions, t.transitionType.isOutput = true →
        (s.resourceIndex.lookup t.resource.name).isSome = true := by
  constructor
  · obtain ⟨rounds, s, hs⟩ := collectRun_total workflow hwf hops hacyc
    exact ⟨rounds, s, hs, by simp only [collectResources, hs]⟩
  · intro rounds s h
    unfold collectRun at h
    cases hinit : collectInitial workflow workflow.renderOperations ⟨[], [], [], [], [], []⟩ with
    | error e => simp [hinit] at h
    | ok s0 =>
      simp only [hinit] at h
      obtain ⟨s0', hs0', hq, _⟩ := collectInitial_total workflow hwf workflow.renderOperations
        (fun e he => he) ⟨[], [], [], [], [], []⟩ (by simp)
      rw [hinit] at hs0'
      cases hs0'
      obtain ⟨hsorted0, _, hsrc⟩ := collectInitial_sources workflow hwf
        workflow.renderOperations (fun e he => he) _ s0 hinit
      cases hmark : markInitialDone workflow s0.nextOperations s0.resourcesGenerated
          s0.resourcesDone with
      | error e => simp [hmark] at h
      | ok resourcesDone =>
        simp only [hmark] at h
        obtain ⟨r1, r2, r3, r4⟩ := collectLoop_closure workflow hwf hops rounds
          { s0 with resourcesDone := resourcesDone } s h
          (by
            intro op hop
            rcases hq op hop with h | ⟨e, he, rfl⟩
            · simp at h
            · rw [hops.byName e he]
              exact lookup_of_mem_nodup _ e.1 e.2 hwf.operationKeys he)
          (by
            intro op hop
            simp only [hsorted0] at hop
            simp at hop)
          (by
            intro op hop
            simp only [hsorted0] at hop
            simp at hop)
        simp only at r2
        have hall : ∀ a, (∃ e ∈ workflow.renderOperations, e.2.addr = a) →
            a ∈ s.sortedOperations.map (fun y => y.addr) := by
          intro a
          induction a using (producers_wellFounded workflow hacyc).induction with
          | h a ih =>
            rintro ⟨e, he, rfl⟩
            by_cases hsource : ∀ b, ¬ dependsOn workflow b e.2.addr
            · exact List.mem_map.mpr ⟨e.2,
                r2 e.2 (List.mem_append_right _ (hsrc e he hsource)), rfl⟩
            · simp only [not_forall, not_not] at hsource
              obtain ⟨b, hb⟩ := hsource
              have hbreg : ∃ e1 ∈ workflow.renderOperations, e1.2.addr = b := by
                obtain ⟨t1, h1m, _, _, h1a, _⟩ := hb
                exact ⟨(t1.operation.name, t1.operation),
                  mem_of_lookup _ _ _ (hops.transitions t1 h1m), h1a⟩
              obtain ⟨x, hx, hxa⟩ := List.mem_map.mp (ih b hb hbreg)
              exact r4 x hx e.2.addr (by rw [hxa]; exact hb)
        refine ⟨r1, ?_, ?_⟩
        · exact fun e he => hall e.2.addr ⟨e, he, rfl⟩
        · intro t ht hk
          have hreg : ∃ e ∈ workflow.renderOperations, e.2.addr = t.operation.addr :=
            ⟨(t.operation.name, t.operation),
              mem_of_lookup _ _ _ (hops.transitions t ht), rfl⟩
          obtain ⟨x, hx, hxa⟩ := List.mem_map.mp (hall _ hreg)
          exact r3 x hx t ht hxa.symm hk

set_option maxRecDepth 100000 in
/-- Claim C33 (amended) on `Sample.chain`: five rounds are enough, and the four resources
written have slots. -/
theorem collectResources_slots_for_outputs_witness :
    WellFormed Sample.chain ∧ OperationsStored Sample.chain ∧ Acyclic Sample.chain ∧
    collectResources 5 Sample.chain
      = .ok ([⟨"a", Sample.colorType⟩, ⟨"b", Sample.colorType⟩],
          [("a", 0), ("b", 1), ("c", 0), ("d", 1)]) ∧
    (∃ rounds s, collectRun rounds Sample.chain = .ok s ∧
      collectResources rounds Sample.chain = .ok (s.resourceVector, s.resourceIndex)) ∧
    ∀ rounds s, collectRun rounds Sample.chain = .ok s →
      s.nextOperations = [] ∧
      (∀ e ∈ Sample.chain.renderOperations,
        e.2.addr ∈ s.sortedOperations.map (fun y => y.addr)) ∧
      ∀ t ∈ Sample.chain.transitions, t.transitionType.isOutput = true →
        (s.resourceIndex.lookup t.resource.name).isSome = true :=
  have hwf : WellFormed Sample.chain := ⟨by decide, by decide, by decide, by decide⟩
  have hops : OperationsStored Sample.chain := ⟨by decide, by decide⟩
  have hacyc : Acyclic Sample.chain := acyclic_of_rank _ id (by decide)
  ⟨hwf, hops, hacyc, by decide,
    collectResources_slots_for_outputs Sample.chain hwf hops hacyc⟩

set_option maxRecDepth 100000 in
/-- Counterexample to claim C33 as stated. In `Sample.mainReplaced` the operation Main wrote
the surface `color`, and then another operation object was registered under the name Main.
The dependency graph is acyclic and the containers are well formed; the `while` loop of
`collectResources` ends after three rounds with an empty `nextOperations`, and more rounds
change nothing; `color` has a transition of output kind; and the slot map holds `shadowmap`
only. -/
theorem stale_output_without_slot :
    Acyclic Sample.mainReplaced ∧ WellFormed Sample.mainReplaced ∧
    (∃ t ∈ Sample.mainReplaced.transitions,
      t.transitionType.isOutput = true ∧ t.resource.name = "color" ∧
      t.operation = Sample.main) ∧
    Sample.mainReplaced.renderOperations.lookup "Main" = some Sample.mainAgain ∧
    (∃ s, collectRun 3 Sample.mainReplaced = .ok s ∧ s.nextOperations = [] ∧
      s.resourceIndex = [("shadowmap", 0)] ∧ s.resourceIndex.lookup "color" = none) ∧
    ∀ more, collectResources (3 + more) Sample.mainReplaced
      = .ok ([⟨"shadowmap", Sample.depthType⟩], [("shadowmap", 0)]) := by
  refine ⟨acyclic_of_rank _ id (by decide), ⟨by decide, by decide, by decide, by decide⟩,
    by decide, by decide, ⟨_, rfl, by decide, by decide, by decide⟩, ?_⟩
  intro more
  exact collectResources_mono Sample.mainReplaced 3 more _ (by decide)

/-! ### Layouts of attachments through the render passes -/

/-- The read `attachmentIndex[name]` gives the index of the name, and leaves the index of
every name as it was. -/
theorem mapIndex_spec (m : List (String × Nat)) (k : String) :
    (mapIndex m k).1 = attachmentIndexOf m k ∧
    ∀ n, attachmentIndexOf (mapIndex m k).2 n = attachmentIndexOf m n := by
  unfold mapIndex attachmentIndexOf
  cases h : m.lookup k with
  | some i => exact ⟨rfl, fun n => rfl⟩
  | none =>
    refine ⟨rfl, fun n => ?_⟩
    simp only [List.lookup_append]
    cases hn : m.lookup n with
    | some j => simp
    | none =>
      by_cases hk : n = k
      · subst hk; simp [List.lookup]
      · have hb : (n == k) = false := by simpa using hk
        simp [List.lookup, hb]

/-- The statements made for an attachment write the layout at the index of the resource and
nowhere else, and leave the index of every name as it was. -/
theorem touchAttachment_layout (resourceName : String) (layout : VkImageLayout)
    (load : LoadOp) (s s1 : PassState)
    (h : touchAttachment resourceName layout load s = .ok s1) :
    (∀ n, attachmentIndexOf s1.attachmentIndex n = attachmentIndexOf s.attachmentIndex n) ∧
    ∀ j, attachmentIndexOf s.attachmentIndex resourceName ≠ j →
      s1.lastLayout[j]? = s.lastLayout[j]? := by
  obtain ⟨hidx, hkeep⟩ := mapIndex_spec s.attachmentIndex resourceName
  unfold touchAttachment at h
  simp only at h
  cases h1 : vecModify s.lastLayout (mapIndex s.attachmentIndex resourceName).1
      (fun _ => layout) with
  | error e => simp [h1] at h
  | ok lastLayout =>
    simp only [h1] at h
    split at h
    · cases h
    · split at h
      · cases h
      · cases h
        refine ⟨hkeep, ?_⟩
        intro j hj
        simp only
        unfold vecModify at h1
        split at h1
        · simp only [Except.ok.injEq] at h1
          subst h1
          rw [hidx]
          exact List.getElem?_set_ne hj
        · cases h1

/-- The loop over the input transitions of an operation leaves the index of every name as it
was, and leaves the layout at every index that is not the index of an attachment of the
loop. -/
theorem consumeInputs_layout (workflow : RenderWorkflow) (i : Nat) :
    ∀ (ts : List ResourceTransition) (s s1 : PassState),
      consumeInputs workflow i ts s = .ok s1 →
      (∀ n, attachmentIndexOf s1.attachmentIndex n = attachmentIndexOf s.attachmentIndex n) ∧
      ∀ j, (∀ t ∈ ts, t.resource.resourceType.metaType = MetaType.Attachment →
          attachmentIndexOf s.attachmentIndex t.resource.name ≠ j) →
        s1.lastLayout[j]? = s.lastLayout[j]? := by
  intro ts
  induction ts with
  | nil =>
    intro s s1 h
    unfold consumeInputs at h
    cases h
    exact ⟨fun n => rfl, fun j _ => rfl⟩
  | cons t rest ih =>
    intro s s1 h
    unfold consumeInputs at h
    cases hg : workflow.getResourceIO t.resource.name rttAllOutputs with
    | error e => simp [hg] at h
    | ok gens =>
      cases hlast : (gens.filter (fun gen => gen.resource.name == t.resource.name)).getLast? with
      | none => simp [hg, hlast] at h
      | some generating =>
        simp only [hg, hlast] at h
        split at h
        · cases h
        · rename_i s2 heq
          have hs2 : (∀ n, attachmentIndexOf s2.attachmentIndex n =
                attachmentIndexOf s.attachmentIndex n) ∧
              ∀ j, (t.resource.resourceType.metaType = MetaType.Attachment →
                  attachmentIndexOf s.attachmentIndex t.resource.name ≠ j) →
                s2.lastLayout[j]? = s.lastLayout[j]? := by
            by_cases hatt : t.resource.resourceType.metaType = MetaType.Attachment
            · simp only [hatt, if_true] at heq
              obtain ⟨h1, h2⟩ := touchAttachment_layout _ _ _ _ _ heq
              exact ⟨h1, fun j hj => h2 j (hj hatt)⟩
            · simp only [hatt, if_false] at heq
              cases heq
              exact ⟨fun n => rfl, fun j _ => rfl⟩
          obtain ⟨hidx2, hlay2⟩ := hs2
          obtain ⟨i1, i2⟩ := ih s2 s1 h
          refine ⟨fun n => (i1 n).trans (hidx2 n), ?_⟩
          intro j hj
          rw [i2 j (fun x hx hm => by
            rw [hidx2]; exact hj x (List.mem_cons_of_mem _ hx) hm)]
          exact hlay2 j (hj t (List.mem_cons_self _ _))

/-- The loop over the output transitions of an operation leaves the index of every name as it
was, and leaves the layout at every index that is not the index of an attachment of the
loop. -/
theorem produceOutputs_layout (i : Nat) :
    ∀ (outs : List ResourceTransition) (s s1 : PassState),
      produceOutputs i outs s = .ok s1 →
      (∀ n, attachmentIndexOf s1.attachmentIndex n = attachmentIndexOf s.attachmentIndex n) ∧
      ∀ j, (∀ t ∈ outs, t.resource.resourceType.metaType = MetaType.Attachment →
          attachmentIndexOf s.attachmentIndex t.resource.name ≠ j) →
        s1.lastLayout[j]? = s.lastLayout[j]? := by
  intro outs
  induction outs with
  | nil =>
    intro s s1 h
    unfold produceOutputs at h
    cases h
    exact ⟨fun n => rfl, fun j _ => rfl⟩
  | cons t rest ih =>
    intro s s1 h
    unfold produceOutputs at h
    have hstep : ∀ s2 : PassState,
        (∀ n, attachmentIndexOf s2.attachmentIndex n =
          attachmentIndexOf s.attachmentIndex n) →
        (∀ j, (t.resource.resourceType.metaType = MetaType.Attachment →
            attachmentIndexOf s.attachmentIndex t.resource.name ≠ j) →
          s2.lastLayout[j]? = s.lastLayout[j]?) →
        produceOutputs i rest s2 = .ok s1 →
        (∀ n, attachmentIndexOf s1.attachmentIndex n =
          attachmentIndexOf s.attachmentIndex n) ∧
        ∀ j, (∀ x ∈ t :: rest, x.resource.resourceType.metaType = MetaType.Attachment →
            attachmentIndexOf s.attachmentIndex x.resource.name ≠ j) →
          s1.lastLayout[j]? = s.lastLayout[j]? := by
      intro s2 hidx2 hlay2 h2
      obtain ⟨i1, i2⟩ := ih s2 s1 h2
      refine ⟨fun n => (i1 n).trans (hidx2 n), ?_⟩
      intro j hj
      rw [i2 j (fun x hx hm => by
        rw [hidx2]; exact hj x (List.mem_cons_of_mem _ hx) hm)]
      exact hlay2 j (hj t (List.mem_cons_self _ _))
    simp only at h
    split at h
    · rename_i hmeta
      split at h
      · cases h
      · rename_i s2 heq
        obtain ⟨t1, t2⟩ := touchAttachment_layout _ _ _ _ _ heq
        split at h
        · exact hstep { s2 with renderPassOutputsSurface := true } t1
            (fun j hj => t2 j (hj hmeta)) h
        · exact hstep s2 t1 (fun j hj => t2 j (hj hmeta)) h
    · exact hstep { s with
        modifiedOutputs := mapAssign t.resource.name i s.modifiedOutputs }
        (fun n => rfl) (fun j _ => rfl) h

/-- The main loop of `constructRenderPassDetails` leaves the index of every name as it was,
and leaves the layout at every index that no transition of its operations touches. -/
theorem passLoop_layout (workflow : RenderWorkflow) :
    ∀ (ops : List RenderOperation) (i : Nat) (s s1 : PassState),
      passLoop workflow ops i s = .ok s1 →
      (∀ n, attachmentIndexOf s1.attachmentIndex n = attachmentIndexOf s.attachmentIndex n) ∧
      ∀ j, ¬ workflow.touches s.attachmentIndex ops j → s1.lastLayout[j]? = s.lastLayout[j]? := by
  intro ops
  induction ops with
  | nil =>
    intro i s s1 h
    unfold passLoop at h
    cases h
    exact ⟨fun n => rfl, fun j _ => rfl⟩
  | cons op rest ih =>
    intro i s s1 h
    unfold passLoop at h
    cases hsub : op.buildSubPassDefinition workflow s.attachmentIndex with
    | error e => simp [hsub] at h
    | ok subPassDefinition =>
      cases hin : workflow.getOperationIO op.name rttAllInputs with
      | error e => simp [hsub, hin] at h
      | ok ts =>
        cases hcons : consumeInputs workflow i ts
            { s with subpasses := s.subpasses ++ [subPassDefinition] } with
        | error e => simp [hsub, hin, hcons] at h
        | ok sa =>
          cases hout : workflow.getOperationIO op.name rttAllOutputs with
          | error e => simp [hsub, hin, hcons, hout] at h
          | ok outs =>
            cases hprod : produceOutputs i outs sa with
            | error e => simp [hsub, hin, hcons, hout, hprod] at h
            | ok sb =>
              simp only [hsub, hin, hcons, hout, hprod] at h
              obtain ⟨c1, c2⟩ := consumeInputs_layout workflow i ts _ sa hcons
              obtain ⟨p1, p2⟩ := produceOutputs_layout i outs sa sb hprod
              obtain ⟨i1, i2⟩ := ih (i + 1) sb s1 h
              simp only at c1 c2
              have hidx : ∀ n, attachmentIndexOf sb.attachmentIndex n =
                  attachmentIndexOf s.attachmentIndex n := fun n => (p1 n).trans (c1 n)
              refine ⟨fun n => (i1 n).trans (hidx n), ?_⟩
              intro j hj
              have hrest : ¬ workflow.touches sb.attachmentIndex rest j := by
                rintro ⟨x, hx, ts1, t, hts1, ht, hm, hi⟩
                exact hj ⟨x, List.mem_cons_of_mem _ hx, ts1, t, hts1, ht, hm,
                  by rw [← hidx]; exact hi⟩
              rw [i2 j hrest]
              rw [p2 j (fun t ht hm hi => hj ⟨op, List.mem_cons_self _ _, outs, t,
                Or.inr hout, ht, hm, by rw [← c1]; exact hi⟩)]
              exact c2 j (fun t ht hm hi => hj ⟨op, List.mem_cons_self _ _, ts, t,
                Or.inl hin, ht, hm, hi⟩)

/-- A read of a vector that returns gives the element at the index. -/
theorem vecGet_ok {α : Type} (v : List α) (i : Nat) (a : α) (h : vecGet v i = .ok a) :
    v[i]? = some a := by
  unfold vecGet at h
  split at h
  · rename_i b hb
    cases h
    rw [← hb, List.get?_eq_getElem?]
  · cases h

/-- The last loop of `constructRenderPassDetails`: every attachment definition has as
initial layout the layout of its index at the begin of the pass and as final layout the
last layout of its index; the index of every name stays as it was. -/
theorem passAttachments_layouts (used : List String) (firstLoadOp : List LoadOp)
    (beginLayout lastLayout : List VkImageLayout) :
    ∀ (resourceVector : List WorkflowResource) (attachmentIndex : List (String × Nat))
      (definitions : List AttachmentDefinition) (clearValues : List VkClearValue)
      (attachmentIndex1 : List (String × Nat)),
      passAttachments used firstLoadOp beginLayout lastLayout resourceVector attachmentIndex =
        .ok (definitions, clearValues, attachmentIndex1) →
      (∀ a ∈ definitions, beginLayout[a.imageDefinitionIndex]? = some a.initialLayout ∧
        lastLayout[a.imageDefinitionIndex]? = some a.finalLayout) ∧
      (∀ n, attachmentIndexOf attachmentIndex1 n = attachmentIndexOf attachmentIndex n) ∧
      definitions.map (fun a => a.imageDefinitionIndex) =
        (resourceVector.filter
          (fun res => res.resourceType.metaType == MetaType.Attachment)).map
          (fun res => attachmentIndexOf attachmentIndex res.name) := by
  intro resourceVector
  induction resourceVector with
  | nil =>
    intro attachmentIndex definitions clearValues attachmentIndex1 h
    simp only [passAttachments, Except.ok.injEq, Prod.mk.injEq] at h
    obtain ⟨rfl, _, rfl⟩ := h
    exact ⟨by simp, fun n => rfl, rfl⟩
  | cons res rest ih =>
    intro attachmentIndex definitions clearValues attachmentIndex1 h
    unfold passAttachments at h
    by_cases hmeta : res.resourceType.metaType = MetaType.Attachment
    · simp only [hmeta, ne_eq, not_true_eq_false, if_false] at h
      cases hkinds : attachmentKinds res.resourceType.attachment.attachmentType with
      | none => simp [hkinds] at h
      | some kinds =>
        obtain ⟨colorDepthAttachment, stencilAttachment⟩ := kinds
        simp only [hkinds] at h
        split at h
        · cases h
        · rename_i load hload
          split at h
          · cases h
          · rename_i initialLayout hinitial
            split at h
            · cases h
            · rename_i finalLayout hfinal
              split at h
              · cases h
              · rename_i definitions1 clearValues1 attachmentIndex2 hrest
                simp only [Except.ok.injEq, Prod.mk.injEq] at h
                obtain ⟨rfl, _, rfl⟩ := h
                obtain ⟨i1, i2, i3⟩ := ih _ _ _ _ hrest
                obtain ⟨hidx, hkeep⟩ := mapIndex_spec attachmentIndex res.name
                refine ⟨?_, fun n => (i2 n).trans (hkeep n), ?_⟩
                · intro a ha
                  rcases List.mem_cons.mp ha with rfl | ha
                  · exact ⟨vecGet_ok _ _ _ hinitial, vecGet_ok _ _ _ hfinal⟩
                  · exact i1 a ha
                · have hfilter : (res :: rest).filter
                      (fun res => res.resourceType.metaType == MetaType.Attachment) =
                      res :: rest.filter
                        (fun res => res.resourceType.metaType == MetaType.Attachment) := by
                    simp [List.filter_cons, hmeta]
                  rw [hfilter, List.map_cons, List.map_cons, i3, hidx]
                  simp only [hkeep]
    · simp only [hmeta, ne_eq, not_false_eq_true, if_true] at h
      have hfilter : (res :: rest).filter
          (fun res => res.resourceType.metaType == MetaType.Attachment) =
          rest.filter (fun res => res.resourceType.metaType == MetaType.Attachment) := by
        simp [List.filter_cons, hmeta]
      rw [hfilter]
      exact ih _ _ _ _ h

/-- What a call of `constructRenderPassDetails` that returns does with the layouts: every
attachment of the render pass has as initial layout the layout that its index had at the
call and as final layout the one it has after it, an index that no transition of the
operations of the pass touches keeps its layout, and the index of every name stays. -/
theorem constructRenderPassDetails_layouts (rounds : Nat) (workflow : RenderWorkflow)
    (renderPass : RenderPass) (lastLayout : List VkImageLayout)
    (frameBufferDefinitions : List FrameBufferImageDefinition)
    (resourceVector : List WorkflowResource) (attachmentIndex : List (String × Nat))
    (details : PassDetails)
    (hok : constructRenderPassDetails rounds workflow renderPass lastLayout
      frameBufferDefinitions resourceVector attachmentIndex = .ok details) :
    (∀ a ∈ details.renderPass.attachments,
      lastLayout[a.imageDefinitionIndex]? = some a.initialLayout ∧
      details.lastLayout[a.imageDefinitionIndex]? = some a.finalLayout) ∧
    (∀ i, ¬ workflow.touches attachmentIndex details.renderPass.renderOperations i →
      details.lastLayout[i]? = lastLayout[i]?) ∧
    (∀ n, attachmentIndexOf details.attachmentIndex n = attachmentIndexOf attachmentIndex n) ∧
    details.renderPass.attachments.map (fun a => a.imageDefinitionIndex) =
      (resourceVector.filter (fun res => res.resourceType.metaType == MetaType.Attachment)).map
        (fun res => attachmentIndexOf attachmentIndex res.name) := by
  obtain ⟨used, s, _, hs, hatt, _, _, hops, _⟩ := constructRenderPassDetails_ok rounds
    workflow renderPass lastLayout frameBufferDefinitions resourceVector attachmentIndex
    details hok
  have hlast : details.lastLayout = s.lastLayout := by
    unfold constructRenderPassDetails at hok
    simp only [hs] at hok
    split at hok
    · cases hok
    · split at hok
      · cases hok
      · cases hok
        rfl
  obtain ⟨l1, l2⟩ := passLoop_layout workflow _ 0 _ s hs
  obtain ⟨a1, a2, a3⟩ := passAttachments_layouts used s.firstLoadOp lastLayout s.lastLayout
    resourceVector s.attachmentIndex _ _ _ hatt
  simp only at l1 l2
  rw [hlast, hops]
  refine ⟨a1, l2, fun n => (a2 n).trans (l1 n), ?_⟩
  rw [a3]
  simp only [l1]

/-- Whether a transition touches an index depends on the indices of the names only. -/
theorem touches_congr (workflow : RenderWorkflow) (ai1 ai2 : List (String × Nat))
    (h : ∀ n, attachmentIndexOf ai1 n = attachmentIndexOf ai2 n)
    (operations : List RenderOperation) (i : Nat) :
    workflow.touches ai1 operations i ↔ workflow.touches ai2 operations i := by
  unfold RenderWorkflow.touches
  simp only [h]

/-- The loop of `compile` over the commands of one sequence, when it returns: the layouts
chain through the render passes it adds, from the layouts at the start to the layouts at the
end, and every render pass has one attachment for every attachment of the slot vector, with
the index of its name. -/
theorem commandDetailsLoop_chain (rounds : Nat) (workflow : RenderWorkflow)
    (resourceVector : List WorkflowResource) (sequenceIndex : Nat)
    (attachmentIndex : List (String × Nat)) :
    ∀ (commands : List RenderCommand) (s s1 : SequenceState),
      commandDetailsLoop rounds workflow resourceVector sequenceIndex commands s = .ok s1 →
      (∀ n, attachmentIndexOf s.attachmentIndex n = attachmentIndexOf attachmentIndex n) →
      ∃ passes, renderPassesOf s1.commands = renderPassesOf s.commands ++ passes ∧
        LayoutChain workflow attachmentIndex s.lastLayout passes s1.lastLayout ∧
        ∀ p ∈ passes, p.attachments.map (fun a => a.imageDefinitionIndex) =
          (resourceVector.filter
            (fun res => res.resourceType.metaType == MetaType.Attachment)).map
            (fun res => attachmentIndexOf attachmentIndex res.name) := by
  intro commands
  induction commands with
  | nil =>
    intro s s1 h _
    unfold commandDetailsLoop at h
    cases h
    exact ⟨[], by simp, rfl, by simp⟩
  | cons c rest ih =>
    intro s s1 h hidx
    cases c with
    | computePass p =>
      unfold commandDetailsLoop at h
      obtain ⟨passes, h1, h2, h3⟩ := ih _ s1 h hidx
      refine ⟨passes, ?_, h2, h3⟩
      rw [h1]
      simp [renderPassesOf, List.filterMap_append]
    | renderPass renderPass =>
      unfold commandDetailsLoop at h
      cases hd : constructRenderPassDetails rounds workflow renderPass s.lastLayout
          s.frameBufferDefinitions resourceVector s.attachmentIndex with
      | error e => simp [hd] at h
      | ok details =>
        simp only [hd] at h
        obtain ⟨d1, d2, d3, d4⟩ := constructRenderPassDetails_layouts rounds workflow
          renderPass s.lastLayout s.frameBufferDefinitions resourceVector s.attachmentIndex
          details hd
        obtain ⟨passes, h1, h2, h3⟩ := ih _ s1 h (fun n => (d3 n).trans (hidx n))
        simp only at h1 h2
        refine ⟨details.renderPass :: passes, ?_, ?_, ?_⟩
        · rw [h1]
          simp [renderPassesOf, List.filterMap_append]
        · refine ⟨details.lastLayout, d1, ?_, h2⟩
          intro i hi
          exact d2 i (fun ht => hi ((touches_congr workflow _ _ hidx _ i).mp ht))
        · intro p hp
          rcases List.mem_cons.mp hp with rfl | hp
          · rw [d4]
            simp only [hidx]
          · exact h3 p hp

/-- Neighbours in a chain of layouts: the initial layout of an attachment of the later pass
is the final layout of the attachment with the same index of the pass before it. -/
theorem layoutChain_neighbours (workflow : RenderWorkflow)
    (attachmentIndex : List (String × Nat)) :
    ∀ (passes : List RenderPass) (first last : List VkImageLayout),
      LayoutChain workflow attachmentIndex first passes last →
      (∀ p ∈ passes, ∀ a ∈ p.attachments,
        ¬ workflow.touches attachmentIndex p.renderOperations a.imageDefinitionIndex →
        a.finalLayout = a.initialLayout) ∧
      ∀ j p q, passes[j]? = some p → passes[j + 1]? = some q →
        ∀ a ∈ p.attachments, ∀ b ∈ q.attachments,
          a.imageDefinitionIndex = b.imageDefinitionIndex →
          b.initialLayout = a.finalLayout := by
  intro passes
  induction passes with
  | nil =>
    intro first last _
    exact ⟨by simp, by simp⟩
  | cons p rest ih =>
    intro first last h
    obtain ⟨next, hp, hkeep, hrest⟩ := h
    obtain ⟨i1, i2⟩ := ih next last hrest
    constructor
    · intro x hx a ha hun
      rcases List.mem_cons.mp hx with rfl | hx
      · have h1 := (hp a ha).1
        have h2 := (hp a ha).2
        rw [hkeep _ hun, h1] at h2
        exact (Option.some.inj h2).symm
      · exact i1 x hx a ha hun
    · intro j x y hx hy a ha b hb hab
      cases j with
      | zero =>
        simp only [List.getElem?_cons_zero, Option.some.injEq] at hx
        subst hx
        simp only [zero_add, List.getElem?_cons_succ] at hy
        cases rest with
        | nil => simp at hy
        | cons q more =>
          simp only [List.getElem?_cons_zero, Option.some.injEq] at hy
          subst hy
          obtain ⟨next2, hq, _, _⟩ := hrest
          have h1 := (hp a ha).2
          have h2 := (hq b hb).1
          rw [hab, h2] at h1
          exact Option.some.inj h1
      | succ k =>
        simp only [List.getElem?_cons_succ] at hx hy
        exact i2 k x y hx hy a ha b hb hab

/-- Claim C38. Whenever the part of `compile` that builds the output data returns, in every
command sequence it made: the attachments of the first render pass all have the initial
layout UNDEFINED; for two render passes of which one is the next render pass after the other,
an attachment of the later one has as initial layout the final layout of the attachment with
the same index of the earlier one; an attachment whose index no transition of the operations
of a pass touches has a final layout equal to its initial layout in that pass; and every
render pass has one attachment for every attachment of the slot vector, so that the same
indices occur in all of them. The index of a name is what `attachmentIndex[name]` gives with
the map built from the slot vector. -/
theorem attachment_layouts_chain (rounds : Nat)
    (costCalculator : StandardRenderWorkflowCostCalculator) (workflow : RenderWorkflow)
    (out : OutputData) (h : buildOutputData rounds costCalculator workflow = .ok out) :
    ∃ resourceVector resourceIndex,
      collectResources rounds workflow = .ok (resourceVector, resourceIndex) ∧
      ∀ commands ∈ out.commandSequences,
        (∀ p, (renderPassesOf commands).head? = some p →
          ∀ a ∈ p.attachments, a.initialLayout = VkImageLayout.UNDEFINED) ∧
        (∀ j p q, (renderPassesOf commands)[j]? = some p →
          (renderPassesOf commands)[j + 1]? = some q →
          ∀ a ∈ p.attachments, ∀ b ∈ q.attachments,
            a.imageDefinitionIndex = b.imageDefinitionIndex →
            b.initialLayout = a.finalLayout) ∧
        (∀ p ∈ renderPassesOf commands, ∀ a ∈ p.attachments,
          ¬ workflow.touches (frameBufferDefinitionLoop resourceVector [] []).1
            p.renderOperations a.imageDefinitionIndex →
          a.finalLayout = a.initialLayout) ∧
        ∀ p ∈ renderPassesOf commands,
          p.attachments.map (fun a => a.imageDefinitionIndex) =
            (resourceVector.filter
              (fun res => res.resourceType.metaType == MetaType.Attachment)).map
              (fun res => attachmentIndexOf
                (frameBufferDefinitionLoop resourceVector [] []).1 res.name) := by
  unfold buildOutputData at h
  cases hc : collectResources rounds workflow with
  | error e => simp [hc] at h
  | ok r =>
    obtain ⟨resourceVector, resourceIndex⟩ := r
    simp only [hc] at h
    refine ⟨resourceVector, resourceIndex, rfl, ?_⟩
    split at h
    · cases h
    · rename_i operationSequence _
      split at h
      · cases h
      · rename_i commandSequence _
        split at h
        · cases h
        · rename_i s hs
          cases h
          intro commands hcommands
          simp only [List.mem_singleton] at hcommands
          subst hcommands
          obtain ⟨passes, h1, h2, h3⟩ := commandDetailsLoop_chain rounds workflow
            resourceVector 0 (frameBufferDefinitionLoop resourceVector [] []).1
            commandSequence _ s hs (fun n => rfl)
          simp only [renderPassesOf, List.filterMap_nil, List.nil_append] at h1
          have hpasses : renderPassesOf s.commands = passes := h1
          rw [hpasses]
          obtain ⟨n1, n2⟩ := layoutChain_neighbours workflow _ passes _ _ h2
          refine ⟨?_, n2, n1, h3⟩
          intro p hp a ha
          cases passes with
          | nil => simp at hp
          | cons p0 more =>
            simp only [List.head?_cons, Option.some.injEq] at hp
            subst hp
            obtain ⟨next, hfirst, _, _⟩ := h2
            have hinit := (hfirst a ha).1
            rw [List.getElem?_replicate] at hinit
            split at hinit
            · exact (Option.some.inj hinit).symm
            · cases hinit

set_option maxRecDepth 100000 in
/-- Claim C38 on `Sample.laterOutput` with the tags that `tagOperationByAttachmentType`
gives: the render pass of A, the compute pass of Cull and the render pass of B. The
attachment a, with index 0, goes from UNDEFINED to COLOR_ATTACHMENT_OPTIMAL in the first
render pass and keeps that layout in the second; the attachment r, with index 1, keeps
UNDEFINED in the first and goes to COLOR_ATTACHMENT_OPTIMAL in the second. -/
theorem attachment_layouts_chain_witness :
    ∃ out, buildOutputData 5
        (Sample.compiler.costCalculator.tagOperationByAttachmentType Sample.laterOutput).2
        Sample.laterOutput = .ok out ∧
      out.commandSequences.map (fun commands => (renderPassesOf commands).map (fun p =>
        (p.renderOperations, p.attachments.map (fun a =>
          (a.imageDefinitionIndex, a.initialLayout, a.finalLayout))))) =
        [[([Sample.opA], [(0, VkImageLayout.UNDEFINED, VkImageLayout.COLOR_ATTACHMENT_OPTIMAL),
            (1, VkImageLayout.UNDEFINED, VkImageLayout.UNDEFINED)]),
          ([Sample.opB], [(0, VkImageLayout.COLOR_ATTACHMENT_OPTIMAL,
              VkImageLayout.COLOR_ATTACHMENT_OPTIMAL),
            (1, VkImageLayout.UNDEFINED, VkImageLayout.COLOR_ATTACHMENT_OPTIMAL)])]] ∧
      ∃ resourceVector resourceIndex,
        collectResources 5 Sample.laterOutput = .ok (resourceVector, resourceIndex) ∧
        ∀ commands ∈ out.commandSequences,
          (∀ p, (renderPassesOf commands).head? = some p →
            ∀ a ∈ p.attachments, a.initialLayout = VkImageLayout.UNDEFINED) ∧
          (∀ j p q, (renderPassesOf commands)[j]? = some p →
            (renderPassesOf commands)[j + 1]? = some q →
            ∀ a ∈ p.attachments, ∀ b ∈ q.attachments,
              a.imageDefinitionIndex = b.imageDefinitionIndex →
              b.initialLayout = a.finalLayout) ∧
          (∀ p ∈ renderPassesOf commands, ∀ a ∈ p.attachments,
            ¬ Sample.laterOutput.touches (frameBufferDefinitionLoop resourceVector [] []).1
              p.renderOperations a.imageDefinitionIndex →
            a.finalLayout = a.initialLayout) ∧
          ∀ p ∈ renderPassesOf commands,
            p.attachments.map (fun a => a.imageDefinitionIndex) =
              (resourceVector.filter
                (fun res => res.resourceType.metaType == MetaType.Attachment)).map
                (fun res => attachmentIndexOf
                  (frameBufferDefinitionLoop resourceVector [] []).1 res.name) :=
  ⟨_, rfl, by decide, attachment_layouts_chain 5
    (Sample.compiler.costCalculator.tagOperationByAttachmentType Sample.laterOutput).2
    Sample.laterOutput _ rfl⟩

/-! ### The place of a new glyph on the font texture -/

/-- What the one check of `Font::getGlyphIndex` gives: a call that registers a new glyph
puts it at the last registered position, or it starts a new line at the margin, and then the
line starts above the lower edge of the texture. -/
theorem getGlyphIndex_position (self : Font) (charCode : Nat) (glyph : GlyphSlot)
    (index : Nat) (self1 : Font)
    (hnew : self.registeredGlyphs.lookup charCode = none)
    (h : self.getGlyphIndex charCode (some glyph) = (.ok index, self1)) :
    ∃ data, self1.glyphData = self.glyphData ++ [data] ∧
      self1.copies = self.copies ++
        Font.copyRows self.textureSize (data.texCoords.1, data.texCoords.2.1) glyph ∧
      ((data.texCoords.1, data.texCoords.2.1) = self.lastRegisteredPosition ∨
       (data.texCoords.1 = 4 ∧ data.texCoords.2.1 < self.textureSize.2)) := by
  unfold Font.getGlyphIndex at h
  simp only [hnew] at h
  by_cases hw : toUInt32 (self.lastRegisteredPosition.1 + glyph.width) ≥
      toUInt32 (self.textureSize.1 - PUMEX_GLYPH_MARGIN)
  · simp only [hw, decide_True, if_true, Bool.true_and] at h
    by_cases hy : toInt32 ((toUInt32 self.lastRegisteredPosition.2 +
        (self.fontPixelHeight + PUMEX_GLYPH_MARGIN) % 4294967296) % 4294967296) ≥
        self.textureSize.2
    · simp only [hy, decide_True, if_true, Prod.mk.injEq] at h
      cases h.1
    · simp only [hy, decide_False, Bool.false_eq_true, if_false, Prod.mk.injEq] at h
      obtain ⟨_, h⟩ := h
      subst h
      exact ⟨_, rfl, rfl, Or.inr ⟨rfl, not_le.mp hy⟩⟩
  · simp only [hw, decide_False, Bool.false_and, Bool.false_eq_true, if_false,
      Prod.mk.injEq] at h
    obtain ⟨_, h⟩ := h
    subst h
    exact ⟨_, rfl, rfl, Or.inl rfl⟩

set_option maxRecDepth 100000 in
/-- Claim C40 against the code. The one check that `Font::getGlyphIndex` makes compares the
start of a new line with the height of the texture; it looks neither at the rows of the
bitmap nor, after a new line was started, at its width. On a new font with a texture of
64 x 16 texels and the pixel height 16, a glyph of 8 x 14 texels is registered at (4, 4)
without an exception, and 4 + 14 = 18 is more than the height 16: the last row is copied to
the texels from offset 1092 on, while the texture has 64 * 16 = 1024 texels. On a new font
with a texture of 16 x 64 texels, a glyph of 14 x 2 texels starts a new line and is
registered at (4, 24), and 4 + 14 = 18 is more than the width 16. And the constructor of a
font with a texture of 64 x 630 texels and the pixel height 16, with a rasteriser that gives
8 x 14 texels for every char code, registers all 128 char codes without an exception and
puts the last one at (40, 624), where 624 + 14 = 638 is more than the height 630. -/
theorem glyph_copied_outside_texture :
    (((Font.create (64, 16) 16).getGlyphIndex 65 (some Sample.glyph)).1 = .ok 0 ∧
      ((Font.create (64, 16) 16).getGlyphIndex 65 (some Sample.glyph)).2.registeredGlyphs
        = [(65, 0)] ∧
      ((Font.create (64, 16) 16).getGlyphIndex 65 (some Sample.glyph)).2.glyphData
        = [⟨(4, 4, 12, 18), (0, -12, 8, 2), 640⟩] ∧
      ((Font.create (64, 16) 16).getGlyphIndex 65 (some Sample.glyph)).2.copies
        = Font.copyRows (64, 16) (4, 4) Sample.glyph ∧
      (Font.copyRows (64, 16) (4, 4) Sample.glyph).getLast? = some (1092, 8) ∧
      (4 : Int) + Sample.glyph.width ≤ 64 ∧ ¬ (4 : Int) + Sample.glyph.rows ≤ 16 ∧
      ¬ (1092 : Int) + 8 ≤ 64 * 16) ∧
    (((Font.create (16, 64) 16).getGlyphIndex 65 (some Sample.wideGlyph)).1 = .ok 0 ∧
      ((Font.create (16, 64) 16).getGlyphIndex 65 (some Sample.wideGlyph)).2.glyphData
        = [⟨(4, 24, 18, 26), (0, -2, 14, 0), 1024⟩] ∧
      ((Font.create (16, 64) 16).getGlyphIndex 65 (some Sample.wideGlyph)).2.copies
        = Font.copyRows (16, 64) (4, 24) Sample.wideGlyph ∧
      ¬ (4 : Int) + Sample.wideGlyph.width ≤ 16 ∧
      (24 : Int) + Sample.wideGlyph.rows ≤ 64) ∧
    ((Font.new (64, 630) 16 (fun _ => some Sample.glyph)).1 = .ok () ∧
      (Font.new (64, 630) 16 (fun _ => some Sample.glyph)).2.registeredGlyphs.length = 128 ∧
      (Font.new (64, 630) 16 (fun _ => some Sample.glyph)).2.glyphData.getLast?
        = some ⟨(40, 624, 48, 638), (0, -12, 8, 2), 640⟩ ∧
      (Font.new (64, 630) 16 (fun _ => some Sample.glyph)).2.copies.getLast?
        = some (40808, 8) ∧
      ¬ (624 : Int) + Sample.glyph.rows ≤ 630 ∧ ¬ (40808 : Int) + 8 ≤ 64 * 630) := by
  refine ⟨⟨by decide, by decide, by decide, by decide, by decide, by decide, by decide,
    by decide⟩, ⟨by decide, by decide, by decide, by decide, by decide⟩,
    ⟨by decide, by decide, by decide, by decide, by decide, by decide⟩⟩

end pumex
